import Mathlib

/-!
# Symphony: a shallow embedding of `symphony_lite`

The files embedded are `audio.hpp` (namespace `Audio`), `utf8.hpp`, `formatted_text.hpp`,
`font.hpp` and `measured_text.hpp` (namespace `Text`), and `aa_rect2d.hpp` (namespace
`Math`).

Conventions of the embedding.

* `size_t` is 64 bits wide.  Block counters are natural numbers; a subtraction of two
  `size_t` values wraps around `2^64` when it is negative (`sizeSub`), the conversion of
  an `int` to `size_t` wraps modulo `2^64` (`sizeOfInt`) and so does the product in
  `startPlayingStream` (`sizeMul`).  Sums of block counters are not wrapped: reaching
  `2^64` would need `2^64` streamed blocks.
* `int32_t` arithmetic of the mixing path wraps modulo `2^32` (`wrap32`).
* A `float` is a finite IEEE-754 binary32 value.  Every such value is an integer multiple
  of `2^-149`, and `F32.units` stores that integer.  Arithmetic rounds to nearest, ties to
  even, with 24 significant bits.  A conversion from `float` to an integer type whose
  truncated value does not fit the target (this includes infinities and NaN, the results
  of an overflow or of a division by zero) is undefined behaviour in C++; the embedding
  returns `none` for it.
* The per-stream mixing loop is run with a bound on its number of iterations; `none` is
  returned when the bound is exhausted.
* In `Symphony.Text`, a character sequence is the list of the values of its bytes, and
  the length handed to the parser is a separate argument, as in the source.
* A `std::string` of the text formatter is the list of its characters, a `char` being a
  `Char` below 256; an input stream is the list of the characters not read yet with its
  state bits.  `FormatText` and `MeasureText` return `some none` for `std::nullopt` and
  `none` when a bound on the iterations of a loop is exhausted.
* The coordinates of `Symphony.Math` are elements of a linearly ordered field (the
  rational numbers in the examples): the arithmetic on them is exact.
* `num_plays` is an unbounded integer: an `int` would overflow after `2^31` passes over a
  source, which is undefined behaviour in C++ and is not modelled.
* `loopStates`, `loopSubtractions` and the definitions after them read the same lines of
  `audio.hpp` a second time and list what these lines go through: the records at the
  iteration boundaries of the per-stream loop, and the unsigned subtractions evaluated.
* `GetNumBlocks()` divides `wave_data_size_` by the block size.  For a block size of 0 the
  division is undefined behaviour in C++ and the call has no value; `WaveFile.GetNumBlocks`
  is the quotient of natural numbers, which is 0 there.  The statement about `Play` on a
  source without blocks has the hypothesis that the block size is not 0; a stream that
  `Play` accepts has `1 ≤ GetNumBlocks`, hence a block size that is not 0.
* `read_buffer_` is not a field of `Device`: the samples that a pass of the per-stream loop
  hands to `accumulateSamples` are taken from the source.  The size of `read_buffer_`
  (`allocateReadBuffer`, `readBufferSize`) and the number of bytes that `ReadBlocks` writes
  into it in each pass (`loopReadBufferWrites`) are modelled on their own.
-/



namespace Symphony
namespace Audio

/-! ## Binary32 arithmetic -/

/-- Quotient `n / d` of two naturals rounded to the nearest natural, ties to even. -/
def roundHalfEven (n d : Nat) : Nat :=
  let q := n / d
  let r := n % d
  if 2 * r < d then q
  else if d < 2 * r then q + 1
  else if q % 2 = 0 then q else q + 1

/-- Number of binary digits of `n`, by repeated halving (`fuel` bounds the recursion). -/
def bitLengthAux : Nat → Nat → Nat
  | 0, _ => 0
  | fuel + 1, n => if n = 0 then 0 else 1 + bitLengthAux fuel (n / 2)

/-- Number of binary digits of `n` (`0` for `n = 0`). -/
def bitLength (n : Nat) : Nat := bitLengthAux n n

/-- The binary32 magnitude, in units of `2^-149`, nearest to the ratio `a / q` (the ratio
is itself in units of `2^-149`): below `2^24` units the spacing of binary32 values is one
unit, above it 24 significant bits are kept. -/
def roundToF32 (a q : Nat) : Nat :=
  let t := a / q
  if t < 2 ^ 24 then roundHalfEven a q
  else
    let s := bitLength t - 24
    roundHalfEven a (q * 2 ^ s) * 2 ^ s

/-- A finite `float`: the value is `units * 2^-149`. -/
structure F32 where
  units : Int
deriving DecidableEq, Repr

namespace F32

/-- Number of units in `1.0f`. -/
def unit : Nat := 2 ^ 149

/-- The value `0.0f`. -/
def zero : F32 := ⟨0⟩

/-- The value `1.0f`. -/
def one : F32 := ⟨(unit : Int)⟩

/-- The conversion `(float)n` of an unsigned integer. -/
def ofNat (n : Nat) : F32 := ⟨(roundToF32 (n * unit) 1 : Nat)⟩

/-- The product `x * y` in `float`. -/
def mul (x y : F32) : F32 :=
  ⟨x.units.sign * y.units.sign * (roundToF32 (x.units.natAbs * y.units.natAbs) unit : Nat)⟩

/-- The quotient `x / y` in `float`; `none` when `y` is zero (the result is then an
infinity or NaN). -/
def div (x y : F32) : Option F32 :=
  if y.units = 0 then none
  else some ⟨x.units.sign * y.units.sign *
    (roundToF32 (x.units.natAbs * unit) y.units.natAbs : Nat)⟩

/-- The `float` nearest to the ratio `n / d` of two naturals, `d > 0` (the value of a
literal such as `0.01f`). -/
def ofRatio (n d : Nat) : F32 := ⟨(roundToF32 (n * unit) d : Nat)⟩

/-- The comparison `x > 0.0f`. -/
def isPos (x : F32) : Bool := decide (0 < x.units)

/-- The value truncated toward zero. -/
def trunc (x : F32) : Int := x.units.sign * ((x.units.natAbs / unit : Nat) : Int)

/-- The conversion `static_cast<size_t>(x)`: defined when the truncated value fits. -/
def toSizeT (x : F32) : Option Nat :=
  if 0 ≤ x.trunc ∧ x.trunc < 2 ^ 64 then some x.trunc.toNat else none

/-- The conversion `(int32_t)x`: defined when the truncated value fits. -/
def toInt32 (x : F32) : Option Int :=
  if -(2 ^ 31) ≤ x.trunc ∧ x.trunc < 2 ^ 31 then some x.trunc else none

end F32

/-! ## Machine integers -/

/-- The subtraction `a - b` of two `size_t` values: the difference, wrapped around
`2^64` when `a < b`. -/
def sizeSub (a b : Nat) : Nat := if b ≤ a then a - b else a + 2 ^ 64 - b

/-- The conversion of an `int` to `size_t`. -/
def sizeOfInt (i : Int) : Nat := (i % (2 ^ 64 : Int)).toNat

/-- The product `a * b` of two `size_t` values. -/
def sizeMul (a b : Nat) : Nat := (a * b) % 2 ^ 64

/-- Reduction of an integer to the `int32_t` range (two's complement). -/
def wrap32 (x : Int) : Int := (x + 2 ^ 31) % 2 ^ 32 - 2 ^ 31

/-- Reduction of an integer to the `int16_t` range (two's complement). -/
def wrap16 (x : Int) : Int := (x + 2 ^ 15) % 2 ^ 16 - 2 ^ 15

/-! ## Data model (`audio.hpp`, `wave_loader.hpp`) -/

/-- `struct PlayCount`. -/
structure PlayCount where
  num_repeats : Int := 1
  loop_infinite : Bool := false
deriving DecidableEq, Repr

/-- `kPlayLooped`. -/
def kPlayLooped : PlayCount := { num_repeats := 0, loop_infinite := true }

/-- `kPlayOnce`. -/
def kPlayOnce : PlayCount := { num_repeats := 1, loop_infinite := false }

/-- `PlayTimes(num_repeats)`. -/
def PlayTimes (num_repeats : Int) : PlayCount :=
  { num_repeats := num_repeats, loop_infinite := false }

/-- `struct FadeControl`. -/
structure FadeControl where
  fade_in_time_sec : F32 := F32.zero
  fade_out_time_sec : F32 := F32.zero
deriving DecidableEq, Repr

/-- `kNoFade`. -/
def kNoFade : FadeControl := { fade_in_time_sec := F32.zero, fade_out_time_sec := F32.zero }

/-- `FadeInOut(fade_in_time_sec, fade_out_time_sec)`. -/
def FadeInOut (fade_in_time_sec fade_out_time_sec : F32) : FadeControl :=
  { fade_in_time_sec := fade_in_time_sec, fade_out_time_sec := fade_out_time_sec }

/-- `struct StopControl`. -/
structure StopControl where
  stop_at_end : Bool := false
  fade_out_time_sec : Option F32 := none
deriving DecidableEq, Repr

/-- `StopFade(fade_out_time_sec)`. -/
def StopFade (fade_out_time_sec : F32) : StopControl :=
  { stop_at_end := false, fade_out_time_sec := some fade_out_time_sec }

/-- `StopAtEndFade(fade_out_time_sec)`. -/
def StopAtEndFade (fade_out_time_sec : F32) : StopControl :=
  { stop_at_end := true, fade_out_time_sec := some fade_out_time_sec }

/-- `StopAtEnd()`. -/
def StopAtEnd : StopControl :=
  { stop_at_end := true, fade_out_time_sec := some F32.zero }

/-- The part of `class WaveFile` the mixing engine uses.  `wave_data_` is the in-memory
copy of the 16-bit samples (empty when the file is streamed), `file_data` the samples of
the data chunk on disk, read by `ReadBlocks` when the file is streamed. -/
structure WaveFile where
  wave_data_size_ : Nat
  block_align : Nat
  channels : Nat
  sample_rate : Nat
  wave_data_ : List Int
  file_data : List Int
deriving DecidableEq, Repr

namespace WaveFile

/-- `GetBlockSize()`. -/
def GetBlockSize (w : WaveFile) : Nat := w.block_align

/-- `GetNumBlocks()`: `wave_data_size_ / GetBlockSize()`.  The division of the source is
undefined for a block size of 0; the quotient of natural numbers is 0 there. -/
def GetNumBlocks (w : WaveFile) : Nat := w.wave_data_size_ / w.GetBlockSize

/-- `GetNumChannels()`. -/
def GetNumChannels (w : WaveFile) : Nat := w.channels

/-- `GetSampleRate()`. -/
def GetSampleRate (w : WaveFile) : Nat := w.sample_rate

/-- `IsInMemory()`. -/
def IsInMemory (w : WaveFile) : Bool := !w.wave_data_.isEmpty

/-- `GetBufferWhenInMemory(first_block)`: the samples from `first_block` on. -/
def GetBufferWhenInMemory (w : WaveFile) (first_block : Nat) : List Int :=
  w.wave_data_.drop (first_block * w.GetNumChannels)

/-- `ReadBlocks(first_block, num_blocks, out)`: the samples written to `out`.  A block of
16-bit PCM holds `GetNumChannels()` samples. -/
def ReadBlocks (w : WaveFile) (first_block num_blocks : Nat) : List Int :=
  if w.IsInMemory then
    (w.wave_data_.drop (first_block * w.GetNumChannels)).take (num_blocks * w.GetNumChannels)
  else
    (w.file_data.drop (first_block * w.GetNumChannels)).take (num_blocks * w.GetNumChannels)

end WaveFile

/-- `enum class GainState`. -/
inductive GainState where
  | kAttack
  | kSustain
  | kRelease
deriving DecidableEq, Repr

/-- `struct PlayingStreamInternal`, with the initial values of its member initialisers. -/
structure PlayingStreamInternal where
  wave_file : WaveFile
  play_count : PlayCount
  num_plays : Int := 0
  fade_control : FadeControl
  looped_blocks_streamed : Nat := 0
  total_blocks_streamed : Nat := 0
  total_blocks_to_play : Nat := 0
  gain_state : GainState := GainState.kAttack
  cur_gain : F32 := F32.one
  gain_at_release : F32 := F32.zero
  stop_control : Option StopControl := none
  stop_control_in_callback : Option StopControl := none
deriving DecidableEq, Repr

/-- `kMaxGain`. -/
def kMaxGain : Int := 128

/-- `kSampleMax16`. -/
def kSampleMax16 : Int := 32767

/-- `kSampleMin16`. -/
def kSampleMin16 : Int := -32768

/-- `ToIntGain(gain)`: `(int32_t)(gain * 128.0f)`. -/
def ToIntGain (gain : F32) : Option Int := (F32.mul gain (F32.ofNat 128)).toInt32

/-- `ApplyGain(sample, gain)`: `(sample * gain) >> 7` on `int32_t`. -/
def ApplyGain (sample gain : Int) : Int := wrap32 (sample * gain) >>> 7

/-- The expression `static_cast<size_t>(GetSampleRate() * fade_time_sec)`: the sample rate
is converted to `float`, the product is taken in `float` and truncated. -/
def numBlocksToFade (w : WaveFile) (fade_time_sec : F32) : Option Nat :=
  (F32.mul (F32.ofNat w.GetSampleRate) fade_time_sec).toSizeT

/-- `Device::startPlayingStream`. -/
def startPlayingStream (s : PlayingStreamInternal) : PlayingStreamInternal :=
  let s1 :=
    if s.fade_control.fade_in_time_sec.isPos then { s with gain_state := GainState.kAttack }
    else { s with gain_state := GainState.kSustain }
  if !s1.play_count.loop_infinite then
    { s1 with total_blocks_to_play :=
        sizeMul s1.wave_file.GetNumBlocks (sizeOfInt s1.play_count.num_repeats) }
  else
    { s1 with total_blocks_to_play := 0 }

/-- Lines 288-335 of `updateGainStateInCallback`: a pending one-shot stop command is
applied and cleared. -/
def applyStopControl (s : PlayingStreamInternal) : Option PlayingStreamInternal :=
  match s.stop_control_in_callback with
  | none => some s
  | some stop_control =>
    let fade_out := stop_control.fade_out_time_sec.getD s.fade_control.fade_out_time_sec
    let left_at_end :=
      if stop_control.stop_at_end then
        let num_blocks_left := sizeSub s.wave_file.GetNumBlocks s.looped_blocks_streamed
        if s.total_blocks_to_play ≠ 0 then
          let num_blocks_left_to_play :=
            sizeSub s.total_blocks_to_play s.total_blocks_streamed
          if num_blocks_left_to_play < num_blocks_left then num_blocks_left_to_play
          else num_blocks_left
        else num_blocks_left
      else 0
    (numBlocksToFade s.wave_file fade_out).bind fun num_blocks_to_fade_out =>
    let num_blocks_left := if left_at_end = 0 then num_blocks_to_fade_out else left_at_end
    let shrunk : Option F32 :=
      if num_blocks_left < num_blocks_to_fade_out then
        F32.div (F32.ofNat num_blocks_left) (F32.ofNat s.wave_file.GetSampleRate)
      else some fade_out
    shrunk.bind fun fade_out_final =>
    some { s with
      fade_control := { s.fade_control with fade_out_time_sec := fade_out_final }
      total_blocks_to_play := s.total_blocks_streamed + num_blocks_left
      gain_at_release :=
        if s.gain_state = GainState.kRelease then s.cur_gain else s.gain_at_release
      stop_control_in_callback := none }

/-- Lines 337-353: a stream in Attack whose remaining life is shorter than its fade-out
window switches to Release. -/
def attackToRelease (s : PlayingStreamInternal) : Option PlayingStreamInternal :=
  if s.gain_state = GainState.kAttack then
    if s.total_blocks_to_play ≠ 0 then
      (numBlocksToFade s.wave_file s.fade_control.fade_out_time_sec).bind
        fun num_blocks_to_fade_out =>
        if s.total_blocks_streamed + num_blocks_to_fade_out > s.total_blocks_to_play then
          some { s with gain_at_release := s.cur_gain, gain_state := GainState.kRelease }
        else some s
    else some s
  else some s

/-- Lines 355-372: the Attack ramp, or the end of Attack. -/
def attackRamp (s : PlayingStreamInternal) (gain : Int) : Option (PlayingStreamInternal × Int) :=
  if s.gain_state = GainState.kAttack then
    (numBlocksToFade s.wave_file s.fade_control.fade_in_time_sec).bind
      fun num_blocks_to_fade_in =>
      if s.total_blocks_streamed > num_blocks_to_fade_in then
        some ({ s with cur_gain := F32.one, gain_state := GainState.kSustain }, kMaxGain)
      else
        (F32.div (F32.ofNat s.total_blocks_streamed) (F32.ofNat num_blocks_to_fade_in)).bind
          fun ramp =>
          (ToIntGain ramp).bind fun g => some ({ s with cur_gain := ramp }, g)
  else some (s, gain)

/-- Lines 374-390: a stream in Sustain with a fade-out configured switches to Release
when its remaining life is shorter than the fade-out window. -/
def sustainToRelease (s : PlayingStreamInternal) : Option PlayingStreamInternal :=
  if s.gain_state = GainState.kSustain then
    if s.fade_control.fade_out_time_sec.isPos then
      if s.total_blocks_to_play ≠ 0 then
        (numBlocksToFade s.wave_file s.fade_control.fade_out_time_sec).bind
          fun num_blocks_to_fade_out =>
          if s.total_blocks_streamed + num_blocks_to_fade_out > s.total_blocks_to_play then
            some { s with gain_at_release := s.cur_gain, gain_state := GainState.kRelease }
          else some s
      else some s
    else some s
  else some s

/-- Lines 392-415: the Release ramp. -/
def releaseGain (s : PlayingStreamInternal) (gain : Int) : Option (PlayingStreamInternal × Int) :=
  if s.gain_state = GainState.kRelease then
    if s.total_blocks_streamed ≥ s.total_blocks_to_play then
      some ({ s with cur_gain := F32.zero }, 0)
    else
      (numBlocksToFade s.wave_file s.fade_control.fade_out_time_sec).bind
        fun num_blocks_to_fade_out =>
        let cur : Option F32 :=
          if s.total_blocks_streamed + num_blocks_to_fade_out ≥ s.total_blocks_to_play then
            let num_blocks_left_to_play :=
              sizeSub s.total_blocks_to_play s.total_blocks_streamed
            (F32.div (F32.ofNat num_blocks_left_to_play) (F32.ofNat num_blocks_to_fade_out)).map
              fun ratio => F32.mul ratio s.gain_at_release
          else some s.cur_gain
        cur.bind fun cur_gain =>
        (ToIntGain cur_gain).bind fun g => some ({ s with cur_gain := cur_gain }, g)
  else some (s, gain)

/-- `Device::updateGainStateInCallback`: the updated record and the returned gain. -/
def updateGainStateInCallback (s : PlayingStreamInternal) :
    Option (PlayingStreamInternal × Int) :=
  (applyStopControl s).bind fun s1 =>
  (attackToRelease s1).bind fun s2 =>
  (attackRamp s2 kMaxGain).bind fun r3 =>
  (sustainToRelease r3.1).bind fun s4 =>
  releaseGain s4 r3.2

/-! ## Mixing -/

/-- `struct StereoBlock32`. -/
structure StereoBlock32 where
  left : Int
  right : Int
deriving DecidableEq, Repr

/-- `struct StereoBlock16`. -/
structure StereoBlock16 where
  left : Int
  right : Int
deriving DecidableEq, Repr

/-- The `+=` of an `int32_t` accumulator. -/
def add32 (a b : Int) : Int := wrap32 (a + b)

/-- The element at index `i` replaced by its image under `f` (nothing happens outside
the list). -/
def modifyAt {α : Type} (f : α → α) : Nat → List α → List α
  | _, [] => []
  | 0, x :: xs => f x :: xs
  | i + 1, x :: xs => x :: modifyAt f i xs

/-- The statement pair `buf[i].left += l; buf[i].right += r`, with `add` the addition of
the accumulator type (`add32` in the code). -/
def addToBlock (add : Int → Int → Int) (l r : Int) (b : StereoBlock32) : StereoBlock32 :=
  { left := add b.left l, right := add b.right r }

/-- `Device::accumulateStereoSamples` on the buffer starting at frame `off`. -/
def accumulateStereoSamples (add : Int → Int → Int) (buf : List StereoBlock32) (off : Nat)
    (stream : List Int) (num_blocks : Nat) : List StereoBlock32 :=
  (List.range num_blocks).foldl
    (fun b i =>
      modifyAt (addToBlock add (stream.getD (2 * i) 0) (stream.getD (2 * i + 1) 0)) (off + i) b)
    buf

/-- `Device::accumulateStereoSamplesWithGain`. -/
def accumulateStereoSamplesWithGain (add : Int → Int → Int) (buf : List StereoBlock32)
    (off : Nat) (gain : Int) (stream : List Int) (num_blocks : Nat) : List StereoBlock32 :=
  (List.range num_blocks).foldl
    (fun b i =>
      modifyAt (addToBlock add (ApplyGain (stream.getD (2 * i) 0) gain)
        (ApplyGain (stream.getD (2 * i + 1) 0) gain)) (off + i) b)
    buf

/-- `Device::accumulateMonoSamples`. -/
def accumulateMonoSamples (add : Int → Int → Int) (buf : List StereoBlock32) (off : Nat)
    (stream : List Int) (num_blocks : Nat) : List StereoBlock32 :=
  (List.range num_blocks).foldl
    (fun b i => modifyAt (addToBlock add (stream.getD i 0) (stream.getD i 0)) (off + i) b)
    buf

/-- `Device::accumulateMonoSamplesWithGain`. -/
def accumulateMonoSamplesWithGain (add : Int → Int → Int) (buf : List StereoBlock32)
    (off : Nat) (gain : Int) (stream : List Int) (num_blocks : Nat) : List StereoBlock32 :=
  (List.range num_blocks).foldl
    (fun b i =>
      modifyAt (addToBlock add (ApplyGain (stream.getD i 0) gain)
        (ApplyGain (stream.getD i 0) gain)) (off + i) b)
    buf

/-- `Device::accumulateSamples`. -/
def accumulateSamples (add : Int → Int → Int) (buf : List StereoBlock32) (off : Nat)
    (gain : Int) (num_channels : Nat) (stream : List Int) (num_blocks : Nat) :
    List StereoBlock32 :=
  if num_channels = 1 then
    if gain = kMaxGain then accumulateMonoSamples add buf off stream num_blocks
    else accumulateMonoSamplesWithGain add buf off gain stream num_blocks
  else if num_channels = 2 then
    if gain = kMaxGain then accumulateStereoSamples add buf off stream num_blocks
    else accumulateStereoSamplesWithGain add buf off gain stream num_blocks
  else buf

/-- One pass of the body of the per-stream `while` loop of `fillMixBuffer`, as handed to
`accumulateSamples`: destination frame, first source block, number of blocks. -/
structure MixRun where
  dest : Nat
  first_block : Nat
  count : Nat
deriving DecidableEq, Repr

/-- Outcome of the per-stream `while` loop: the record, the accumulators, whether the
stream was put in `to_delete`, and the runs accumulated, in order. -/
structure StreamMix where
  stream : PlayingStreamInternal
  mix : List StereoBlock32
  marked : Bool
  runs : List MixRun
deriving DecidableEq, Repr

/-- The per-stream loop `while (num_blocks_sent < num_requested_blocks)` of
`fillMixBuffer` (lines 554-602), run for at most `fuel` iterations.  The samples of a pass
are taken from the source; the bytes that `ReadBlocks` writes into `read_buffer_` on the
way are listed by `loopReadBufferWrites`. -/
def mixStreamLoop (add : Int → Int → Int) (gain : Int) (num_requested_blocks : Nat) :
    Nat → PlayingStreamInternal → Nat → List StereoBlock32 → Option StreamMix
  | 0, s, num_blocks_sent, mix =>
    if num_blocks_sent < num_requested_blocks then none
    else some { stream := s, mix := mix, marked := false, runs := [] }
  | fuel + 1, s, num_blocks_sent, mix =>
    if num_blocks_sent < num_requested_blocks then
      let requested_left := sizeSub num_requested_blocks num_blocks_sent
      let reset_looped_blocks_streamed : Bool :=
        decide (requested_left + s.looped_blocks_streamed > s.wave_file.GetNumBlocks)
      let num_blocks_to_read :=
        if reset_looped_blocks_streamed then
          sizeSub s.wave_file.GetNumBlocks s.looped_blocks_streamed
        else requested_left
      let num_plays := if reset_looped_blocks_streamed then s.num_plays + 1 else s.num_plays
      let read_buffer :=
        if s.wave_file.IsInMemory then
          s.wave_file.GetBufferWhenInMemory s.looped_blocks_streamed
        else s.wave_file.ReadBlocks s.looped_blocks_streamed num_blocks_to_read
      let run : MixRun :=
        { dest := num_blocks_sent, first_block := s.looped_blocks_streamed,
          count := num_blocks_to_read }
      let mix1 := accumulateSamples add mix num_blocks_sent gain s.wave_file.GetNumChannels
        read_buffer num_blocks_to_read
      let s1 : PlayingStreamInternal :=
        { s with
          num_plays := num_plays
          looped_blocks_streamed :=
            if reset_looped_blocks_streamed then 0
            else s.looped_blocks_streamed + num_blocks_to_read
          total_blocks_streamed := s.total_blocks_streamed + num_blocks_to_read }
      if s1.total_blocks_to_play ≠ 0 ∧ s1.total_blocks_streamed ≥ s1.total_blocks_to_play then
        some { stream := s1, mix := mix1, marked := true, runs := [run] }
      else
        (mixStreamLoop add gain num_requested_blocks fuel s1
          (num_blocks_sent + num_blocks_to_read) mix1).map
          fun r => { r with runs := run :: r.runs }
    else some { stream := s, mix := mix, marked := false, runs := [] }

/-- The number of blocks read by one pass of the loop body (lines 558-565). -/
def loopRead (num_requested_blocks num_blocks_sent : Nat) (s : PlayingStreamInternal) : Nat :=
  if sizeSub num_requested_blocks num_blocks_sent + s.looped_blocks_streamed >
      s.wave_file.GetNumBlocks then
    sizeSub s.wave_file.GetNumBlocks s.looped_blocks_streamed
  else sizeSub num_requested_blocks num_blocks_sent

/-- The record after one pass of the loop body (lines 567, 581-592). -/
def loopAdvance (num_requested_blocks num_blocks_sent : Nat) (s : PlayingStreamInternal) :
    PlayingStreamInternal :=
  { s with
    num_plays :=
      if sizeSub num_requested_blocks num_blocks_sent + s.looped_blocks_streamed >
          s.wave_file.GetNumBlocks then s.num_plays + 1
      else s.num_plays
    looped_blocks_streamed :=
      if sizeSub num_requested_blocks num_blocks_sent + s.looped_blocks_streamed >
          s.wave_file.GetNumBlocks then 0
      else s.looped_blocks_streamed + loopRead num_requested_blocks num_blocks_sent s
    total_blocks_streamed :=
      s.total_blocks_streamed + loopRead num_requested_blocks num_blocks_sent s }

/-- The accumulators after one pass of the loop body (lines 570-587). -/
def loopMix (add : Int → Int → Int) (gain : Int) (num_requested_blocks num_blocks_sent : Nat)
    (s : PlayingStreamInternal) (mix : List StereoBlock32) : List StereoBlock32 :=
  accumulateSamples add mix num_blocks_sent gain s.wave_file.GetNumChannels
    (if s.wave_file.IsInMemory then
      s.wave_file.GetBufferWhenInMemory s.looped_blocks_streamed
    else s.wave_file.ReadBlocks s.looped_blocks_streamed
      (loopRead num_requested_blocks num_blocks_sent s))
    (loopRead num_requested_blocks num_blocks_sent s)

/-- The run of one pass of the loop body. -/
def loopRun (num_requested_blocks num_blocks_sent : Nat) (s : PlayingStreamInternal) : MixRun :=
  { dest := num_blocks_sent, first_block := s.looped_blocks_streamed,
    count := loopRead num_requested_blocks num_blocks_sent s }

/-- The test of lines 595-597: the stream has reached its `total_blocks_to_play`. -/
def reachedEnd (s : PlayingStreamInternal) : Prop :=
  s.total_blocks_to_play ≠ 0 ∧ s.total_blocks_streamed ≥ s.total_blocks_to_play

instance (s : PlayingStreamInternal) : Decidable (reachedEnd s) := by
  unfold reachedEnd
  exact inferInstance

/-- The counters of a record are consistent: the position in the source does not exceed
its length, and the blocks streamed are the completed passes plus the position. -/
def CountersOk (s : PlayingStreamInternal) : Prop :=
  s.looped_blocks_streamed ≤ s.wave_file.GetNumBlocks ∧ 0 ≤ s.num_plays ∧
    (s.total_blocks_streamed : Int) =
      s.num_plays * (s.wave_file.GetNumBlocks : Int) + (s.looped_blocks_streamed : Int)

/-- The fields of a record that the per-stream loop does not write. -/
def sameButCounters (s t : PlayingStreamInternal) : Prop :=
  t.wave_file = s.wave_file ∧ t.play_count = s.play_count ∧
    t.fade_control = s.fade_control ∧ t.total_blocks_to_play = s.total_blocks_to_play ∧
    t.gain_state = s.gain_state ∧ t.cur_gain = s.cur_gain ∧
    t.gain_at_release = s.gain_at_release ∧ t.stop_control = s.stop_control ∧
    t.stop_control_in_callback = s.stop_control_in_callback

/-- The fields of a record that `updateGainStateInCallback` writes only when it applies a
stop command agree, and so do those it never writes. -/
def sameButGain (s t : PlayingStreamInternal) : Prop :=
  t.wave_file = s.wave_file ∧ t.play_count = s.play_count ∧ t.num_plays = s.num_plays ∧
    t.fade_control = s.fade_control ∧
    t.looped_blocks_streamed = s.looped_blocks_streamed ∧
    t.total_blocks_streamed = s.total_blocks_streamed ∧
    t.total_blocks_to_play = s.total_blocks_to_play ∧ t.stop_control = s.stop_control ∧
    t.stop_control_in_callback = s.stop_control_in_callback

/-- The source and the three counters of two records agree. -/
def sameCounters (s t : PlayingStreamInternal) : Prop :=
  t.wave_file = s.wave_file ∧ t.num_plays = s.num_plays ∧
    t.looped_blocks_streamed = s.looped_blocks_streamed ∧
    t.total_blocks_streamed = s.total_blocks_streamed

/-- Bound on the number of iterations of the per-stream loop that is enough for every
source with at least one block (each pair of iterations sends at least one block). -/
def mixFuel (num_requested_blocks : Nat) : Nat := 2 * num_requested_blocks + 2

/-- Lines 520-532 for one stream: a pending `stop_control` is moved to
`stop_control_in_callback`, then the gain is computed. -/
def snapshotStream (s : PlayingStreamInternal) : Option (PlayingStreamInternal × Int) :=
  let s1 :=
    if s.stop_control.isSome then
      { s with stop_control_in_callback := s.stop_control, stop_control := none }
    else s
  updateGainStateInCallback s1

/-- Lines 509-533: the snapshot of the active set with the gain of every stream. -/
def snapshotAll :
    List (Nat × PlayingStreamInternal) → Option (List (Nat × PlayingStreamInternal × Int))
  | [] => some []
  | (h, s) :: rest =>
    (snapshotStream s).bind fun r =>
    (snapshotAll rest).map fun rs => (h, r.1, r.2) :: rs

/-- A snapshotted stream after mixing: handle, record, deletion mark, runs. -/
structure MixedStream where
  handle : Nat
  stream : PlayingStreamInternal
  marked : Bool
  runs : List MixRun
deriving DecidableEq, Repr

/-- Lines 547-603: every snapshotted stream is mixed into the accumulators, in snapshot
order. -/
def mixAll (add : Int → Int → Int) (num_requested_blocks : Nat) :
    List (Nat × PlayingStreamInternal × Int) → List StereoBlock32 →
    Option (List MixedStream × List StereoBlock32)
  | [], mix => some ([], mix)
  | (h, s, gain) :: rest, mix =>
    (mixStreamLoop add gain num_requested_blocks (mixFuel num_requested_blocks) s 0 mix).bind
      fun r =>
      (mixAll add num_requested_blocks rest r.mix).map
        fun p => ({ handle := h, stream := r.stream, marked := r.marked, runs := r.runs } :: p.1,
          p.2)

/-- `allocateMixBuffer(num_blocks)`: the buffer grows, with zeroed frames, and never
shrinks. -/
def allocateMixBuffer (buf : List StereoBlock32) (num_blocks : Nat) : List StereoBlock32 :=
  if buf.length < num_blocks then
    buf ++ List.replicate (num_blocks - buf.length) { left := 0, right := 0 }
  else buf

/-- `allocateSendBuffer(num_blocks)`. -/
def allocateSendBuffer (buf : List StereoBlock16) (num_blocks : Nat) : List StereoBlock16 :=
  if buf.length < num_blocks then
    buf ++ List.replicate (num_blocks - buf.length) { left := 0, right := 0 }
  else buf

/-- The function `f` applied to the first `n` elements of a list. -/
def mapPrefix {α : Type} (f : α → α) : Nat → List α → List α
  | _, [] => []
  | 0, xs => xs
  | n + 1, x :: xs => f x :: mapPrefix f n xs

/-- `std::clamp(v, lo, hi)`. -/
def clamp (v lo hi : Int) : Int := if v < lo then lo else if hi < v then hi else v

/-- Lines 605-610 for one frame. -/
def clampBlock (b : StereoBlock32) : StereoBlock32 :=
  { left := clamp b.left kSampleMin16 kSampleMax16,
    right := clamp b.right kSampleMin16 kSampleMax16 }

/-- The narrowing `(int16_t)` of both channels of a frame (lines 626-627). -/
def narrowBlock (b : StereoBlock32) : StereoBlock16 :=
  { left := wrap16 b.left, right := wrap16 b.right }

/-- The engine.  `playing_streams_` is the active set: every entry is a handle (the
identity of the shared pointer) with the record it points to, in the order in which the set
is enumerated.  `released` holds the records that left the active set and are kept alive
only by handles of the producer.  `mix_buffer_` and `send_buffer_` are the scratch
buffers. -/
structure Device where
  playing_streams_ : List (Nat × PlayingStreamInternal) := []
  released : List (Nat × PlayingStreamInternal) := []
  mix_buffer_ : List StereoBlock32 := []
  send_buffer_ : List StereoBlock16 := []
deriving DecidableEq, Repr

/-- What one invocation of the callback produces: the new state, the frames pushed to the
sink, and the streams of the snapshot with the runs mixed from each. -/
structure CallbackResult where
  device : Device
  sent : List StereoBlock16
  mixed : List MixedStream
deriving DecidableEq, Repr

/-- The calls made on a device by the producer (`play`, `stop`, `stopImmediately`) and by
the audio subsystem (`callback`). -/
inductive Op where
  | play (wave_file : WaveFile) (play_count : PlayCount) (fade_control : FadeControl)
  | stop (playing_stream : Option Nat) (stop_control : StopControl)
  | stopImmediately (playing_stream : Option Nat)
  | callback (additional_amount : Int)
deriving DecidableEq, Repr

namespace Device

/-- The state after `Init()`: no stream, buffers of 512 zeroed frames. -/
def Init : Device :=
  { playing_streams_ := [], released := [],
    mix_buffer_ := List.replicate 512 { left := 0, right := 0 },
    send_buffer_ := List.replicate 512 { left := 0, right := 0 } }

/-- The identity of a newly allocated record: distinct from that of every live record. -/
def freshHandle (d : Device) : Nat :=
  ((d.playing_streams_ ++ d.released).map Prod.fst).foldr max 0 + 1

/-- `Device::Play`: the new state and the returned handle (`none` is the null pointer). -/
def Play (d : Device) (wave_file : WaveFile) (play_count : PlayCount)
    (fade_control : FadeControl) : Device × Option Nat :=
  if wave_file.GetNumBlocks = 0 then (d, none)
  else
    let playing_stream_internal := startPlayingStream
      { wave_file := wave_file, play_count := play_count, fade_control := fade_control }
    let playing_stream := d.freshHandle
    ({ d with playing_streams_ :=
        if d.playing_streams_.any (fun e => e.1 == playing_stream) then d.playing_streams_
        else (playing_stream, playing_stream_internal) :: d.playing_streams_ },
      some playing_stream)

/-- `Device::IsPlaying`. -/
def IsPlaying (d : Device) (playing_stream : Option Nat) : Bool :=
  match playing_stream with
  | none => false
  | some h => d.playing_streams_.any (fun e => e.1 == h)

/-- `Device::GetNumPlaying`. -/
def GetNumPlaying (d : Device) : Nat := d.playing_streams_.length

/-- The assignment `playing_stream_internal->stop_control = stop_control` on the record of
handle `h`. -/
def setStopControl (h : Nat) (stop_control : StopControl)
    (e : Nat × PlayingStreamInternal) : Nat × PlayingStreamInternal :=
  if e.1 = h then (e.1, { e.2 with stop_control := some stop_control }) else e

/-- `Device::Stop`. -/
def Stop (d : Device) (playing_stream : Option Nat) (stop_control : StopControl) : Device :=
  match playing_stream with
  | none => d
  | some h =>
    { d with
      playing_streams_ := d.playing_streams_.map (setStopControl h stop_control)
      released := d.released.map (setStopControl h stop_control) }

/-- `Device::StopImmediately`. -/
def StopImmediately (d : Device) (playing_stream : Option Nat) : Device :=
  match playing_stream with
  | none => d
  | some h =>
    { d with
      playing_streams_ := d.playing_streams_.filter (fun e => e.1 != h)
      released := d.playing_streams_.filter (fun e => e.1 == h) ++ d.released }

/-- The number of frames requested: `bytes_amount / sizeof(StereoBlock16)`. -/
def numRequestedBlocks (bytes_amount : Int) : Nat := sizeOfInt bytes_amount / 4

/-- Lines 505-603 of `Device::fillMixBuffer`, with `add` the addition of the accumulators
(`add32` in the code): the streams of the snapshot after mixing, with their runs, and the
accumulators before they are clamped. -/
def mixAccumulators (add : Int → Int → Int) (d : Device) (bytes_amount : Int) :
    Option (List MixedStream × List StereoBlock32) :=
  (snapshotAll d.playing_streams_).bind fun playing_streams_saved =>
  let num_requested_blocks := numRequestedBlocks bytes_amount
  let zeroed := mapPrefix (fun _ => ({ left := 0, right := 0 } : StereoBlock32))
    num_requested_blocks (allocateMixBuffer d.mix_buffer_ num_requested_blocks)
  mixAll add num_requested_blocks playing_streams_saved zeroed

/-- `Device::fillMixBuffer`, with `add` the addition of the accumulators (`add32` in
the code): the new state and the streams of the snapshot with their runs. -/
def fillMixBufferWith (add : Int → Int → Int) (d : Device) (bytes_amount : Int) :
    Option (Device × List MixedStream) :=
  (mixAccumulators add d bytes_amount).map fun p =>
    ({ d with
        playing_streams_ :=
          (p.1.filter (fun m => !m.marked)).map (fun m => (m.handle, m.stream))
        released :=
          (p.1.filter (fun m => m.marked)).map (fun m => (m.handle, m.stream)) ++ d.released
        mix_buffer_ := mapPrefix clampBlock (numRequestedBlocks bytes_amount) p.2 },
      p.1)

/-- The sums, frame by frame, of the gain-applied samples that a callback accumulates,
taken in unbounded integers: the accumulation of `fillMixBuffer` with exact addition. -/
def exactAccumulators (d : Device) (bytes_amount : Int) : Option (List StereoBlock32) :=
  (mixAccumulators (fun a b => a + b) d bytes_amount).map Prod.snd

/-- `Device::fillMixBuffer`. -/
def fillMixBuffer (d : Device) (bytes_amount : Int) : Option Device :=
  (fillMixBufferWith add32 d bytes_amount).map Prod.fst

/-- `Device::sendMixedToMainStream`: the new state and the frames pushed to the sink. -/
def sendMixedToMainStream (d : Device) (bytes_amount : Int) : Device × List StereoBlock16 :=
  let num_requested_blocks := numRequestedBlocks bytes_amount
  let send := (d.mix_buffer_.take num_requested_blocks).map narrowBlock
  let buf := allocateSendBuffer d.send_buffer_ num_requested_blocks
  ({ d with send_buffer_ := send ++ buf.drop send.length }, send)

/-- `Device::dataCallback`. -/
def dataCallback (d : Device) (additional_amount : Int) : Option CallbackResult :=
  if additional_amount = 0 then some { device := d, sent := [], mixed := [] }
  else (fillMixBufferWith add32 d additional_amount).map
    fun p =>
      { device := (p.1.sendMixedToMainStream additional_amount).1,
        sent := (p.1.sendMixedToMainStream additional_amount).2,
        mixed := p.2 }

/-- One step of a history: the state after the call and, for a callback, its result. -/
def apply (d : Device) : Op → Option (Device × List CallbackResult)
  | Op.play wave_file play_count fade_control =>
    some ((d.Play wave_file play_count fade_control).1, [])
  | Op.stop playing_stream stop_control => some (d.Stop playing_stream stop_control, [])
  | Op.stopImmediately playing_stream => some (d.StopImmediately playing_stream, [])
  | Op.callback additional_amount =>
    (d.dataCallback additional_amount).map fun r => (r.device, [r])

/-- A history of calls run from state `d`: the final state and the results of the
callbacks, in order. -/
def exec : Device → List Op → Option (Device × List CallbackResult)
  | d, [] => some (d, [])
  | d, op :: rest =>
    (d.apply op).bind fun p => (exec p.1 rest).map fun q => (q.1, p.2 ++ q.2)

/-- The record of handle `h`, in the active set or among the released records. -/
def record (d : Device) (h : Nat) : Option PlayingStreamInternal :=
  ((d.playing_streams_ ++ d.released).find? (fun e => e.1 == h)).map Prod.snd

end Device

/-- What one callback does to one stream of the snapshot: the gain is computed from the
record `s`, then the per-stream loop runs from frame 0 and leaves the record, the deletion
mark and the runs of `m`. -/
def StreamCallback (add : Int → Int → Int) (req : Nat) (s : PlayingStreamInternal)
    (m : MixedStream) : Prop :=
  ∃ s1 g mix0 mix1, snapshotStream s = some (s1, g) ∧
    mixStreamLoop add g req (mixFuel req) s1 0 mix0 =
      some { stream := m.stream, mix := mix1, marked := m.marked, runs := m.runs }

/-- The entry of the active set and the mixed stream it gives in a callback. -/
def EntryCallback (add : Int → Int → Int) (req : Nat) (e : Nat × PlayingStreamInternal)
    (m : MixedStream) : Prop :=
  m.handle = e.1 ∧ StreamCallback add req e.2 m

/-- The stream of handle `h` is in the active set, exactly once, with record `s`. -/
def Device.Active (d : Device) (h : Nat) (s : PlayingStreamInternal) : Prop :=
  d.playing_streams_.filter (fun e => e.1 == h) = [(h, s)]

/-- The stream of handle `h` has left the active set; its record, kept alive by the handle,
is `s`. -/
def Device.Gone (d : Device) (h : Nat) (s : PlayingStreamInternal) : Prop :=
  d.playing_streams_.filter (fun e => e.1 == h) = [] ∧
    (d.released.filter (fun e => e.1 == h)).head? = some (h, s)

/-- Every record of the device, in the active set or released, satisfies `P`. -/
def Device.AllRecords (P : PlayingStreamInternal → Prop) (d : Device) : Prop :=
  ∀ e ∈ d.playing_streams_ ++ d.released, P e.2

/-- The position in the source wraps lazily: it is the number of blocks streamed modulo
the length `N` of the source, with `num_plays` the number of completed passes, except
that right after a pass that ended exactly at the end of the source it still holds `N`,
and `num_plays` does not count that pass yet. -/
def LazyWrap (s : PlayingStreamInternal) : Prop :=
  1 ≤ s.wave_file.GetNumBlocks ∧
    ((s.looped_blocks_streamed = s.total_blocks_streamed % s.wave_file.GetNumBlocks ∧
        s.num_plays = ((s.total_blocks_streamed / s.wave_file.GetNumBlocks : Nat) : Int)) ∨
      (s.looped_blocks_streamed = s.wave_file.GetNumBlocks ∧
        s.total_blocks_streamed % s.wave_file.GetNumBlocks = 0 ∧
        s.num_plays = ((s.total_blocks_streamed / s.wave_file.GetNumBlocks : Nat) : Int) - 1))

/-- Both channels of a frame reduced to the `int32_t` range. -/
def wrapBlock (b : StereoBlock32) : StereoBlock32 :=
  { left := wrap32 b.left, right := wrap32 b.right }

/-- The first `n` accumulators `mixC` are the sums `mixE` reduced to the `int32_t` range;
the two buffers have the same length, at least `n`. -/
def WrapsOf (n : Nat) (mixC mixE : List StereoBlock32) : Prop :=
  mixC.length = mixE.length ∧ n ≤ mixC.length ∧
    ∀ i, i < n → mixC[i]? = (mixE[i]?).map wrapBlock

/-- The value `v` fits an `int32_t`. -/
def fitsInt32 (v : Int) : Prop := -(2 ^ 31) ≤ v ∧ v < 2 ^ 31

/-- No release is due for the record: it is unbounded, or its remaining life is not
shorter than its fade-out window. -/
def noReleaseTrigger (s : PlayingStreamInternal) : Prop :=
  s.total_blocks_to_play = 0 ∨
    ∃ num_blocks_to_fade_out,
      numBlocksToFade s.wave_file s.fade_control.fade_out_time_sec =
        some num_blocks_to_fade_out ∧
      s.total_blocks_streamed + num_blocks_to_fade_out ≤ s.total_blocks_to_play

/-- The number of frames pulled by the callbacks of a history. -/
def framesPulled : List Op → Nat
  | [] => 0
  | Op.callback additional_amount :: rest =>
    Device.numRequestedBlocks additional_amount + framesPulled rest
  | _ :: rest => framesPulled rest

/-- Whether a call stops the stream of handle `h`. -/
def Op.stopsStream (h : Nat) : Op → Bool
  | Op.stop playing_stream _ => playing_stream == some h
  | Op.stopImmediately playing_stream => playing_stream == some h
  | _ => false

/-- Whether a call ends the wait of a stop issued on the stream of handle `h`: a callback
consumes the stop, `StopImmediately` on `h` removes the stream. -/
def Op.endsWait (h : Nat) : Op → Bool
  | Op.callback _ => true
  | Op.stopImmediately playing_stream => playing_stream == some h
  | _ => false

/-- The source blocks of a list of runs, in the order in which they are accumulated. -/
def runBlocks (runs : List MixRun) : List Nat :=
  runs.flatMap fun r => List.range' r.first_block r.count

/-- The runs mixed from the stream of handle `h` by a list of callbacks, in order. -/
def runsOfStream (h : Nat) (results : List CallbackResult) : List MixRun :=
  results.flatMap fun r => (r.mixed.filter fun m => m.handle == h).flatMap fun m => m.runs

/-! ## Concrete sources and records used as examples -/

/-- A source with no block: a data chunk of size 0. -/
def emptyWave : WaveFile :=
  { wave_data_size_ := 0, block_align := 2, channels := 1, sample_rate := 22050,
    wave_data_ := [], file_data := [] }

/-- A mono in-memory source of three blocks. -/
def threeBlockWave : WaveFile :=
  { wave_data_size_ := 6, block_align := 2, channels := 1, sample_rate := 22050,
    wave_data_ := [100, 200, 300], file_data := [] }

/-- A mono in-memory source of 100 blocks; block `i` holds the sample `i`. -/
def hundredBlockWave : WaveFile :=
  { wave_data_size_ := 200, block_align := 2, channels := 1, sample_rate := 22050,
    wave_data_ := (List.range 100).map fun i => (i : Int), file_data := [] }

/-- A mono in-memory source of three blocks with samples near full scale. -/
def loudWave : WaveFile :=
  { wave_data_size_ := 6, block_align := 2, channels := 1, sample_rate := 22050,
    wave_data_ := [30000, -30000, 100], file_data := [] }

/-- A looping stream in Attack with a fade-in of 13.5 s at 22050 Hz (a window of 297675
blocks) that has streamed 230233 blocks. -/
def longFadeInStream : PlayingStreamInternal :=
  { wave_file := threeBlockWave, play_count := kPlayLooped,
    fade_control := FadeInOut ⟨27 * 2 ^ 148⟩ F32.zero,
    looped_blocks_streamed := 1, total_blocks_streamed := 230233, num_plays := 76744,
    gain_state := GainState.kAttack }

/-- A device with one looping stream over `threeBlockWave`, played with a fade-in of one
second and no fade-out. -/
def fadeInDevice : Device :=
  (Device.Init.Play threeBlockWave kPlayLooped (FadeInOut (F32.ofNat 1) F32.zero)).1

/-- A stream in Attack (fade-in of 1 s at 22050 Hz) that has streamed 1536 blocks, on which
a stop with a fade-out of 0.5 s (11025 blocks) was applied at block 1024: its
`total_blocks_to_play` is 12049 and its `cur_gain` is the ramp value computed at block
1024. -/
def stoppedInAttackStream : PlayingStreamInternal :=
  { wave_file := threeBlockWave, play_count := kPlayLooped,
    fade_control := FadeInOut (F32.ofNat 1) (F32.ofRatio 1 2),
    looped_blocks_streamed := 3, total_blocks_streamed := 1536, num_plays := 511,
    total_blocks_to_play := 12049, gain_state := GainState.kAttack,
    cur_gain := (F32.div (F32.ofNat 1024) (F32.ofNat 22050)).getD F32.zero }

/-- A mono in-memory source of 1000 blocks at 22050 Hz. -/
def thousandBlockWave : WaveFile :=
  { wave_data_size_ := 2000, block_align := 2, channels := 1, sample_rate := 22050,
    wave_data_ := List.replicate 1000 5, file_data := [] }

/-- A looping stream over `thousandBlockWave`, played without fades, that has streamed
993 blocks (7 blocks are left in the current pass) and on which `StopAtEndFade(1.0f)` is
pending in the callback. -/
def stopAtEndStream : PlayingStreamInternal :=
  { wave_file := thousandBlockWave, play_count := kPlayLooped, fade_control := kNoFade,
    looped_blocks_streamed := 993, total_blocks_streamed := 993,
    gain_state := GainState.kSustain,
    stop_control_in_callback := some (StopAtEndFade (F32.ofNat 1)) }

/-! ## Auxiliary definitions: the accumulators as a list of additions; more examples -/

/-- One addition into the accumulators: the frame, and the values added to its left and
right channel. -/
structure MixAdd where
  dest : Nat
  left : Int
  right : Int
deriving DecidableEq, Repr

/-- A list of additions carried out on the accumulators, in order. -/
def applyAdds (add : Int → Int → Int) (adds : List MixAdd) (mix : List StereoBlock32) :
    List StereoBlock32 :=
  adds.foldl (fun b u => modifyAt (addToBlock add u.left u.right) u.dest b) mix

/-- The additions that `accumulateSamples` carries out. -/
def blockAdds (off : Nat) (gain : Int) (num_channels : Nat) (stream : List Int)
    (num_blocks : Nat) : List MixAdd :=
  if num_channels = 1 then
    if gain = kMaxGain then
      (List.range num_blocks).map fun i =>
        { dest := off + i, left := stream.getD i 0, right := stream.getD i 0 }
    else
      (List.range num_blocks).map fun i =>
        { dest := off + i, left := ApplyGain (stream.getD i 0) gain,
          right := ApplyGain (stream.getD i 0) gain }
  else if num_channels = 2 then
    if gain = kMaxGain then
      (List.range num_blocks).map fun i =>
        { dest := off + i, left := stream.getD (2 * i) 0, right := stream.getD (2 * i + 1) 0 }
    else
      (List.range num_blocks).map fun i =>
        { dest := off + i, left := ApplyGain (stream.getD (2 * i) 0) gain,
          right := ApplyGain (stream.getD (2 * i + 1) 0) gain }
  else []

/-- The additions of one pass of the body of the per-stream loop. -/
def passAdds (gain : Int) (num_requested_blocks num_blocks_sent : Nat)
    (s : PlayingStreamInternal) : List MixAdd :=
  blockAdds num_blocks_sent gain s.wave_file.GetNumChannels
    (if s.wave_file.IsInMemory then
      s.wave_file.GetBufferWhenInMemory s.looped_blocks_streamed
    else s.wave_file.ReadBlocks s.looped_blocks_streamed
      (loopRead num_requested_blocks num_blocks_sent s))
    (loopRead num_requested_blocks num_blocks_sent s)

/-- The frames sent by a callback and the outcome of every stream, computed from the
active set and the request alone. -/
def callbackOutput (playing_streams : List (Nat × PlayingStreamInternal))
    (additional_amount : Int) : Option (List StereoBlock16 × List MixedStream) :=
  if additional_amount = 0 then some ([], [])
  else
    (snapshotAll playing_streams).bind fun snaps =>
    (mixAll add32 (Device.numRequestedBlocks additional_amount) snaps
      (List.replicate (Device.numRequestedBlocks additional_amount)
        { left := 0, right := 0 })).map
      fun p => ((p.2.map clampBlock).map narrowBlock, p.1)

/-- A device with two streams: `threeBlockWave` under handle 1 and `loudWave` under
handle 2, both looping. -/
def twoStreamDevice : Device :=
  ((Device.Init.Play threeBlockWave kPlayLooped kNoFade).1.Play loudWave kPlayLooped kNoFade).1

/-- A device whose active set holds the looping `loudWave` stream under handle 2 alone,
with empty scratch buffers. -/
def loudOnlyDevice : Device :=
  { playing_streams_ :=
      [(2, startPlayingStream
        { wave_file := loudWave, play_count := kPlayLooped, fade_control := kNoFade })] }

/-- The record of a looping stream over `threeBlockWave` with a fade-in of one second (a
window of 22050 blocks) and no fade-out, in Attack, after `k` blocks. -/
def rampStreamAt (k : Nat) : PlayingStreamInternal :=
  { wave_file := threeBlockWave, play_count := kPlayLooped,
    fade_control := FadeInOut (F32.ofNat 1) F32.zero,
    looped_blocks_streamed := k % 3, total_blocks_streamed := k, num_plays := k / 3,
    gain_state := GainState.kAttack }

/-! ## More example records; the tests of the gain update -/

/-- A stream over `thousandBlockWave` played twice that has streamed 993 blocks, with
`StopAtEndFade(1.0f)` pending in the callback. -/
def boundedStopAtEndStream : PlayingStreamInternal :=
  { wave_file := thousandBlockWave, play_count := PlayTimes 2, fade_control := kNoFade,
    looped_blocks_streamed := 993, total_blocks_streamed := 993,
    total_blocks_to_play := 2000, gain_state := GainState.kSustain,
    stop_control_in_callback := some (StopAtEndFade (F32.ofNat 1)) }

/-- A looping stream over `threeBlockWave` that has streamed one block, on which a stop
has set `total_blocks_to_play = 5`. -/
def stoppedAtFiveStream : PlayingStreamInternal :=
  { wave_file := threeBlockWave, play_count := kPlayLooped, fade_control := kNoFade,
    looped_blocks_streamed := 1, total_blocks_streamed := 1, total_blocks_to_play := 5,
    gain_state := GainState.kSustain }

/-- The record of a stream played once over `thousandBlockWave` with a fade-in and a
fade-out of one second each, as `Play` leaves it. -/
def shortFadedStream : PlayingStreamInternal :=
  startPlayingStream
    { wave_file := thousandBlockWave, play_count := kPlayOnce,
      fade_control := FadeInOut (F32.ofNat 1) (F32.ofNat 1) }

/-- The record of a stream played once over `threeBlockWave` with a fade-in of `0.00001f`
seconds (less than one block at 22050 Hz) and no fade-out, as `Play` leaves it. -/
def tinyFadeInStream : PlayingStreamInternal :=
  startPlayingStream
    { wave_file := threeBlockWave, play_count := kPlayOnce,
      fade_control := FadeInOut (F32.ofRatio 1 100000) F32.zero }

/-- Whether `updateGainStateInCallback(s)` reaches the assignment
`cur_gain = elapsed / fade-in window` of the Attack ramp (lines 366-371): after the stop
command and the first test of lines 337-353 the record is still in Attack, and the blocks
streamed do not exceed the fade-in window. -/
def evaluatesAttackRamp (s : PlayingStreamInternal) : Bool :=
  match (applyStopControl s).bind attackToRelease with
  | none => false
  | some s2 =>
    s2.gain_state == GainState.kAttack &&
      match numBlocksToFade s2.wave_file s2.fade_control.fade_in_time_sec with
      | none => false
      | some num_blocks_to_fade_in => decide (s2.total_blocks_streamed ≤ num_blocks_to_fade_in)

/-! ## The iterations of the per-stream loop: boundaries and unsigned subtractions -/

/-- The record and `num_blocks_sent` each time the condition of the per-stream loop of
`fillMixBuffer` is reached, and after the pass that marks the stream: the states at the
iteration boundaries, in order, for at most `fuel` passes. -/
def loopStates (num_requested_blocks : Nat) :
    Nat → PlayingStreamInternal → Nat → List (PlayingStreamInternal × Nat)
  | 0, s, num_blocks_sent => [(s, num_blocks_sent)]
  | fuel + 1, s, num_blocks_sent =>
    (s, num_blocks_sent) ::
      if num_blocks_sent < num_requested_blocks then
        if reachedEnd (loopAdvance num_requested_blocks num_blocks_sent s) then
          [(loopAdvance num_requested_blocks num_blocks_sent s,
            num_blocks_sent + loopRead num_requested_blocks num_blocks_sent s)]
        else
          loopStates num_requested_blocks fuel
            (loopAdvance num_requested_blocks num_blocks_sent s)
            (num_blocks_sent + loopRead num_requested_blocks num_blocks_sent s)
      else []

/-- The subtractions of `size_t` values that the per-stream loop evaluates, as pairs
(minuend, subtrahend), in order: `num_requested_blocks - num_blocks_sent` in every pass
(line 558) and `GetNumBlocks() - looped_blocks_streamed` in a pass that reaches the end
of the source (lines 561-563). -/
def loopSubtractions (num_requested_blocks : Nat) :
    Nat → PlayingStreamInternal → Nat → List (Nat × Nat)
  | 0, _, _ => []
  | fuel + 1, s, num_blocks_sent =>
    if num_blocks_sent < num_requested_blocks then
      ((num_requested_blocks, num_blocks_sent) ::
        (if sizeSub num_requested_blocks num_blocks_sent + s.looped_blocks_streamed >
            s.wave_file.GetNumBlocks then
          [(s.wave_file.GetNumBlocks, s.looped_blocks_streamed)]
        else [])) ++
        (if reachedEnd (loopAdvance num_requested_blocks num_blocks_sent s) then []
        else
          loopSubtractions num_requested_blocks fuel
            (loopAdvance num_requested_blocks num_blocks_sent s)
            (num_blocks_sent + loopRead num_requested_blocks num_blocks_sent s))
    else []

/-- The subtractions evaluated when a pending stop command is applied (lines 296-308):
with `stop_at_end`, `GetNumBlocks() - looped_blocks_streamed` and, for a bounded stream,
`total_blocks_to_play - total_blocks_streamed`. -/
def stopControlSubtractions (s : PlayingStreamInternal) : List (Nat × Nat) :=
  match s.stop_control_in_callback with
  | none => []
  | some stop_control =>
    if stop_control.stop_at_end then
      (s.wave_file.GetNumBlocks, s.looped_blocks_streamed) ::
        (if s.total_blocks_to_play ≠ 0 then
          [(s.total_blocks_to_play, s.total_blocks_streamed)]
        else [])
    else []

/-- The subtraction evaluated by the Release ramp (lines 392-411):
`total_blocks_to_play - total_blocks_streamed`, when the stream is in Release, has not
reached its `total_blocks_to_play` and is inside its fade-out window. -/
def releaseSubtractions (s : PlayingStreamInternal) : List (Nat × Nat) :=
  if s.gain_state = GainState.kRelease then
    if s.total_blocks_streamed ≥ s.total_blocks_to_play then []
    else
      match numBlocksToFade s.wave_file s.fade_control.fade_out_time_sec with
      | none => []
      | some num_blocks_to_fade_out =>
        if s.total_blocks_streamed + num_blocks_to_fade_out ≥ s.total_blocks_to_play then
          [(s.total_blocks_to_play, s.total_blocks_streamed)]
        else []
  else []

/-- The subtractions evaluated by `updateGainStateInCallback`: those of the stop command
and that of the Release ramp, which runs on the record left by the four stages before
it. -/
def gainUpdateSubtractions (s : PlayingStreamInternal) : List (Nat × Nat) :=
  stopControlSubtractions s ++
    match (((applyStopControl s).bind attackToRelease).bind
        fun s2 => attackRamp s2 kMaxGain).bind fun r3 => sustainToRelease r3.1 with
    | none => []
    | some s4 => releaseSubtractions s4

/-- The subtractions evaluated for one stream of the snapshot by a callback that
requests `num_requested_blocks` frames: those of the gain update, on the record with the
stop command moved to `stop_control_in_callback`, then those of the per-stream loop. -/
def callbackSubtractions (num_requested_blocks : Nat) (s : PlayingStreamInternal) :
    List (Nat × Nat) :=
  let s0 :=
    if s.stop_control.isSome then
      { s with stop_control_in_callback := s.stop_control, stop_control := none }
    else s
  gainUpdateSubtractions s0 ++
    match updateGainStateInCallback s0 with
    | none => []
    | some r => loopSubtractions num_requested_blocks (mixFuel num_requested_blocks) r.1 0

/-- Every record of the active set satisfies `P`. -/
def Device.AllActive (P : PlayingStreamInternal → Prop) (d : Device) : Prop :=
  ∀ e ∈ d.playing_streams_, P e.2

/-- A stream of the active set has not outlived its `total_blocks_to_play`. -/
def withinLife (s : PlayingStreamInternal) : Prop :=
  s.total_blocks_to_play ≠ 0 → s.total_blocks_streamed ≤ s.total_blocks_to_play

/-! ## Records that differ in `play_count` only; one more example -/

/-- The record of a stream over `w` played with the smallest positive fade-in time (the
`float` `2^-149`) and no fade-out, as `Play` leaves it. -/
def smallestFadeInStream (w : WaveFile) (pc : PlayCount) : PlayingStreamInternal :=
  startPlayingStream
    { wave_file := w, play_count := pc, fade_control := FadeInOut ⟨1⟩ F32.zero }

/-- The record with its `play_count` replaced. -/
def withPlayCount (pc : PlayCount) (s : PlayingStreamInternal) : PlayingStreamInternal :=
  { s with play_count := pc }

/-- The device with the `play_count` of every record replaced by `kPlayLooped`: what is
left of a state when the `play_count` fields are not looked at. -/
def Device.erasePlayCount (d : Device) : Device :=
  { d with
    playing_streams_ := d.playing_streams_.map fun e => (e.1, withPlayCount kPlayLooped e.2)
    released := d.released.map fun e => (e.1, withPlayCount kPlayLooped e.2) }

/-- What a history shows when the `play_count` fields are not looked at: the final state,
and for every callback the frames sent and the handle, the deletion mark and the runs of
every stream mixed. -/
def observable (p : Device × List CallbackResult) :
    Device × List (List StereoBlock16 × List (Nat × Bool × List MixRun)) :=
  (p.1.erasePlayCount,
    p.2.map fun r => (r.sent, r.mixed.map fun m => (m.handle, m.marked, m.runs)))

/-! ## The samples of a source block; one more example -/

/-- The record of a looping stream over `threeBlockWave` played without fades, as `Play`
leaves it. -/
def loopingStream : PlayingStreamInternal :=
  startPlayingStream
    { wave_file := threeBlockWave, play_count := kPlayLooped, fade_control := kNoFade }

/-! ## The scratch buffer of `ReadBlocks` -/

/-- `Device::allocateReadBuffer(num_blocks)`: the number of `int16_t` elements of
`read_buffer_` after the call, given the number before it. -/
def allocateReadBuffer (read_buffer_size num_blocks : Nat) : Nat :=
  if read_buffer_size < num_blocks * 2 then num_blocks * 2 else read_buffer_size

/-- The number of elements of `read_buffer_` after `Init()`: `allocateReadBuffer(512)` on
the empty vector. -/
def initReadBufferSize : Nat := allocateReadBuffer 0 512

/-- The number of elements of `read_buffer_` after a history of calls: a callback with a
non-zero amount runs `allocateReadBuffer(num_requested_blocks)` (line 540), and no other
call resizes the buffer. -/
def readBufferSize : Nat → List Op → Nat
  | read_buffer_size, [] => read_buffer_size
  | read_buffer_size, Op.callback additional_amount :: rest =>
    readBufferSize
      (if additional_amount = 0 then read_buffer_size
        else allocateReadBuffer read_buffer_size
          (Device.numRequestedBlocks additional_amount)) rest
  | read_buffer_size, _ :: rest => readBufferSize read_buffer_size rest

/-- The number of bytes that `ReadBlocks(first_block, num_blocks, blocks_out)` writes from
`blocks_out` on: `num_blocks * block_size`, in both of its branches (`wave_loader.hpp`,
lines 260-267). -/
def WaveFile.ReadBlocksBytes (w : WaveFile) (num_blocks : Nat) : Nat :=
  num_blocks * w.GetBlockSize

/-- The writes into `read_buffer_` of the per-stream loop of `fillMixBuffer`, in order:
in every pass over a source that is not in memory, `ReadBlocks` writes this number of
bytes from `&read_buffer_[0]` on (lines 571-579). -/
def loopReadBufferWrites (num_requested_blocks : Nat) :
    Nat → PlayingStreamInternal → Nat → List Nat
  | 0, _, _ => []
  | fuel + 1, s, num_blocks_sent =>
    if num_blocks_sent < num_requested_blocks then
      (if s.wave_file.IsInMemory then []
        else
          [s.wave_file.ReadBlocksBytes
            (loopRead num_requested_blocks num_blocks_sent s)]) ++
        (if reachedEnd (loopAdvance num_requested_blocks num_blocks_sent s) then []
        else
          loopReadBufferWrites num_requested_blocks fuel
            (loopAdvance num_requested_blocks num_blocks_sent s)
            (num_blocks_sent + loopRead num_requested_blocks num_blocks_sent s))
    else []

/-- A streamed source of 512 blocks of three 16-bit channels: a block of 6 bytes. -/
def threeChannelWave : WaveFile :=
  { wave_data_size_ := 3072, block_align := 6, channels := 3, sample_rate := 22050,
    wave_data_ := [], file_data := List.replicate 1536 1000 }
end Audio

namespace Text

/-! ## UTF-8 (`utf8.hpp`) -/

/-- `struct UnicodeSequenceParseResult`. -/
structure UnicodeSequenceParseResult where
  code_position : Option Nat := none
  parsed_sequence_length : Nat := 0
deriving DecidableEq, Repr

/-- The byte `*(uint8_t*)(sequence + i)`.  The characters of the sequence are given by
their values; the terminating zero is read past the end of the list. -/
def byteAt (sequence : List Nat) (i : Nat) : Nat := sequence.getD i 0 % 256

/-- `ParseUtf8Sequence<check_is_sequence_ill_formed>(sequence, sequence_length)`.  The
values are `uint32_t` in the source; every sum stays below `2^21`. -/
def ParseUtf8Sequence (check_is_sequence_ill_formed : Bool) (sequence : List Nat)
    (sequence_length : Nat) : UnicodeSequenceParseResult :=
  if sequence_length = 0 then {}
  else
    let first_byte := byteAt sequence 0
    if first_byte.testBit 7 = false then
      { code_position := some first_byte, parsed_sequence_length := 1 }
    else if sequence_length ≤ 1 then {}
    else if first_byte.testBit 7 = true ∧ first_byte.testBit 6 = true ∧
        first_byte.testBit 5 = false then
      let second_byte := byteAt sequence 1
      if check_is_sequence_ill_formed = true ∧
          (second_byte.testBit 7 ≠ true ∨ second_byte.testBit 6 ≠ false) then {}
      else
        { code_position := some (((first_byte &&& 0x1F) <<< 6) + (second_byte &&& 0x3f)),
          parsed_sequence_length := 2 }
    else if sequence_length ≤ 2 then {}
    else if first_byte.testBit 7 = true ∧ first_byte.testBit 6 = true ∧
        first_byte.testBit 5 = true ∧ first_byte.testBit 4 = false then
      let second_byte := byteAt sequence 1
      let third_byte := byteAt sequence 2
      if check_is_sequence_ill_formed = true ∧
          (second_byte.testBit 7 ≠ true ∧ second_byte.testBit 6 ≠ false ∧
            third_byte.testBit 7 ≠ true ∧ third_byte.testBit 6 ≠ false) then {}
      else
        { code_position := some (((first_byte &&& 0xF) <<< 12) +
            ((second_byte &&& 0x3f) <<< 6) + (third_byte &&& 0x3f)),
          parsed_sequence_length := 3 }
    else if sequence_length ≤ 3 then {}
    else if first_byte.testBit 7 = true ∧ first_byte.testBit 6 = true ∧
        first_byte.testBit 5 = true ∧ first_byte.testBit 4 = true ∧
        first_byte.testBit 3 = false then
      let second_byte := byteAt sequence 1
      let third_byte := byteAt sequence 2
      let fourth_byte := byteAt sequence 3
      if check_is_sequence_ill_formed = true ∧
          (second_byte.testBit 7 ≠ true ∨ second_byte.testBit 6 ≠ false ∨
            third_byte.testBit 7 ≠ true ∨ third_byte.testBit 6 ≠ false ∨
            fourth_byte.testBit 7 ≠ true ∨ fourth_byte.testBit 6 ≠ false) then {}
      else
        { code_position := some (((first_byte &&& 0x7) <<< 18) +
            ((second_byte &&& 0x3f) <<< 12) + ((third_byte &&& 0x3f) <<< 6) +
            (fourth_byte &&& 0x3f)),
          parsed_sequence_length := 4 }
    else {}

/-- The standard UTF-8 encoding of the code point `c` (at most `0x10FFFF`): one byte
`0xxxxxxx` below `0x80`, two bytes `110xxxxx 10xxxxxx` below `0x800`, three bytes
`1110xxxx 10xxxxxx 10xxxxxx` below `0x10000`, four bytes
`11110xxx 10xxxxxx 10xxxxxx 10xxxxxx` otherwise. -/
def encodeUtf8 (c : Nat) : List Nat :=
  if c < 0x80 then [c]
  else if c < 0x800 then [0xC0 + c / 64, 0x80 + c % 64]
  else if c < 0x10000 then [0xE0 + c / 4096, 0x80 + c / 64 % 64, 0x80 + c % 64]
  else [0xF0 + c / 262144, 0x80 + c / 4096 % 64, 0x80 + c / 64 % 64, 0x80 + c % 64]

/-- The length of the sequence that a lead byte announces: 1 for `0xxxxxxx`, 2 for
`110xxxxx`, 3 for `1110xxxx`, 4 for `11110xxx`, and 0 for a byte that is not a lead
byte. -/
def announcedLength (lead : Nat) : Nat :=
  if lead < 0x80 then 1
  else if 0xC0 ≤ lead ∧ lead < 0xE0 then 2
  else if 0xE0 ≤ lead ∧ lead < 0xF0 then 3
  else if 0xF0 ≤ lead ∧ lead < 0xF8 then 4
  else 0

/-! ## Formatted text (`formatted_text.hpp`)

A `std::string` is the list of its characters.  The input stream is the list of the
characters not read yet together with its `eofbit` and `failbit`; the value `EOF` of
`peek()` and `get()` is `none`. -/

/-- `enum class HorizontalAlignment`. -/
inductive HorizontalAlignment where
  | kLeft
  | kRight
  | kCenter
deriving DecidableEq, Repr

/-- `HorizontalAlignmentFromString`. -/
def HorizontalAlignmentFromString (value : List Char) : Option HorizontalAlignment :=
  if value = "left".toList then some HorizontalAlignment.kLeft
  else if value = "right".toList then some HorizontalAlignment.kRight
  else if value = "center".toList then some HorizontalAlignment.kCenter
  else none

/-- `enum class Wrapping`. -/
inductive Wrapping where
  | kWordWrap
  | kClip
  | kNoClip
deriving DecidableEq, Repr

/-- `WrappingFromString`. -/
def WrappingFromString (value : List Char) : Option Wrapping :=
  if value = "word".toList then some Wrapping.kWordWrap
  else if value = "clip".toList then some Wrapping.kClip
  else if value = "noclip".toList then some Wrapping.kNoClip
  else none

/-- `ColorFromString`. -/
def ColorFromString (value : List Char) : Option Nat :=
  if value = "red".toList then some 0xFFF00F13
  else if value = "green".toList then some 0xFF29C41B
  else if value = "blue".toList then some 0xFF2B7FEE
  else if value = "black".toList then some 0xFF000000
  else if value = "white".toList then some 0xFFFFFFFF
  else if value = "grey".toList then some 0xFFBFC2C7
  else none

/-- `enum Tag`. -/
inductive Tag where
  | kTagP
  | kTagStyle
  | kTagSub
deriving DecidableEq, Repr

/-- `struct ParagraphParameters`. -/
structure ParagraphParameters where
  align : HorizontalAlignment := HorizontalAlignment.kLeft
  wrapping : Wrapping := Wrapping.kClip
deriving DecidableEq, Repr

/-- `struct Style`.  The default constructor leaves `color` without a value; the
embedding takes 0 for it. -/
structure Style where
  font : List Char := []
  color : Nat := 0
deriving DecidableEq, Repr

/-- `struct StyleWithParagraphParameters`. -/
structure StyleWithParagraphParameters where
  font_opt : Option (List Char) := none
  color_opt : Option Nat := none
  align_opt : Option HorizontalAlignment := none
  wrapping_opt : Option Wrapping := none
deriving DecidableEq, Repr

/-- `StyleFromStyleWithParagraphParameters`. -/
def StyleFromStyleWithParagraphParameters (value : StyleWithParagraphParameters) : Style :=
  { font := value.font_opt.getD [], color := value.color_opt.getD 0 }

/-- `StyleWithParagraphParametersFromStyleAndParagraphParameters`. -/
def StyleWithParagraphParametersFromStyleAndParagraphParameters (style : Style)
    (paragraph_parameters : ParagraphParameters) : StyleWithParagraphParameters :=
  { font_opt := some style.font, color_opt := some style.color,
    align_opt := some paragraph_parameters.align,
    wrapping_opt := some paragraph_parameters.wrapping }

/-- `struct StyleRun`. -/
structure StyleRun where
  style : Style := {}
  text : List Char := []
deriving DecidableEq, Repr

/-- `struct Paragraph`. -/
structure Paragraph where
  font : List Char := []
  paragraph_parameters : ParagraphParameters := {}
  style_runs : List StyleRun := []
deriving DecidableEq, Repr

/-- The constructor `Paragraph(StyleWithParagraphParameters)`: one style run, with the
style and no text. -/
def Paragraph.ofStyle (style_with_alignment : StyleWithParagraphParameters) : Paragraph :=
  { font := style_with_alignment.font_opt.getD [],
    paragraph_parameters :=
      { align := style_with_alignment.align_opt.getD HorizontalAlignment.kLeft,
        wrapping := style_with_alignment.wrapping_opt.getD Wrapping.kClip },
    style_runs := [{ style := StyleFromStyleWithParagraphParameters style_with_alignment }] }

/-- `struct FormattedText`. -/
structure FormattedText where
  paragraphs : List Paragraph := []
deriving DecidableEq, Repr

/-- The state of a `std::istringstream`: the characters not read yet and the two state
bits that the parser can set. -/
structure InputStream where
  rest : List Char
  eofbit : Bool := false
  failbit : Bool := false
deriving DecidableEq, Repr

namespace InputStream

/-- `good()`. -/
def good (s : InputStream) : Bool := !s.eofbit && !s.failbit

/-- `peek()`: on a stream that is not good it sets `failbit`; at the end of the input it
sets `eofbit`. -/
def peek (s : InputStream) : Option Char × InputStream :=
  if s.good then
    match s.rest with
    | [] => (none, { s with eofbit := true })
    | c :: _ => (some c, s)
  else (none, { s with failbit := true })

/-- `get()`: on a stream that is not good it sets `failbit`; at the end of the input it
sets `eofbit` and `failbit`. -/
def get (s : InputStream) : Option Char × InputStream :=
  if s.good then
    match s.rest with
    | [] => (none, { s with eofbit := true, failbit := true })
    | c :: cs => (some c, { s with rest := cs })
  else (none, { s with failbit := true })

/-- `std::getline(stream, str, delim)` into an empty string: the characters before the
first `delim`, which is read and dropped; `eofbit` when the input ends first, `failbit`
when nothing was read. -/
def getline (s : InputStream) (delim : Char) : List Char × InputStream :=
  if s.good then
    match s.rest.span (fun c => c != delim) with
    | (str, []) => (str, { rest := [], eofbit := true, failbit := str.isEmpty })
    | (str, _ :: cs) => (str, { s with rest := cs })
  else ([], { s with failbit := true })

/-- The loop `while (peek() == ' ') get();`. -/
def skipSpaces (s : InputStream) : InputStream :=
  if s.good then
    match s.rest.dropWhile (fun c => c == ' ') with
    | [] => { s with rest := [], eofbit := true }
    | c :: cs => { s with rest := c :: cs }
  else { s with failbit := true }

end InputStream

/-- The last element of a list replaced by its image under `f` (`back()` of a vector that
is not empty). -/
def modifyLast {α : Type} (f : α → α) : List α → List α
  | [] => []
  | [x] => [f x]
  | x :: y :: xs => x :: modifyLast f (y :: xs)

/-- The variables of the state of `FormatText`: `result.paragraphs` and `styles_stack`
(the top of the stack is the head of the list). -/
structure FormatState where
  paragraphs : List Paragraph
  styles_stack : List StyleWithParagraphParameters
deriving DecidableEq, Repr

namespace FormatState

/-- `styles_stack.top()`. -/
def top (st : FormatState) : StyleWithParagraphParameters := st.styles_stack.headD {}

/-- `result.paragraphs.back().style_runs.back().text.empty()`. -/
def lastTextEmpty (st : FormatState) : Bool :=
  match st.paragraphs.getLast? with
  | none => true
  | some p =>
    match p.style_runs.getLast? with
    | none => true
    | some r => r.text.isEmpty

/-- An update of `result.paragraphs.back().style_runs.back()`. -/
def modifyLastRun (f : StyleRun → StyleRun) (st : FormatState) : FormatState :=
  { st with paragraphs :=
      modifyLast (fun p => { p with style_runs := modifyLast f p.style_runs }) st.paragraphs }

/-- `result.paragraphs.back().style_runs.push_back(StyleRun())`. -/
def pushRun (st : FormatState) : FormatState :=
  { st with paragraphs :=
      modifyLast (fun p => { p with style_runs := p.style_runs ++ [{}] }) st.paragraphs }

/-- An assignment to `result.paragraphs.back().paragraph_parameters.align`. -/
def setAlign (align : HorizontalAlignment) (st : FormatState) : FormatState :=
  let f : Paragraph → Paragraph := fun p =>
    { p with paragraph_parameters := ⟨align, p.paragraph_parameters.wrapping⟩ }
  { st with paragraphs := modifyLast f st.paragraphs }

/-- An assignment to `result.paragraphs.back().paragraph_parameters.wrapping`. -/
def setWrapping (wrapping : Wrapping) (st : FormatState) : FormatState :=
  let f : Paragraph → Paragraph := fun p =>
    { p with paragraph_parameters := ⟨p.paragraph_parameters.align, wrapping⟩ }
  { st with paragraphs := modifyLast f st.paragraphs }

/-- Characters appended to the text of the last style run. -/
def appendText (text : List Char) (st : FormatState) : FormatState :=
  st.modifyLastRun fun r => { r with text := r.text ++ text }

end FormatState

/-- The parameters `key="value"` of an opening tag, up to the closing `>` (the loop
`while (input_stream.peek() != '>')`), run for at most `fuel` parameters.  The result is
`none` when the bound is exhausted, `some none` when the parser reports an error, and
otherwise the stream (the `>` not read yet), the style and the value of the variable. -/
def parseParameters (vars : List (List Char × List Char)) (tag : Tag) :
    Nat → InputStream → StyleWithParagraphParameters → List Char →
    Option (Option (InputStream × StyleWithParagraphParameters × List Char))
  | 0, _, _, _ => none
  | fuel + 1, s, style_with_alignment, variable_value =>
    let p := s.peek
    if p.1 = some '>' then some (some (p.2, style_with_alignment, variable_value))
    else
      let s1 := p.2.skipSpaces
      let k := s1.getline '='
      let key := k.1
      let q := k.2.get
      if q.1 ≠ some '"' then some none
      else
        let v := q.2.getline '"'
        let value := v.1
        if tag = Tag.kTagStyle then
          if key = "font".toList then
            parseParameters vars tag fuel v.2
              { style_with_alignment with font_opt := some value } variable_value
          else if key = "color".toList then
            match ColorFromString value with
            | none => some none
            | some color =>
              parseParameters vars tag fuel v.2
                { style_with_alignment with color_opt := some color } variable_value
          else if key = "align".toList then
            match HorizontalAlignmentFromString value with
            | none => some none
            | some align =>
              parseParameters vars tag fuel v.2
                { style_with_alignment with align_opt := some align } variable_value
          else if key = "wrapping".toList then
            match WrappingFromString value with
            | none => some none
            | some wrapping =>
              parseParameters vars tag fuel v.2
                { style_with_alignment with wrapping_opt := some wrapping } variable_value
          else parseParameters vars tag fuel v.2 style_with_alignment variable_value
        else if tag = Tag.kTagSub then
          if key = "variable".toList then
            if value.isEmpty ∨ value.head? ≠ some '$' then some none
            else
              match vars.find? (fun e => e.1 == value.drop 1) with
              | none => some none
              | some e => parseParameters vars tag fuel v.2 style_with_alignment e.2
          else some none
        else parseParameters vars tag fuel v.2 style_with_alignment variable_value

/-- The main loop `while (!input_stream.eof())` of `FormatText`, run for at most `fuel`
iterations: `none` when the bound is exhausted, `some none` when the parser reports an
error, otherwise the state when the loop ends. -/
def formatLoop (vars : List (List Char × List Char)) :
    Nat → InputStream → FormatState → Option (Option FormatState)
  | 0, _, _ => none
  | fuel + 1, s, st =>
    if s.eofbit then some (some st)
    else
      let p := s.peek
      if p.1 = some '<' then
        let s1 := p.2.get.2
        let p1 := s1.peek
        if p1.1 = some '<' then
          formatLoop vars fuel p1.2.get.2 (st.appendText ['<'])
        else if p1.1 = some '/' then
          let s2 := p1.2.get.2
          let c := s2.get
          if c.1 ≠ some '>' then some none
          else if st.styles_stack.length = 1 then some none
          else if st.styles_stack.length > 1 then
            let popped : FormatState := { st with styles_stack := st.styles_stack.tail }
            if !popped.lastTextEmpty then
              formatLoop vars fuel c.2
                (popped.pushRun.modifyLastRun fun r =>
                  { r with style := StyleFromStyleWithParagraphParameters popped.top })
            else formatLoop vars fuel c.2 popped
          else formatLoop vars fuel c.2 st
        else
          let t := p1.2.getline ' '
          let tag_name := t.1
          if tag_name = "style".toList ∨ tag_name = "sub".toList then
            let tag := if tag_name = "style".toList then Tag.kTagStyle else Tag.kTagSub
            match parseParameters vars tag (t.2.rest.length + 1) t.2 st.top [] with
            | none => none
            | some none => some none
            | some (some (s2, style_with_alignment, variable_value)) =>
              let s3 := s2.get.2
              if tag = Tag.kTagStyle then
                let st1 : FormatState :=
                  match style_with_alignment.align_opt with
                  | none => st
                  | some align => st.setAlign align
                let st2 : FormatState :=
                  match style_with_alignment.wrapping_opt with
                  | none => st1
                  | some wrapping => st1.setWrapping wrapping
                let st3 := if !st2.lastTextEmpty then st2.pushRun else st2
                let st4 := st3.modifyLastRun fun r =>
                  { r with style := StyleFromStyleWithParagraphParameters style_with_alignment }
                formatLoop vars fuel s3
                  { st4 with styles_stack := style_with_alignment :: st4.styles_stack }
              else formatLoop vars fuel s3 (st.appendText variable_value)
          else some none
      else
        let g := p.2.get
        let c := g.1.getD (Char.ofNat 0)
        if c = Char.ofNat 0 then formatLoop vars fuel g.2 st
        else if c = '\n' then
          formatLoop vars fuel g.2
            { st with paragraphs := st.paragraphs ++ [Paragraph.ofStyle st.top] }
        else formatLoop vars fuel g.2 (st.appendText [c])

/-- The last loop of `FormatText` on one paragraph: the trailing style runs without
text are dropped. -/
def dropEmptyRunsAtEnd (runs : List StyleRun) : List StyleRun :=
  (runs.reverse.dropWhile fun r => r.text.isEmpty).reverse

/-- `FormatText(input, default_style, default_paragraph_parameters, vars)`.  Every
iteration of the main loop reads a character or ends the loop, so `input.length + 2`
iterations are enough. -/
def FormatText (input : List Char) (default_style : Style)
    (default_paragraph_parameters : ParagraphParameters)
    (vars : List (List Char × List Char)) : Option (Option FormattedText) :=
  let default_style_with_aligment :=
    StyleWithParagraphParametersFromStyleAndParagraphParameters default_style
      default_paragraph_parameters
  (formatLoop vars (input.length + 2) { rest := input }
    { paragraphs := [Paragraph.ofStyle default_style_with_aligment],
      styles_stack := [default_style_with_aligment] }).map fun res =>
    res.map fun st =>
      { paragraphs := st.paragraphs.map fun p =>
          { p with style_runs := dropEmptyRunsAtEnd p.style_runs } }

/-! ## Measured text (`font.hpp`, `measured_text.hpp`)

The `int` values are integers (no overflow is modelled).  A `Font*` is the name under
which the font stands in the map `fonts`. -/

/-- `struct FontMeasurements`. -/
structure FontMeasurements where
  line_height : Int := 0
  base : Int := 0
deriving DecidableEq, Repr

/-- `struct Glyph`. -/
structure Glyph where
  texture_x : Int := 0
  texture_y : Int := 0
  texture_width : Int := 0
  texture_height : Int := 0
  x_offset : Int := 0
  y_offset : Int := 0
  x_advance : Int := 0
  code_position : Nat := 0
deriving DecidableEq, Repr

/-- The abstract `class Font`, given by the results of its two `const` methods. -/
structure Font where
  GetFontMeasurements : FontMeasurements
  GetGlyph : Nat → Glyph

/-- `class MonoFont` of `measured_text_test.cpp`. -/
def MonoFont (line_height base width : Int) : Font :=
  { GetFontMeasurements := { line_height := line_height, base := base },
    GetGlyph := fun code_position =>
      { texture_x := 0, texture_y := 0, texture_width := width, texture_height := line_height,
        x_offset := 0, y_offset := 0, x_advance := width, code_position := code_position } }

/-- `IsWhitespace`. -/
def IsWhitespace (code_position : Nat) : Bool := code_position == 32

/-- `struct MeasuredGlyph`. -/
structure MeasuredGlyph where
  x : Int := 0
  y : Int := 0
  color : Nat := 0xFFFFFFFF
  base : Int := 0
  line_x_advance_before_this_glyph : Int := 0
  line_width_before_this_glyph : Int := 0
  glyph : Glyph := {}
  from_font : Option (List Char) := none
deriving DecidableEq, Repr

/-- `struct MeasuredTextLine`.  The map `font_to_glyph` lists the fonts in the order of
their first glyph and holds the glyphs in place of pointers to them. -/
structure MeasuredTextLine where
  align : HorizontalAlignment := HorizontalAlignment.kLeft
  wrapping : Wrapping := Wrapping.kClip
  line_x_advance : Int := 0
  line_width : Int := 0
  line_height : Int := 0
  base : Int := 0
  align_offset : Int := 0
  glyphs : List MeasuredGlyph := []
  font_to_glyph : List (List Char × List MeasuredGlyph) := []
deriving DecidableEq, Repr

/-- `addGlyph(measured_line, glyph)`: the line with the new glyph at its end. -/
def addGlyph (measured_line : MeasuredTextLine) (glyph : Glyph) : MeasuredTextLine :=
  let line_x_advance :=
    if measured_line.glyphs.length + 1 = 1 then -glyph.x_offset
    else measured_line.line_x_advance
  let cur_measured_glyph : MeasuredGlyph :=
    { glyph := glyph,
      line_x_advance_before_this_glyph := line_x_advance,
      line_width_before_this_glyph := measured_line.line_width }
  { measured_line with
    glyphs := measured_line.glyphs ++ [cur_measured_glyph],
    line_width := line_x_advance + glyph.x_offset + glyph.texture_width,
    line_x_advance := line_x_advance + glyph.x_advance }

/-- A call of `addGlyph` followed by the assignments to `color` and `from_font` of the
glyph it returns. -/
def addStyledGlyph (measured_line : MeasuredTextLine) (glyph : Glyph) (color : Nat)
    (from_font : Option (List Char)) : MeasuredTextLine :=
  let line := addGlyph measured_line glyph
  { line with glyphs :=
      modifyLast (fun g => { g with color := color, from_font := from_font }) line.glyphs }

/-- `struct MeasuredText`. -/
structure MeasuredText where
  measured_lines : List MeasuredTextLine := []
  fonts : List (List Char × Font) := []

/-- The variables of `MeasureText` while a paragraph is read: the lines of
`result.measured_lines` before the current one, the current line (the last of the list,
`*cur_measured_line_ptr`), and the iterator `line_prev_whitespace_it` into the glyphs of
the current line as an index, `none` for `end()`. -/
structure MeasureState where
  lines_before : List MeasuredTextLine
  cur_measured_line : MeasuredTextLine
  has_prev_not_whitespace : Bool := false
  line_prev_whitespace_it : Option Nat := none
deriving DecidableEq, Repr

/-- The body of the loop `while (text_length)` after a code position was parsed: the
glyph is added to the current line and, with word wrapping, the line is broken at the
last recorded whitespace when it is wider than the container. -/
def measureCodePosition (container_width : Int) (paragraph : Paragraph) (color : Nat)
    (font_name : List Char) (font : Font) (code_position : Nat) (st : MeasureState) :
    MeasureState :=
  let glyph := font.GetGlyph code_position
  let line := addStyledGlyph st.cur_measured_line glyph color (some font_name)
  let st1 : MeasureState := { st with cur_measured_line := line }
  if paragraph.paragraph_parameters.wrapping = Wrapping.kWordWrap then
    if IsWhitespace glyph.code_position then
      if st1.has_prev_not_whitespace then
        { st1 with has_prev_not_whitespace := false,
                   line_prev_whitespace_it := some (line.glyphs.length - 1) }
      else st1
    else
      let st2 : MeasureState := { st1 with has_prev_not_whitespace := true }
      if line.line_width > container_width then
        match st2.line_prev_whitespace_it with
        | none => st2
        | some i =>
          let reduced_width := (line.glyphs.getD i {}).line_width_before_this_glyph
          let from_not_whitespace :=
            (line.glyphs.drop i).dropWhile fun g => IsWhitespace g.glyph.code_position
          let next_measured_line : MeasuredTextLine :=
            from_not_whitespace.foldl
              (fun next g => addStyledGlyph next g.glyph g.color g.from_font)
              { align := paragraph.paragraph_parameters.align }
          { lines_before := st2.lines_before ++
              [{ line with line_width := reduced_width, glyphs := line.glyphs.take i }],
            cur_measured_line := next_measured_line,
            has_prev_not_whitespace := false,
            line_prev_whitespace_it := none }
      else st2
  else st1

/-- The loop `while (text_length)` over the text of one style run, for at most `fuel`
code positions: `none` when the bound is exhausted, `some none` when the text is not
UTF-8 (`std::nullopt`). -/
def measureRunText (container_width : Int) (paragraph : Paragraph) (color : Nat)
    (font_name : List Char) (font : Font) :
    Nat → List Nat → MeasureState → Option (Option MeasureState)
  | 0, text, st => if text.length = 0 then some (some st) else none
  | fuel + 1, text, st =>
    if text.length = 0 then some (some st)
    else
      let utf_result := ParseUtf8Sequence false text text.length
      match utf_result.code_position with
      | none => some none
      | some code_position =>
        measureRunText container_width paragraph color font_name font fuel
          (text.drop utf_result.parsed_sequence_length)
          (measureCodePosition container_width paragraph color font_name font code_position st)

/-- The loop over the style runs of a paragraph; `some none` when a font is unknown or a
text is not UTF-8.  A code position takes at least one byte, so the length of a text
bounds the number of its code positions. -/
def measureStyleRuns (container_width : Int) (paragraph : Paragraph)
    (fonts : List (List Char × Font)) :
    List StyleRun → MeasureState → Option (Option MeasureState)
  | [], st => some (some st)
  | style_run :: rest, st =>
    match fonts.lookup style_run.style.font with
    | none => some none
    | some font =>
      match measureRunText container_width paragraph style_run.style.color
          style_run.style.font font style_run.text.length
          (style_run.text.map Char.toNat) st with
      | none => none
      | some none => some none
      | some (some st1) => measureStyleRuns container_width paragraph fonts rest st1

/-- The loop over the paragraphs: every paragraph starts a new line. -/
def measureParagraphs (container_width : Int) (fonts : List (List Char × Font)) :
    List Paragraph → List MeasuredTextLine → Option (Option (List MeasuredTextLine))
  | [], lines => some (some lines)
  | paragraph :: rest, lines =>
    let line_height :=
      match fonts.lookup paragraph.font with
      | none => 0
      | some font => font.GetFontMeasurements.line_height
    match measureStyleRuns container_width paragraph fonts paragraph.style_runs
        { lines_before := lines,
          cur_measured_line := { align := paragraph.paragraph_parameters.align,
                                 wrapping := paragraph.paragraph_parameters.wrapping,
                                 line_height := line_height } } with
    | none => none
    | some none => some none
    | some (some st) =>
      measureParagraphs container_width fonts rest (st.lines_before ++ [st.cur_measured_line])

/-- An entry of `font_to_glyph[from_font].push_back(...)`. -/
def pushFontGlyph (from_font : List Char) (g : MeasuredGlyph) :
    List (List Char × List MeasuredGlyph) → List (List Char × List MeasuredGlyph)
  | [] => [(from_font, [g])]
  | (name, gs) :: rest =>
    if name = from_font then (name, gs ++ [g]) :: rest
    else (name, gs) :: pushFontGlyph from_font g rest

/-- The last loop of `MeasureText` on one line: the offset of the alignment, the height
and the base of the line, the position of every glyph and the glyphs of every font.  The
result is `none` when a glyph has no font (a null `from_font`). -/
def finishLine (container_width : Int) (fonts : List (List Char × Font))
    (measured_line : MeasuredTextLine) : Option MeasuredTextLine :=
  let align_offset :=
    match measured_line.align with
    | HorizontalAlignment.kLeft => 0
    | HorizontalAlignment.kCenter => (container_width - measured_line.line_width).tdiv 2
    | HorizontalAlignment.kRight => container_width - measured_line.line_width
  (measured_line.glyphs.mapM fun (g : MeasuredGlyph) =>
      (g.from_font.bind fonts.lookup).map fun font =>
        (g, font.GetFontMeasurements)).map fun with_measurements =>
    let line_height := with_measurements.foldl (fun h gm => max h gm.2.line_height)
      measured_line.line_height
    let base := with_measurements.foldl (fun b gm => max b gm.2.base) measured_line.base
    let glyphs := with_measurements.map fun gm =>
      { gm.1 with base := gm.2.base,
                  x := gm.1.line_x_advance_before_this_glyph + gm.1.glyph.x_offset,
                  y := base - (gm.2.base - gm.1.glyph.y_offset) }
    { measured_line with
      align_offset := align_offset,
      line_height := line_height,
      base := base,
      glyphs := glyphs,
      font_to_glyph := glyphs.foldl (fun m g => pushFontGlyph (g.from_font.getD []) g m)
        measured_line.font_to_glyph }

/-- `MeasureText(container_width, formatted_text, variables, fonts)`: `none` when a loop
bound is exhausted or a null font is read, `some none` for `std::nullopt`. -/
def MeasureText (container_width : Int) (formatted_text : FormattedText)
    (_vars : List (List Char × List Char)) (fonts : List (List Char × Font)) :
    Option (Option MeasuredText) :=
  if formatted_text.paragraphs.isEmpty then some (some { fonts := fonts })
  else
    match measureParagraphs container_width fonts formatted_text.paragraphs [] with
    | none => none
    | some none => some none
    | some (some lines) =>
      (lines.mapM (finishLine container_width fonts)).map fun measured_lines =>
        some { measured_lines := measured_lines, fonts := fonts }

/-! ## Paragraphs of plain text and example paragraphs -/

/-- The paragraph that the specification gives for one line of plain text: no style run
for an empty line, otherwise one style run with the line and the default style. -/
def plainParagraph (default_style : Style)
    (default_paragraph_parameters : ParagraphParameters) (line : List Char) : Paragraph :=
  { font := default_style.font,
    paragraph_parameters := default_paragraph_parameters,
    style_runs := if line.isEmpty then [] else [{ style := default_style, text := line }] }

/-- The paragraph under construction while plain text is read. -/
def openParagraph (default_style : Style)
    (default_paragraph_parameters : ParagraphParameters) (text : List Char) : Paragraph :=
  { font := default_style.font,
    paragraph_parameters := default_paragraph_parameters,
    style_runs := [{ style := default_style, text := text }] }

/-- The paragraph of the text `seven eight nineteen` with word wrapping and the font
`mono_24`, as `FormatText` returns it. -/
def wordWrapParagraph : Paragraph :=
  { font := "mono_24".toList,
    paragraph_parameters := { align := HorizontalAlignment.kLeft,
                              wrapping := Wrapping.kWordWrap },
    style_runs := [{ style := { font := "mono_24".toList, color := 0xFFFF0000 },
                     text := "seven eight nineteen".toList }] }

/-- Every style run but the last has text. -/
def GoodRuns (runs : List StyleRun) : Prop := ∀ r ∈ runs.dropLast, r.text ≠ []

/-- In every paragraph of the state every style run but the last has text. -/
def FormatState.Inv (st : FormatState) : Prop := ∀ p ∈ st.paragraphs, GoodRuns p.style_runs
end Text

namespace Math

/-! ## Axis-aligned rectangles (`aa_rect2d.hpp`, `vector2d.hpp`)

Coordinates are exact: a `float` coordinate is an element of a linearly ordered field `K`
(the rational numbers in the examples, the real numbers for statements about all
rectangles) and the arithmetic on coordinates does not round. -/

/-- `class Vector2d`: the two coordinates. -/
structure Vector2d (K : Type) where
  x : K
  y : K
deriving DecidableEq

/-- Modelled from the spec: `point2d.hpp` is not among the sources; `aa_rect2d.hpp` uses
a `Point2d` through its two coordinates `x` and `y` only. -/
structure Point2d (K : Type) where
  x : K
  y : K
deriving DecidableEq

/-- `const float eps = 0.0001f`: the binary32 value nearest to one ten-thousandth,
`13743895 / 2^37`. -/
def eps (K : Type) [LinearOrderedField K] : K := 13743895 / 137438953472

/-- `class AARect2d`: `center` and `half_size`. -/
structure AARect2d (K : Type) where
  center : Point2d K
  half_size : Vector2d K
deriving DecidableEq

namespace AARect2d

/-- `AARect2d::IntersectRectangle`. -/
def IntersectRectangle {K : Type} [LinearOrderedField K] (r rect : AARect2d K) :
    Option (AARect2d K) :=
  let left := r.center.x - r.half_size.x
  let right := r.center.x + r.half_size.x
  let bottom := r.center.y - r.half_size.y
  let top := r.center.y + r.half_size.y
  let rect_left := rect.center.x - rect.half_size.x
  let rect_right := rect.center.x + rect.half_size.x
  let rect_bottom := rect.center.y - rect.half_size.y
  let rect_top := rect.center.y + rect.half_size.y
  let possible_left := max left rect_left
  let possible_right := min right rect_right
  if possible_right - possible_left < eps K then none
  else
    let possible_top := min top rect_top
    let possible_bottom := max bottom rect_bottom
    if possible_top - possible_bottom < eps K then none
    else
      some
        { center :=
            { x := (possible_left + possible_right) * (1 / 2),
              y := (possible_bottom + possible_top) * (1 / 2) },
          half_size :=
            { x := (possible_right - possible_left) * (1 / 2),
              y := (possible_top - possible_bottom) * (1 / 2) } }

/-- `AARect2d::Intersect`. -/
def Intersect {K : Type} [LinearOrderedField K] (r rect : AARect2d K) : Bool :=
  (r.IntersectRectangle rect).isSome

end AARect2d

end Math

namespace Audio

/-! # Verification -/

/-! ## The active set: `Play`, `IsPlaying`, `GetNumPlaying` -/

theorem le_foldr_max_of_mem (l : List Nat) (k : Nat) (hk : k ∈ l) : k ≤ l.foldr max 0 := by
  induction l with
  | nil => cases hk
  | cons x xs ih =>
    rcases List.mem_cons.mp hk with h | h
    · subst h
      exact le_max_left _ _
    · exact le_trans (ih h) (le_max_right _ _)

theorem Device.freshHandle_not_playing (d : Device) :
    d.playing_streams_.any (fun e => e.1 == d.freshHandle) = false := by
  rw [List.any_eq_false]
  intro e he hfresh
  have hk : e.1 ∈ (d.playing_streams_ ++ d.released).map Prod.fst :=
    List.mem_map.mpr ⟨e, List.mem_append.mpr (Or.inl he), rfl⟩
  have hle := le_foldr_max_of_mem _ _ hk
  have heq : e.1 = d.freshHandle := by simpa using hfresh
  unfold Device.freshHandle at heq
  omega

theorem Device.play_of_empty (d : Device) (w : WaveFile) (pc : PlayCount) (fc : FadeControl)
    (h : w.GetNumBlocks = 0) : d.Play w pc fc = (d, none) := by
  simp [Device.Play, h]

theorem Device.play_of_nonempty (d : Device) (w : WaveFile) (pc : PlayCount)
    (fc : FadeControl) (h : w.GetNumBlocks ≠ 0) :
    d.Play w pc fc =
      ({ d with playing_streams_ :=
          (d.freshHandle, startPlayingStream
            { wave_file := w, play_count := pc, fade_control := fc }) :: d.playing_streams_ },
        some d.freshHandle) := by
  simp [Device.Play, h, Device.freshHandle_not_playing]

/-- C9. `Play` on a source whose `GetNumBlocks()` is 0 returns the null handle and leaves
the device, hence the active set and `GetNumPlaying()`, unchanged.  The block size of the
source is not 0, so that the division in `GetNumBlocks()` has a value: the data chunk of
such a source is shorter than one block. -/
theorem Device.play_empty_source_rejected (d : Device) (w : WaveFile) (pc : PlayCount)
    (fc : FadeControl) (hblock : w.GetBlockSize ≠ 0) (h : w.GetNumBlocks = 0) :
    w.wave_data_size_ < w.GetBlockSize ∧
      (d.Play w pc fc).2 = none ∧ (d.Play w pc fc).1 = d ∧
      (d.Play w pc fc).1.playing_streams_ = d.playing_streams_ ∧
      (d.Play w pc fc).1.GetNumPlaying = d.GetNumPlaying := by
  rw [Device.play_of_empty d w pc fc h]
  refine ⟨?_, rfl, rfl, rfl, rfl⟩
  unfold WaveFile.GetNumBlocks at h
  exact (Nat.div_eq_zero_iff (Nat.pos_of_ne_zero hblock)).mp h

theorem Device.play_empty_source_rejected_witness :
    emptyWave.GetBlockSize ≠ 0 ∧ emptyWave.GetNumBlocks = 0 ∧
      (emptyWave.wave_data_size_ < emptyWave.GetBlockSize ∧
        (Device.Init.Play emptyWave kPlayOnce kNoFade).2 = none ∧
        (Device.Init.Play emptyWave kPlayOnce kNoFade).1 = Device.Init ∧
        (Device.Init.Play emptyWave kPlayOnce kNoFade).1.playing_streams_ =
          Device.Init.playing_streams_ ∧
        (Device.Init.Play emptyWave kPlayOnce kNoFade).1.GetNumPlaying =
          Device.Init.GetNumPlaying) :=
  ⟨by decide, by decide,
    Device.play_empty_source_rejected Device.Init emptyWave kPlayOnce kNoFade
      (by decide) (by decide)⟩

/-- C10. `Play` on a source with at least one block returns a non-null handle that was
not playing before; immediately afterwards it is playing, `GetNumPlaying()` is one greater
than before, and every handle that was playing before is still playing. -/
theorem Device.play_adds_stream (d : Device) (w : WaveFile) (pc : PlayCount)
    (fc : FadeControl) (h : 1 ≤ w.GetNumBlocks) :
    ∃ k, (d.Play w pc fc).2 = some k ∧
      d.IsPlaying (some k) = false ∧
      (d.Play w pc fc).1.IsPlaying (some k) = true ∧
      (d.Play w pc fc).1.GetNumPlaying = d.GetNumPlaying + 1 ∧
      ∀ p, d.IsPlaying p = true → (d.Play w pc fc).1.IsPlaying p = true := by
  refine ⟨d.freshHandle, ?_⟩
  rw [Device.play_of_nonempty d w pc fc (by omega)]
  refine ⟨rfl, ?_, ?_, ?_, ?_⟩
  · exact Device.freshHandle_not_playing d
  · simp [Device.IsPlaying]
  · simp [Device.GetNumPlaying]
  · intro p hp
    cases p with
    | none => simp [Device.IsPlaying] at hp
    | some q =>
      simp only [Device.IsPlaying] at hp ⊢
      rw [List.any_cons, hp, Bool.or_true]

theorem Device.play_adds_stream_witness :
    1 ≤ threeBlockWave.GetNumBlocks ∧
      ∃ k, (Device.Init.Play threeBlockWave kPlayOnce kNoFade).2 = some k ∧
        Device.Init.IsPlaying (some k) = false ∧
        (Device.Init.Play threeBlockWave kPlayOnce kNoFade).1.IsPlaying (some k) = true ∧
        (Device.Init.Play threeBlockWave kPlayOnce kNoFade).1.GetNumPlaying =
          Device.Init.GetNumPlaying + 1 ∧
        ∀ p, Device.Init.IsPlaying p = true →
          (Device.Init.Play threeBlockWave kPlayOnce kNoFade).1.IsPlaying p = true :=
  ⟨by decide, Device.play_adds_stream Device.Init threeBlockWave kPlayOnce kNoFade
    (by decide)⟩

/-! ## The per-stream mixing loop -/

theorem mixStreamLoop_succ (add : Int → Int → Int) (gain : Int) (req fuel : Nat)
    (s : PlayingStreamInternal) (sent : Nat) (mix : List StereoBlock32) (h : sent < req) :
    mixStreamLoop add gain req (fuel + 1) s sent mix =
      if reachedEnd (loopAdvance req sent s) then
        some { stream := loopAdvance req sent s, mix := loopMix add gain req sent s mix,
               marked := true, runs := [loopRun req sent s] }
      else
        (mixStreamLoop add gain req fuel (loopAdvance req sent s)
          (sent + loopRead req sent s) (loopMix add gain req sent s mix)).map
          fun r => { r with runs := loopRun req sent s :: r.runs } := by
  simp only [mixStreamLoop, h, if_true, loopRead, loopAdvance, loopMix, loopRun, reachedEnd,
    decide_eq_true_eq]

theorem mixStreamLoop_done (add : Int → Int → Int) (gain : Int) (req fuel : Nat)
    (s : PlayingStreamInternal) (sent : Nat) (mix : List StereoBlock32) (h : ¬ sent < req) :
    mixStreamLoop add gain req fuel s sent mix =
      some { stream := s, mix := mix, marked := false, runs := [] } := by
  cases fuel <;> simp [mixStreamLoop, h]


/-- Induction along the iterations of the per-stream loop: a property that holds when the
loop exits, when a pass marks the stream, and is carried backwards over a pass, holds of
every result of the loop. -/
theorem mixStreamLoop_induct (add : Int → Int → Int) (gain : Int) (req : Nat)
    (P : PlayingStreamInternal → Nat → List StereoBlock32 → StreamMix → Prop)
    (hexit : ∀ s sent mix, ¬ sent < req →
      P s sent mix { stream := s, mix := mix, marked := false, runs := [] })
    (hmark : ∀ s sent mix, sent < req → reachedEnd (loopAdvance req sent s) →
      P s sent mix { stream := loopAdvance req sent s, mix := loopMix add gain req sent s mix,
                     marked := true, runs := [loopRun req sent s] })
    (hstep : ∀ s sent mix r, sent < req → ¬ reachedEnd (loopAdvance req sent s) →
      P (loopAdvance req sent s) (sent + loopRead req sent s)
        (loopMix add gain req sent s mix) r →
      P s sent mix { r with runs := loopRun req sent s :: r.runs }) :
    ∀ fuel s sent mix r, mixStreamLoop add gain req fuel s sent mix = some r →
      P s sent mix r := by
  intro fuel
  induction fuel with
  | zero =>
    intro s sent mix r h
    by_cases hs : sent < req
    · simp [mixStreamLoop, hs] at h
    · rw [mixStreamLoop_done add gain req 0 s sent mix hs] at h
      cases h
      exact hexit s sent mix hs
  | succ fuel ih =>
    intro s sent mix r h
    by_cases hs : sent < req
    · rw [mixStreamLoop_succ add gain req fuel s sent mix hs] at h
      by_cases hm : reachedEnd (loopAdvance req sent s)
      · rw [if_pos hm] at h
        cases h
        exact hmark s sent mix hs hm
      · rw [if_neg hm] at h
        rcases Option.map_eq_some'.mp h with ⟨r1, hr1, rfl⟩
        exact hstep s sent mix r1 hs hm (ih _ _ _ _ hr1)
    · rw [mixStreamLoop_done add gain req (fuel + 1) s sent mix hs] at h
      cases h
      exact hexit s sent mix hs

theorem sizeSub_of_le (a b : Nat) (h : b ≤ a) : sizeSub a b = a - b := by
  simp [sizeSub, h]

theorem loopRead_le_left (req sent : Nat) (s : PlayingStreamInternal) (hs : sent < req)
    (hl : s.looped_blocks_streamed ≤ s.wave_file.GetNumBlocks) :
    loopRead req sent s ≤ req - sent := by
  unfold loopRead
  rw [sizeSub_of_le req sent (by omega), sizeSub_of_le _ _ hl]
  split <;> omega

theorem loopRead_le_source (req sent : Nat) (s : PlayingStreamInternal) (hs : sent < req)
    (hl : s.looped_blocks_streamed ≤ s.wave_file.GetNumBlocks) :
    s.looped_blocks_streamed + loopRead req sent s ≤ s.wave_file.GetNumBlocks := by
  unfold loopRead
  rw [sizeSub_of_le req sent (by omega), sizeSub_of_le _ _ hl]
  split <;> omega

theorem loopAdvance_wave_file (req sent : Nat) (s : PlayingStreamInternal) :
    (loopAdvance req sent s).wave_file = s.wave_file := rfl

theorem loopAdvance_to_play (req sent : Nat) (s : PlayingStreamInternal) :
    (loopAdvance req sent s).total_blocks_to_play = s.total_blocks_to_play := rfl

theorem loopAdvance_total (req sent : Nat) (s : PlayingStreamInternal) :
    (loopAdvance req sent s).total_blocks_streamed =
      s.total_blocks_streamed + loopRead req sent s := rfl

theorem loopAdvance_looped_le (req sent : Nat) (s : PlayingStreamInternal) (hs : sent < req)
    (hl : s.looped_blocks_streamed ≤ s.wave_file.GetNumBlocks) :
    (loopAdvance req sent s).looped_blocks_streamed ≤ s.wave_file.GetNumBlocks := by
  have h1 := loopRead_le_source req sent s hs hl
  simp only [loopAdvance]
  split <;> omega


theorem sameButCounters_refl (s : PlayingStreamInternal) : sameButCounters s s :=
  ⟨rfl, rfl, rfl, rfl, rfl, rfl, rfl, rfl, rfl⟩

theorem sameButCounters_trans (s t u : PlayingStreamInternal) (h1 : sameButCounters s t)
    (h2 : sameButCounters t u) : sameButCounters s u := by
  obtain ⟨a1, a2, a3, a4, a5, a6, a7, a8, a9⟩ := h1
  obtain ⟨b1, b2, b3, b4, b5, b6, b7, b8, b9⟩ := h2
  exact ⟨b1.trans a1, b2.trans a2, b3.trans a3, b4.trans a4, b5.trans a5, b6.trans a6,
    b7.trans a7, b8.trans a8, b9.trans a9⟩

theorem loopAdvance_sameButCounters (req sent : Nat) (s : PlayingStreamInternal) :
    sameButCounters s (loopAdvance req sent s) :=
  ⟨rfl, rfl, rfl, rfl, rfl, rfl, rfl, rfl, rfl⟩

/-- The loop writes only the three counters of a record. -/
theorem mixStreamLoop_sameButCounters (add : Int → Int → Int) (gain : Int)
    (req fuel : Nat) (s : PlayingStreamInternal) (sent : Nat) (mix : List StereoBlock32)
    (r : StreamMix) (h : mixStreamLoop add gain req fuel s sent mix = some r) :
    sameButCounters s r.stream := by
  refine mixStreamLoop_induct add gain req (fun s _ _ r => sameButCounters s r.stream)
    ?_ ?_ ?_ fuel s sent mix r h
  · intro s _ _ _
    exact sameButCounters_refl s
  · intro s sent _ _ _
    exact loopAdvance_sameButCounters req sent s
  · intro s sent _ r _ _ ih
    exact sameButCounters_trans _ _ _ (loopAdvance_sameButCounters req sent s) ih

theorem loopAdvance_countersOk (req sent : Nat) (s : PlayingStreamInternal) (hs : sent < req)
    (hc : CountersOk s) : CountersOk (loopAdvance req sent s) := by
  obtain ⟨hl, hp, ht⟩ := hc
  have h1 := loopRead_le_source req sent s hs hl
  refine ⟨loopAdvance_looped_le req sent s hs hl, ?_, ?_⟩
  · simp only [loopAdvance]
    split <;> omega
  · simp only [loopAdvance, loopRead] at h1 ⊢
    rw [sizeSub_of_le req sent (by omega), sizeSub_of_le _ _ hl] at h1 ⊢
    split
    · rename_i hw
      rw [if_pos hw] at h1
      push_cast [Nat.cast_sub hl]
      rw [ht]
      ring
    · rename_i hw
      push_cast
      rw [ht]
      ring

/-- The loop keeps the counters consistent. -/
theorem mixStreamLoop_countersOk (add : Int → Int → Int) (gain : Int)
    (req fuel : Nat) (s : PlayingStreamInternal) (sent : Nat) (mix : List StereoBlock32)
    (r : StreamMix) (h : mixStreamLoop add gain req fuel s sent mix = some r)
    (hc : CountersOk s) : CountersOk r.stream := by
  refine mixStreamLoop_induct add gain req (fun s _ _ r => CountersOk s → CountersOk r.stream)
    ?_ ?_ ?_ fuel s sent mix r h hc
  · intro s _ _ _ hc
    exact hc
  · intro s sent _ hs _ hc
    exact loopAdvance_countersOk req sent s hs hc
  · intro s sent _ r hs _ ih hc
    exact ih (loopAdvance_countersOk req sent s hs hc)

/-- The blocks streamed by the loop: never more than the frames still requested, exactly
those when the stream is not marked; the stream is marked exactly when it has reached its
`total_blocks_to_play`. -/
theorem mixStreamLoop_total (add : Int → Int → Int) (gain : Int)
    (req fuel : Nat) (s : PlayingStreamInternal) (sent : Nat) (mix : List StereoBlock32)
    (r : StreamMix) (h : mixStreamLoop add gain req fuel s sent mix = some r)
    (hl : s.looped_blocks_streamed ≤ s.wave_file.GetNumBlocks) :
    s.total_blocks_streamed ≤ r.stream.total_blocks_streamed ∧
      r.stream.total_blocks_streamed ≤ s.total_blocks_streamed + (req - sent) ∧
      (r.marked = false →
        r.stream.total_blocks_streamed = s.total_blocks_streamed + (req - sent)) ∧
      (r.marked = true →
        s.total_blocks_to_play ≠ 0 ∧ s.total_blocks_to_play ≤ r.stream.total_blocks_streamed) ∧
      (r.marked = false → sent < req →
        ¬ (s.total_blocks_to_play ≠ 0 ∧
          s.total_blocks_to_play ≤ r.stream.total_blocks_streamed)) := by
  refine mixStreamLoop_induct add gain req
    (fun s sent _ r => s.looped_blocks_streamed ≤ s.wave_file.GetNumBlocks →
      s.total_blocks_streamed ≤ r.stream.total_blocks_streamed ∧
      r.stream.total_blocks_streamed ≤ s.total_blocks_streamed + (req - sent) ∧
      (r.marked = false →
        r.stream.total_blocks_streamed = s.total_blocks_streamed + (req - sent)) ∧
      (r.marked = true →
        s.total_blocks_to_play ≠ 0 ∧ s.total_blocks_to_play ≤ r.stream.total_blocks_streamed) ∧
      (r.marked = false → sent < req →
        ¬ (s.total_blocks_to_play ≠ 0 ∧
          s.total_blocks_to_play ≤ r.stream.total_blocks_streamed)))
    ?_ ?_ ?_ fuel s sent mix r h hl
  · intro s sent _ hs _
    dsimp only
    refine ⟨le_refl _, by omega, ?_, ?_, ?_⟩
    · intro _
      omega
    · intro hm
      cases hm
    · intro _ hlt
      exact absurd hlt hs
  · intro s sent _ hs hm hl
    have h1 := loopRead_le_left req sent s hs hl
    dsimp only
    rw [loopAdvance_total]
    refine ⟨by omega, by omega, ?_, ?_, ?_⟩
    · intro hf
      cases hf
    · intro _
      have hm2 := hm
      unfold reachedEnd at hm2
      rw [loopAdvance_to_play, loopAdvance_total] at hm2
      exact hm2
    · intro hf
      cases hf
  · intro s sent _ r hs hm ih hl
    have h1 := loopRead_le_left req sent s hs hl
    obtain ⟨i1, i2, i3, i4, i5⟩ := ih (loopAdvance_looped_le req sent s hs hl)
    rw [loopAdvance_total] at i1 i2 i3
    rw [loopAdvance_to_play] at i4 i5
    unfold reachedEnd at hm
    rw [loopAdvance_to_play, loopAdvance_total] at hm
    dsimp only
    refine ⟨by omega, by omega, ?_, i4, ?_⟩
    · intro hf
      have := i3 hf
      omega
    · intro hf _
      by_cases hlt : sent + loopRead req sent s < req
      · exact i5 hf hlt
      · have e := i3 hf
        intro hre
        apply hm
        refine ⟨hre.1, ?_⟩
        have := hre.2
        omega

/-- The per-stream loop returns for every source with at least one block, given a number
of iterations that covers two per frame still requested. -/
theorem mixStreamLoop_terminates (add : Int → Int → Int) (gain : Int) (req : Nat) :
    ∀ (fuel : Nat) (s : PlayingStreamInternal) (sent : Nat) (mix : List StereoBlock32),
      1 ≤ s.wave_file.GetNumBlocks →
      s.looped_blocks_streamed ≤ s.wave_file.GetNumBlocks →
      2 * (req - sent) +
        (if s.looped_blocks_streamed = s.wave_file.GetNumBlocks then 1 else 0) ≤ fuel →
      ∃ r, mixStreamLoop add gain req fuel s sent mix = some r := by
  intro fuel
  induction fuel with
  | zero =>
    intro s sent mix _ _ hf
    have hs : ¬ sent < req := by omega
    exact ⟨_, mixStreamLoop_done add gain req 0 s sent mix hs⟩
  | succ fuel ih =>
    intro s sent mix hN hl hf
    by_cases hs : sent < req
    · rw [mixStreamLoop_succ add gain req fuel s sent mix hs]
      by_cases hm : reachedEnd (loopAdvance req sent s)
      · rw [if_pos hm]
        exact ⟨_, rfl⟩
      · rw [if_neg hm]
        have h1 := loopRead_le_left req sent s hs hl
        have h2 := loopRead_le_source req sent s hs hl
        have hmeasure : 2 * (req - (sent + loopRead req sent s)) +
            (if (loopAdvance req sent s).looped_blocks_streamed =
              (loopAdvance req sent s).wave_file.GetNumBlocks then 1 else 0) ≤ fuel := by
          rw [loopAdvance_wave_file]
          simp only [loopAdvance, loopRead] at h1 h2 ⊢
          rw [sizeSub_of_le req sent (by omega), sizeSub_of_le _ _ hl] at h1 h2 ⊢
          split_ifs at h1 h2 hf ⊢ <;> omega
        obtain ⟨r, hr⟩ := ih (loopAdvance req sent s) (sent + loopRead req sent s)
          (loopMix add gain req sent s mix) (by rw [loopAdvance_wave_file]; exact hN)
          (by rw [loopAdvance_wave_file]; exact loopAdvance_looped_le req sent s hs hl)
          hmeasure
        exact ⟨_, by rw [hr]; rfl⟩
    · exact ⟨_, mixStreamLoop_done add gain req (fuel + 1) s sent mix hs⟩

theorem mixStreamLoop_returns (add : Int → Int → Int) (gain : Int) (req : Nat)
    (s : PlayingStreamInternal) (mix : List StereoBlock32)
    (hN : 1 ≤ s.wave_file.GetNumBlocks)
    (hl : s.looped_blocks_streamed ≤ s.wave_file.GetNumBlocks) :
    ∃ r, mixStreamLoop add gain req (mixFuel req) s 0 mix = some r := by
  apply mixStreamLoop_terminates add gain req (mixFuel req) s 0 mix hN hl
  unfold mixFuel
  split <;> omega


/-! ## The gain update leaves the counters alone -/

theorem sameButGain_refl (s : PlayingStreamInternal) : sameButGain s s :=
  ⟨rfl, rfl, rfl, rfl, rfl, rfl, rfl, rfl, rfl⟩

theorem sameButGain_trans (s t u : PlayingStreamInternal) (h1 : sameButGain s t)
    (h2 : sameButGain t u) : sameButGain s u := by
  obtain ⟨a1, a2, a3, a4, a5, a6, a7, a8, a9⟩ := h1
  obtain ⟨b1, b2, b3, b4, b5, b6, b7, b8, b9⟩ := h2
  exact ⟨b1.trans a1, b2.trans a2, b3.trans a3, b4.trans a4, b5.trans a5, b6.trans a6,
    b7.trans a7, b8.trans a8, b9.trans a9⟩

theorem sameButGain_sameCounters (s t : PlayingStreamInternal) (h : sameButGain s t) :
    sameCounters s t :=
  ⟨h.1, h.2.2.1, h.2.2.2.2.1, h.2.2.2.2.2.1⟩

theorem sameCounters_trans (s t u : PlayingStreamInternal) (h1 : sameCounters s t)
    (h2 : sameCounters t u) : sameCounters s u := by
  obtain ⟨a1, a2, a3, a4⟩ := h1
  obtain ⟨b1, b2, b3, b4⟩ := h2
  exact ⟨b1.trans a1, b2.trans a2, b3.trans a3, b4.trans a4⟩

theorem applyStopControl_none (s : PlayingStreamInternal)
    (h : s.stop_control_in_callback = none) : applyStopControl s = some s := by
  simp [applyStopControl, h]

theorem applyStopControl_sameCounters (s t : PlayingStreamInternal)
    (h : applyStopControl s = some t) :
    sameCounters s t ∧ t.stop_control = s.stop_control ∧ t.stop_control_in_callback = none := by
  unfold applyStopControl at h
  split at h
  · rename_i hnone
    cases h
    exact ⟨⟨rfl, rfl, rfl, rfl⟩, rfl, hnone⟩
  · rcases Option.bind_eq_some.mp h with ⟨w, _, hw⟩
    rcases Option.bind_eq_some.mp hw with ⟨f, _, hf⟩
    cases hf
    exact ⟨⟨rfl, rfl, rfl, rfl⟩, rfl, rfl⟩

theorem attackToRelease_sameButGain (s t : PlayingStreamInternal)
    (h : attackToRelease s = some t) : sameButGain s t := by
  unfold attackToRelease at h
  split at h
  · split at h
    · rcases Option.bind_eq_some.mp h with ⟨w, _, hw⟩
      split at hw
      · cases hw
        exact ⟨rfl, rfl, rfl, rfl, rfl, rfl, rfl, rfl, rfl⟩
      · cases hw
        exact sameButGain_refl s
    · cases h
      exact sameButGain_refl s
  · cases h
    exact sameButGain_refl s

theorem attackRamp_sameButGain (s t : PlayingStreamInternal) (g0 g : Int)
    (h : attackRamp s g0 = some (t, g)) : sameButGain s t := by
  unfold attackRamp at h
  split at h
  · rcases Option.bind_eq_some.mp h with ⟨w, _, hw⟩
    split at hw
    · cases hw
      exact ⟨rfl, rfl, rfl, rfl, rfl, rfl, rfl, rfl, rfl⟩
    · rcases Option.bind_eq_some.mp hw with ⟨ramp, _, hr⟩
      rcases Option.bind_eq_some.mp hr with ⟨gi, _, hg⟩
      cases hg
      exact ⟨rfl, rfl, rfl, rfl, rfl, rfl, rfl, rfl, rfl⟩
  · cases h
    exact sameButGain_refl s

theorem sustainToRelease_sameButGain (s t : PlayingStreamInternal)
    (h : sustainToRelease s = some t) : sameButGain s t := by
  unfold sustainToRelease at h
  split at h
  · split at h
    · split at h
      · rcases Option.bind_eq_some.mp h with ⟨w, _, hw⟩
        split at hw
        · cases hw
          exact ⟨rfl, rfl, rfl, rfl, rfl, rfl, rfl, rfl, rfl⟩
        · cases hw
          exact sameButGain_refl s
      · cases h
        exact sameButGain_refl s
    · cases h
      exact sameButGain_refl s
  · cases h
    exact sameButGain_refl s

theorem releaseGain_sameButGain (s t : PlayingStreamInternal) (g0 g : Int)
    (h : releaseGain s g0 = some (t, g)) : sameButGain s t := by
  unfold releaseGain at h
  split at h
  · split at h
    · cases h
      exact ⟨rfl, rfl, rfl, rfl, rfl, rfl, rfl, rfl, rfl⟩
    · rcases Option.bind_eq_some.mp h with ⟨w, _, hw⟩
      rcases Option.bind_eq_some.mp hw with ⟨c, _, hc⟩
      rcases Option.bind_eq_some.mp hc with ⟨gi, _, hg⟩
      cases hg
      exact ⟨rfl, rfl, rfl, rfl, rfl, rfl, rfl, rfl, rfl⟩
  · cases h
    exact sameButGain_refl s

/-- The decomposition of `updateGainStateInCallback` into its five stages. -/
theorem updateGain_stages (s t : PlayingStreamInternal) (g : Int)
    (h : updateGainStateInCallback s = some (t, g)) :
    ∃ s1 s2 s3 g3 s4, applyStopControl s = some s1 ∧ attackToRelease s1 = some s2 ∧
      attackRamp s2 kMaxGain = some (s3, g3) ∧ sustainToRelease s3 = some s4 ∧
      releaseGain s4 g3 = some (t, g) := by
  unfold updateGainStateInCallback at h
  rcases Option.bind_eq_some.mp h with ⟨s1, h1, h⟩
  rcases Option.bind_eq_some.mp h with ⟨s2, h2, h⟩
  rcases Option.bind_eq_some.mp h with ⟨r3, h3, h⟩
  rcases Option.bind_eq_some.mp h with ⟨s4, h4, h⟩
  exact ⟨s1, s2, r3.1, r3.2, s4, h1, h2, h3, h4, h⟩

/-- After the stop command has been applied, the rest of the gain update writes only the
gain fields. -/
theorem updateGain_after_stop (s t : PlayingStreamInternal) (g : Int)
    (h : updateGainStateInCallback s = some (t, g)) :
    ∃ s1, applyStopControl s = some s1 ∧ sameButGain s1 t := by
  obtain ⟨s1, s2, s3, g3, s4, h1, h2, h3, h4, h5⟩ := updateGain_stages s t g h
  exact ⟨s1, h1, sameButGain_trans _ _ _ (attackToRelease_sameButGain _ _ h2)
    (sameButGain_trans _ _ _ (attackRamp_sameButGain _ _ _ _ h3)
      (sameButGain_trans _ _ _ (sustainToRelease_sameButGain _ _ h4)
        (releaseGain_sameButGain _ _ _ _ h5)))⟩

theorem updateGain_sameCounters (s t : PlayingStreamInternal) (g : Int)
    (h : updateGainStateInCallback s = some (t, g)) :
    sameCounters s t ∧ t.stop_control = s.stop_control ∧ t.stop_control_in_callback = none := by
  obtain ⟨s1, h1, h2⟩ := updateGain_after_stop s t g h
  obtain ⟨c1, c2, c3⟩ := applyStopControl_sameCounters s s1 h1
  refine ⟨sameCounters_trans _ _ _ c1 (sameButGain_sameCounters _ _ h2), ?_, ?_⟩
  · rw [h2.2.2.2.2.2.2.2.1, c2]
  · rw [h2.2.2.2.2.2.2.2.2, c3]

theorem updateGain_sameButGain (s t : PlayingStreamInternal) (g : Int)
    (hs : s.stop_control_in_callback = none)
    (h : updateGainStateInCallback s = some (t, g)) : sameButGain s t := by
  obtain ⟨s1, h1, h2⟩ := updateGain_after_stop s t g h
  rw [applyStopControl_none s hs] at h1
  cases h1
  exact h2

theorem snapshotStream_sameCounters (s t : PlayingStreamInternal) (g : Int)
    (h : snapshotStream s = some (t, g)) :
    sameCounters s t ∧ t.stop_control = none ∧ t.stop_control_in_callback = none := by
  unfold snapshotStream at h
  by_cases hsome : s.stop_control.isSome = true
  · rw [if_pos hsome] at h
    exact updateGain_sameCounters _ t g h
  · rw [if_neg hsome] at h
    obtain ⟨c, h1, h2⟩ := updateGain_sameCounters _ t g h
    refine ⟨c, ?_, h2⟩
    rw [h1]
    simpa using hsome

theorem snapshotStream_sameButGain (s t : PlayingStreamInternal) (g : Int)
    (h1 : s.stop_control = none) (h2 : s.stop_control_in_callback = none)
    (h : snapshotStream s = some (t, g)) : sameButGain s t := by
  unfold snapshotStream at h
  rw [h1] at h
  exact updateGain_sameButGain s t g h2 h


/-! ## One callback, stream by stream -/

theorem mixAll_entries (add : Int → Int → Int) (req : Nat) :
    ∀ (l : List (Nat × PlayingStreamInternal))
      (snaps : List (Nat × PlayingStreamInternal × Int)) (mix : List StereoBlock32)
      (ms : List MixedStream) (mix1 : List StereoBlock32),
      snapshotAll l = some snaps → mixAll add req snaps mix = some (ms, mix1) →
      List.Forall₂ (EntryCallback add req) l ms := by
  intro l
  induction l with
  | nil =>
    intro snaps mix ms mix1 h1 h2
    simp only [snapshotAll, Option.some.injEq] at h1
    subst h1
    simp only [mixAll, Option.some.injEq, Prod.mk.injEq] at h2
    rw [← h2.1]
    exact List.Forall₂.nil
  | cons e rest ih =>
    intro snaps mix ms mix1 h1 h2
    obtain ⟨h, s⟩ := e
    simp only [snapshotAll] at h1
    rcases Option.bind_eq_some.mp h1 with ⟨r, hr, h1⟩
    rcases Option.map_eq_some'.mp h1 with ⟨rs, hrs, rfl⟩
    simp only [mixAll] at h2
    rcases Option.bind_eq_some.mp h2 with ⟨sm, hsm, h2⟩
    rcases Option.map_eq_some'.mp h2 with ⟨p, hp, hpe⟩
    simp only [Prod.mk.injEq] at hpe
    rw [← hpe.1]
    refine List.Forall₂.cons ⟨rfl, r.1, r.2, mix, sm.mix, hr, ?_⟩ (ih rs sm.mix p.1 p.2 hrs hp)
    exact hsm

/-- The effect of `fillMixBuffer` on the active set: every entry is run through the gain
update and the loop; the unmarked ones form the new active set, the marked ones are
released. -/
theorem fillMixBufferWith_entries (add : Int → Int → Int) (d d1 : Device) (amount : Int)
    (ms : List MixedStream) (h : d.fillMixBufferWith add amount = some (d1, ms)) :
    List.Forall₂ (EntryCallback add (Device.numRequestedBlocks amount)) d.playing_streams_ ms ∧
      d1.playing_streams_ = (ms.filter (fun m => !m.marked)).map (fun m => (m.handle, m.stream)) ∧
      d1.released =
        (ms.filter (fun m => m.marked)).map (fun m => (m.handle, m.stream)) ++ d.released := by
  unfold Device.fillMixBufferWith at h
  rcases Option.map_eq_some'.mp h with ⟨p, hp, hpe⟩
  unfold Device.mixAccumulators at hp
  rcases Option.bind_eq_some.mp hp with ⟨snaps, hsnaps, hp⟩
  simp only [Prod.mk.injEq] at hpe
  obtain ⟨hd, hms⟩ := hpe
  subst hms
  refine ⟨mixAll_entries add _ _ snaps _ p.1 p.2 hsnaps hp, ?_, ?_⟩
  · rw [← hd]
  · rw [← hd]

theorem dataCallback_zero (d : Device) :
    d.dataCallback 0 = some { device := d, sent := [], mixed := [] } := by
  simp [Device.dataCallback]

theorem dataCallback_entries (d : Device) (amount : Int) (res : CallbackResult)
    (ha : amount ≠ 0) (h : d.dataCallback amount = some res) :
    List.Forall₂ (EntryCallback add32 (Device.numRequestedBlocks amount))
        d.playing_streams_ res.mixed ∧
      res.device.playing_streams_ =
        (res.mixed.filter (fun m => !m.marked)).map (fun m => (m.handle, m.stream)) ∧
      res.device.released =
        (res.mixed.filter (fun m => m.marked)).map (fun m => (m.handle, m.stream)) ++
          d.released := by
  unfold Device.dataCallback at h
  rw [if_neg ha] at h
  rcases Option.map_eq_some'.mp h with ⟨p, hp, rfl⟩
  obtain ⟨h1, h2, h3⟩ := fillMixBufferWith_entries add32 d p.1 amount p.2 hp
  exact ⟨h1, h2, h3⟩


/-! ## Following one stream through a history -/

theorem any_eq_filter_ne_nil (l : List (Nat × PlayingStreamInternal)) (h : Nat) :
    l.any (fun e => e.1 == h) = !(l.filter (fun e => e.1 == h)).isEmpty := by
  induction l with
  | nil => rfl
  | cons x xs ih =>
    by_cases hx : (x.1 == h) = true
    · simp [List.filter_cons, hx]
    · simp only [Bool.not_eq_true] at hx
      simp [List.filter_cons, hx, ih]

theorem Device.Active.isPlaying {d : Device} {h : Nat} {s : PlayingStreamInternal}
    (ha : d.Active h s) : d.IsPlaying (some h) = true := by
  unfold Device.Active at ha
  show d.playing_streams_.any (fun e => e.1 == h) = true
  rw [any_eq_filter_ne_nil, ha]
  rfl

theorem Device.Gone.not_isPlaying {d : Device} {h : Nat} {s : PlayingStreamInternal}
    (hg : d.Gone h s) : d.IsPlaying (some h) = false := by
  show d.playing_streams_.any (fun e => e.1 == h) = false
  rw [any_eq_filter_ne_nil, hg.1]
  rfl

theorem Device.Gone.not_mem {d : Device} {h : Nat} {s : PlayingStreamInternal}
    (hg : d.Gone h s) : h ∉ d.playing_streams_.map Prod.fst := by
  intro hm
  rcases List.mem_map.mp hm with ⟨e, he, hk⟩
  have : e ∈ d.playing_streams_.filter (fun e => e.1 == h) :=
    List.mem_filter.mpr ⟨he, by simp [hk]⟩
  rw [hg.1] at this
  cases this

theorem Device.Active.active_record {d : Device} {h : Nat} {s : PlayingStreamInternal}
    (ha : d.Active h s) : d.record h = some s := by
  unfold Device.Active at ha
  unfold Device.record
  rw [← List.filter_head?, List.filter_append, ha]
  rfl

theorem Device.Gone.gone_record {d : Device} {h : Nat} {s : PlayingStreamInternal}
    (hg : d.Gone h s) : d.record h = some s := by
  obtain ⟨h1, h2⟩ := hg
  unfold Device.record
  rw [← List.filter_head?, List.filter_append, h1, List.nil_append, h2]
  rfl

theorem mem_keys_lt_freshHandle (d : Device) (e : Nat × PlayingStreamInternal)
    (he : e ∈ d.playing_streams_ ++ d.released) : e.1 < d.freshHandle := by
  have hk : e.1 ∈ (d.playing_streams_ ++ d.released).map Prod.fst :=
    List.mem_map.mpr ⟨e, he, rfl⟩
  have hle := le_foldr_max_of_mem _ _ hk
  unfold Device.freshHandle
  omega

theorem Device.Active.active_mem {d : Device} {h : Nat} {s : PlayingStreamInternal}
    (ha : d.Active h s) : (h, s) ∈ d.playing_streams_ := by
  have : (h, s) ∈ d.playing_streams_.filter (fun e => e.1 == h) := by
    rw [ha]
    exact List.mem_singleton.mpr rfl
  exact (List.mem_filter.mp this).1

theorem Device.Gone.gone_mem {d : Device} {h : Nat} {s : PlayingStreamInternal}
    (hg : d.Gone h s) : (h, s) ∈ d.released := by
  have : (h, s) ∈ d.released.filter (fun e => e.1 == h) := List.mem_of_mem_head? hg.2
  exact (List.mem_filter.mp this).1

/-- `Play` puts the new record in the active set under the returned handle. -/
theorem Device.play_active (d : Device) (w : WaveFile) (pc : PlayCount) (fc : FadeControl)
    (hN : w.GetNumBlocks ≠ 0) :
    (d.Play w pc fc).2 = some d.freshHandle ∧
      (d.Play w pc fc).1.Active d.freshHandle
        (startPlayingStream { wave_file := w, play_count := pc, fade_control := fc }) := by
  rw [Device.play_of_nonempty d w pc fc hN]
  refine ⟨rfl, ?_⟩
  unfold Device.Active
  have hf := Device.freshHandle_not_playing d
  rw [any_eq_filter_ne_nil] at hf
  simp only [List.filter_cons, beq_self_eq_true, if_true]
  simp only [Bool.not_eq_false_eq_eq_true, List.isEmpty_iff] at hf
  rw [hf]

theorem filter_key_play (d : Device) (w : WaveFile) (pc : PlayCount) (fc : FadeControl)
    (h : Nat) (hlt : h < d.freshHandle) :
    (d.Play w pc fc).1.playing_streams_.filter (fun e => e.1 == h) =
      d.playing_streams_.filter (fun e => e.1 == h) ∧
    (d.Play w pc fc).1.released = d.released := by
  by_cases hN : w.GetNumBlocks = 0
  · rw [Device.play_of_empty d w pc fc hN]
    exact ⟨rfl, rfl⟩
  · rw [Device.play_of_nonempty d w pc fc hN]
    refine ⟨?_, rfl⟩
    have hne : (d.freshHandle == h) = false := by
      simp only [beq_eq_false_iff_ne, ne_eq]
      omega
    simp [List.filter_cons, hne]

theorem Device.Active.active_play {d : Device} {h : Nat} {s : PlayingStreamInternal}
    (ha : d.Active h s) (w : WaveFile) (pc : PlayCount) (fc : FadeControl) :
    (d.Play w pc fc).1.Active h s := by
  have hlt := mem_keys_lt_freshHandle d (h, s) (List.mem_append.mpr (Or.inl ha.active_mem))
  unfold Device.Active
  rw [(filter_key_play d w pc fc h hlt).1]
  exact ha

theorem Device.Gone.gone_play {d : Device} {h : Nat} {s : PlayingStreamInternal}
    (hg : d.Gone h s) (w : WaveFile) (pc : PlayCount) (fc : FadeControl) :
    (d.Play w pc fc).1.Gone h s := by
  have hlt := mem_keys_lt_freshHandle d (h, s) (List.mem_append.mpr (Or.inr hg.gone_mem))
  unfold Device.Gone
  rw [(filter_key_play d w pc fc h hlt).1, (filter_key_play d w pc fc h hlt).2]
  exact hg

theorem filter_key_setStopControl (l : List (Nat × PlayingStreamInternal)) (h k : Nat)
    (sc : StopControl) (hne : k ≠ h) :
    (l.map (Device.setStopControl k sc)).filter (fun e => e.1 == h) =
      l.filter (fun e => e.1 == h) := by
  induction l with
  | nil => rfl
  | cons x xs ih =>
    by_cases hx : x.1 = k
    · have h1 : (Device.setStopControl k sc x).1 = k := by simp [Device.setStopControl, hx]
      have h2 : (k == h) = false := by simpa using hne
      simp only [List.map_cons, List.filter_cons, h1, h2, hx, ih]
      simp
    · have h1 : Device.setStopControl k sc x = x := by simp [Device.setStopControl, hx]
      simp only [List.map_cons, List.filter_cons, h1, ih]

theorem Device.Active.active_stop {d : Device} {h : Nat} {s : PlayingStreamInternal}
    (ha : d.Active h s) (p : Option Nat) (sc : StopControl) (hp : p ≠ some h) :
    (d.Stop p sc).Active h s := by
  cases p with
  | none => exact ha
  | some k =>
    have hne : k ≠ h := fun e => hp (by rw [e])
    unfold Device.Active
    simp only [Device.Stop]
    rw [filter_key_setStopControl _ h k sc hne]
    exact ha

theorem Device.Gone.gone_stop {d : Device} {h : Nat} {s : PlayingStreamInternal}
    (hg : d.Gone h s) (p : Option Nat) (sc : StopControl) (hp : p ≠ some h) :
    (d.Stop p sc).Gone h s := by
  cases p with
  | none => exact hg
  | some k =>
    have hne : k ≠ h := fun e => hp (by rw [e])
    unfold Device.Gone
    simp only [Device.Stop]
    rw [filter_key_setStopControl _ h k sc hne, filter_key_setStopControl _ h k sc hne]
    exact hg

theorem filter_key_filter_ne (l : List (Nat × PlayingStreamInternal)) (h k : Nat)
    (hne : k ≠ h) :
    (l.filter (fun e => e.1 != k)).filter (fun e => e.1 == h) =
        l.filter (fun e => e.1 == h) ∧
      (l.filter (fun e => e.1 == k)).filter (fun e => e.1 == h) = [] := by
  induction l with
  | nil => exact ⟨rfl, rfl⟩
  | cons x xs ih =>
    by_cases hx : x.1 = k
    · have h2 : ¬ x.1 = h := fun e => hne (hx.symm.trans e)
      simp [List.filter_cons, hx, hne, ih.1, ih.2]
    · by_cases hy : x.1 = h
      · simp [List.filter_cons, hx, hy, ih.1, ih.2, Ne.symm hne]
      · simp [List.filter_cons, hx, hy, ih.1, ih.2]

theorem Device.Active.active_stopImmediately {d : Device} {h : Nat} {s : PlayingStreamInternal}
    (ha : d.Active h s) (p : Option Nat) (hp : p ≠ some h) :
    (d.StopImmediately p).Active h s := by
  cases p with
  | none => exact ha
  | some k =>
    have hne : k ≠ h := fun e => hp (by rw [e])
    unfold Device.Active
    simp only [Device.StopImmediately]
    rw [(filter_key_filter_ne _ h k hne).1]
    exact ha

theorem Device.Gone.gone_stopImmediately {d : Device} {h : Nat} {s : PlayingStreamInternal}
    (hg : d.Gone h s) (p : Option Nat) (hp : p ≠ some h) :
    (d.StopImmediately p).Gone h s := by
  cases p with
  | none => exact hg
  | some k =>
    have hne : k ≠ h := fun e => hp (by rw [e])
    unfold Device.Gone
    simp only [Device.StopImmediately]
    rw [(filter_key_filter_ne _ h k hne).1, List.filter_append,
      (filter_key_filter_ne _ h k hne).2, List.nil_append]
    exact hg


theorem forall₂_filter_key (add : Int → Int → Int) (req h : Nat)
    (l : List (Nat × PlayingStreamInternal)) (ms : List MixedStream)
    (hf : List.Forall₂ (EntryCallback add req) l ms) :
    List.Forall₂ (EntryCallback add req) (l.filter (fun e => e.1 == h))
      (ms.filter (fun m => m.handle == h)) := by
  induction hf with
  | nil => exact List.Forall₂.nil
  | @cons e m l1 ms1 hr _ ih =>
    have hk : m.handle = e.1 := hr.1
    by_cases he : (e.1 == h) = true
    · have hm : (m.handle == h) = true := by rw [hk]; exact he
      rw [List.filter_cons, if_pos he, List.filter_cons, if_pos hm]
      exact List.Forall₂.cons hr ih
    · have hm : ¬ (m.handle == h) = true := by rw [hk]; exact he
      rw [List.filter_cons, if_neg he, List.filter_cons, if_neg hm]
      exact ih

theorem filter_key_map_filter (ms : List MixedStream) (p : MixedStream → Bool) (h : Nat) :
    ((ms.filter p).map (fun m => (m.handle, m.stream))).filter (fun e => e.1 == h) =
      ((ms.filter (fun m => m.handle == h)).filter p).map (fun m => (m.handle, m.stream)) := by
  induction ms with
  | nil => rfl
  | cons m rest ih =>
    by_cases hp : p m = true <;> by_cases hm : (m.handle == h) = true
    · rw [List.filter_cons, if_pos hp, List.map_cons, List.filter_cons, if_pos hm,
        List.filter_cons, if_pos hm, List.filter_cons, if_pos hp, List.map_cons, ih]
    · rw [List.filter_cons, if_pos hp, List.map_cons, List.filter_cons, if_neg hm,
        List.filter_cons, if_neg hm, ih]
    · rw [List.filter_cons, if_neg hp, List.filter_cons, if_pos hm,
        List.filter_cons, if_neg hp, ih]
    · rw [List.filter_cons, if_neg hp, List.filter_cons, if_neg hm, ih]

/-- A callback on a stream of the active set: the stream goes through the gain update and
the loop; it stays active when it is not marked and is released when it is. -/
theorem Device.Active.active_callback {d : Device} {h : Nat} {s : PlayingStreamInternal}
    (ha : d.Active h s) (amount : Int) (res : CallbackResult) (hne : amount ≠ 0)
    (hres : d.dataCallback amount = some res) :
    ∃ m, res.mixed.filter (fun m => m.handle == h) = [m] ∧ m.handle = h ∧
      StreamCallback add32 (Device.numRequestedBlocks amount) s m ∧
      (m.marked = false → res.device.Active h m.stream) ∧
      (m.marked = true → res.device.Gone h m.stream) := by
  obtain ⟨hf, hp, hr⟩ := dataCallback_entries d amount res hne hres
  have hf2 := forall₂_filter_key add32 _ h _ _ hf
  unfold Device.Active at ha
  rw [ha] at hf2
  obtain ⟨m, ms1, hr1, hrest, hfilt⟩ := List.forall₂_cons_left_iff.mp hf2
  rw [List.forall₂_nil_left_iff.mp hrest] at hfilt
  have hk : m.handle = h := hr1.1
  refine ⟨m, hfilt, hk, hr1.2, ?_, ?_⟩
  · intro hm
    unfold Device.Active
    rw [hp, filter_key_map_filter, hfilt]
    simp [List.filter_cons, hm, hk]
  · intro hm
    unfold Device.Gone
    rw [hp, hr, filter_key_map_filter, List.filter_append, filter_key_map_filter, hfilt]
    simp [List.filter_cons, hm, hk]

/-- A callback leaves a released record alone. -/
theorem Device.Gone.gone_callback {d : Device} {h : Nat} {s : PlayingStreamInternal}
    (hg : d.Gone h s) (amount : Int) (res : CallbackResult)
    (hres : d.dataCallback amount = some res) :
    res.device.Gone h s ∧ res.mixed.filter (fun m => m.handle == h) = [] := by
  by_cases hne : amount = 0
  · subst hne
    rw [dataCallback_zero] at hres
    cases hres
    exact ⟨hg, rfl⟩
  · obtain ⟨hf, hp, hr⟩ := dataCallback_entries d amount res hne hres
    have hf2 := forall₂_filter_key add32 _ h _ _ hf
    rw [hg.1] at hf2
    have hfilt := List.forall₂_nil_left_iff.mp hf2
    refine ⟨?_, hfilt⟩
    unfold Device.Gone
    rw [hp, hr, filter_key_map_filter, List.filter_append, filter_key_map_filter, hfilt]
    exact ⟨rfl, hg.2⟩


theorem numRequestedBlocks_zero : Device.numRequestedBlocks 0 = 0 := by
  decide

theorem runsOfStream_nil (h : Nat) : runsOfStream h [] = [] := rfl

theorem runsOfStream_append (h : Nat) (a b : List CallbackResult) :
    runsOfStream h (a ++ b) = runsOfStream h a ++ runsOfStream h b := by
  unfold runsOfStream
  rw [List.flatMap_append]

theorem runsOfStream_single (h : Nat) (r : CallbackResult) (m : MixedStream)
    (hm : r.mixed.filter (fun m => m.handle == h) = [m]) : runsOfStream h [r] = m.runs := by
  unfold runsOfStream
  simp [hm]

theorem runsOfStream_single_nil (h : Nat) (r : CallbackResult)
    (hm : r.mixed.filter (fun m => m.handle == h) = []) : runsOfStream h [r] = [] := by
  unfold runsOfStream
  simp [hm]

/-- Following the stream of handle `h` through a history that does not stop it: a
property `InvA` of the record, the frames pulled and the runs mixed so far that every
callback carries over (to `InvG` when the callback releases the stream) holds at the end
of the history. -/
theorem exec_track (h : Nat)
    (InvA InvG : PlayingStreamInternal → Nat → List MixRun → Prop)
    (hcb : ∀ s P R amount m, InvA s P R → amount ≠ 0 →
      StreamCallback add32 (Device.numRequestedBlocks amount) s m →
      (m.marked = false →
        InvA m.stream (P + Device.numRequestedBlocks amount) (R ++ m.runs)) ∧
      (m.marked = true →
        InvG m.stream (P + Device.numRequestedBlocks amount) (R ++ m.runs)))
    (hgone : ∀ s P R k, InvG s P R → InvG s (P + k) R) :
    ∀ (ops : List Op) (d d2 : Device) (results : List CallbackResult)
      (s : PlayingStreamInternal) (P : Nat) (R : List MixRun),
      (d.Active h s ∧ InvA s P R) ∨ (d.Gone h s ∧ InvG s P R) →
      (∀ op ∈ ops, op.stopsStream h = false) →
      d.exec ops = some (d2, results) →
      ∃ s2, (d2.Active h s2 ∧
          InvA s2 (P + framesPulled ops) (R ++ runsOfStream h results)) ∨
        (d2.Gone h s2 ∧ InvG s2 (P + framesPulled ops) (R ++ runsOfStream h results)) := by
  intro ops
  induction ops with
  | nil =>
    intro d d2 results s P R hinv _ hex
    simp only [Device.exec, Option.some.injEq, Prod.mk.injEq] at hex
    obtain ⟨rfl, rfl⟩ := hex
    refine ⟨s, ?_⟩
    simpa [framesPulled, runsOfStream_nil] using hinv
  | cons op rest ih =>
    intro d d2 results s P R hinv hstops hex
    have hop : op.stopsStream h = false := hstops op (List.mem_cons_self _ _)
    have hrest : ∀ o ∈ rest, o.stopsStream h = false :=
      fun o ho => hstops o (List.mem_cons_of_mem _ ho)
    simp only [Device.exec] at hex
    rcases Option.bind_eq_some.mp hex with ⟨p, hp, hex⟩
    rcases Option.map_eq_some'.mp hex with ⟨q, hq, hqe⟩
    simp only [Prod.mk.injEq] at hqe
    obtain ⟨rfl, rfl⟩ := hqe
    cases op with
    | play w pc fc =>
      simp only [Device.apply, Option.some.injEq] at hp
      subst hp
      have hinv2 : ((d.Play w pc fc).1.Active h s ∧ InvA s P R) ∨
          ((d.Play w pc fc).1.Gone h s ∧ InvG s P R) := by
        rcases hinv with ⟨ha, hi⟩ | ⟨hg, hi⟩
        · exact Or.inl ⟨ha.active_play w pc fc, hi⟩
        · exact Or.inr ⟨hg.gone_play w pc fc, hi⟩
      simpa [framesPulled] using ih _ _ _ s P R hinv2 hrest hq
    | stop k sc =>
      simp only [Device.apply, Option.some.injEq] at hp
      subst hp
      have hk : k ≠ some h := by
        intro e
        simp [Op.stopsStream, e] at hop
      have hinv2 : ((d.Stop k sc).Active h s ∧ InvA s P R) ∨
          ((d.Stop k sc).Gone h s ∧ InvG s P R) := by
        rcases hinv with ⟨ha, hi⟩ | ⟨hg, hi⟩
        · exact Or.inl ⟨ha.active_stop k sc hk, hi⟩
        · exact Or.inr ⟨hg.gone_stop k sc hk, hi⟩
      simpa [framesPulled] using ih _ _ _ s P R hinv2 hrest hq
    | stopImmediately k =>
      simp only [Device.apply, Option.some.injEq] at hp
      subst hp
      have hk : k ≠ some h := by
        intro e
        simp [Op.stopsStream, e] at hop
      have hinv2 : ((d.StopImmediately k).Active h s ∧ InvA s P R) ∨
          ((d.StopImmediately k).Gone h s ∧ InvG s P R) := by
        rcases hinv with ⟨ha, hi⟩ | ⟨hg, hi⟩
        · exact Or.inl ⟨ha.active_stopImmediately k hk, hi⟩
        · exact Or.inr ⟨hg.gone_stopImmediately k hk, hi⟩
      simpa [framesPulled] using ih _ _ _ s P R hinv2 hrest hq
    | callback amount =>
      simp only [Device.apply] at hp
      rcases Option.map_eq_some'.mp hp with ⟨res, hres, rfl⟩
      rw [runsOfStream_append]
      simp only [framesPulled]
      rw [← Nat.add_assoc, ← List.append_assoc]
      rcases hinv with ⟨ha, hi⟩ | ⟨hg, hi⟩
      · by_cases hne : amount = 0
        · subst hne
          rw [dataCallback_zero] at hres
          cases hres
          rw [numRequestedBlocks_zero,
            runsOfStream_single_nil h { device := d, sent := [], mixed := [] } rfl,
            List.append_nil, Nat.add_zero]
          exact ih _ _ _ s P R (Or.inl ⟨ha, hi⟩) hrest hq
        · obtain ⟨m, hfilt, _, hsc, hA, hG⟩ := ha.active_callback amount res hne hres
          rw [runsOfStream_single h res m hfilt]
          obtain ⟨c1, c2⟩ := hcb s P R amount m hi hne hsc
          cases hmk : m.marked with
          | false => exact ih _ _ _ m.stream _ _ (Or.inl ⟨hA hmk, c1 hmk⟩) hrest hq
          | true => exact ih _ _ _ m.stream _ _ (Or.inr ⟨hG hmk, c2 hmk⟩) hrest hq
      · obtain ⟨hg2, hfilt⟩ := hg.gone_callback amount res hres
        rw [runsOfStream_single_nil h res hfilt, List.append_nil]
        exact ih _ _ _ s _ R (Or.inr ⟨hg2, hgone s P R _ hi⟩) hrest hq


/-! ## The source blocks read by the loop -/

theorem runBlocks_nil : runBlocks [] = [] := rfl

theorem runBlocks_cons (r : MixRun) (rs : List MixRun) :
    runBlocks (r :: rs) = List.range' r.first_block r.count ++ runBlocks rs := by
  simp [runBlocks]

theorem runBlocks_append (a b : List MixRun) :
    runBlocks (a ++ b) = runBlocks a ++ runBlocks b := by
  unfold runBlocks
  rw [List.flatMap_append]

/-- Within one pass over the source, the blocks at positions `l, l + 1, ...` are the
blocks `t mod N, (t + 1) mod N, ...` counted from the start of the stream. -/
theorem range_mod_of_pass (N p l n : Nat) (h : l + n ≤ N) :
    List.range' l n = (List.range' (p * N + l) n).map (· % N) := by
  induction n generalizing l with
  | zero => rfl
  | succ n ih =>
    rw [List.range'_succ, List.range'_succ, List.map_cons]
    have h1 : (p * N + l) % N = l := by
      rw [Nat.add_comm, Nat.add_mul_mod_self_right]
      exact Nat.mod_eq_of_lt (by omega)
    rw [h1, ih (l + 1) (by omega), Nat.add_assoc]

theorem loopRun_blocks (req sent : Nat) (s : PlayingStreamInternal) (hs : sent < req)
    (hc : CountersOk s) :
    List.range' (loopRun req sent s).first_block (loopRun req sent s).count =
      (List.range' s.total_blocks_streamed (loopRead req sent s)).map
        (· % s.wave_file.GetNumBlocks) := by
  obtain ⟨hl, hp, ht⟩ := hc
  have h1 := loopRead_le_source req sent s hs hl
  have ht2 : s.total_blocks_streamed =
      s.num_plays.toNat * s.wave_file.GetNumBlocks + s.looped_blocks_streamed := by
    have : ((s.num_plays.toNat : Nat) : Int) = s.num_plays := Int.toNat_of_nonneg hp
    zify
    rw [this]
    exact ht
  show List.range' s.looped_blocks_streamed (loopRead req sent s) = _
  rw [ht2]
  exact range_mod_of_pass _ _ _ _ h1

/-- The source blocks accumulated by the loop are those of the positions
`total_blocks_streamed, total_blocks_streamed + 1, ...` of the stream, each taken modulo
the length of the source. -/
theorem mixStreamLoop_blocks (add : Int → Int → Int) (gain : Int)
    (req fuel : Nat) (s : PlayingStreamInternal) (sent : Nat) (mix : List StereoBlock32)
    (r : StreamMix) (h : mixStreamLoop add gain req fuel s sent mix = some r)
    (hc : CountersOk s) :
    s.total_blocks_streamed ≤ r.stream.total_blocks_streamed ∧
    r.stream.wave_file = s.wave_file ∧
    runBlocks r.runs =
      (List.range' s.total_blocks_streamed
        (r.stream.total_blocks_streamed - s.total_blocks_streamed)).map
        (· % s.wave_file.GetNumBlocks) := by
  refine mixStreamLoop_induct add gain req
    (fun s _ _ r => CountersOk s →
      s.total_blocks_streamed ≤ r.stream.total_blocks_streamed ∧
      r.stream.wave_file = s.wave_file ∧
      runBlocks r.runs =
        (List.range' s.total_blocks_streamed
          (r.stream.total_blocks_streamed - s.total_blocks_streamed)).map
          (· % s.wave_file.GetNumBlocks))
    ?_ ?_ ?_ fuel s sent mix r h hc
  · intro s _ _ _ _
    dsimp only
    refine ⟨le_refl _, rfl, ?_⟩
    rw [Nat.sub_self]
    rfl
  · intro s sent _ hs _ hc
    dsimp only
    rw [loopAdvance_total, loopAdvance_wave_file]
    refine ⟨by omega, rfl, ?_⟩
    rw [runBlocks_cons, runBlocks_nil, List.append_nil, loopRun_blocks req sent s hs hc,
      Nat.add_sub_cancel_left]
  · intro s sent _ r hs _ ih hc
    obtain ⟨i1, i2, i3⟩ := ih (loopAdvance_countersOk req sent s hs hc)
    rw [loopAdvance_total] at i1 i3
    rw [loopAdvance_wave_file] at i2 i3
    dsimp only
    refine ⟨by omega, i2, ?_⟩
    rw [runBlocks_cons, i3, loopRun_blocks req sent s hs hc, ← List.map_append]
    congr 1
    have hsplit : r.stream.total_blocks_streamed - s.total_blocks_streamed =
        (r.stream.total_blocks_streamed -
            (s.total_blocks_streamed + loopRead req sent s)) + loopRead req sent s := by omega
    rw [hsplit]
    exact List.range'_append_1 _ _ _


/-! ## Streams started by `Play` -/

theorem startPlayingStream_fields (w : WaveFile) (pc : PlayCount) (fc : FadeControl) :
    (startPlayingStream { wave_file := w, play_count := pc, fade_control := fc }).wave_file = w ∧
    (startPlayingStream { wave_file := w, play_count := pc, fade_control := fc }).num_plays = 0 ∧
    (startPlayingStream
      { wave_file := w, play_count := pc, fade_control := fc }).looped_blocks_streamed = 0 ∧
    (startPlayingStream
      { wave_file := w, play_count := pc, fade_control := fc }).total_blocks_streamed = 0 ∧
    (startPlayingStream
      { wave_file := w, play_count := pc, fade_control := fc }).stop_control = none ∧
    (startPlayingStream
      { wave_file := w, play_count := pc, fade_control := fc }).stop_control_in_callback = none ∧
    (startPlayingStream
      { wave_file := w, play_count := pc, fade_control := fc }).total_blocks_to_play =
      (if pc.loop_infinite then 0 else sizeMul w.GetNumBlocks (sizeOfInt pc.num_repeats)) := by
  unfold startPlayingStream
  cases hl : pc.loop_infinite <;> cases hp : fc.fade_in_time_sec.isPos <;> simp [hl, hp]

theorem startPlayingStream_countersOk (w : WaveFile) (pc : PlayCount) (fc : FadeControl) :
    CountersOk (startPlayingStream { wave_file := w, play_count := pc, fade_control := fc }) := by
  obtain ⟨h1, h2, h3, h4, _⟩ := startPlayingStream_fields w pc fc
  unfold CountersOk
  rw [h1, h2, h3, h4]
  simp

theorem sameCounters_countersOk (s t : PlayingStreamInternal) (h : sameCounters s t)
    (hc : CountersOk s) : CountersOk t := by
  obtain ⟨h1, h2, h3, h4⟩ := h
  unfold CountersOk at hc ⊢
  rw [h1, h2, h3, h4]
  exact hc

theorem play_handle (d : Device) (w : WaveFile) (pc : PlayCount) (fc : FadeControl) (h : Nat)
    (hplay : (d.Play w pc fc).2 = some h) :
    w.GetNumBlocks ≠ 0 ∧ (d.Play w pc fc).1.Active h
      (startPlayingStream { wave_file := w, play_count := pc, fade_control := fc }) := by
  by_cases hN : w.GetNumBlocks = 0
  · rw [Device.play_of_empty d w pc fc hN] at hplay
    cases hplay
  · obtain ⟨h1, h2⟩ := Device.play_active d w pc fc hN
    rw [h1] at hplay
    cases hplay
    exact ⟨hN, h2⟩

/-- What a callback does to a stream with no stop command pending: the gain update writes
only the gain fields, then the loop runs. -/
theorem streamCallback_unstopped (req : Nat) (s : PlayingStreamInternal) (m : MixedStream)
    (h1 : s.stop_control = none) (h2 : s.stop_control_in_callback = none)
    (hsc : StreamCallback add32 req s m) :
    ∃ s1 g mix0 mix1, sameButGain s s1 ∧
      mixStreamLoop add32 g req (mixFuel req) s1 0 mix0 =
        some { stream := m.stream, mix := mix1, marked := m.marked, runs := m.runs } := by
  obtain ⟨s1, g, mix0, mix1, hsnap, hloop⟩ := hsc
  exact ⟨s1, g, mix0, mix1, snapshotStream_sameButGain s s1 g h1 h2 hsnap, hloop⟩

theorem exec_append (a b : List Op) (d : Device) :
    d.exec (a ++ b) =
      (d.exec a).bind fun p => (p.1.exec b).map fun q => (q.1, p.2 ++ q.2) := by
  induction a generalizing d with
  | nil =>
    simp only [List.nil_append, Device.exec, Option.some_bind, List.nil_append]
    cases d.exec b <;> rfl
  | cons op rest ih =>
    rw [List.cons_append]
    simp only [Device.exec]
    cases d.apply op with
    | none => rfl
    | some p =>
      simp only [Option.some_bind]
      rw [ih]
      cases p.1.exec rest with
      | none => rfl
      | some q =>
        simp only [Option.some_bind, Option.map_some']
        cases q.1.exec b with
        | none => rfl
        | some r => simp only [Option.map_some', List.append_assoc]

theorem framesPulled_append (a b : List Op) :
    framesPulled (a ++ b) = framesPulled a + framesPulled b := by
  induction a with
  | nil => simp [framesPulled]
  | cons op rest ih =>
    rw [List.cons_append]
    cases op <;> simp only [framesPulled, ih, Nat.add_assoc]

theorem filter_key_setStopControl_self (l : List (Nat × PlayingStreamInternal)) (h : Nat)
    (sc : StopControl) :
    (l.map (Device.setStopControl h sc)).filter (fun e => e.1 == h) =
      (l.filter (fun e => e.1 == h)).map (Device.setStopControl h sc) := by
  induction l with
  | nil => rfl
  | cons x xs ih =>
    have h1 : (Device.setStopControl h sc x).1 = x.1 := by
      unfold Device.setStopControl
      split <;> rfl
    simp only [List.map_cons, List.filter_cons, h1, ih]
    split <;> rfl

theorem Device.Active.active_stop_self {d : Device} {h : Nat} {s : PlayingStreamInternal}
    (ha : d.Active h s) (sc : StopControl) :
    (d.Stop (some h) sc).Active h { s with stop_control := some sc } := by
  unfold Device.Active at ha ⊢
  simp only [Device.Stop]
  rw [filter_key_setStopControl_self, ha]
  simp [Device.setStopControl]

/-- Calls that are neither callbacks nor `StopImmediately` on `h` leave the stream of
handle `h` in the active set and its counters as they are, and pull no frame. -/
theorem exec_waiting (h : Nat) :
    ∀ (ops : List Op) (d d2 : Device) (results : List CallbackResult)
      (s : PlayingStreamInternal),
      d.Active h s → (∀ op ∈ ops, op.endsWait h = false) →
      d.exec ops = some (d2, results) →
      framesPulled ops = 0 ∧
        ∃ s2, d2.Active h s2 ∧ s2.total_blocks_to_play = s.total_blocks_to_play ∧
          s2.total_blocks_streamed = s.total_blocks_streamed := by
  intro ops
  induction ops with
  | nil =>
    intro d d2 results s ha _ hex
    simp only [Device.exec, Option.some.injEq, Prod.mk.injEq] at hex
    obtain ⟨rfl, rfl⟩ := hex
    exact ⟨rfl, s, ha, rfl, rfl⟩
  | cons op rest ih =>
    intro d d2 results s ha hops hex
    have hop : op.endsWait h = false := hops op (List.mem_cons_self _ _)
    have hrest : ∀ o ∈ rest, o.endsWait h = false :=
      fun o ho => hops o (List.mem_cons_of_mem _ ho)
    simp only [Device.exec] at hex
    rcases Option.bind_eq_some.mp hex with ⟨p, hp, hex⟩
    rcases Option.map_eq_some'.mp hex with ⟨q, hq, hqe⟩
    simp only [Prod.mk.injEq] at hqe
    obtain ⟨rfl, rfl⟩ := hqe
    cases op with
    | play w pc fc =>
      simp only [Device.apply, Option.some.injEq] at hp
      subst hp
      simpa [framesPulled] using ih _ _ _ s (ha.active_play w pc fc) hrest hq
    | stop k sc =>
      simp only [Device.apply, Option.some.injEq] at hp
      subst hp
      by_cases hk : k = some h
      · subst hk
        obtain ⟨e1, s2, e2, e3, e4⟩ := ih _ _ _ _ (ha.active_stop_self sc) hrest hq
        exact ⟨by simpa [framesPulled] using e1, s2, e2, e3, e4⟩
      · simpa [framesPulled] using ih _ _ _ s (ha.active_stop k sc hk) hrest hq
    | stopImmediately k =>
      simp only [Device.apply, Option.some.injEq] at hp
      subst hp
      have hk : k ≠ some h := by
        intro e
        simp [Op.endsWait, e] at hop
      simpa [framesPulled] using ih _ _ _ s (ha.active_stopImmediately k hk) hrest hq
    | callback amount =>
      simp [Op.endsWait] at hop

/-- C6. A stream played with `loop_infinite = true` on which no `Stop` is consumed and
`StopImmediately` is not called is never removed by the callback.  The history is
`ops ++ waiting`: in `ops` neither `Stop` nor `StopImmediately` is called on the handle;
in `waiting` `Stop` may be called on it, but no callback follows to consume the stop.
At the end of the history the stream is still in the active set, its
`total_blocks_to_play` is still 0 and its `total_blocks_streamed` is the sum of the frame
counts requested by the callbacks. -/
theorem Device.infinite_loop_never_removed (d : Device) (w : WaveFile) (pc : PlayCount)
    (fc : FadeControl) (h : Nat) (ops waiting : List Op) (d2 : Device)
    (results : List CallbackResult) (hloop : pc.loop_infinite = true)
    (hplay : (d.Play w pc fc).2 = some h)
    (hstops : ∀ op ∈ ops, op.stopsStream h = false)
    (hwait : ∀ op ∈ waiting, op.endsWait h = false)
    (hex : (d.Play w pc fc).1.exec (ops ++ waiting) = some (d2, results)) :
    d2.IsPlaying (some h) = true ∧
      ∃ s, d2.record h = some s ∧ s.total_blocks_to_play = 0 ∧
        s.total_blocks_streamed = framesPulled (ops ++ waiting) := by
  obtain ⟨_, hact⟩ := play_handle d w pc fc h hplay
  obtain ⟨f1, f2, f3, f4, f5, f6, f7⟩ := startPlayingStream_fields w pc fc
  rw [hloop, if_pos rfl] at f7
  rw [exec_append] at hex
  rcases Option.bind_eq_some.mp hex with ⟨p1, hex1, hex⟩
  rcases Option.map_eq_some'.mp hex with ⟨p2, hex2, hpe⟩
  simp only [Prod.mk.injEq] at hpe
  obtain ⟨rfl, _⟩ := hpe
  have key := exec_track h
    (fun s P _ => CountersOk s ∧ s.total_blocks_to_play = 0 ∧ s.stop_control = none ∧
      s.stop_control_in_callback = none ∧ s.total_blocks_streamed = P)
    (fun _ _ _ => False)
    (by
      intro s P R amount m hinv _ hsc
      obtain ⟨hc, htp, hs1, hs2, htot⟩ := hinv
      obtain ⟨s1, g, mix0, mix1, hsame, hl⟩ := streamCallback_unstopped _ s m hs1 hs2 hsc
      have hc1 : CountersOk s1 := sameCounters_countersOk s s1 (sameButGain_sameCounters _ _ hsame) hc
      have hsbc := mixStreamLoop_sameButCounters _ _ _ _ _ _ _ _ hl
      have hco := mixStreamLoop_countersOk _ _ _ _ _ _ _ _ hl hc1
      obtain ⟨t1, t2, t3, t4, t5⟩ := mixStreamLoop_total _ _ _ _ _ _ _ _ hl hc1.1
      dsimp only at hsbc hco t1 t2 t3 t4 t5
      have htp1 : s1.total_blocks_to_play = 0 := by rw [hsame.2.2.2.2.2.2.1, htp]
      have hnm : m.marked = false := by
        cases hm : m.marked with
        | false => rfl
        | true => exact absurd htp1 (t4 hm).1
      refine ⟨fun _ => ⟨hco, ?_, ?_, ?_, ?_⟩, fun hm => ?_⟩
      · rw [hsbc.2.2.2.1, htp1]
      · rw [hsbc.2.2.2.2.2.2.2.1, hsame.2.2.2.2.2.2.2.1, hs1]
      · rw [hsbc.2.2.2.2.2.2.2.2, hsame.2.2.2.2.2.2.2.2, hs2]
      · rw [t3 hnm, hsame.2.2.2.2.2.1, htot, Nat.sub_zero]
      · rw [hnm] at hm
        cases hm)
    (fun _ _ _ _ hf => hf)
    ops _ p1.1 p1.2 _ 0 []
    (Or.inl ⟨hact, startPlayingStream_countersOk w pc fc, f7, f5, f6, f4⟩) hstops hex1
  obtain ⟨s1, ⟨ha, _, k2, _, _, k5⟩ | ⟨_, hf⟩⟩ := key
  · obtain ⟨e1, s2, e2, e3, e4⟩ := exec_waiting h waiting p1.1 p2.1 p2.2 s1 ha hwait hex2
    refine ⟨e2.isPlaying, s2, e2.active_record, ?_, ?_⟩
    · rw [e3, k2]
    · rw [e4, k5, framesPulled_append, e1, Nat.zero_add, Nat.add_zero]
  · exact absurd hf id


theorem streamCallback_blocks (req : Nat) (s : PlayingStreamInternal) (m : MixedStream)
    (hc : CountersOk s) (hsc : StreamCallback add32 req s m) :
    CountersOk m.stream ∧ m.stream.wave_file = s.wave_file ∧
      s.total_blocks_streamed ≤ m.stream.total_blocks_streamed ∧
      runBlocks m.runs =
        (List.range' s.total_blocks_streamed
          (m.stream.total_blocks_streamed - s.total_blocks_streamed)).map
          (· % s.wave_file.GetNumBlocks) := by
  obtain ⟨s1, g, mix0, mix1, hsnap, hloop⟩ := hsc
  obtain ⟨hsame, _, _⟩ := snapshotStream_sameCounters s s1 g hsnap
  have hc1 := sameCounters_countersOk s s1 hsame hc
  have hco := mixStreamLoop_countersOk _ _ _ _ _ _ _ _ hloop hc1
  obtain ⟨b1, b2, b3⟩ := mixStreamLoop_blocks _ _ _ _ _ _ _ _ hloop hc1
  dsimp only at hco b1 b2 b3
  rw [hsame.1, hsame.2.2.2] at b3
  rw [hsame.2.2.2] at b1
  rw [hsame.1] at b2
  exact ⟨hco, b2, b1, b3⟩

theorem Device.infinite_loop_never_removed_witness :
    ∃ p, (Device.Init.Play threeBlockWave kPlayLooped kNoFade).1.exec
        ([Op.callback 8, Op.callback 20] ++ [Op.stop (some 1) (StopFade F32.zero)]) =
          some p ∧
      p.1.IsPlaying (some 1) = true ∧
      ∃ s, p.1.record 1 = some s ∧ s.total_blocks_to_play = 0 ∧
        s.total_blocks_streamed =
          framesPulled ([Op.callback 8, Op.callback 20] ++
            [Op.stop (some 1) (StopFade F32.zero)]) :=
  ⟨_, rfl, Device.infinite_loop_never_removed Device.Init threeBlockWave kPlayLooped kNoFade 1
    [Op.callback 8, Op.callback 20] [Op.stop (some 1) (StopFade F32.zero)] _ _ rfl rfl
    (by decide) (by decide) rfl⟩


/-! ## Bounded streams -/

/-- A stream whose `total_blocks_to_play` is a whole number of passes over the source
never streams beyond it. -/
theorem mixStreamLoop_le_to_play (add : Int → Int → Int) (gain : Int)
    (req fuel : Nat) (s : PlayingStreamInternal) (sent : Nat) (mix : List StereoBlock32)
    (r : StreamMix) (h : mixStreamLoop add gain req fuel s sent mix = some r)
    (hc : CountersOk s) (q : Nat)
    (hq : s.total_blocks_to_play = s.wave_file.GetNumBlocks * q)
    (hlt : s.total_blocks_streamed < s.total_blocks_to_play) :
    r.stream.total_blocks_streamed ≤ s.total_blocks_to_play := by
  refine mixStreamLoop_induct add gain req
    (fun s _ _ r => CountersOk s →
      s.total_blocks_to_play = s.wave_file.GetNumBlocks * q →
      s.total_blocks_streamed < s.total_blocks_to_play →
      r.stream.total_blocks_streamed ≤ s.total_blocks_to_play)
    ?_ ?_ ?_ fuel s sent mix r h hc hq hlt
  · intro s _ _ _ _ _ hlt
    exact Nat.le_of_lt hlt
  · intro s sent _ hs _ hc hq hlt
    dsimp only
    rw [loopAdvance_total]
    obtain ⟨hl, hp, ht⟩ := hc
    have h1 := loopRead_le_source req sent s hs hl
    have ht2 : s.total_blocks_streamed =
        s.num_plays.toNat * s.wave_file.GetNumBlocks + s.looped_blocks_streamed := by
      have : ((s.num_plays.toNat : Nat) : Int) = s.num_plays := Int.toNat_of_nonneg hp
      zify
      rw [this]
      exact ht
    have hpq : s.num_plays.toNat < q := by
      by_contra hge
      have := Nat.mul_le_mul_left s.wave_file.GetNumBlocks (Nat.le_of_not_lt hge)
      rw [Nat.mul_comm _ s.num_plays.toNat] at this
      omega
    have := Nat.mul_le_mul_left s.wave_file.GetNumBlocks (Nat.succ_le_of_lt hpq)
    rw [Nat.mul_succ, Nat.mul_comm _ s.num_plays.toNat] at this
    omega
  · intro s sent _ r hs hm ih hc hq hlt
    have hc1 := loopAdvance_countersOk req sent s hs hc
    unfold reachedEnd at hm
    rw [loopAdvance_to_play, loopAdvance_total] at hm
    have := ih hc1 (by rw [loopAdvance_to_play, loopAdvance_wave_file]; exact hq)
      (by
        rw [loopAdvance_to_play, loopAdvance_total]
        by_contra hge
        exact hm ⟨by omega, by omega⟩)
    rw [loopAdvance_to_play] at this
    exact this

theorem sizeOfInt_natCast (r : Nat) (hr : r < 2 ^ 64) : sizeOfInt (r : Int) = r := by
  unfold sizeOfInt
  have : ((r : Int) % (2 ^ 64 : Int)) = (r : Int) := Int.emod_eq_of_lt (by omega) (by omega)
  rw [this]
  exact Int.toNat_natCast r

theorem sizeMul_of_lt (a b : Nat) (h : a * b < 2 ^ 64) : sizeMul a b = a * b :=
  Nat.mod_eq_of_lt h

theorem mul_lt_of_type_bounds (n r : Nat) (hn : n < 2 ^ 32) (hr : r < 2 ^ 31) :
    n * r < 2 ^ 64 := by
  have h1 : n * r ≤ 2 ^ 32 * 2 ^ 31 := Nat.mul_le_mul (Nat.le_of_lt hn) (Nat.le_of_lt hr)
  have h2 : (2 : Nat) ^ 32 * 2 ^ 31 < 2 ^ 64 := by norm_num
  omega

/-- C1. A stream started with `Play(source, PlayCount{num_repeats = r, loop_infinite =
false}, kNoFade)` on a source of `N >= 1` blocks and not stopped is in the active set as
long as fewer than `N * r` frames have been pulled, having streamed exactly the frames
pulled; once `N * r` frames have been pulled it is out of the active set (`IsPlaying` is
false and the set does not hold its handle) and it has contributed exactly `N * r` blocks
to the mix. -/
theorem Device.bounded_stream_life (d : Device) (w : WaveFile) (r : Nat) (h : Nat)
    (ops : List Op) (d2 : Device) (results : List CallbackResult)
    (hN : 1 ≤ w.GetNumBlocks) (hN32 : w.GetNumBlocks < 2 ^ 32)
    (hr : 1 ≤ r) (hr31 : r < 2 ^ 31)
    (hplay : (d.Play w (PlayTimes (r : Int)) kNoFade).2 = some h)
    (hstops : ∀ op ∈ ops, op.stopsStream h = false)
    (hex : (d.Play w (PlayTimes (r : Int)) kNoFade).1.exec ops = some (d2, results)) :
    (framesPulled ops < w.GetNumBlocks * r →
      d2.IsPlaying (some h) = true ∧
      ∃ s, d2.record h = some s ∧ s.total_blocks_streamed = framesPulled ops ∧
        (runBlocks (runsOfStream h results)).length = framesPulled ops) ∧
    (w.GetNumBlocks * r ≤ framesPulled ops →
      d2.IsPlaying (some h) = false ∧ h ∉ d2.playing_streams_.map Prod.fst ∧
      ∃ s, d2.record h = some s ∧ s.total_blocks_streamed = w.GetNumBlocks * r ∧
        (runBlocks (runsOfStream h results)).length = w.GetNumBlocks * r) := by
  obtain ⟨_, hact⟩ := play_handle d w (PlayTimes (r : Int)) kNoFade h hplay
  obtain ⟨f1, f2, f3, f4, f5, f6, f7⟩ :=
    startPlayingStream_fields w (PlayTimes (r : Int)) kNoFade
  have hpos : 0 < w.GetNumBlocks * r := Nat.mul_pos (by omega) (by omega)
  have f7b : (startPlayingStream
      { wave_file := w, play_count := PlayTimes (r : Int),
        fade_control := kNoFade }).total_blocks_to_play = w.GetNumBlocks * r := by
    rw [f7]
    simp only [PlayTimes]
    rw [sizeOfInt_natCast r (by omega),
      sizeMul_of_lt _ _ (mul_lt_of_type_bounds _ _ hN32 hr31)]
    rfl
  have key := exec_track h
    (fun s P R => CountersOk s ∧ s.wave_file = w ∧
      s.total_blocks_to_play = w.GetNumBlocks * r ∧ s.stop_control = none ∧
      s.stop_control_in_callback = none ∧ s.total_blocks_streamed = P ∧
      P < w.GetNumBlocks * r ∧ (runBlocks R).length = P)
    (fun s P R => s.total_blocks_streamed = w.GetNumBlocks * r ∧ w.GetNumBlocks * r ≤ P ∧
      (runBlocks R).length = w.GetNumBlocks * r)
    (by
      intro s P R amount m hinv _ hsc
      obtain ⟨hc, hw, htp, hs1, hs2, htot, hP, hR⟩ := hinv
      obtain ⟨c1, c2, c3, c4⟩ := streamCallback_blocks _ s m hc hsc
      obtain ⟨s1, g, mix0, mix1, hsame, hl⟩ := streamCallback_unstopped _ s m hs1 hs2 hsc
      have hc1 : CountersOk s1 :=
        sameCounters_countersOk s s1 (sameButGain_sameCounters _ _ hsame) hc
      have hsbc := mixStreamLoop_sameButCounters _ _ _ _ _ _ _ _ hl
      obtain ⟨t1, t2, t3, t4, t5⟩ := mixStreamLoop_total _ _ _ _ _ _ _ _ hl hc1.1
      have htp1 : s1.total_blocks_to_play = s1.wave_file.GetNumBlocks * r := by
        rw [hsame.2.2.2.2.2.2.1, hsame.1, hw, htp]
      have hle := mixStreamLoop_le_to_play _ _ _ _ _ _ _ _ hl hc1 r htp1
        (by rw [hsame.2.2.2.2.2.2.1, hsame.2.2.2.2.2.1, htp, htot]; exact hP)
      dsimp only at hsbc t1 t2 t3 t4 t5 hle
      rw [hsame.2.2.2.2.2.2.1, htp] at t4 t5 hle
      rw [hsame.2.2.2.2.2.1, htot, Nat.sub_zero] at t2 t3
      have hlen : (runBlocks (R ++ m.runs)).length =
          m.stream.total_blocks_streamed := by
        rw [runBlocks_append, List.length_append, hR, c4, List.length_map, List.length_range',
          htot]
        omega
      refine ⟨fun hm => ⟨c1, c2.trans hw, ?_, ?_, ?_, t3 hm, ?_, ?_⟩, fun hm => ⟨?_, ?_, ?_⟩⟩
      · rw [hsbc.2.2.2.1, hsame.2.2.2.2.2.2.1, htp]
      · rw [hsbc.2.2.2.2.2.2.2.1, hsame.2.2.2.2.2.2.2.1, hs1]
      · rw [hsbc.2.2.2.2.2.2.2.2, hsame.2.2.2.2.2.2.2.2, hs2]
      · by_cases hreq : 0 < Device.numRequestedBlocks amount
        · have := t5 hm hreq
          rw [t3 hm] at this
          by_contra hge
          exact this ⟨by omega, by omega⟩
        · omega
      · rw [hlen, t3 hm]
      · have := (t4 hm).2
        omega
      · have := (t4 hm).2
        omega
      · rw [hlen]
        have := (t4 hm).2
        omega)
    (fun _ _ _ k hf => ⟨hf.1, by have := hf.2.1; omega, hf.2.2⟩)
    ops _ d2 results _ 0 []
    (Or.inl ⟨hact, startPlayingStream_countersOk w _ kNoFade, f1, f7b, f5, f6, f4, hpos,
      rfl⟩) hstops hex
  rw [Nat.zero_add, List.nil_append] at key
  obtain ⟨s2, ⟨ha, _, _, _, _, _, k6, k7, k8⟩ | ⟨hg, k1, k2, k3⟩⟩ := key
  · refine ⟨fun _ => ⟨ha.isPlaying, s2, ha.active_record, k6, k8⟩, fun hge => ?_⟩
    omega
  · refine ⟨fun hlt => ?_, fun _ => ⟨hg.not_isPlaying, hg.not_mem, s2, hg.gone_record, k1, k3⟩⟩
    omega

theorem Device.bounded_stream_life_witness :
    ∃ p, (Device.Init.Play hundredBlockWave (PlayTimes ((2 : Nat) : Int)) kNoFade).1.exec
        [Op.callback 240, Op.callback 560] = some p ∧
      (framesPulled [Op.callback 240, Op.callback 560] < hundredBlockWave.GetNumBlocks * 2 →
        p.1.IsPlaying (some 1) = true ∧
        ∃ s, p.1.record 1 = some s ∧
          s.total_blocks_streamed = framesPulled [Op.callback 240, Op.callback 560] ∧
          (runBlocks (runsOfStream 1 p.2)).length =
            framesPulled [Op.callback 240, Op.callback 560]) ∧
      (hundredBlockWave.GetNumBlocks * 2 ≤ framesPulled [Op.callback 240, Op.callback 560] →
        p.1.IsPlaying (some 1) = false ∧ 1 ∉ p.1.playing_streams_.map Prod.fst ∧
        ∃ s, p.1.record 1 = some s ∧
          s.total_blocks_streamed = hundredBlockWave.GetNumBlocks * 2 ∧
          (runBlocks (runsOfStream 1 p.2)).length = hundredBlockWave.GetNumBlocks * 2) :=
  ⟨_, rfl, Device.bounded_stream_life Device.Init hundredBlockWave 2 1
    [Op.callback 240, Op.callback 560] _ _ (by decide) (by decide) (by decide) (by decide)
    rfl (by decide) rfl⟩


/-! ## Properties of every record of a reachable state -/

theorem forall₂_exists_left {α β : Type} (R : α → β → Prop) (l : List α) (ms : List β)
    (hf : List.Forall₂ R l ms) : ∀ m ∈ ms, ∃ e ∈ l, R e m := by
  induction hf with
  | nil =>
    intro m hm
    cases hm
  | @cons e m0 l1 ms1 hr _ ih =>
    intro m hm
    rcases List.mem_cons.mp hm with rfl | hm
    · exact ⟨e, List.mem_cons_self _ _, hr⟩
    · obtain ⟨e1, he1, hr1⟩ := ih m hm
      exact ⟨e1, List.mem_cons_of_mem _ he1, hr1⟩

theorem Device.AllRecords.all_callback (P : PlayingStreamInternal → Prop)
    (hcb : ∀ s req m, P s → StreamCallback add32 req s m → P m.stream)
    (d : Device) (amount : Int) (res : CallbackResult) (hall : d.AllRecords P)
    (hres : d.dataCallback amount = some res) : res.device.AllRecords P := by
  by_cases hne : amount = 0
  · subst hne
    rw [dataCallback_zero] at hres
    cases hres
    exact hall
  · obtain ⟨hf, hp, hr⟩ := dataCallback_entries d amount res hne hres
    intro e he
    rw [hp, hr, ← List.append_assoc] at he
    rcases List.mem_append.mp he with he | he
    · have hmem : ∃ m ∈ res.mixed, e = (m.handle, m.stream) := by
        rcases List.mem_append.mp he with he | he
        · obtain ⟨m, hm, rfl⟩ := List.mem_map.mp he
          exact ⟨m, (List.mem_filter.mp hm).1, rfl⟩
        · obtain ⟨m, hm, rfl⟩ := List.mem_map.mp he
          exact ⟨m, (List.mem_filter.mp hm).1, rfl⟩
      obtain ⟨m, hm, rfl⟩ := hmem
      obtain ⟨e0, he0, hr0⟩ := forall₂_exists_left _ _ _ hf m hm
      exact hcb e0.2 _ m (hall e0 (List.mem_append.mpr (Or.inl he0))) hr0.2
    · exact hall e (List.mem_append.mpr (Or.inr he))

theorem Device.AllRecords.all_play (P : PlayingStreamInternal → Prop)
    (hplay : ∀ w pc fc, w.GetNumBlocks ≠ 0 →
      P (startPlayingStream { wave_file := w, play_count := pc, fade_control := fc }))
    (d : Device) (w : WaveFile) (pc : PlayCount) (fc : FadeControl) (hall : d.AllRecords P) :
    (d.Play w pc fc).1.AllRecords P := by
  by_cases hN : w.GetNumBlocks = 0
  · rw [Device.play_of_empty d w pc fc hN]
    exact hall
  · rw [Device.play_of_nonempty d w pc fc hN]
    intro e he
    rcases List.mem_append.mp he with he | he
    · rcases List.mem_cons.mp he with rfl | he
      · exact hplay w pc fc hN
      · exact hall e (List.mem_append.mpr (Or.inl he))
    · exact hall e (List.mem_append.mpr (Or.inr he))

theorem Device.AllRecords.all_stop (P : PlayingStreamInternal → Prop)
    (hstop : ∀ s sc, P s → P { s with stop_control := some sc })
    (d : Device) (p : Option Nat) (sc : StopControl) (hall : d.AllRecords P) :
    (d.Stop p sc).AllRecords P := by
  cases p with
  | none => exact hall
  | some k =>
    intro e he
    simp only [Device.Stop, ← List.map_append] at he
    obtain ⟨e0, he0, rfl⟩ := List.mem_map.mp he
    unfold Device.setStopControl
    split
    · exact hstop _ sc (hall e0 he0)
    · exact hall e0 he0

theorem Device.AllRecords.all_stopImmediately (P : PlayingStreamInternal → Prop)
    (d : Device) (p : Option Nat) (hall : d.AllRecords P) :
    (d.StopImmediately p).AllRecords P := by
  cases p with
  | none => exact hall
  | some k =>
    intro e he
    simp only [Device.StopImmediately] at he
    rcases List.mem_append.mp he with he | he
    · exact hall e (List.mem_append.mpr (Or.inl (List.mem_filter.mp he).1))
    · rcases List.mem_append.mp he with he | he
      · exact hall e (List.mem_append.mpr (Or.inl (List.mem_filter.mp he).1))
      · exact hall e (List.mem_append.mpr (Or.inr he))

/-- A property of records that `Play` establishes and that `Stop` and the callback keep
holds of every record of every state reached by a history. -/
theorem exec_allRecords (P : PlayingStreamInternal → Prop)
    (hplay : ∀ w pc fc, w.GetNumBlocks ≠ 0 →
      P (startPlayingStream { wave_file := w, play_count := pc, fade_control := fc }))
    (hstop : ∀ s sc, P s → P { s with stop_control := some sc })
    (hcb : ∀ s req m, P s → StreamCallback add32 req s m → P m.stream) :
    ∀ (ops : List Op) (d d2 : Device) (results : List CallbackResult),
      d.AllRecords P → d.exec ops = some (d2, results) → d2.AllRecords P := by
  intro ops
  induction ops with
  | nil =>
    intro d d2 results hall hex
    simp only [Device.exec, Option.some.injEq, Prod.mk.injEq] at hex
    rw [← hex.1]
    exact hall
  | cons op rest ih =>
    intro d d2 results hall hex
    simp only [Device.exec] at hex
    rcases Option.bind_eq_some.mp hex with ⟨p, hp, hex⟩
    rcases Option.map_eq_some'.mp hex with ⟨q, hq, hqe⟩
    simp only [Prod.mk.injEq] at hqe
    obtain ⟨rfl, rfl⟩ := hqe
    cases op with
    | play w pc fc =>
      simp only [Device.apply, Option.some.injEq] at hp
      subst hp
      exact ih _ _ _ (hall.all_play P hplay d w pc fc) hq
    | stop k sc =>
      simp only [Device.apply, Option.some.injEq] at hp
      subst hp
      exact ih _ _ _ (hall.all_stop P hstop d k sc) hq
    | stopImmediately k =>
      simp only [Device.apply, Option.some.injEq] at hp
      subst hp
      exact ih _ _ _ (hall.all_stopImmediately P d k) hq
    | callback amount =>
      simp only [Device.apply] at hp
      rcases Option.map_eq_some'.mp hp with ⟨res, hres, rfl⟩
      exact ih _ _ _ (hall.all_callback P hcb d amount res hres) hq

theorem Device.init_allRecords (P : PlayingStreamInternal → Prop) :
    Device.Init.AllRecords P := by
  intro e he
  exact absurd he (List.not_mem_nil e)

theorem countersOk_lazyWrap (s : PlayingStreamInternal) (hN : 1 ≤ s.wave_file.GetNumBlocks)
    (hc : CountersOk s) : LazyWrap s := by
  obtain ⟨hl, hp, ht⟩ := hc
  have hp2 : ((s.num_plays.toNat : Nat) : Int) = s.num_plays := Int.toNat_of_nonneg hp
  have ht2 : s.total_blocks_streamed =
      s.looped_blocks_streamed + s.wave_file.GetNumBlocks * s.num_plays.toNat := by
    zify
    rw [hp2, ht]
    ring
  refine ⟨hN, ?_⟩
  rcases Nat.lt_or_ge s.looped_blocks_streamed s.wave_file.GetNumBlocks with hlt | hge
  · left
    rw [ht2, Nat.add_mul_mod_self_left, Nat.mod_eq_of_lt hlt, Nat.add_mul_div_left _ _ (by omega),
      Nat.div_eq_of_lt hlt, Nat.zero_add, hp2]
    exact ⟨rfl, rfl⟩
  · right
    have heq : s.looped_blocks_streamed = s.wave_file.GetNumBlocks := by omega
    refine ⟨heq, ?_, ?_⟩
    · rw [ht2, Nat.add_mul_mod_self_left, heq, Nat.mod_self]
    · rw [ht2, Nat.add_mul_div_left _ _ (by omega), heq, Nat.div_self (by omega)]
      push_cast
      rw [hp2]
      ring


theorem forall₂_imp_mem {α β : Type} (R S : α → β → Prop) (l : List α) (ms : List β)
    (hf : List.Forall₂ R l ms) (himp : ∀ e ∈ l, ∀ m, R e m → S e m) :
    List.Forall₂ S l ms := by
  induction hf with
  | nil => exact List.Forall₂.nil
  | @cons e m l1 ms1 hr _ ih =>
    exact List.Forall₂.cons (himp e (List.mem_cons_self _ _) m hr)
      (ih fun e1 he1 m1 hr1 => himp e1 (List.mem_cons_of_mem _ he1) m1 hr1)

theorem streamCallback_sourceOk (s : PlayingStreamInternal) (req : Nat) (m : MixedStream)
    (hs : 1 ≤ s.wave_file.GetNumBlocks ∧ CountersOk s)
    (hsc : StreamCallback add32 req s m) :
    1 ≤ m.stream.wave_file.GetNumBlocks ∧ CountersOk m.stream := by
  obtain ⟨c1, c2, _, _⟩ := streamCallback_blocks req s m hs.2 hsc
  exact ⟨by rw [c2]; exact hs.1, c1⟩

/-- In every state reached by a history from `Init`, every record has a source with at
least one block and consistent counters. -/
theorem reachable_countersOk (ops : List Op) (d : Device) (results : List CallbackResult)
    (hreach : Device.Init.exec ops = some (d, results)) :
    d.AllRecords fun s => 1 ≤ s.wave_file.GetNumBlocks ∧ CountersOk s := by
  refine exec_allRecords (fun s => 1 ≤ s.wave_file.GetNumBlocks ∧ CountersOk s) ?_ ?_
    streamCallback_sourceOk ops Device.Init d results (Device.init_allRecords _) hreach
  · intro w pc fc hN
    refine ⟨?_, startPlayingStream_countersOk w pc fc⟩
    rw [(startPlayingStream_fields w pc fc).1]
    omega
  · intro s sc hs
    exact hs

/-- C7, as amended. In every state reached by a history of calls, a callback leaves every
stream of the snapshot with a position that wraps lazily (`LazyWrap`): it is
`total_blocks_streamed mod N` and `num_plays` is `total_blocks_streamed div N`, except that
after a pass that ended exactly at the end of the source the position still holds `N` (not
0) and `num_plays` is one less; `total_blocks_streamed` never decreases.  The same holds of
every record of the device after the callback. -/
theorem Device.counters_wrap_lazily (ops : List Op) (d : Device)
    (results : List CallbackResult) (amount : Int) (res : CallbackResult)
    (hreach : Device.Init.exec ops = some (d, results)) (hne : amount ≠ 0)
    (hcb : d.dataCallback amount = some res) :
    List.Forall₂
      (fun e m => m.handle = e.1 ∧
        e.2.total_blocks_streamed ≤ m.stream.total_blocks_streamed ∧ LazyWrap m.stream)
      d.playing_streams_ res.mixed ∧
    res.device.AllRecords LazyWrap := by
  have hall := reachable_countersOk ops d results hreach
  obtain ⟨hf, _, _⟩ := dataCallback_entries d amount res hne hcb
  constructor
  · refine forall₂_imp_mem _ _ _ _ hf ?_
    intro e he m hr
    have hP := hall e (List.mem_append.mpr (Or.inl he))
    obtain ⟨c1, c2, c3, _⟩ := streamCallback_blocks _ e.2 m hP.2 hr.2
    exact ⟨hr.1, c3, countersOk_lazyWrap m.stream (by rw [c2]; exact hP.1) c1⟩
  · intro e he
    have hP := Device.AllRecords.all_callback _ streamCallback_sourceOk d amount res hall hcb e he
    exact countersOk_lazyWrap e.2 hP.1 hP.2

theorem Device.counters_wrap_lazily_witness :
    ∃ p res, Device.Init.exec [Op.play threeBlockWave kPlayLooped kNoFade, Op.callback 12] =
        some p ∧ p.1.dataCallback 8 = some res ∧
      List.Forall₂
        (fun e m => m.handle = e.1 ∧
          e.2.total_blocks_streamed ≤ m.stream.total_blocks_streamed ∧ LazyWrap m.stream)
        p.1.playing_streams_ res.mixed ∧
      res.device.AllRecords LazyWrap :=
  ⟨_, _, rfl, rfl, Device.counters_wrap_lazily
    [Op.play threeBlockWave kPlayLooped kNoFade, Op.callback 12] _ _ 8 _ rfl (by decide) rfl⟩

/-- C7, counterexample. One callback of exactly 3 frames on a looping stream over a source
of 3 blocks leaves `looped_blocks_streamed = 3`, not `3 mod 3 = 0`, and `num_plays = 0`, not
`3 div 3 = 1`. -/
theorem Device.counters_eager_wrap_counterexample :
    ∃ p s, Device.Init.exec [Op.play threeBlockWave kPlayLooped kNoFade, Op.callback 12] =
        some p ∧ p.1.record 1 = some s ∧ s.wave_file.GetNumBlocks = 3 ∧
      s.total_blocks_streamed = 3 ∧
      s.looped_blocks_streamed ≠ s.total_blocks_streamed % s.wave_file.GetNumBlocks ∧
      s.num_plays ≠ ((s.total_blocks_streamed / s.wave_file.GetNumBlocks : Nat) : Int) :=
  ⟨_, _, rfl, rfl, by decide, by decide, by decide, by decide⟩


/-! ## Accumulation, clamping and narrowing -/

theorem length_modifyAt {α : Type} (f : α → α) (j : Nat) (l : List α) :
    (modifyAt f j l).length = l.length := by
  induction l generalizing j with
  | nil => cases j <;> rfl
  | cons x xs ih =>
    cases j with
    | zero => rfl
    | succ j => simp [modifyAt, ih]

theorem getElem?_modifyAt {α : Type} (f : α → α) (j i : Nat) (l : List α) :
    (modifyAt f j l)[i]? = if i = j then (l[i]?).map f else l[i]? := by
  induction l generalizing j i with
  | nil => cases j <;> simp [modifyAt]
  | cons x xs ih =>
    cases j with
    | zero =>
      cases i with
      | zero => simp [modifyAt]
      | succ i => simp [modifyAt]
    | succ j =>
      cases i with
      | zero => simp [modifyAt]
      | succ i => simp [modifyAt, ih]

theorem wrap32_add_wrap32 (a b : Int) : wrap32 (wrap32 a + b) = wrap32 (a + b) := by
  unfold wrap32
  omega

theorem wrap32_of_fits (v : Int) (h : fitsInt32 v) : wrap32 v = v := by
  unfold fitsInt32 at h
  unfold wrap32
  omega

theorem addToBlock_wrapBlock (l r : Int) (e : StereoBlock32) :
    addToBlock add32 l r (wrapBlock e) = wrapBlock (addToBlock (fun a b => a + b) l r e) := by
  simp only [addToBlock, wrapBlock, add32, wrap32_add_wrap32]

theorem modifyAt_wrapsOf (n : Nat) (l r : Int) (j : Nat) (mixC mixE : List StereoBlock32)
    (h : WrapsOf n mixC mixE) :
    WrapsOf n (modifyAt (addToBlock add32 l r) j mixC)
      (modifyAt (addToBlock (fun a b => a + b) l r) j mixE) := by
  obtain ⟨hlen, hn, hi⟩ := h
  refine ⟨by rw [length_modifyAt, length_modifyAt, hlen], by rw [length_modifyAt]; exact hn, ?_⟩
  intro i hin
  rw [getElem?_modifyAt, getElem?_modifyAt, hi i hin]
  split
  · cases mixE[i]? with
    | none => rfl
    | some e => simp [addToBlock_wrapBlock]
  · rfl

theorem foldl_wrapsOf (n : Nat) (g : Nat → Nat) (l r : Nat → Int) (idxs : List Nat) :
    ∀ (mixC mixE : List StereoBlock32), WrapsOf n mixC mixE →
      WrapsOf n
        (idxs.foldl (fun b i => modifyAt (addToBlock add32 (l i) (r i)) (g i) b) mixC)
        (idxs.foldl
          (fun b i => modifyAt (addToBlock (fun a b => a + b) (l i) (r i)) (g i) b) mixE) := by
  induction idxs with
  | nil =>
    intro mixC mixE h
    exact h
  | cons i rest ih =>
    intro mixC mixE h
    simp only [List.foldl_cons]
    exact ih _ _ (modifyAt_wrapsOf n _ _ _ _ _ h)

theorem accumulateSamples_wrapsOf (n off : Nat) (gain : Int) (num_channels : Nat)
    (stream : List Int) (num_blocks : Nat) (mixC mixE : List StereoBlock32)
    (h : WrapsOf n mixC mixE) :
    WrapsOf n (accumulateSamples add32 mixC off gain num_channels stream num_blocks)
      (accumulateSamples (fun a b => a + b) mixE off gain num_channels stream num_blocks) := by
  unfold accumulateSamples
  split
  · split
    · exact foldl_wrapsOf n (fun i => off + i) _ _ _ _ _ h
    · exact foldl_wrapsOf n (fun i => off + i) _ _ _ _ _ h
  · split
    · split
      · exact foldl_wrapsOf n (fun i => off + i) _ _ _ _ _ h
      · exact foldl_wrapsOf n (fun i => off + i) _ _ _ _ _ h
    · exact h

theorem loopMix_wrapsOf (n : Nat) (gain : Int) (req sent : Nat) (s : PlayingStreamInternal)
    (mixC mixE : List StereoBlock32) (h : WrapsOf n mixC mixE) :
    WrapsOf n (loopMix add32 gain req sent s mixC)
      (loopMix (fun a b => a + b) gain req sent s mixE) :=
  accumulateSamples_wrapsOf n _ _ _ _ _ _ _ h

/-- The loop run with exact addition follows the loop of the code step by step: same
record, mark and runs, and accumulators of which the code holds the `int32_t` reduction. -/
theorem mixStreamLoop_exact (n : Nat) (gain : Int) (req : Nat) :
    ∀ (fuel : Nat) (s : PlayingStreamInternal) (sent : Nat) (mixC mixE : List StereoBlock32)
      (rc : StreamMix), WrapsOf n mixC mixE →
      mixStreamLoop add32 gain req fuel s sent mixC = some rc →
      ∃ mixE1, mixStreamLoop (fun a b => a + b) gain req fuel s sent mixE =
          some { stream := rc.stream, mix := mixE1, marked := rc.marked, runs := rc.runs } ∧
        WrapsOf n rc.mix mixE1 := by
  intro fuel
  induction fuel with
  | zero =>
    intro s sent mixC mixE rc hw h
    by_cases hs : sent < req
    · simp [mixStreamLoop, hs] at h
    · rw [mixStreamLoop_done _ _ _ 0 s sent mixC hs] at h
      cases h
      exact ⟨mixE, mixStreamLoop_done _ _ _ 0 s sent mixE hs, hw⟩
  | succ fuel ih =>
    intro s sent mixC mixE rc hw h
    by_cases hs : sent < req
    · rw [mixStreamLoop_succ _ _ _ fuel s sent mixC hs] at h
      rw [mixStreamLoop_succ _ _ _ fuel s sent mixE hs]
      by_cases hm : reachedEnd (loopAdvance req sent s)
      · rw [if_pos hm] at h
        rw [if_pos hm]
        cases h
        exact ⟨_, rfl, loopMix_wrapsOf n gain req sent s _ _ hw⟩
      · rw [if_neg hm] at h
        rw [if_neg hm]
        rcases Option.map_eq_some'.mp h with ⟨r1, hr1, rfl⟩
        obtain ⟨mixE1, he, hw1⟩ := ih _ _ _ _ r1 (loopMix_wrapsOf n gain req sent s _ _ hw) hr1
        exact ⟨mixE1, by rw [he]; rfl, hw1⟩
    · rw [mixStreamLoop_done _ _ _ (fuel + 1) s sent mixC hs] at h
      cases h
      exact ⟨mixE, mixStreamLoop_done _ _ _ (fuel + 1) s sent mixE hs, hw⟩

theorem mixAll_exact (n req : Nat) :
    ∀ (snaps : List (Nat × PlayingStreamInternal × Int)) (mixC mixE : List StereoBlock32)
      (ms : List MixedStream) (mixC1 : List StereoBlock32), WrapsOf n mixC mixE →
      mixAll add32 req snaps mixC = some (ms, mixC1) →
      ∃ mixE1, mixAll (fun a b => a + b) req snaps mixE = some (ms, mixE1) ∧
        WrapsOf n mixC1 mixE1 := by
  intro snaps
  induction snaps with
  | nil =>
    intro mixC mixE ms mixC1 hw h
    simp only [mixAll, Option.some.injEq, Prod.mk.injEq] at h
    obtain ⟨rfl, rfl⟩ := h
    exact ⟨mixE, rfl, hw⟩
  | cons e rest ih =>
    intro mixC mixE ms mixC1 hw h
    obtain ⟨k, s, gain⟩ := e
    simp only [mixAll] at h ⊢
    rcases Option.bind_eq_some.mp h with ⟨rc, hrc, h⟩
    rcases Option.map_eq_some'.mp h with ⟨p, hp, hpe⟩
    simp only [Prod.mk.injEq] at hpe
    obtain ⟨rfl, rfl⟩ := hpe
    obtain ⟨mixE1, he, hw1⟩ := mixStreamLoop_exact n gain req _ s 0 mixC mixE rc hw hrc
    obtain ⟨mixE2, he2, hw2⟩ := ih rc.mix mixE1 p.1 p.2 hw1 hp
    refine ⟨mixE2, ?_, hw2⟩
    rw [he]
    simp only [Option.some_bind, he2, Option.map_some']


theorem length_mapPrefix {α : Type} (f : α → α) (n : Nat) (l : List α) :
    (mapPrefix f n l).length = l.length := by
  induction l generalizing n with
  | nil => cases n <;> rfl
  | cons x xs ih =>
    cases n with
    | zero => rfl
    | succ n => simp [mapPrefix, ih]

theorem getElem?_mapPrefix {α : Type} (f : α → α) (n i : Nat) (l : List α) (h : i < n) :
    (mapPrefix f n l)[i]? = (l[i]?).map f := by
  induction l generalizing n i with
  | nil => cases n <;> simp [mapPrefix]
  | cons x xs ih =>
    cases n with
    | zero => omega
    | succ n =>
      cases i with
      | zero => simp [mapPrefix]
      | succ i => simp [mapPrefix, ih n i (by omega)]

theorem length_allocateMixBuffer (buf : List StereoBlock32) (n : Nat) :
    n ≤ (allocateMixBuffer buf n).length := by
  unfold allocateMixBuffer
  split
  · simp
    omega
  · omega

theorem wrapsOf_zeroed (buf : List StereoBlock32) (n : Nat) :
    WrapsOf n
      (mapPrefix (fun _ => ({ left := 0, right := 0 } : StereoBlock32)) n
        (allocateMixBuffer buf n))
      (mapPrefix (fun _ => ({ left := 0, right := 0 } : StereoBlock32)) n
        (allocateMixBuffer buf n)) := by
  refine ⟨rfl, ?_, ?_⟩
  · rw [length_mapPrefix]
    exact length_allocateMixBuffer buf n
  · intro i hi
    rw [getElem?_mapPrefix _ n i _ hi]
    cases (allocateMixBuffer buf n)[i]? with
    | none => rfl
    | some b => rfl

theorem clamp_bounds (v : Int) :
    kSampleMin16 ≤ clamp v kSampleMin16 kSampleMax16 ∧
      clamp v kSampleMin16 kSampleMax16 ≤ kSampleMax16 := by
  unfold clamp kSampleMin16 kSampleMax16
  split_ifs <;> omega

theorem clamp_cases (v : Int) :
    (kSampleMax16 < v → clamp v kSampleMin16 kSampleMax16 = kSampleMax16) ∧
      (v < kSampleMin16 → clamp v kSampleMin16 kSampleMax16 = kSampleMin16) ∧
      (kSampleMin16 ≤ v → v ≤ kSampleMax16 → clamp v kSampleMin16 kSampleMax16 = v) := by
  unfold clamp kSampleMin16 kSampleMax16
  refine ⟨fun h => ?_, fun h => ?_, fun h1 h2 => ?_⟩ <;> split_ifs <;> omega

theorem wrap16_clamp (v : Int) :
    wrap16 (clamp v kSampleMin16 kSampleMax16) = clamp v kSampleMin16 kSampleMax16 := by
  have h := clamp_bounds v
  generalize clamp v kSampleMin16 kSampleMax16 = c at h ⊢
  unfold kSampleMin16 kSampleMax16 at h
  unfold wrap16
  omega

/-- The accumulators of the code before clamping are the exact sums reduced to the
`int32_t` range. -/
theorem mixAccumulators_exact (d : Device) (amount : Int) (ms : List MixedStream)
    (mixC : List StereoBlock32)
    (h : d.mixAccumulators add32 amount = some (ms, mixC)) :
    ∃ mixE, d.mixAccumulators (fun a b => a + b) amount = some (ms, mixE) ∧
      WrapsOf (Device.numRequestedBlocks amount) mixC mixE := by
  unfold Device.mixAccumulators at h ⊢
  rcases Option.bind_eq_some.mp h with ⟨snaps, hsnaps, h⟩
  obtain ⟨mixE, he, hw⟩ := mixAll_exact (Device.numRequestedBlocks amount) _ snaps _ _ ms mixC
    (wrapsOf_zeroed d.mix_buffer_ (Device.numRequestedBlocks amount)) h
  refine ⟨mixE, ?_, hw⟩
  rw [hsnaps]
  exact he

/-- C2. In every callback, for every frame below the requested frame count, each channel
of the mixed output lies in `[-32768, 32767]`; when the exact integer sum of the
gain-applied samples accumulated for that frame fits the signed 32-bit accumulator, the
output is that sum clamped to the range (32767 for a sum above it, -32768 for a sum below
it, the sum itself otherwise), never a wrapped value; and the frame pushed to the sink
after the narrowing to 16 bits holds the same values. -/
theorem Device.mix_saturates (d : Device) (amount : Int) (res : CallbackResult)
    (hne : amount ≠ 0) (hcb : d.dataCallback amount = some res) :
    ∃ exact, d.exactAccumulators amount = some exact ∧
      ∀ i, i < Device.numRequestedBlocks amount →
        ∃ e out, exact[i]? = some e ∧ res.device.mix_buffer_[i]? = some out ∧
          res.sent[i]? = some { left := out.left, right := out.right } ∧
          (kSampleMin16 ≤ out.left ∧ out.left ≤ kSampleMax16) ∧
          (kSampleMin16 ≤ out.right ∧ out.right ≤ kSampleMax16) ∧
          (fitsInt32 e.left →
            out.left = clamp e.left kSampleMin16 kSampleMax16 ∧
            (kSampleMax16 < e.left → out.left = kSampleMax16) ∧
            (e.left < kSampleMin16 → out.left = kSampleMin16) ∧
            (kSampleMin16 ≤ e.left → e.left ≤ kSampleMax16 → out.left = e.left)) ∧
          (fitsInt32 e.right →
            out.right = clamp e.right kSampleMin16 kSampleMax16 ∧
            (kSampleMax16 < e.right → out.right = kSampleMax16) ∧
            (e.right < kSampleMin16 → out.right = kSampleMin16) ∧
            (kSampleMin16 ≤ e.right → e.right ≤ kSampleMax16 → out.right = e.right)) := by
  unfold Device.dataCallback at hcb
  rw [if_neg hne] at hcb
  rcases Option.map_eq_some'.mp hcb with ⟨p, hp, rfl⟩
  unfold Device.fillMixBufferWith at hp
  rcases Option.map_eq_some'.mp hp with ⟨q, hq, rfl⟩
  obtain ⟨ms, mixC⟩ := q
  obtain ⟨mixE, he, hlen, hn, hw⟩ := mixAccumulators_exact d amount ms mixC hq
  refine ⟨mixE, ?_, ?_⟩
  · unfold Device.exactAccumulators
    rw [he]
    rfl
  · intro i hi
    have hiE : i < mixE.length := by omega
    have hEi : mixE[i]? = some mixE[i] := List.getElem?_eq_getElem hiE
    have hCi : mixC[i]? = some (wrapBlock mixE[i]) := by rw [hw i hi, hEi]; rfl
    refine ⟨mixE[i], clampBlock (wrapBlock mixE[i]), hEi, ?_, ?_, ?_, ?_, ?_, ?_⟩
    · show (mapPrefix clampBlock (Device.numRequestedBlocks amount) mixC)[i]? = _
      rw [getElem?_mapPrefix _ _ _ _ hi, hCi]
      rfl
    · show (((mapPrefix clampBlock (Device.numRequestedBlocks amount) mixC).take
        (Device.numRequestedBlocks amount)).map narrowBlock)[i]? = _
      rw [List.getElem?_map, List.getElem?_take_of_lt hi, getElem?_mapPrefix _ _ _ _ hi, hCi]
      simp only [Option.map_some', narrowBlock, clampBlock, wrap16_clamp]
    · exact clamp_bounds _
    · exact clamp_bounds _
    · intro hfit
      have : (clampBlock (wrapBlock mixE[i])).left =
          clamp mixE[i].left kSampleMin16 kSampleMax16 := by
        simp only [clampBlock, wrapBlock, wrap32_of_fits _ hfit]
      rw [this]
      exact ⟨rfl, clamp_cases _⟩
    · intro hfit
      have : (clampBlock (wrapBlock mixE[i])).right =
          clamp mixE[i].right kSampleMin16 kSampleMax16 := by
        simp only [clampBlock, wrapBlock, wrap32_of_fits _ hfit]
      rw [this]
      exact ⟨rfl, clamp_cases _⟩


set_option maxRecDepth 20000 in
theorem Device.mix_saturates_witness :
    ∃ res, ((Device.Init.Play loudWave kPlayOnce kNoFade).1.Play loudWave kPlayOnce
        kNoFade).1.dataCallback 12 = some res ∧
      res.sent = [{ left := 32767, right := 32767 }, { left := -32768, right := -32768 },
        { left := 200, right := 200 }] ∧
      ∃ exact, ((Device.Init.Play loudWave kPlayOnce kNoFade).1.Play loudWave kPlayOnce
          kNoFade).1.exactAccumulators 12 = some exact ∧
        ∀ i, i < Device.numRequestedBlocks 12 →
          ∃ e out, exact[i]? = some e ∧ res.device.mix_buffer_[i]? = some out ∧
            res.sent[i]? = some { left := out.left, right := out.right } ∧
            (kSampleMin16 ≤ out.left ∧ out.left ≤ kSampleMax16) ∧
            (kSampleMin16 ≤ out.right ∧ out.right ≤ kSampleMax16) ∧
            (fitsInt32 e.left →
              out.left = clamp e.left kSampleMin16 kSampleMax16 ∧
              (kSampleMax16 < e.left → out.left = kSampleMax16) ∧
              (e.left < kSampleMin16 → out.left = kSampleMin16) ∧
              (kSampleMin16 ≤ e.left → e.left ≤ kSampleMax16 → out.left = e.left)) ∧
            (fitsInt32 e.right →
              out.right = clamp e.right kSampleMin16 kSampleMax16 ∧
              (kSampleMax16 < e.right → out.right = kSampleMax16) ∧
              (e.right < kSampleMin16 → out.right = kSampleMin16) ∧
              (kSampleMin16 ≤ e.right → e.right ≤ kSampleMax16 → out.right = e.right)) :=
  ⟨_, rfl, rfl, Device.mix_saturates _ 12 _ (by decide) rfl⟩


/-! ## Rounding to binary32 -/

theorem bitLengthAux_spec : ∀ (fuel n : Nat), n ≤ fuel → 0 < n →
    1 ≤ bitLengthAux fuel n ∧ 2 ^ (bitLengthAux fuel n - 1) ≤ n ∧ n < 2 ^ bitLengthAux fuel n := by
  intro fuel
  induction fuel with
  | zero =>
    intro n h1 h2
    omega
  | succ fuel ih =>
    intro n h1 h2
    have hn : n ≠ 0 := by omega
    simp only [bitLengthAux, hn, if_false]
    by_cases h : n / 2 = 0
    · have hone : n = 1 := by omega
      subst hone
      cases fuel <;> simp [bitLengthAux]
    · obtain ⟨i1, i2, i3⟩ := ih (n / 2) (by omega) (by omega)
      refine ⟨by omega, ?_, ?_⟩
      · have : 1 + bitLengthAux fuel (n / 2) - 1 = (bitLengthAux fuel (n / 2) - 1) + 1 := by omega
        rw [this, pow_succ]
        omega
      · rw [Nat.add_comm, pow_succ]
        omega

theorem bitLength_spec (t : Nat) (ht : 0 < t) :
    1 ≤ bitLength t ∧ 2 ^ (bitLength t - 1) ≤ t ∧ t < 2 ^ bitLength t :=
  bitLengthAux_spec t t (le_refl _) ht

theorem roundHalfEven_ge (n d L : Nat) (hd : 0 < d) (h : L * d ≤ n) :
    L ≤ roundHalfEven n d := by
  have h1 : L ≤ n / d := (Nat.le_div_iff_mul_le hd).mpr h
  unfold roundHalfEven
  dsimp only
  split_ifs <;> omega

theorem roundHalfEven_le (n d U : Nat) (hd : 0 < d) (h : n ≤ U * d) :
    roundHalfEven n d ≤ U := by
  have h1 : n / d ≤ U := Nat.div_le_of_le_mul (by rw [Nat.mul_comm]; exact h)
  have h2 : 0 < n % d → n / d < U := by
    intro hr
    by_contra hge
    have h3 : U * d ≤ n / d * d := Nat.mul_le_mul_right d (by omega)
    have h4 := Nat.div_add_mod n d
    rw [Nat.mul_comm] at h4
    omega
  unfold roundHalfEven
  dsimp only
  split_ifs <;> omega

theorem roundToF32_ge (a q m j : Nat) (hq : 0 < q) (hm : m ≤ 2 ^ 24)
    (h : m * 2 ^ j * q ≤ a) : m * 2 ^ j ≤ roundToF32 a q := by
  unfold roundToF32
  dsimp only
  split_ifs with ht
  · exact roundHalfEven_ge a q _ hq h
  · have ht0 : 0 < a / q := by
      have : (0 : Nat) < 2 ^ 24 := by positivity
      omega
    obtain ⟨b1, b2, b3⟩ := bitLength_spec (a / q) ht0
    have hB : 25 ≤ bitLength (a / q) := by
      by_contra hlt
      have : 2 ^ bitLength (a / q) ≤ 2 ^ 24 := Nat.pow_le_pow_right (by omega) (by omega)
      omega
    have hpos : 0 < q * 2 ^ (bitLength (a / q) - 24) := Nat.mul_pos hq (by positivity)
    by_cases hj : bitLength (a / q) - 24 ≤ j
    · have hsplit : m * 2 ^ j = m * 2 ^ (j - (bitLength (a / q) - 24)) *
          2 ^ (bitLength (a / q) - 24) := by
        rw [Nat.mul_assoc, ← pow_add]
        congr 2
        omega
      rw [hsplit]
      apply Nat.mul_le_mul_right
      apply roundHalfEven_ge _ _ _ hpos
      calc m * 2 ^ (j - (bitLength (a / q) - 24)) * (q * 2 ^ (bitLength (a / q) - 24))
          = m * 2 ^ (j - (bitLength (a / q) - 24)) * 2 ^ (bitLength (a / q) - 24) * q := by ring
        _ = m * 2 ^ j * q := by rw [← hsplit]
        _ ≤ a := h
    · have hle : m * 2 ^ j ≤ 2 ^ 23 * 2 ^ (bitLength (a / q) - 24) := by
        calc m * 2 ^ j ≤ 2 ^ 24 * 2 ^ j := Nat.mul_le_mul_right _ hm
          _ = 2 ^ (24 + j) := by rw [← pow_add]
          _ ≤ 2 ^ (23 + (bitLength (a / q) - 24)) := Nat.pow_le_pow_right (by omega) (by omega)
          _ = 2 ^ 23 * 2 ^ (bitLength (a / q) - 24) := by rw [pow_add]
      refine le_trans hle (Nat.mul_le_mul_right _ ?_)
      apply roundHalfEven_ge _ _ _ hpos
      have h5 : 2 ^ 23 * 2 ^ (bitLength (a / q) - 24) = 2 ^ (bitLength (a / q) - 1) := by
        rw [← pow_add]
        congr 1
        omega
      calc 2 ^ 23 * (q * 2 ^ (bitLength (a / q) - 24))
          = 2 ^ 23 * 2 ^ (bitLength (a / q) - 24) * q := by ring
        _ = 2 ^ (bitLength (a / q) - 1) * q := by rw [h5]
        _ ≤ a / q * q := Nat.mul_le_mul_right _ b2
        _ ≤ a := Nat.div_mul_le_self a q

theorem roundToF32_le (a q m j : Nat) (hq : 0 < q) (hm : m ≤ 2 ^ 24)
    (h : a ≤ m * 2 ^ j * q) : roundToF32 a q ≤ m * 2 ^ j := by
  unfold roundToF32
  dsimp only
  split_ifs with ht
  · exact roundHalfEven_le a q _ hq h
  · have ht0 : 0 < a / q := by
      have : (0 : Nat) < 2 ^ 24 := by positivity
      omega
    obtain ⟨b1, b2, b3⟩ := bitLength_spec (a / q) ht0
    have hB : 25 ≤ bitLength (a / q) := by
      by_contra hlt
      have : 2 ^ bitLength (a / q) ≤ 2 ^ 24 := Nat.pow_le_pow_right (by omega) (by omega)
      omega
    have hpos : 0 < q * 2 ^ (bitLength (a / q) - 24) := Nat.mul_pos hq (by positivity)
    have htU : a / q ≤ m * 2 ^ j := Nat.div_le_of_le_mul (by rw [Nat.mul_comm]; exact h)
    by_cases hj : bitLength (a / q) - 24 ≤ j
    · have hsplit : m * 2 ^ j = m * 2 ^ (j - (bitLength (a / q) - 24)) *
          2 ^ (bitLength (a / q) - 24) := by
        rw [Nat.mul_assoc, ← pow_add]
        congr 2
        omega
      rw [hsplit]
      apply Nat.mul_le_mul_right
      apply roundHalfEven_le _ _ _ hpos
      calc a ≤ m * 2 ^ j * q := h
        _ = m * 2 ^ (j - (bitLength (a / q) - 24)) * 2 ^ (bitLength (a / q) - 24) * q := by
            rw [← hsplit]
        _ = m * 2 ^ (j - (bitLength (a / q) - 24)) * (q * 2 ^ (bitLength (a / q) - 24)) := by
            ring
    · have h5 : 2 ^ 23 * 2 ^ (bitLength (a / q) - 24) = 2 ^ (bitLength (a / q) - 1) := by
        rw [← pow_add]
        congr 1
        omega
      have hle : m * 2 ^ j ≤ 2 ^ 23 * 2 ^ (bitLength (a / q) - 24) := by
        calc m * 2 ^ j ≤ 2 ^ 24 * 2 ^ j := Nat.mul_le_mul_right _ hm
          _ = 2 ^ (24 + j) := by rw [← pow_add]
          _ ≤ 2 ^ (23 + (bitLength (a / q) - 24)) := Nat.pow_le_pow_right (by omega) (by omega)
          _ = 2 ^ 23 * 2 ^ (bitLength (a / q) - 24) := by rw [pow_add]
      have heq : m * 2 ^ j = 2 ^ 23 * 2 ^ (bitLength (a / q) - 24) := by
        rw [h5] at hle ⊢
        omega
      rw [heq]
      apply Nat.mul_le_mul_right
      apply roundHalfEven_le _ _ _ hpos
      calc a ≤ m * 2 ^ j * q := h
        _ = 2 ^ 23 * 2 ^ (bitLength (a / q) - 24) * q := by rw [heq]
        _ = 2 ^ 23 * (q * 2 ^ (bitLength (a / q) - 24)) := by ring

theorem roundToF32_exact (q m j : Nat) (hq : 0 < q) (hm : m ≤ 2 ^ 24) :
    roundToF32 (m * 2 ^ j * q) q = m * 2 ^ j :=
  le_antisymm (roundToF32_le _ q m j hq hm (le_refl _)) (roundToF32_ge _ q m j hq hm (le_refl _))

theorem roundToF32_zero (q : Nat) : roundToF32 0 q = 0 := by
  simp [roundToF32, roundHalfEven]

/-! ## The Attack ramp -/

theorem F32.ofNat_units (n : Nat) (hn : n ≤ 2 ^ 24) :
    (F32.ofNat n).units = ((n * F32.unit : Nat) : Int) := by
  unfold F32.ofNat
  have := roundToF32_exact 1 n 149 (by omega) hn
  rw [Nat.mul_one] at this
  show ((roundToF32 (n * 2 ^ 149) 1 : Nat) : Int) = _
  rw [this]
  rfl

theorem F32.div_of_nonneg (x y : F32) (hx : 0 ≤ x.units) (hy : 0 < y.units) :
    F32.div x y = some ⟨(roundToF32 (x.units.natAbs * F32.unit) y.units.natAbs : Nat)⟩ := by
  unfold F32.div
  rw [if_neg (by omega)]
  congr 2
  rcases lt_or_eq_of_le hx with h | h
  · rw [Int.sign_eq_one_of_pos h, Int.sign_eq_one_of_pos hy]
    simp
  · rw [← h]
    simp [roundToF32_zero]

theorem F32.mul_of_nonneg (x y : F32) (hx : 0 ≤ x.units) (hy : 0 < y.units) :
    F32.mul x y = ⟨(roundToF32 (x.units.natAbs * y.units.natAbs) F32.unit : Nat)⟩ := by
  unfold F32.mul
  congr 1
  rcases lt_or_eq_of_le hx with h | h
  · rw [Int.sign_eq_one_of_pos h, Int.sign_eq_one_of_pos hy]
    simp
  · rw [← h]
    simp [roundToF32_zero]

theorem F32.trunc_of_nat (p : Nat) : (⟨(p : Int)⟩ : F32).trunc = ((p / F32.unit : Nat) : Int) := by
  unfold F32.trunc
  rcases Nat.eq_zero_or_pos p with h | h
  · subst h
    simp
  · have : (0 : Int) < (p : Int) := by exact_mod_cast h
    rw [Int.sign_eq_one_of_pos this]
    simp


/-- The fixed-point gain of a single-precision value between two consecutive multiples of
`1/128`: `ToIntGain` returns one of the two multiples. -/
theorem toIntGain_bracket (r m : Nat) (hm : m + 1 ≤ 2 ^ 24) (hlo : m * 2 ^ 142 ≤ r)
    (hhi : r ≤ (m + 1) * 2 ^ 142) :
    ∃ g : Nat, ToIntGain ⟨(r : Int)⟩ = some (g : Int) ∧ m ≤ g ∧ g ≤ m + 1 ∧
      g = roundToF32 (r * (128 * F32.unit)) F32.unit / F32.unit := by
  have h128 : (F32.ofNat 128).units = ((128 * F32.unit : Nat) : Int) :=
    F32.ofNat_units 128 (by norm_num)
  have hmul : F32.mul ⟨(r : Int)⟩ (F32.ofNat 128) =
      ⟨(roundToF32 (r * (128 * F32.unit)) F32.unit : Nat)⟩ := by
    rw [F32.mul_of_nonneg _ _ (Int.ofNat_nonneg r) (by rw [h128]; norm_num [F32.unit]), h128,
      Int.natAbs_ofNat, Int.natAbs_ofNat]
  have hlo2 : m * 2 ^ 149 ≤ roundToF32 (r * (128 * F32.unit)) F32.unit := by
    apply roundToF32_ge _ _ m 149 (by norm_num [F32.unit]) (by omega)
    have : m * 2 ^ 149 = m * 2 ^ 142 * 128 := by ring
    rw [this]
    calc m * 2 ^ 142 * 128 * F32.unit ≤ r * 128 * F32.unit :=
          Nat.mul_le_mul_right _ (Nat.mul_le_mul_right _ hlo)
      _ = r * (128 * F32.unit) := by ring
  have hhi2 : roundToF32 (r * (128 * F32.unit)) F32.unit ≤ (m + 1) * 2 ^ 149 := by
    apply roundToF32_le _ _ (m + 1) 149 (by norm_num [F32.unit]) hm
    have : (m + 1) * 2 ^ 149 = (m + 1) * 2 ^ 142 * 128 := by ring
    rw [this]
    calc r * (128 * F32.unit) = r * 128 * F32.unit := by ring
      _ ≤ (m + 1) * 2 ^ 142 * 128 * F32.unit :=
          Nat.mul_le_mul_right _ (Nat.mul_le_mul_right _ hhi)
  have hU : F32.unit = 2 ^ 149 := rfl
  have hg1 : m ≤ roundToF32 (r * (128 * F32.unit)) F32.unit / F32.unit := by
    rw [Nat.le_div_iff_mul_le (by norm_num [F32.unit]), hU]
    exact hlo2
  have hg2 : roundToF32 (r * (128 * F32.unit)) F32.unit / F32.unit ≤ m + 1 := by
    apply Nat.div_le_of_le_mul
    calc roundToF32 (r * (128 * F32.unit)) F32.unit ≤ (m + 1) * 2 ^ 149 := hhi2
      _ = F32.unit * (m + 1) := by rw [hU, Nat.mul_comm]
  refine ⟨_, ?_, hg1, hg2, rfl⟩
  unfold ToIntGain F32.toInt32
  rw [hmul, F32.trunc_of_nat]
  have hm2 : (2 : Nat) ^ 24 = 16777216 := by norm_num
  rw [if_pos]
  constructor
  · have : (0 : Int) ≤
        ((roundToF32 (r * (128 * F32.unit)) F32.unit / F32.unit : Nat) : Int) :=
      Int.ofNat_nonneg _
    omega
  · have : ((roundToF32 (r * (128 * F32.unit)) F32.unit / F32.unit : Nat) : Int) ≤
        ((m + 1 : Nat) : Int) := by exact_mod_cast hg2
    have h3 : ((m + 1 : Nat) : Int) ≤ 16777216 := by exact_mod_cast (hm2 ▸ hm)
    omega


/-- The Attack ramp `(float)k / (float)W` and its fixed-point gain, for `k <= W` blocks
elapsed of a window of `1 <= W <= 2^24` blocks: the gain is `trunc(128 k / W)` or one more,
it is `trunc(128 k / W)` when `W <= 2^17`, and it is 128 at `k = W`. -/
theorem rampGain_spec (k W : Nat) (hW1 : 1 ≤ W) (hW24 : W ≤ 2 ^ 24) (hk : k ≤ W) :
    ∃ r g : Nat, F32.div (F32.ofNat k) (F32.ofNat W) = some ⟨(r : Int)⟩ ∧
      ToIntGain ⟨(r : Int)⟩ = some (g : Int) ∧
      128 * k / W ≤ g ∧ g ≤ 128 * k / W + 1 ∧
      (W ≤ 2 ^ 17 → k < W → g = 128 * k / W) ∧
      (k = W → g = 128 ∧ r = F32.unit) ∧ r ≤ F32.unit := by
  have hU : F32.unit = 128 * 2 ^ 142 := by norm_num [F32.unit]
  have hU149 : F32.unit = 2 ^ 149 := rfl
  have hUpos : 0 < F32.unit := by norm_num [F32.unit]
  have hWU : 0 < W * F32.unit := Nat.mul_pos (by omega) hUpos
  have hk24 : k ≤ 2 ^ 24 := le_trans hk hW24
  have hdiv : F32.div (F32.ofNat k) (F32.ofNat W) =
      some ⟨(roundToF32 (k * F32.unit * F32.unit) (W * F32.unit) : Nat)⟩ := by
    rw [F32.div_of_nonneg _ _ (by rw [F32.ofNat_units k hk24]; exact Int.ofNat_nonneg _)
      (by rw [F32.ofNat_units W hW24]; exact_mod_cast hWU),
      F32.ofNat_units k hk24, F32.ofNat_units W hW24, Int.natAbs_ofNat, Int.natAbs_ofNat]
  have hmW : 128 * k / W * W ≤ 128 * k := Nat.div_mul_le_self _ _
  have hmW2 : 128 * k < (128 * k / W + 1) * W :=
    calc 128 * k < W * (128 * k / W + 1) := Nat.lt_mul_div_succ (128 * k) (show 0 < W by omega)
      _ = (128 * k / W + 1) * W := Nat.mul_comm _ _
  have hm128 : 128 * k / W ≤ 128 := by
    apply Nat.div_le_of_le_mul
    omega
  have h24 : (2 : Nat) ^ 24 = 16777216 := by norm_num
  have hlo : 128 * k / W * 2 ^ 142 ≤
      roundToF32 (k * F32.unit * F32.unit) (W * F32.unit) := by
    apply roundToF32_ge _ _ _ 142 hWU (by omega)
    calc 128 * k / W * 2 ^ 142 * (W * F32.unit)
        = (128 * k / W * W) * (2 ^ 142 * F32.unit) := by ring
      _ ≤ (128 * k) * (2 ^ 142 * F32.unit) := Nat.mul_le_mul_right _ hmW
      _ = k * (128 * 2 ^ 142) * F32.unit := by ring
      _ = k * F32.unit * F32.unit := by rw [← hU]
  have hhi : roundToF32 (k * F32.unit * F32.unit) (W * F32.unit) ≤
      (128 * k / W + 1) * 2 ^ 142 := by
    apply roundToF32_le _ _ _ 142 hWU (by omega)
    calc k * F32.unit * F32.unit = k * (128 * 2 ^ 142) * F32.unit := by rw [← hU]
      _ = (128 * k) * (2 ^ 142 * F32.unit) := by ring
      _ ≤ ((128 * k / W + 1) * W) * (2 ^ 142 * F32.unit) :=
          Nat.mul_le_mul_right _ (Nat.le_of_lt hmW2)
      _ = (128 * k / W + 1) * 2 ^ 142 * (W * F32.unit) := by ring
  obtain ⟨g, hg, hg1, hg2, hgdef⟩ := toIntGain_bracket _ (128 * k / W) (by omega) hlo hhi
  refine ⟨_, g, hdiv, hg, hg1, hg2, ?_, ?_, ?_⟩
  · intro hW17 hkW
    have hm127 : 128 * k / W + 1 ≤ 128 := by
      have : 128 * k / W < 128 := by
        apply Nat.div_lt_of_lt_mul
        omega
      omega
    have h17 : (2 : Nat) ^ 17 = 131072 := by norm_num
    have hM : (128 * k / W + 1) * 2 ^ 17 - 1 ≤ 2 ^ 24 := by
      rw [h17, h24]
      omega
    have hMpos : 1 ≤ (128 * k / W + 1) * 2 ^ 17 := by
      rw [h17]
      omega
    have hr : roundToF32 (k * F32.unit * F32.unit) (W * F32.unit) ≤
        ((128 * k / W + 1) * 2 ^ 17 - 1) * 2 ^ 125 := by
      apply roundToF32_le _ _ _ 125 hWU hM
      have hkey : k * 2 ^ 24 ≤ ((128 * k / W + 1) * 2 ^ 17 - 1) * W := by
        have e1 : ((128 * k / W + 1) * 2 ^ 17 - 1) * W =
            (128 * k / W + 1) * W * 2 ^ 17 - W := by
          rw [Nat.sub_mul, Nat.one_mul]
          congr 1
          ring
        rw [e1, h17, h24]
        rw [h17] at hW17
        omega
      calc k * F32.unit * F32.unit = (k * 2 ^ 24) * (2 ^ 125 * F32.unit) := by
            rw [hU149]
            ring
        _ ≤ (((128 * k / W + 1) * 2 ^ 17 - 1) * W) * (2 ^ 125 * F32.unit) :=
            Nat.mul_le_mul_right _ hkey
        _ = ((128 * k / W + 1) * 2 ^ 17 - 1) * 2 ^ 125 * (W * F32.unit) := by ring
    have hp : roundToF32
        (roundToF32 (k * F32.unit * F32.unit) (W * F32.unit) * (128 * F32.unit)) F32.unit ≤
        ((128 * k / W + 1) * 2 ^ 17 - 1) * 2 ^ 132 := by
      apply roundToF32_le _ _ _ 132 hUpos hM
      calc roundToF32 (k * F32.unit * F32.unit) (W * F32.unit) * (128 * F32.unit)
          ≤ (((128 * k / W + 1) * 2 ^ 17 - 1) * 2 ^ 125) * (128 * F32.unit) :=
            Nat.mul_le_mul_right _ hr
        _ = ((128 * k / W + 1) * 2 ^ 17 - 1) * 2 ^ 132 * F32.unit := by ring
    have hlt : g < 128 * k / W + 1 := by
      rw [hgdef]
      apply Nat.div_lt_of_lt_mul
      calc roundToF32
            (roundToF32 (k * F32.unit * F32.unit) (W * F32.unit) * (128 * F32.unit)) F32.unit
          ≤ ((128 * k / W + 1) * 2 ^ 17 - 1) * 2 ^ 132 := hp
        _ < ((128 * k / W + 1) * 2 ^ 17) * 2 ^ 132 :=
            Nat.mul_lt_mul_of_pos_right (by omega) (by positivity)
        _ = F32.unit * (128 * k / W + 1) := by
            rw [hU149]
            ring
    omega
  · intro hkW
    subst hkW
    have hr : roundToF32 (k * F32.unit * F32.unit) (k * F32.unit) = F32.unit := by
      have := roundToF32_exact (k * F32.unit) 1 149 hWU (by norm_num)
      have e : k * F32.unit * F32.unit = 1 * 2 ^ 149 * (k * F32.unit) := by
        rw [← hU149]
        ring
      rw [e, this, Nat.one_mul, ← hU149]
    refine ⟨?_, hr⟩
    rw [hgdef, hr]
    have := roundToF32_exact F32.unit 128 149 hUpos (by norm_num)
    have e : F32.unit * (128 * F32.unit) = 128 * 2 ^ 149 * F32.unit := by
      rw [hU149]
      ring
    rw [e, this, hU149]
    exact Nat.mul_div_cancel _ (by positivity)
  · have := roundToF32_le (k * F32.unit * F32.unit) (W * F32.unit) 1 149 hWU (by norm_num)
      (by
        rw [Nat.one_mul, ← hU149]
        calc k * F32.unit * F32.unit = k * (F32.unit * F32.unit) := by ring
          _ ≤ W * (F32.unit * F32.unit) := Nat.mul_le_mul_right _ hk
          _ = F32.unit * (W * F32.unit) := by ring)
    rw [Nat.one_mul] at this
    exact this


theorem attackToRelease_noTrigger (s : PlayingStreamInternal) (hrel : noReleaseTrigger s) :
    attackToRelease s = some s := by
  unfold attackToRelease
  split
  · split
    · rename_i htp
      rcases hrel with h0 | ⟨wout, hw, hle⟩
      · exact absurd h0 htp
      · rw [hw]
        simp only [Option.some_bind]
        rw [if_neg (by omega)]
    · rfl
  · rfl

theorem sustainToRelease_noTrigger (s : PlayingStreamInternal) (hrel : noReleaseTrigger s) :
    sustainToRelease s = some s := by
  unfold sustainToRelease
  split
  · split
    · split
      · rename_i htp
        rcases hrel with h0 | ⟨wout, hw, hle⟩
        · exact absurd h0 htp
        · rw [hw]
          simp only [Option.some_bind]
          rw [if_neg (by omega)]
      · rfl
    · rfl
  · rfl

theorem releaseGain_of_not_release (s : PlayingStreamInternal) (g : Int)
    (h : s.gain_state ≠ GainState.kRelease) : releaseGain s g = some (s, g) := by
  unfold releaseGain
  rw [if_neg h]

/-- C3, as amended. For a stream in Attack with no stop pending and no release due, with
a fade-in window of `W` blocks, `1 <= W <= 2^24`, at `k` blocks elapsed:
for `k <= W` the gain returned is the truncation of 128 times the single-precision
quotient `k / W`; it is `trunc(128 k / W)` or one more, it is exactly `trunc(128 k / W)`
when `W <= 2^17`, and it is 128 at `k = W`; the record stays in Attack with `cur_gain` the
quotient.  For `k > W` the gain returned is 128 and the record moves to Sustain with
`cur_gain = 1.0`. -/
theorem attack_ramp_gain (s : PlayingStreamInternal) (W : Nat)
    (hA : s.gain_state = GainState.kAttack) (hstop : s.stop_control_in_callback = none)
    (hW : numBlocksToFade s.wave_file s.fade_control.fade_in_time_sec = some W)
    (hW1 : 1 ≤ W) (hW24 : W ≤ 2 ^ 24) (hrel : noReleaseTrigger s) :
    (s.total_blocks_streamed ≤ W →
      ∃ (ramp : F32) (g : Nat),
        updateGainStateInCallback s = some ({ s with cur_gain := ramp }, (g : Int)) ∧
        F32.div (F32.ofNat s.total_blocks_streamed) (F32.ofNat W) = some ramp ∧
        ToIntGain ramp = some (g : Int) ∧
        128 * s.total_blocks_streamed / W ≤ g ∧ g ≤ 128 * s.total_blocks_streamed / W + 1 ∧
        (W ≤ 2 ^ 17 → s.total_blocks_streamed < W → g = 128 * s.total_blocks_streamed / W) ∧
        (s.total_blocks_streamed = W → g = 128)) ∧
    (W < s.total_blocks_streamed →
      updateGainStateInCallback s =
        some ({ s with cur_gain := F32.one, gain_state := GainState.kSustain }, 128)) := by
  have h1 : applyStopControl s = some s := applyStopControl_none s hstop
  have h2 : attackToRelease s = some s := attackToRelease_noTrigger s hrel
  constructor
  · intro hk
    obtain ⟨r, g, hdiv, hg, b1, b2, b3, b4, _⟩ :=
      rampGain_spec s.total_blocks_streamed W hW1 hW24 hk
    refine ⟨⟨(r : Int)⟩, g, ?_, hdiv, hg, b1, b2, b3, fun h => (b4 h).1⟩
    have h3 : attackRamp s kMaxGain = some ({ s with cur_gain := ⟨(r : Int)⟩ }, (g : Int)) := by
      unfold attackRamp
      rw [if_pos hA, hW]
      simp only [Option.some_bind]
      rw [if_neg (by omega), hdiv]
      simp only [Option.some_bind]
      rw [hg]
      rfl
    have h4 : sustainToRelease { s with cur_gain := ⟨(r : Int)⟩ } =
        some { s with cur_gain := ⟨(r : Int)⟩ } := sustainToRelease_noTrigger _ hrel
    have h5 : releaseGain { s with cur_gain := ⟨(r : Int)⟩ } (g : Int) =
        some ({ s with cur_gain := ⟨(r : Int)⟩ }, (g : Int)) :=
      releaseGain_of_not_release _ _ (by rw [hA]; decide)
    unfold updateGainStateInCallback
    rw [h1]
    simp only [Option.some_bind]
    rw [h2]
    simp only [Option.some_bind]
    rw [h3]
    simp only [Option.some_bind]
    rw [h4]
    simp only [Option.some_bind]
    rw [h5]
  · intro hk
    have h3 : attackRamp s kMaxGain =
        some ({ s with cur_gain := F32.one, gain_state := GainState.kSustain }, kMaxGain) := by
      unfold attackRamp
      rw [if_pos hA, hW]
      simp only [Option.some_bind]
      rw [if_pos hk]
    have h4 : sustainToRelease { s with cur_gain := F32.one, gain_state := GainState.kSustain } =
        some { s with cur_gain := F32.one, gain_state := GainState.kSustain } :=
      sustainToRelease_noTrigger _ hrel
    have h5 : releaseGain { s with cur_gain := F32.one, gain_state := GainState.kSustain }
        kMaxGain =
        some ({ s with cur_gain := F32.one, gain_state := GainState.kSustain }, kMaxGain) :=
      releaseGain_of_not_release _ _ (fun h => GainState.noConfusion h)
    unfold updateGainStateInCallback
    rw [h1]
    simp only [Option.some_bind]
    rw [h2]
    simp only [Option.some_bind]
    rw [h3]
    simp only [Option.some_bind]
    rw [h4]
    simp only [Option.some_bind]
    rw [h5]
    rfl

set_option maxRecDepth 20000 in
theorem attack_ramp_gain_witness :
    longFadeInStream.gain_state = GainState.kAttack ∧
    ((longFadeInStream.total_blocks_streamed ≤ 297675 →
      ∃ (ramp : F32) (g : Nat),
        updateGainStateInCallback longFadeInStream =
          some ({ longFadeInStream with cur_gain := ramp }, (g : Int)) ∧
        F32.div (F32.ofNat longFadeInStream.total_blocks_streamed) (F32.ofNat 297675) =
          some ramp ∧
        ToIntGain ramp = some (g : Int) ∧
        128 * longFadeInStream.total_blocks_streamed / 297675 ≤ g ∧
        g ≤ 128 * longFadeInStream.total_blocks_streamed / 297675 + 1 ∧
        (297675 ≤ 2 ^ 17 → longFadeInStream.total_blocks_streamed < 297675 →
          g = 128 * longFadeInStream.total_blocks_streamed / 297675) ∧
        (longFadeInStream.total_blocks_streamed = 297675 → g = 128)) ∧
    (297675 < longFadeInStream.total_blocks_streamed →
      updateGainStateInCallback longFadeInStream =
        some ({ longFadeInStream with
          cur_gain := F32.one, gain_state := GainState.kSustain }, 128))) :=
  ⟨rfl, attack_ramp_gain longFadeInStream 297675 rfl rfl (by decide) (by decide) (by decide)
    (Or.inl rfl)⟩

set_option maxRecDepth 20000 in
/-- C3, counterexample. With a fade-in of 13.5 s at 22050 Hz the window is 297675 blocks;
at 230233 blocks elapsed the single-precision quotient rounds up to a multiple of 1/128
and the gain returned is 99, not `trunc(128 * 230233 / 297675) = 98`. -/
theorem attack_ramp_gain_counterexample :
    longFadeInStream.gain_state = GainState.kAttack ∧
    longFadeInStream.stop_control_in_callback = none ∧
    longFadeInStream.total_blocks_to_play = 0 ∧
    numBlocksToFade longFadeInStream.wave_file
      longFadeInStream.fade_control.fade_in_time_sec = some 297675 ∧
    longFadeInStream.total_blocks_streamed = 230233 ∧
    (updateGainStateInCallback longFadeInStream).map Prod.snd = some 99 ∧
    (128 * 230233 / 297675 : Nat) = 98 := by
  decide


/-! ## Release -/

theorem attackRamp_of_not_attack (s : PlayingStreamInternal) (g : Int)
    (h : s.gain_state ≠ GainState.kAttack) : attackRamp s g = some (s, g) := by
  unfold attackRamp
  rw [if_neg h]

theorem sustainToRelease_of_not_sustain (s : PlayingStreamInternal)
    (h : s.gain_state ≠ GainState.kSustain) : sustainToRelease s = some s := by
  unfold sustainToRelease
  rw [if_neg h]

theorem attackToRelease_of_not_attack (s : PlayingStreamInternal)
    (h : s.gain_state ≠ GainState.kAttack) : attackToRelease s = some s := by
  unfold attackToRelease
  rw [if_neg h]

/-- The Release ramp of a record in Release whose fade-out window of `W` blocks covers its
remaining life. -/
theorem releaseGain_spec (s t : PlayingStreamInternal) (g0 g : Int) (W : Nat)
    (hR : s.gain_state = GainState.kRelease)
    (hW : numBlocksToFade s.wave_file s.fade_control.fade_out_time_sec = some W)
    (hcover : s.total_blocks_streamed + W ≥ s.total_blocks_to_play)
    (h : releaseGain s g0 = some (t, g)) :
    t = { s with cur_gain := t.cur_gain } ∧
    (s.total_blocks_to_play ≤ s.total_blocks_streamed → t.cur_gain = F32.zero ∧ g = 0) ∧
    (s.total_blocks_streamed < s.total_blocks_to_play →
      ∃ ratio,
        F32.div (F32.ofNat (s.total_blocks_to_play - s.total_blocks_streamed)) (F32.ofNat W) =
          some ratio ∧
        t.cur_gain = F32.mul ratio s.gain_at_release ∧ ToIntGain t.cur_gain = some g) := by
  unfold releaseGain at h
  rw [if_pos hR] at h
  by_cases hend : s.total_blocks_streamed ≥ s.total_blocks_to_play
  · rw [if_pos hend] at h
    cases h
    exact ⟨rfl, fun _ => ⟨rfl, rfl⟩, fun hlt => absurd hend (by omega)⟩
  · rw [if_neg hend, hW] at h
    simp only [Option.some_bind] at h
    rw [if_pos hcover, sizeSub_of_le _ _ (by omega)] at h
    rcases Option.bind_eq_some.mp h with ⟨c, hc, h⟩
    rcases Option.map_eq_some'.mp hc with ⟨ratio, hratio, rfl⟩
    rcases Option.bind_eq_some.mp h with ⟨gi, hgi, h⟩
    cases h
    exact ⟨rfl, fun hle => absurd hle (by omega), fun _ => ⟨ratio, hratio, rfl, hgi⟩⟩

/-- C4, as amended. A stream in Attack on which a stop has been applied (none is pending any
more) enters Release at the tick at which its remaining life
`b = total_blocks_to_play - total_blocks_streamed` is shorter than the fade-out window
`W`, with `gain_at_release` the latest ramp gain `cur_gain` (not 1.0); on that tick, and on
every tick of a stream in Release whose window covers its remaining life, `cur_gain`
becomes 0 when `b = 0`, and otherwise the single-precision product of the
single-precision quotient `b / W` and `gain_at_release`, and the gain returned is its
fixed-point value. -/
theorem release_from_attack_gain (s t : PlayingStreamInternal) (g : Int) (W : Nat)
    (hstop : s.stop_control_in_callback = none)
    (hbounded : s.total_blocks_to_play ≠ 0)
    (hW : numBlocksToFade s.wave_file s.fade_control.fade_out_time_sec = some W)
    (hstate : (s.gain_state = GainState.kAttack ∧
        s.total_blocks_streamed + W > s.total_blocks_to_play) ∨
      (s.gain_state = GainState.kRelease ∧
        s.total_blocks_streamed + W ≥ s.total_blocks_to_play))
    (h : updateGainStateInCallback s = some (t, g)) :
    t.gain_state = GainState.kRelease ∧
    t.gain_at_release =
      (if s.gain_state = GainState.kAttack then s.cur_gain else s.gain_at_release) ∧
    (s.total_blocks_to_play ≤ s.total_blocks_streamed → t.cur_gain = F32.zero ∧ g = 0) ∧
    (s.total_blocks_streamed < s.total_blocks_to_play →
      ∃ ratio,
        F32.div (F32.ofNat (s.total_blocks_to_play - s.total_blocks_streamed)) (F32.ofNat W) =
          some ratio ∧
        t.cur_gain = F32.mul ratio t.gain_at_release ∧ ToIntGain t.cur_gain = some g) := by
  obtain ⟨s1, s2, s3, g3, s4, h1, h2, h3, h4, h5⟩ := updateGain_stages s t g h
  rw [applyStopControl_none s hstop] at h1
  cases h1
  rcases hstate with ⟨hA, htrig⟩ | ⟨hR, hcover⟩
  · have e2 : s2 =
        { s with gain_at_release := s.cur_gain, gain_state := GainState.kRelease } := by
      unfold attackToRelease at h2
      rw [if_pos hA, if_pos hbounded, hW] at h2
      simp only [Option.some_bind] at h2
      rw [if_pos htrig] at h2
      cases h2
      rfl
    have hs2R : s2.gain_state = GainState.kRelease := by rw [e2]
    have hs2G : s2.gain_at_release = s.cur_gain := by rw [e2]
    rw [attackRamp_of_not_attack _ _ (by rw [hs2R]; exact fun e => GainState.noConfusion e)] at h3
    cases h3
    rw [sustainToRelease_of_not_sustain _
      (by rw [hs2R]; exact fun e => GainState.noConfusion e)] at h4
    cases h4
    obtain ⟨r1, r2, r3⟩ := releaseGain_spec s2 t _ g W hs2R (by rw [e2]; exact hW)
      (by rw [e2]; exact Nat.le_of_lt htrig) h5
    have ht : t.gain_state = GainState.kRelease ∧ t.gain_at_release = s.cur_gain := by
      rw [r1]
      exact ⟨hs2R, hs2G⟩
    refine ⟨ht.1, ?_, ?_, ?_⟩
    · rw [if_pos hA]
      exact ht.2
    · have := r2
      rw [e2] at this
      exact this
    · intro hlt
      obtain ⟨ratio, q1, q2, q3⟩ := r3 (by rw [e2]; exact hlt)
      refine ⟨ratio, ?_, ?_, q3⟩
      · rw [e2] at q1
        exact q1
      · rw [q2, ht.2, hs2G]
  · have hnA : s.gain_state ≠ GainState.kAttack := by rw [hR]; exact fun e => GainState.noConfusion e
    have hnS : s.gain_state ≠ GainState.kSustain := by rw [hR]; exact fun e => GainState.noConfusion e
    rw [attackToRelease_of_not_attack _ hnA] at h2
    cases h2
    rw [attackRamp_of_not_attack _ _ hnA] at h3
    cases h3
    rw [sustainToRelease_of_not_sustain _ hnS] at h4
    cases h4
    obtain ⟨r1, r2, r3⟩ := releaseGain_spec _ t _ g W hR hW hcover h5
    rw [r1]
    refine ⟨hR, ?_, r2, r3⟩
    rw [if_neg hnA]

set_option maxRecDepth 20000 in
theorem release_from_attack_gain_witness :
    ∃ p, updateGainStateInCallback stoppedInAttackStream = some p ∧
      p.1.gain_state = GainState.kRelease ∧
      p.1.gain_at_release =
        (if stoppedInAttackStream.gain_state = GainState.kAttack then
          stoppedInAttackStream.cur_gain else stoppedInAttackStream.gain_at_release) ∧
      (stoppedInAttackStream.total_blocks_to_play ≤
          stoppedInAttackStream.total_blocks_streamed → p.1.cur_gain = F32.zero ∧ p.2 = 0) ∧
      (stoppedInAttackStream.total_blocks_streamed <
          stoppedInAttackStream.total_blocks_to_play →
        ∃ ratio,
          F32.div (F32.ofNat (stoppedInAttackStream.total_blocks_to_play -
            stoppedInAttackStream.total_blocks_streamed)) (F32.ofNat 11025) = some ratio ∧
          p.1.cur_gain = F32.mul ratio p.1.gain_at_release ∧
          ToIntGain p.1.cur_gain = some p.2) :=
  ⟨_, rfl, release_from_attack_gain stoppedInAttackStream _ _ 11025 rfl (by decide)
    (by decide) (Or.inl (by decide)) rfl⟩

set_option maxRecDepth 20000 in
/-- C4, counterexample. A looping stream with a fade-in of 1 s is stopped with
`StopFade(0.01f)` (a window of 220 blocks) after 10 blocks.  The callback that consumes
the stop leaves it in Attack, streams past `total_blocks_to_play` and removes it from
the active set: the stream never enters Release.  With `StopFade(0.5f)` the stream is
likewise still in Attack after the callback that consumes the stop. -/
theorem stop_in_attack_counterexample :
    ((fadeInDevice.exec [Op.callback 40, Op.stop (some 1) (StopFade (F32.ofRatio 1 100)),
          Op.callback 1024]).map fun p =>
        (p.1.IsPlaying (some 1),
          (p.1.record 1).map fun s =>
            (s.stop_control, s.stop_control_in_callback, s.total_blocks_to_play,
              s.total_blocks_streamed, s.gain_state))) =
      some (false, some (none, none, 230, 231, GainState.kAttack)) ∧
    ((fadeInDevice.exec [Op.callback 40, Op.stop (some 1) (StopFade (F32.ofRatio 1 2)),
          Op.callback 1024]).map fun p =>
        (p.1.IsPlaying (some 1),
          (p.1.record 1).map fun s =>
            (s.stop_control, s.stop_control_in_callback, s.total_blocks_to_play,
              s.total_blocks_streamed, s.gain_state))) =
      some (true, some (none, none, 11035, 266, GainState.kAttack)) :=
  ⟨rfl, rfl⟩

set_option maxRecDepth 20000 in
/-- C5, evaluation at the failing input. At 22050 Hz, with 7 blocks left and
`StopAtEndFade(1.0f)` (a window of 22050 blocks) consumed, `total_blocks_to_play` becomes
`993 + 7`, the fade-out duration becomes the single-precision quotient `7 / 22050`, and the
window recomputed from it is 6 blocks, not 7. -/
theorem fade_out_shrink_loses_block :
    stopAtEndStream.wave_file.GetNumBlocks - stopAtEndStream.looped_blocks_streamed = 7 ∧
    numBlocksToFade stopAtEndStream.wave_file (F32.ofNat 1) = some 22050 ∧
    ∃ t, applyStopControl stopAtEndStream = some t ∧
      t.total_blocks_to_play = stopAtEndStream.total_blocks_streamed + 7 ∧
      some t.fade_control.fade_out_time_sec = F32.div (F32.ofNat 7) (F32.ofNat 22050) ∧
      numBlocksToFade t.wave_file t.fade_control.fade_out_time_sec = some 6 :=
  ⟨by decide, by decide, _, rfl, by decide, by decide, by decide⟩

/-! ## The accumulators as a list of additions -/

theorem applyAdds_nil (add : Int → Int → Int) (mix : List StereoBlock32) :
    applyAdds add [] mix = mix := rfl

theorem applyAdds_append (add : Int → Int → Int) (a b : List MixAdd)
    (mix : List StereoBlock32) :
    applyAdds add (a ++ b) mix = applyAdds add b (applyAdds add a mix) := by
  unfold applyAdds
  rw [List.foldl_append]

theorem accumulateSamples_eq_applyAdds (add : Int → Int → Int) (buf : List StereoBlock32)
    (off : Nat) (gain : Int) (num_channels : Nat) (stream : List Int) (num_blocks : Nat) :
    accumulateSamples add buf off gain num_channels stream num_blocks =
      applyAdds add (blockAdds off gain num_channels stream num_blocks) buf := by
  unfold accumulateSamples blockAdds applyAdds
  split
  · split
    · rw [List.foldl_map]
      rfl
    · rw [List.foldl_map]
      rfl
  · split
    · split
      · rw [List.foldl_map]
        rfl
      · rw [List.foldl_map]
        rfl
    · rfl

theorem loopMix_eq_applyAdds (add : Int → Int → Int) (gain : Int) (req sent : Nat)
    (s : PlayingStreamInternal) (mix : List StereoBlock32) :
    loopMix add gain req sent s mix = applyAdds add (passAdds gain req sent s) mix := by
  unfold loopMix passAdds
  rw [accumulateSamples_eq_applyAdds]

/-- The per-stream loop touches the accumulators only through a list of additions that
does not depend on them; the record, the mark and the runs do not depend on the
accumulators at all. -/
theorem mixStreamLoop_adds (add : Int → Int → Int) (gain : Int) (req : Nat) :
    ∀ (fuel : Nat) (s : PlayingStreamInternal) (sent : Nat),
      ∃ adds : List MixAdd, ∀ mix,
        mixStreamLoop add gain req fuel s sent mix =
          (mixStreamLoop add gain req fuel s sent []).map
            fun r => { r with mix := applyAdds add adds mix } := by
  intro fuel
  induction fuel with
  | zero =>
    intro s sent
    refine ⟨[], fun mix => ?_⟩
    unfold mixStreamLoop
    split <;> rfl
  | succ fuel ih =>
    intro s sent
    by_cases hs : sent < req
    · by_cases he : reachedEnd (loopAdvance req sent s)
      · refine ⟨passAdds gain req sent s, fun mix => ?_⟩
        rw [mixStreamLoop_succ _ _ _ _ _ _ _ hs, mixStreamLoop_succ _ _ _ _ _ _ _ hs,
          if_pos he, if_pos he, loopMix_eq_applyAdds]
        rfl
      · obtain ⟨adds, hadds⟩ := ih (loopAdvance req sent s) (sent + loopRead req sent s)
        refine ⟨passAdds gain req sent s ++ adds, fun mix => ?_⟩
        rw [mixStreamLoop_succ _ _ _ _ _ _ _ hs, mixStreamLoop_succ _ _ _ _ _ _ _ hs,
          if_neg he, if_neg he, hadds (loopMix add gain req sent s mix),
          hadds (loopMix add gain req sent s [])]
        rw [Option.map_map, Option.map_map, Option.map_map, applyAdds_append,
          loopMix_eq_applyAdds]
        rfl
    · refine ⟨[], fun mix => ?_⟩
      rw [mixStreamLoop_done _ _ _ _ _ _ _ hs, mixStreamLoop_done _ _ _ _ _ _ _ hs]
      rfl

theorem mixAll_adds (add : Int → Int → Int) (req : Nat) :
    ∀ (snaps : List (Nat × PlayingStreamInternal × Int)),
      ∃ adds : List MixAdd, ∀ mix,
        mixAll add req snaps mix =
          (mixAll add req snaps []).map fun p => (p.1, applyAdds add adds mix) := by
  intro snaps
  induction snaps with
  | nil => exact ⟨[], fun mix => rfl⟩
  | cons e rest ih =>
    obtain ⟨h, s, gain⟩ := e
    obtain ⟨a1, h1⟩ := mixStreamLoop_adds add gain req (mixFuel req) s 0
    obtain ⟨a2, h2⟩ := ih
    refine ⟨a1 ++ a2, fun mix => ?_⟩
    simp only [mixAll]
    rw [h1 mix]
    cases hr : mixStreamLoop add gain req (mixFuel req) s 0 [] with
    | none => rfl
    | some r =>
      simp only [Option.map_some', Option.some_bind]
      rw [h2 (applyAdds add a1 mix), h2 r.mix, Option.map_map, Option.map_map, Option.map_map,
        applyAdds_append]
      rfl

theorem take_modifyAt {α : Type} (f : α → α) (n : Nat) :
    ∀ (i : Nat) (l : List α), (modifyAt f i l).take n = modifyAt f i (l.take n) := by
  induction n with
  | zero =>
    intro i l
    simp only [List.take_zero]
    cases i <;> rfl
  | succ n ih =>
    intro i l
    cases l with
    | nil => cases i <;> rfl
    | cons x xs =>
      cases i with
      | zero => rfl
      | succ i =>
        simp only [modifyAt, List.take_succ_cons, ih]

theorem take_applyAdds (add : Int → Int → Int) (n : Nat) (adds : List MixAdd) :
    ∀ mix : List StereoBlock32,
      (applyAdds add adds mix).take n = applyAdds add adds (mix.take n) := by
  induction adds with
  | nil => intro mix; rfl
  | cons u rest ih =>
    intro mix
    show (applyAdds add rest (modifyAt _ u.dest mix)).take n =
      applyAdds add rest (modifyAt _ u.dest (mix.take n))
    rw [ih, take_modifyAt]

theorem take_mapPrefix {α : Type} (f : α → α) (n : Nat) :
    ∀ l : List α, (mapPrefix f n l).take n = (l.take n).map f := by
  induction n with
  | zero => intro l; cases l <;> rfl
  | succ n ih =>
    intro l
    cases l with
    | nil => rfl
    | cons x xs => simp only [mapPrefix, List.take_succ_cons, List.map_cons, ih]

theorem take_zeroed (buf : List StereoBlock32) (n : Nat) :
    (mapPrefix (fun _ => ({ left := 0, right := 0 } : StereoBlock32)) n
      (allocateMixBuffer buf n)).take n = List.replicate n { left := 0, right := 0 } := by
  rw [take_mapPrefix]
  apply List.ext_getElem
  · have := length_allocateMixBuffer buf n
    simp only [List.length_map, List.length_take, List.length_replicate]
    omega
  · intro i h1 h2
    simp

theorem length_applyAdds (add : Int → Int → Int) (adds : List MixAdd) :
    ∀ mix : List StereoBlock32, (applyAdds add adds mix).length = mix.length := by
  induction adds with
  | nil => intro mix; rfl
  | cons u rest ih =>
    intro mix
    show (applyAdds add rest (modifyAt _ u.dest mix)).length = mix.length
    rw [ih, length_modifyAt]

/-- What a callback sends and what it does to every stream depends on the active set
only, not on the scratch buffers nor on the released records. -/
theorem dataCallback_output (d : Device) (amount : Int) :
    (d.dataCallback amount).map (fun r => (r.sent, r.mixed)) =
      callbackOutput d.playing_streams_ amount := by
  unfold Device.dataCallback callbackOutput
  by_cases h0 : amount = 0
  · rw [if_pos h0, if_pos h0]
    rfl
  · rw [if_neg h0, if_neg h0]
    unfold Device.fillMixBufferWith Device.mixAccumulators
    cases hs : snapshotAll d.playing_streams_ with
    | none => rfl
    | some snaps =>
      obtain ⟨adds, hadds⟩ := mixAll_adds add32 (Device.numRequestedBlocks amount) snaps
      simp only [Option.some_bind]
      rw [hadds (mapPrefix _ _ _), hadds (List.replicate _ _)]
      cases mixAll add32 (Device.numRequestedBlocks amount) snaps [] with
      | none => rfl
      | some p =>
        simp only [Option.map_some', Device.sendMixedToMainStream, Option.some.injEq,
          Prod.mk.injEq, and_true]
        rw [take_mapPrefix, take_applyAdds, take_zeroed]

/-! ## `StopImmediately` and the next callback -/

theorem mixed_handles (d : Device) (amount : Int) (r : CallbackResult)
    (hr : d.dataCallback amount = some r) :
    ∀ m ∈ r.mixed, ∃ e ∈ d.playing_streams_, m.handle = e.1 := by
  by_cases h0 : amount = 0
  · subst h0
    rw [dataCallback_zero] at hr
    cases hr
    intro m hm
    cases hm
  · intro m hm
    obtain ⟨e, he, hme⟩ := forall₂_exists_left _ _ _ (dataCallback_entries d amount r h0 hr).1 m hm
    exact ⟨e, he, hme.1⟩

/-- C11. `StopImmediately(h)` removes the entries of handle `h` from the active set and
leaves every other entry, with its record, in place: `IsPlaying(h)` is false afterwards and
`IsPlaying` of every other handle is unchanged.  The next callback mixes no run of `h`, and
the frames it sends are those sent by any device `d0` whose active set is the set without
`h` (whatever its scratch buffers hold). -/
theorem Device.stopImmediately_silences (d : Device) (h : Nat) :
    (d.StopImmediately (some h)).playing_streams_ =
        d.playing_streams_.filter (fun e => e.1 != h) ∧
      (d.StopImmediately (some h)).IsPlaying (some h) = false ∧
      (∀ k, k ≠ h →
        (d.StopImmediately (some h)).IsPlaying (some k) = d.IsPlaying (some k)) ∧
      (∀ k s, k ≠ h → d.Active k s → (d.StopImmediately (some h)).Active k s) ∧
      (∀ (amount : Int) (r : CallbackResult),
        (d.StopImmediately (some h)).dataCallback amount = some r →
        r.mixed.filter (fun m => m.handle == h) = [] ∧ runsOfStream h [r] = []) ∧
      (∀ (d0 : Device) (amount : Int),
        d0.playing_streams_ = d.playing_streams_.filter (fun e => e.1 != h) →
        ((d.StopImmediately (some h)).dataCallback amount).map (fun r => r.sent) =
          (d0.dataCallback amount).map (fun r => r.sent)) := by
  have hset : (d.StopImmediately (some h)).playing_streams_ =
      d.playing_streams_.filter (fun e => e.1 != h) := rfl
  have hnot : ∀ e ∈ (d.StopImmediately (some h)).playing_streams_, e.1 ≠ h := by
    intro e he
    rw [hset] at he
    simpa using (List.mem_filter.mp he).2
  refine ⟨hset, ?_, ?_, ?_, ?_, ?_⟩
  · show (d.StopImmediately (some h)).playing_streams_.any (fun e => e.1 == h) = false
    rw [List.any_eq_false]
    intro e he
    simpa using hnot e he
  · intro k hk
    show (d.StopImmediately (some h)).playing_streams_.any (fun e => e.1 == k) =
      d.playing_streams_.any (fun e => e.1 == k)
    rw [any_eq_filter_ne_nil, any_eq_filter_ne_nil, hset,
      (filter_key_filter_ne d.playing_streams_ k h (fun e => hk e.symm)).1]
  · intro k s hk ha
    exact ha.active_stopImmediately (some h) (fun e => hk (Option.some.inj e).symm)
  · intro amount r hr
    have hnil : r.mixed.filter (fun m => m.handle == h) = [] := by
      rw [List.filter_eq_nil_iff]
      intro m hm
      obtain ⟨e, he, hme⟩ := mixed_handles _ amount r hr m hm
      have := hnot e he
      simpa [hme] using this
    exact ⟨hnil, runsOfStream_single_nil h r hnil⟩
  · intro d0 amount h0
    have e1 := dataCallback_output (d.StopImmediately (some h)) amount
    have e2 := dataCallback_output d0 amount
    rw [h0, ← hset] at e2
    have := congrArg (Option.map Prod.fst) (e1.trans e2.symm)
    simpa [Option.map_map, Function.comp_def] using this

set_option maxRecDepth 20000 in
theorem Device.stopImmediately_silences_witness :
    (twoStreamDevice.StopImmediately (some 1)).IsPlaying (some 1) = false ∧
      ((twoStreamDevice.StopImmediately (some 1)).dataCallback 8).map (fun r => r.sent) =
        (loudOnlyDevice.dataCallback 8).map (fun r => r.sent) :=
  ⟨(Device.stopImmediately_silences twoStreamDevice 1).2.1,
    (Device.stopImmediately_silences twoStreamDevice 1).2.2.2.2.2 loudOnlyDevice 8 rfl⟩

/-! ## `Stop`: the pending command is applied once -/

theorem setStopControl_twice (h : Nat) (sc1 sc2 : StopControl)
    (l : List (Nat × PlayingStreamInternal)) :
    (l.map (Device.setStopControl h sc1)).map (Device.setStopControl h sc2) =
      l.map (Device.setStopControl h sc2) := by
  rw [List.map_map]
  apply List.map_congr_left
  intro e _
  unfold Device.setStopControl
  simp only [Function.comp_apply]
  by_cases he : e.1 = h
  · simp [he]
  · simp [he]

theorem Device.stop_twice (d : Device) (h : Nat) (sc1 sc2 : StopControl) :
    (d.Stop (some h) sc1).Stop (some h) sc2 = d.Stop (some h) sc2 := by
  simp only [Device.Stop, setStopControl_twice]

/-- What a callback leaves of the record `s` of a stream: the stop command pending in
`s`, if any, has been applied, both command fields are empty, and `total_blocks_to_play`
and the fade times are those left by `applyStopControl`. -/
theorem streamCallback_stop (req : Nat) (s : PlayingStreamInternal) (m : MixedStream)
    (hsc : StreamCallback add32 req s m) :
    ∃ t, applyStopControl
        (if s.stop_control.isSome then
          { s with stop_control_in_callback := s.stop_control, stop_control := none }
        else s) = some t ∧
      m.stream.stop_control = none ∧ m.stream.stop_control_in_callback = none ∧
      m.stream.total_blocks_to_play = t.total_blocks_to_play ∧
      m.stream.fade_control = t.fade_control := by
  obtain ⟨s1, g, mix0, mix1, hsnap, hloop⟩ := hsc
  unfold snapshotStream at hsnap
  obtain ⟨t, ht, hsame⟩ := updateGain_after_stop _ s1 g hsnap
  have hsbc := mixStreamLoop_sameButCounters _ _ _ _ _ _ _ _ hloop
  obtain ⟨_, c2, c3⟩ := applyStopControl_sameCounters _ t ht
  dsimp only at hsbc
  refine ⟨t, ht, ?_, ?_, ?_, ?_⟩
  · rw [hsbc.2.2.2.2.2.2.2.1, hsame.2.2.2.2.2.2.2.1, c2]
    split <;> simp_all
  · rw [hsbc.2.2.2.2.2.2.2.2, hsame.2.2.2.2.2.2.2.2, c3]
  · rw [hsbc.2.2.2.1, hsame.2.2.2.2.2.2.1]
  · rw [hsbc.2.2.1, hsame.2.2.2.1]

/-- After a callback the record of a stream that was active, whether the stream is still
active or was released by the callback. -/
theorem Device.Active.record_after_callback {d : Device} {h : Nat}
    {s : PlayingStreamInternal} (ha : d.Active h s) (amount : Int) (r : CallbackResult)
    (hne : amount ≠ 0) (hr : d.dataCallback amount = some r) :
    ∃ m, StreamCallback add32 (Device.numRequestedBlocks amount) s m ∧
      r.device.record h = some m.stream ∧
      (r.device.Active h m.stream ∨ r.device.Gone h m.stream) := by
  obtain ⟨m, _, _, hsc, hA, hG⟩ := ha.active_callback amount r hne hr
  refine ⟨m, hsc, ?_⟩
  cases hm : m.marked with
  | false => exact ⟨(hA hm).active_record, Or.inl (hA hm)⟩
  | true => exact ⟨(hG hm).gone_record, Or.inr (hG hm)⟩

/-- What a consumed stop command `sc` leaves in the record (lines 288-335 of
`updateGainStateInCallback`), with `W` the fade-out window of the command and `L` the
number of blocks left to the stream. -/
theorem applyStopControl_outcome (s t : PlayingStreamInternal) (sc : StopControl)
    (hsc : s.stop_control_in_callback = some sc) (h : applyStopControl s = some t) :
    ∃ W L, numBlocksToFade s.wave_file
        (sc.fade_out_time_sec.getD s.fade_control.fade_out_time_sec) = some W ∧
      (sc.stop_at_end = false → L = W) ∧
      (sc.stop_at_end = true → s.total_blocks_to_play = 0 →
        L = if sizeSub s.wave_file.GetNumBlocks s.looped_blocks_streamed = 0 then W
          else sizeSub s.wave_file.GetNumBlocks s.looped_blocks_streamed) ∧
      (sc.stop_at_end = true → s.total_blocks_to_play ≠ 0 →
        L = if min (sizeSub s.wave_file.GetNumBlocks s.looped_blocks_streamed)
              (sizeSub s.total_blocks_to_play s.total_blocks_streamed) = 0 then W
          else min (sizeSub s.wave_file.GetNumBlocks s.looped_blocks_streamed)
            (sizeSub s.total_blocks_to_play s.total_blocks_streamed)) ∧
      t.total_blocks_to_play = s.total_blocks_streamed + L ∧
      t.fade_control.fade_in_time_sec = s.fade_control.fade_in_time_sec ∧
      (W ≤ L → t.fade_control.fade_out_time_sec =
        sc.fade_out_time_sec.getD s.fade_control.fade_out_time_sec) ∧
      (L < W → F32.div (F32.ofNat L) (F32.ofNat s.wave_file.GetSampleRate) =
        some t.fade_control.fade_out_time_sec) := by
  unfold applyStopControl at h
  rw [hsc] at h
  dsimp only at h
  rcases Option.bind_eq_some.mp h with ⟨W, hW, h⟩
  rcases Option.bind_eq_some.mp h with ⟨fo, hfo, h⟩
  cases h
  refine ⟨W, _, hW, ?_, ?_, ?_, rfl, rfl, ?_, ?_⟩
  · intro hf
    simp only [hf, Bool.false_eq_true, if_false, if_true]
  · intro ht htp
    simp only [ht, if_true, htp, ne_eq, not_true_eq_false, if_false]
  · intro ht htp
    simp only [ht, if_true, htp, ne_eq, not_false_eq_true]
    by_cases hlt : sizeSub s.total_blocks_to_play s.total_blocks_streamed <
        sizeSub s.wave_file.GetNumBlocks s.looped_blocks_streamed
    · rw [if_pos hlt, Nat.min_eq_right (Nat.le_of_lt hlt)]
    · rw [if_neg hlt, Nat.min_eq_left (Nat.le_of_not_lt hlt)]
  · intro hle
    dsimp only
    rw [if_neg (Nat.not_lt.mpr hle)] at hfo
    cases hfo
    rfl
  · intro hlt
    dsimp only
    rw [if_pos hlt] at hfo
    exact hfo

/-- C12. Two `Stop` calls on a playing stream leave the state that the last one alone
leaves, and `Stop` changes nothing but the pending command of that stream.  The next run
of `fillMixBuffer` (a callback with a non-zero amount) applies that last command `sc2`
to the record: with `W` the fade-out window of `sc2` (its duration, or the duration of the
record when it has none, in blocks), the blocks left `L` are `W` when `stop_at_end` is
false, and otherwise the blocks up to the end of the current pass over the source, clipped
by what is left of a non-zero `total_blocks_to_play`, or `W` when that is 0;
`total_blocks_to_play` becomes `total_blocks_streamed + L`, and the fade-out duration that
of the command, shrunk to `L` blocks when `L < W`; the fade-in duration is kept.
Afterwards both `stop_control` and `stop_control_in_callback` of the record are empty.  A
following callback, with no `Stop` in between, leaves `total_blocks_to_play` and the fade
times as they are. -/
theorem Device.stop_applied_once (d : Device) (h : Nat) (s : PlayingStreamInternal)
    (sc1 sc2 : StopControl) (amount : Int) (r : CallbackResult)
    (ha : d.Active h s) (hne : amount ≠ 0)
    (hr : ((d.Stop (some h) sc1).Stop (some h) sc2).dataCallback amount = some r) :
    (d.Stop (some h) sc1).Stop (some h) sc2 = d.Stop (some h) sc2 ∧
      (d.Stop (some h) sc2).Active h { s with stop_control := some sc2 } ∧
      (∀ k s0, k ≠ h → d.Active k s0 → (d.Stop (some h) sc2).Active k s0) ∧
      ∃ W L s1,
        numBlocksToFade s.wave_file
          (sc2.fade_out_time_sec.getD s.fade_control.fade_out_time_sec) = some W ∧
        (sc2.stop_at_end = false → L = W) ∧
        (sc2.stop_at_end = true → s.total_blocks_to_play = 0 →
          L = if sizeSub s.wave_file.GetNumBlocks s.looped_blocks_streamed = 0 then W
            else sizeSub s.wave_file.GetNumBlocks s.looped_blocks_streamed) ∧
        (sc2.stop_at_end = true → s.total_blocks_to_play ≠ 0 →
          L = if min (sizeSub s.wave_file.GetNumBlocks s.looped_blocks_streamed)
                (sizeSub s.total_blocks_to_play s.total_blocks_streamed) = 0 then W
            else min (sizeSub s.wave_file.GetNumBlocks s.looped_blocks_streamed)
              (sizeSub s.total_blocks_to_play s.total_blocks_streamed)) ∧
        r.device.record h = some s1 ∧
        s1.stop_control = none ∧ s1.stop_control_in_callback = none ∧
        s1.total_blocks_to_play = s.total_blocks_streamed + L ∧
        s1.fade_control.fade_in_time_sec = s.fade_control.fade_in_time_sec ∧
        (W ≤ L → s1.fade_control.fade_out_time_sec =
          sc2.fade_out_time_sec.getD s.fade_control.fade_out_time_sec) ∧
        (L < W → F32.div (F32.ofNat L) (F32.ofNat s.wave_file.GetSampleRate) =
          some s1.fade_control.fade_out_time_sec) ∧
        ∀ (amount2 : Int) (r2 : CallbackResult),
          r.device.dataCallback amount2 = some r2 →
          ∃ s2, r2.device.record h = some s2 ∧
            s2.stop_control = none ∧ s2.stop_control_in_callback = none ∧
            s2.total_blocks_to_play = s1.total_blocks_to_play ∧
            s2.fade_control = s1.fade_control := by
  rw [Device.stop_twice] at hr
  refine ⟨Device.stop_twice d h sc1 sc2, ha.active_stop_self sc2, ?_, ?_⟩
  · intro k s0 hk hk0
    exact hk0.active_stop (some h) sc2 (fun e => hk (Option.some.inj e).symm)
  · obtain ⟨m, hsc, hrec, hst⟩ :=
      (ha.active_stop_self sc2).record_after_callback amount r hne hr
    obtain ⟨t, ht, m1, m2, m3, m4⟩ := streamCallback_stop _ _ m hsc
    have ht2 : applyStopControl
        { s with stop_control := none, stop_control_in_callback := some sc2 } = some t := by
      simpa using ht
    obtain ⟨W, L, o1, o2, o3, o4, o5, o6, o7, o8⟩ :=
      applyStopControl_outcome _ t sc2 rfl ht2
    refine ⟨W, L, m.stream, o1, o2, o3, o4, hrec, m1, m2, ?_, ?_, ?_, ?_, ?_⟩
    · rw [m3, o5]
    · rw [m4, o6]
    · intro hle
      rw [m4, o7 hle]
    · intro hlt
      rw [m4]
      exact o8 hlt
    · intro amount2 r2 hr2
      by_cases h2 : amount2 = 0
      · subst h2
        rw [dataCallback_zero] at hr2
        cases hr2
        exact ⟨m.stream, hrec, m1, m2, rfl, rfl⟩
      · rcases hst with hA | hG
        · obtain ⟨m', hsc', hrec', _⟩ := hA.record_after_callback amount2 r2 h2 hr2
          obtain ⟨t', ht', n1, n2, n3, n4⟩ := streamCallback_stop _ _ m' hsc'
          rw [m1] at ht'
          simp only [Option.isSome_none, Bool.false_eq_true, if_false] at ht'
          rw [applyStopControl_none _ m2] at ht'
          cases ht'
          exact ⟨m'.stream, hrec', n1, n2, n3, n4⟩
        · exact ⟨m.stream, (hG.gone_callback amount2 r2 hr2).1.gone_record, m1, m2, rfl, rfl⟩

set_option maxRecDepth 20000 in
theorem Device.stop_applied_once_witness :
    ∃ r, (((Device.Init.Play threeBlockWave kPlayLooped kNoFade).1.Stop (some 1)
          StopAtEnd).Stop (some 1) (StopFade (F32.ofNat 1))).dataCallback 8 = some r ∧
      (r.device.record 1).map (fun s => (s.stop_control, s.stop_control_in_callback,
          s.total_blocks_to_play, s.total_blocks_streamed,
          s.fade_control.fade_out_time_sec)) =
        some (none, none, 22050, 2, F32.ofNat 1) ∧
      ((r.device.dataCallback 8).bind fun r2 => (r2.device.record 1).map
          fun s => (s.total_blocks_to_play, s.total_blocks_streamed,
            s.fade_control.fade_out_time_sec)) = some (22050, 4, F32.ofNat 1) ∧
      ∃ W L s1,
        numBlocksToFade loopingStream.wave_file
          ((StopFade (F32.ofNat 1)).fade_out_time_sec.getD
            loopingStream.fade_control.fade_out_time_sec) = some W ∧
        ((StopFade (F32.ofNat 1)).stop_at_end = false → L = W) ∧
        ((StopFade (F32.ofNat 1)).stop_at_end = true →
          loopingStream.total_blocks_to_play = 0 →
          L = if sizeSub loopingStream.wave_file.GetNumBlocks
                loopingStream.looped_blocks_streamed = 0 then W
            else sizeSub loopingStream.wave_file.GetNumBlocks
              loopingStream.looped_blocks_streamed) ∧
        ((StopFade (F32.ofNat 1)).stop_at_end = true →
          loopingStream.total_blocks_to_play ≠ 0 →
          L = if min (sizeSub loopingStream.wave_file.GetNumBlocks
                  loopingStream.looped_blocks_streamed)
                (sizeSub loopingStream.total_blocks_to_play
                  loopingStream.total_blocks_streamed) = 0 then W
            else min (sizeSub loopingStream.wave_file.GetNumBlocks
                loopingStream.looped_blocks_streamed)
              (sizeSub loopingStream.total_blocks_to_play
                loopingStream.total_blocks_streamed)) ∧
        r.device.record 1 = some s1 ∧
        s1.stop_control = none ∧ s1.stop_control_in_callback = none ∧
        s1.total_blocks_to_play = loopingStream.total_blocks_streamed + L ∧
        s1.fade_control.fade_in_time_sec = loopingStream.fade_control.fade_in_time_sec ∧
        (W ≤ L → s1.fade_control.fade_out_time_sec =
          (StopFade (F32.ofNat 1)).fade_out_time_sec.getD
            loopingStream.fade_control.fade_out_time_sec) ∧
        (L < W → F32.div (F32.ofNat L) (F32.ofNat loopingStream.wave_file.GetSampleRate) =
          some s1.fade_control.fade_out_time_sec) ∧
        ∀ (amount2 : Int) (r2 : CallbackResult),
          r.device.dataCallback amount2 = some r2 →
          ∃ s2, r2.device.record 1 = some s2 ∧
            s2.stop_control = none ∧ s2.stop_control_in_callback = none ∧
            s2.total_blocks_to_play = s1.total_blocks_to_play ∧
            s2.fade_control = s1.fade_control :=
  ⟨_, rfl, by decide, by decide,
    (Device.stop_applied_once (Device.Init.Play threeBlockWave kPlayLooped kNoFade).1 1
      loopingStream StopAtEnd (StopFade (F32.ofNat 1)) 8 _
      (play_handle Device.Init threeBlockWave kPlayLooped kNoFade 1 rfl).2 (by decide)
      rfl).2.2.2⟩

/-! ## Order of enumeration of the active set -/

theorem add32_right_comm (a x y : Int) : add32 (add32 a x) y = add32 (add32 a y) x := by
  unfold add32
  rw [wrap32_add_wrap32, wrap32_add_wrap32]
  congr 1
  omega

theorem addToBlock_comm (l1 r1 l2 r2 : Int) (b : StereoBlock32) :
    addToBlock add32 l1 r1 (addToBlock add32 l2 r2 b) =
      addToBlock add32 l2 r2 (addToBlock add32 l1 r1 b) := by
  unfold addToBlock
  simp only [StereoBlock32.mk.injEq]
  exact ⟨add32_right_comm _ _ _, add32_right_comm _ _ _⟩

theorem modifyAt_comm {α : Type} (f g : α → α) (hfg : ∀ x, f (g x) = g (f x)) (i j : Nat)
    (l : List α) : modifyAt f i (modifyAt g j l) = modifyAt g j (modifyAt f i l) := by
  apply List.ext_getElem?
  intro k
  simp only [getElem?_modifyAt]
  by_cases hi : k = i
  · by_cases hj : k = j
    · subst hi
      subst hj
      simp only [if_true, Option.map_map]
      congr 1
      funext x
      exact hfg x
    · simp only [hi, hj, if_true, if_false]
      subst hi
      simp only [hj, if_false]
  · by_cases hj : k = j
    · simp only [hj, if_true]
      subst hj
      simp only [hi, if_false]
    · simp only [hi, hj, if_false]

theorem modifyAt_applyAdds (u : MixAdd) (adds : List MixAdd) :
    ∀ mix : List StereoBlock32,
      modifyAt (addToBlock add32 u.left u.right) u.dest (applyAdds add32 adds mix) =
        applyAdds add32 adds (modifyAt (addToBlock add32 u.left u.right) u.dest mix) := by
  induction adds with
  | nil => intro mix; rfl
  | cons v rest ih =>
    intro mix
    show modifyAt _ u.dest (applyAdds add32 rest (modifyAt _ v.dest mix)) =
      applyAdds add32 rest (modifyAt _ v.dest (modifyAt _ u.dest mix))
    rw [ih, modifyAt_comm _ _ (fun x => addToBlock_comm _ _ _ _ x)]

/-- Two lists of additions can be carried out in either order. -/
theorem applyAdds_comm (a b : List MixAdd) :
    ∀ mix : List StereoBlock32,
      applyAdds add32 a (applyAdds add32 b mix) = applyAdds add32 b (applyAdds add32 a mix) := by
  induction a with
  | nil => intro mix; rfl
  | cons u rest ih =>
    intro mix
    show applyAdds add32 rest (modifyAt _ u.dest (applyAdds add32 b mix)) =
      applyAdds add32 b (applyAdds add32 rest (modifyAt _ u.dest mix))
    rw [modifyAt_applyAdds, ih]

theorem snapshotAll_perm (l l2 : List (Nat × PlayingStreamInternal))
    (hperm : List.Perm l l2) :
    ∀ snaps, snapshotAll l = some snaps →
      ∃ snaps2, snapshotAll l2 = some snaps2 ∧ List.Perm snaps snaps2 := by
  induction hperm with
  | nil =>
    intro snaps h
    exact ⟨snaps, h, List.Perm.refl _⟩
  | cons x _ ih =>
    intro snaps h
    obtain ⟨k, s⟩ := x
    simp only [snapshotAll] at h ⊢
    rcases Option.bind_eq_some.mp h with ⟨r, hr, h⟩
    rcases Option.map_eq_some'.mp h with ⟨rs, hrs, rfl⟩
    obtain ⟨rs2, hrs2, hp⟩ := ih rs hrs
    refine ⟨(k, r.1, r.2) :: rs2, ?_, hp.cons _⟩
    rw [hr, hrs2]
    rfl
  | swap x y l =>
    intro snaps h
    obtain ⟨kx, sx⟩ := x
    obtain ⟨ky, sy⟩ := y
    simp only [snapshotAll] at h ⊢
    rcases Option.bind_eq_some.mp h with ⟨ry, hry, h⟩
    rcases Option.map_eq_some'.mp h with ⟨rs, hrs, rfl⟩
    rcases Option.bind_eq_some.mp hrs with ⟨rx, hrx, hrs⟩
    rcases Option.map_eq_some'.mp hrs with ⟨rl, hrl, rfl⟩
    refine ⟨(kx, rx.1, rx.2) :: (ky, ry.1, ry.2) :: rl, ?_, List.Perm.swap _ _ _⟩
    rw [hrx, hry, hrl]
    rfl
  | trans _ _ ih1 ih2 =>
    intro snaps h
    obtain ⟨s2, h2, p2⟩ := ih1 snaps h
    obtain ⟨s3, h3, p3⟩ := ih2 s2 h2
    exact ⟨s3, h3, p2.trans p3⟩

theorem mixAll_perm (req : Nat) (snaps snaps2 : List (Nat × PlayingStreamInternal × Int))
    (hperm : List.Perm snaps snaps2) :
    ∀ mix ms out, mixAll add32 req snaps mix = some (ms, out) →
      ∃ ms2, mixAll add32 req snaps2 mix = some (ms2, out) ∧ List.Perm ms ms2 := by
  induction hperm with
  | nil =>
    intro mix ms out h
    exact ⟨ms, h, List.Perm.refl _⟩
  | cons x _ ih =>
    intro mix ms out h
    obtain ⟨k, s, g⟩ := x
    simp only [mixAll] at h ⊢
    rcases Option.bind_eq_some.mp h with ⟨r, hr, h⟩
    rcases Option.map_eq_some'.mp h with ⟨p, hp, hpe⟩
    simp only [Prod.mk.injEq] at hpe
    obtain ⟨rfl, rfl⟩ := hpe
    obtain ⟨ms2, hms2, hpm⟩ := ih r.mix p.1 p.2 hp
    refine ⟨_ :: ms2, ?_, hpm.cons _⟩
    rw [hr]
    simp only [Option.some_bind]
    rw [hms2]
    rfl
  | swap x y l =>
    intro mix ms out h
    obtain ⟨kx, sx, gx⟩ := x
    obtain ⟨ky, sy, gy⟩ := y
    obtain ⟨ax, hax⟩ := mixStreamLoop_adds add32 gx req (mixFuel req) sx 0
    obtain ⟨ay, hay⟩ := mixStreamLoop_adds add32 gy req (mixFuel req) sy 0
    obtain ⟨al, hal⟩ := mixAll_adds add32 req l
    simp only [mixAll] at h ⊢
    rw [hay mix] at h
    rw [hax mix]
    cases hy0 : mixStreamLoop add32 gy req (mixFuel req) sy 0 [] with
    | none => rw [hy0] at h; cases h
    | some ry =>
      rw [hy0] at h
      simp only [Option.map_some', Option.some_bind] at h
      rw [hax (applyAdds add32 ay mix)] at h
      cases hx0 : mixStreamLoop add32 gx req (mixFuel req) sx 0 [] with
      | none => rw [hx0] at h; cases h
      | some rx =>
        rw [hx0] at h
        simp only [Option.map_some', Option.some_bind] at h ⊢
        rw [hay (applyAdds add32 ax mix), hy0]
        simp only [Option.map_some', Option.some_bind]
        rw [hal] at h ⊢
        cases hl0 : mixAll add32 req l [] with
        | none => rw [hl0] at h; cases h
        | some p =>
          rw [hl0] at h
          simp only [Option.map_some', Option.some.injEq, Prod.mk.injEq] at h ⊢
          obtain ⟨rfl, rfl⟩ := h
          refine ⟨_, ⟨rfl, ?_⟩, List.Perm.swap _ _ _⟩
          rw [applyAdds_comm ax ay]
  | trans _ _ ih1 ih2 =>
    intro mix ms out h
    obtain ⟨m2, h2, p2⟩ := ih1 mix ms out h
    obtain ⟨m3, h3, p3⟩ := ih2 mix m2 out h2
    exact ⟨m3, h3, p2.trans p3⟩

/-- C13. The outcome of one callback does not depend on the order in which the active set
is enumerated: when the set is enumerated as `l`, a permutation of `playing_streams_`,
the callback returns as well, sends the same frames and leaves the same mix buffer; the
outcomes of the streams (handle, record, deletion mark, runs), the streams marked for
deletion, the active set and the released records are the same up to that permutation. -/
theorem Device.callback_order_independent (d : Device)
    (l : List (Nat × PlayingStreamInternal)) (amount : Int) (r : CallbackResult)
    (hperm : List.Perm d.playing_streams_ l)
    (hr : d.dataCallback amount = some r) :
    ∃ r2, ({ d with playing_streams_ := l } : Device).dataCallback amount = some r2 ∧
      r2.sent = r.sent ∧ r2.device.mix_buffer_ = r.device.mix_buffer_ ∧
      r2.device.send_buffer_ = r.device.send_buffer_ ∧
      List.Perm r.mixed r2.mixed ∧
      List.Perm (r.mixed.filter fun m => m.marked) (r2.mixed.filter fun m => m.marked) ∧
      List.Perm r.device.playing_streams_ r2.device.playing_streams_ ∧
      List.Perm r.device.released r2.device.released := by
  unfold Device.dataCallback at hr ⊢
  by_cases h0 : amount = 0
  · rw [if_pos h0] at hr ⊢
    cases hr
    exact ⟨_, rfl, rfl, rfl, rfl, List.Perm.refl _, List.Perm.refl _, hperm, List.Perm.refl _⟩
  · rw [if_neg h0] at hr ⊢
    rcases Option.map_eq_some'.mp hr with ⟨p, hp, rfl⟩
    unfold Device.fillMixBufferWith at hp ⊢
    rcases Option.map_eq_some'.mp hp with ⟨q, hq, rfl⟩
    unfold Device.mixAccumulators at hq ⊢
    rcases Option.bind_eq_some.mp hq with ⟨snaps, hsn, hq⟩
    obtain ⟨snaps2, hsn2, hps⟩ := snapshotAll_perm _ _ hperm snaps hsn
    obtain ⟨ms2, hms2, hpm⟩ := mixAll_perm _ _ _ hps _ q.1 q.2 hq
    dsimp only at hms2 ⊢
    rw [hsn2]
    simp only [Option.some_bind]
    rw [hms2]
    simp only [Option.map_some']
    refine ⟨_, rfl, rfl, rfl, rfl, hpm, hpm.filter _, ?_, ?_⟩
    · exact (hpm.filter _).map _
    · exact ((hpm.filter _).map _).append_right _

set_option maxRecDepth 20000 in
theorem Device.callback_order_independent_witness :
    ∃ r, twoStreamDevice.dataCallback 8 = some r ∧
      ∃ r2, ({ twoStreamDevice with
          playing_streams_ := twoStreamDevice.playing_streams_.reverse } : Device).dataCallback
            8 = some r2 ∧
        r2.sent = r.sent ∧ r2.device.mix_buffer_ = r.device.mix_buffer_ ∧
        r2.device.send_buffer_ = r.device.send_buffer_ ∧
        List.Perm r.mixed r2.mixed ∧
        List.Perm (r.mixed.filter fun m => m.marked) (r2.mixed.filter fun m => m.marked) ∧
        List.Perm r.device.playing_streams_ r2.device.playing_streams_ ∧
        List.Perm r.device.released r2.device.released :=
  ⟨_, rfl, Device.callback_order_independent twoStreamDevice _ 8 _
    (List.reverse_perm _).symm rfl⟩

/-! ## Mono sources and unity gain -/

/-- A loop that modifies frame `off + i` at its pass `i`: what it leaves in frame `j`. -/
theorem getElem?_foldl_modifyAt (F : Nat → StereoBlock32 → StereoBlock32) (off : Nat)
    (buf : List StereoBlock32) (j : Nat) :
    ∀ n, ((List.range n).foldl (fun b i => modifyAt (F i) (off + i) b) buf)[j]? =
      if off ≤ j ∧ j < off + n then (buf[j]?).map (F (j - off)) else buf[j]? := by
  intro n
  induction n with
  | zero =>
    have : ¬ (off ≤ j ∧ j < off + 0) := by omega
    simp only [List.range_zero, List.foldl_nil, if_neg this]
  | succ n ih =>
    rw [List.range_succ, List.foldl_append]
    simp only [List.foldl_cons, List.foldl_nil]
    rw [getElem?_modifyAt, ih]
    by_cases h1 : j = off + n
    · subst h1
      have a1 : ¬ (off ≤ off + n ∧ off + n < off + n) := by omega
      have a2 : off ≤ off + n ∧ off + n < off + (n + 1) := by omega
      simp only [if_true, if_neg a1, if_pos a2, Nat.add_sub_cancel_left]
    · by_cases h2 : off ≤ j ∧ j < off + n
      · have a2 : off ≤ j ∧ j < off + (n + 1) := by omega
        simp only [if_neg h1, if_pos h2, if_pos a2]
      · have a2 : ¬ (off ≤ j ∧ j < off + (n + 1)) := by omega
        simp only [if_neg h1, if_neg h2, if_neg a2]

/-- C14. With `num_channels = 1`, `accumulateSamples` adds one and the same value to the
left and to the right accumulator of frame `off + i`, for every pass `i` of its loop: the
source sample `x` of that pass at unity gain (128), and `ApplyGain(x, gain)` otherwise.
Frames outside the `num_blocks` frames from `off` are left as they are. -/
theorem accumulate_mono_same_value (buf : List StereoBlock32) (off : Nat) (gain : Int)
    (stream : List Int) (num_blocks i : Nat) (b : StereoBlock32) (x : Int)
    (hi : i < num_blocks) (hb : buf[off + i]? = some b) (hx : stream[i]? = some x) :
    (accumulateSamples add32 buf off gain 1 stream num_blocks)[off + i]? =
        some { left := add32 b.left (if gain = kMaxGain then x else ApplyGain x gain),
               right := add32 b.right (if gain = kMaxGain then x else ApplyGain x gain) } ∧
      ∀ j, (j < off ∨ off + num_blocks ≤ j) →
        (accumulateSamples add32 buf off gain 1 stream num_blocks)[j]? = buf[j]? := by
  have hget : stream.getD i 0 = x := by
    rw [List.getD_eq_getElem?_getD, hx]
    rfl
  have hin : off ≤ off + i ∧ off + i < off + num_blocks := by omega
  unfold accumulateSamples
  rw [if_pos rfl]
  by_cases hg : gain = kMaxGain
  · simp only [if_pos hg]
    unfold accumulateMonoSamples
    refine ⟨?_, fun j hj => ?_⟩
    · rw [getElem?_foldl_modifyAt (fun i => addToBlock add32 (stream.getD i 0) (stream.getD i 0)),
        if_pos hin, hb, Nat.add_sub_cancel_left, hget]
      rfl
    · rw [getElem?_foldl_modifyAt (fun i => addToBlock add32 (stream.getD i 0) (stream.getD i 0)),
        if_neg (by omega)]
  · simp only [if_neg hg]
    unfold accumulateMonoSamplesWithGain
    refine ⟨?_, fun j hj => ?_⟩
    · rw [getElem?_foldl_modifyAt
          (fun i => addToBlock add32 (ApplyGain (stream.getD i 0) gain)
            (ApplyGain (stream.getD i 0) gain)),
        if_pos hin, hb, Nat.add_sub_cancel_left, hget]
      rfl
    · rw [getElem?_foldl_modifyAt
          (fun i => addToBlock add32 (ApplyGain (stream.getD i 0) gain)
            (ApplyGain (stream.getD i 0) gain)),
        if_neg (by omega)]

theorem accumulate_mono_same_value_witness :
    (accumulateSamples add32
        [{ left := 5, right := -7 }, { left := 1, right := 2 }, { left := 0, right := 0 }]
        1 kMaxGain 1 [300, -200] 2)[1 + 1]? =
      some { left := add32 0 (if kMaxGain = kMaxGain then -200 else ApplyGain (-200) kMaxGain),
             right := add32 0 (if kMaxGain = kMaxGain then -200 else ApplyGain (-200) kMaxGain) } :=
  (accumulate_mono_same_value _ 1 kMaxGain [300, -200] 2 1 { left := 0, right := 0 } (-200)
    (by decide) rfl (by decide)).1

/-- The shift `x >> 7` is the division by 128 rounded toward minus infinity. -/
theorem shiftRight_seven (x : Int) : x >>> (7 : Int) = x / 128 := by
  cases x with
  | ofNat m =>
    show (m : Int) >>> ((7 : Nat) : Int) = (m : Int) / 128
    rw [Int.shiftRight_coe_nat, Nat.shiftRight_eq_div_pow]
    norm_num
  | negSucc m =>
    show Int.negSucc m >>> ((7 : Nat) : Int) = Int.negSucc m / 128
    rw [Int.shiftRight_negSucc, Nat.shiftRight_eq_div_pow, Int.negSucc_ediv _ (by norm_num)]
    show Int.negSucc (m / 2 ^ 7) = -((m : Int) / 128 + 1)
    rw [Int.negSucc_eq]
    norm_num

theorem applyGain_unity (s : Int) (h1 : -(2 ^ 24) ≤ s) (h2 : s < 2 ^ 24) :
    ApplyGain s kMaxGain = s := by
  unfold ApplyGain kMaxGain
  rw [wrap32_of_fits _ (by unfold fitsInt32; constructor <;> omega), shiftRight_seven]
  omega

/-- C15. `ApplyGain(s, 128) = s` for every 16-bit sample `s`, so on a source of 16-bit
samples the unscaled loops `accumulateMonoSamples` and `accumulateStereoSamples` leave the
accumulators that `accumulateMonoSamplesWithGain` and `accumulateStereoSamplesWithGain`
leave at gain 128. -/
theorem unity_gain_fast_path (buf : List StereoBlock32) (off : Nat) (stream : List Int)
    (num_blocks : Nat) (hs : ∀ x ∈ stream, kSampleMin16 ≤ x ∧ x ≤ kSampleMax16) :
    (∀ s : Int, kSampleMin16 ≤ s → s ≤ kSampleMax16 → ApplyGain s 128 = s) ∧
      accumulateMonoSamples add32 buf off stream num_blocks =
        accumulateMonoSamplesWithGain add32 buf off 128 stream num_blocks ∧
      accumulateStereoSamples add32 buf off stream num_blocks =
        accumulateStereoSamplesWithGain add32 buf off 128 stream num_blocks := by
  have hunit : ∀ s : Int, kSampleMin16 ≤ s → s ≤ kSampleMax16 → ApplyGain s 128 = s := by
    intro s h1 h2
    unfold kSampleMin16 at h1
    unfold kSampleMax16 at h2
    exact applyGain_unity s (by omega) (by omega)
  have hget : ∀ i, ApplyGain (stream.getD i 0) 128 = stream.getD i 0 := by
    intro i
    rw [List.getD_eq_getElem?_getD]
    cases hi : stream[i]? with
    | none => exact hunit 0 (by decide) (by decide)
    | some x =>
      have hx := hs x (List.getElem?_mem hi)
      exact hunit x hx.1 hx.2
  refine ⟨hunit, ?_, ?_⟩
  · unfold accumulateMonoSamples accumulateMonoSamplesWithGain
    simp only [hget]
  · unfold accumulateStereoSamples accumulateStereoSamplesWithGain
    simp only [hget]

theorem unity_gain_fast_path_witness :
    (∀ s : Int, kSampleMin16 ≤ s → s ≤ kSampleMax16 → ApplyGain s 128 = s) ∧
      accumulateMonoSamples add32 [{ left := 5, right := -7 }, { left := 1, right := 2 }] 0
          [32767, -32768] 2 =
        accumulateMonoSamplesWithGain add32
          [{ left := 5, right := -7 }, { left := 1, right := 2 }] 0 128 [32767, -32768] 2 ∧
      accumulateStereoSamples add32 [{ left := 5, right := -7 }, { left := 1, right := 2 }] 0
          [32767, -32768] 2 =
        accumulateStereoSamplesWithGain add32
          [{ left := 5, right := -7 }, { left := 1, right := 2 }] 0 128 [32767, -32768] 2 :=
  unity_gain_fast_path _ 0 [32767, -32768] 2 (by decide)

/-! ## The Attack ramp is monotone -/

theorem roundHalfEven_mono (n n2 d : Nat) (hd : 0 < d) (h : n ≤ n2) :
    roundHalfEven n d ≤ roundHalfEven n2 d := by
  have hq : n / d ≤ n2 / d := Nat.div_le_div_right h
  have e1 := Nat.div_add_mod n d
  have e2 := Nat.div_add_mod n2 d
  have l1 := Nat.mod_lt n hd
  have l2 := Nat.mod_lt n2 hd
  unfold roundHalfEven
  dsimp only
  by_cases hqq : n / d = n2 / d
  · rw [hqq] at e1 ⊢
    have hr : n % d ≤ n2 % d := by omega
    split_ifs <;> omega
  · split_ifs <;> omega

/-- The rounded quotient is within half a unit of the quotient. -/
theorem roundHalfEven_err (n d : Nat) (hd : 0 < d) :
    2 * (roundHalfEven n d * d) ≤ 2 * n + d ∧ 2 * n ≤ 2 * (roundHalfEven n d * d) + d := by
  have e1 := Nat.div_add_mod n d
  have l1 := Nat.mod_lt n hd
  have hmul : ∀ c : Nat, (n / d + c) * d = d * (n / d) + c * d := by
    intro c
    ring
  unfold roundHalfEven
  dsimp only
  split_ifs
  · have := hmul 0
    simp only [Nat.add_zero, Nat.zero_mul] at this
    rw [this]
    omega
  · have := hmul 1
    rw [this]
    omega
  · have := hmul 0
    simp only [Nat.add_zero, Nat.zero_mul] at this
    rw [this]
    omega
  · have := hmul 1
    rw [this]
    omega

theorem bitLength_le_of_lt_pow (t b : Nat) (ht : 0 < t) (h : t < 2 ^ b) : bitLength t ≤ b := by
  obtain ⟨b1, b2, _⟩ := bitLength_spec t ht
  by_contra hlt
  have : 2 ^ b ≤ 2 ^ (bitLength t - 1) := Nat.pow_le_pow_right (by omega) (by omega)
  omega

theorem bitLength_mono (t t2 : Nat) (ht : 0 < t) (h : t ≤ t2) : bitLength t ≤ bitLength t2 := by
  obtain ⟨_, _, c3⟩ := bitLength_spec t2 (by omega)
  exact bitLength_le_of_lt_pow t _ ht (by omega)

theorem roundToF32_mono (a a2 q : Nat) (hq : 0 < q) (h : a ≤ a2) :
    roundToF32 a q ≤ roundToF32 a2 q := by
  have ht : a / q ≤ a2 / q := Nat.div_le_div_right h
  by_cases h2 : a2 / q < 2 ^ 24
  · have h1 : a / q < 2 ^ 24 := by omega
    unfold roundToF32
    dsimp only
    rw [if_pos h1, if_pos h2]
    exact roundHalfEven_mono a a2 q hq h
  · have ht2 : 0 < a2 / q := by
      have : (0 : Nat) < 2 ^ 24 := by positivity
      omega
    obtain ⟨c1, c2, c3⟩ := bitLength_spec (a2 / q) ht2
    by_cases hsame : 2 ^ 24 ≤ a / q ∧ bitLength (a / q) = bitLength (a2 / q)
    · unfold roundToF32
      dsimp only
      rw [if_neg (by omega), if_neg h2, hsame.2]
      exact Nat.mul_le_mul_right _
        (roundHalfEven_mono a a2 _ (Nat.mul_pos hq (by positivity)) h)
    · have hlt : a / q < 2 ^ (bitLength (a2 / q) - 1) := by
        by_cases h1 : a / q < 2 ^ 24
        · have hB : 25 ≤ bitLength (a2 / q) := by
            by_contra hlt
            have : 2 ^ bitLength (a2 / q) ≤ 2 ^ 24 :=
              Nat.pow_le_pow_right (by omega) (by omega)
            omega
          have : 2 ^ 24 ≤ 2 ^ (bitLength (a2 / q) - 1) :=
            Nat.pow_le_pow_right (by omega) (by omega)
          omega
        · have ht1 : 0 < a / q := by
            have : (0 : Nat) < 2 ^ 24 := by positivity
            omega
          obtain ⟨d1, d2, d3⟩ := bitLength_spec (a / q) ht1
          have hle := bitLength_mono (a / q) (a2 / q) ht1 ht
          have hne : bitLength (a / q) ≠ bitLength (a2 / q) := fun e => hsame ⟨by omega, e⟩
          have : 2 ^ bitLength (a / q) ≤ 2 ^ (bitLength (a2 / q) - 1) :=
            Nat.pow_le_pow_right (by omega) (by omega)
          omega
      have hup : roundToF32 a q ≤ 1 * 2 ^ (bitLength (a2 / q) - 1) := by
        apply roundToF32_le a q 1 _ hq (by norm_num)
        rw [Nat.one_mul]
        exact Nat.le_of_lt ((Nat.div_lt_iff_lt_mul hq).mp hlt)
      have hdn : 1 * 2 ^ (bitLength (a2 / q) - 1) ≤ roundToF32 a2 q := by
        apply roundToF32_ge a2 q 1 _ hq (by norm_num)
        rw [Nat.one_mul]
        exact (Nat.le_div_iff_mul_le hq).mp c2
      exact le_trans hup hdn

/-- The rounding error of `roundToF32` is at most half the spacing `2^j` of the binary32
values, for a quotient below `2^(24+j)`. -/
theorem roundToF32_err (a q j : Nat) (hq : 0 < q) (ht : a / q < 2 ^ (24 + j)) :
    2 * (roundToF32 a q * q) ≤ 2 * a + q * 2 ^ j ∧
      2 * a ≤ 2 * (roundToF32 a q * q) + q * 2 ^ j := by
  have hj : q ≤ q * 2 ^ j := Nat.le_mul_of_pos_right _ (by positivity)
  unfold roundToF32
  dsimp only
  split_ifs with h1
  · have := roundHalfEven_err a q hq
    omega
  · have ht0 : 0 < a / q := by
      have : (0 : Nat) < 2 ^ 24 := by positivity
      omega
    have hb := bitLength_le_of_lt_pow (a / q) _ ht0 ht
    have hpow : 2 ^ (bitLength (a / q) - 24) ≤ 2 ^ j :=
      Nat.pow_le_pow_right (by omega) (by omega)
    have hle : q * 2 ^ (bitLength (a / q) - 24) ≤ q * 2 ^ j := Nat.mul_le_mul_left _ hpow
    have := roundHalfEven_err a (q * 2 ^ (bitLength (a / q) - 24))
      (Nat.mul_pos hq (by positivity))
    have e : roundHalfEven a (q * 2 ^ (bitLength (a / q) - 24)) *
        2 ^ (bitLength (a / q) - 24) * q =
        roundHalfEven a (q * 2 ^ (bitLength (a / q) - 24)) *
          (q * 2 ^ (bitLength (a / q) - 24)) := by ring
    rw [e]
    omega

/-- The values computed on the Attack ramp at `k` blocks elapsed out of a window of `W`:
`cur_gain`, in units, is the rounded quotient, and the gain returned is the integer part
of the rounded product by 128. -/
theorem rampGain_formula (k W : Nat) (hW1 : 1 ≤ W) (hW24 : W ≤ 2 ^ 24) (hk : k ≤ W) :
    F32.div (F32.ofNat k) (F32.ofNat W) =
        some ⟨(roundToF32 (k * F32.unit * F32.unit) (W * F32.unit) : Nat)⟩ ∧
      ToIntGain ⟨(roundToF32 (k * F32.unit * F32.unit) (W * F32.unit) : Nat)⟩ =
        some ((roundToF32 (roundToF32 (k * F32.unit * F32.unit) (W * F32.unit) *
          (128 * F32.unit)) F32.unit / F32.unit : Nat) : Int) ∧
      128 * k / W ≤ roundToF32 (roundToF32 (k * F32.unit * F32.unit) (W * F32.unit) *
          (128 * F32.unit)) F32.unit / F32.unit ∧
      roundToF32 (roundToF32 (k * F32.unit * F32.unit) (W * F32.unit) *
          (128 * F32.unit)) F32.unit / F32.unit ≤ 128 * k / W + 1 := by
  have hUpos : 0 < F32.unit := by norm_num [F32.unit]
  have hWU : 0 < W * F32.unit := Nat.mul_pos (by omega) hUpos
  have hk24 : k ≤ 2 ^ 24 := le_trans hk hW24
  have hdiv : F32.div (F32.ofNat k) (F32.ofNat W) =
      some ⟨(roundToF32 (k * F32.unit * F32.unit) (W * F32.unit) : Nat)⟩ := by
    rw [F32.div_of_nonneg _ _ (by rw [F32.ofNat_units k hk24]; exact Int.ofNat_nonneg _)
      (by rw [F32.ofNat_units W hW24]; exact_mod_cast hWU),
      F32.ofNat_units k hk24, F32.ofNat_units W hW24, Int.natAbs_ofNat, Int.natAbs_ofNat]
  obtain ⟨r, g, hdiv2, hg, b1, b2, _, _, _⟩ := rampGain_spec k W hW1 hW24 hk
  rw [hdiv] at hdiv2
  have hr : roundToF32 (k * F32.unit * F32.unit) (W * F32.unit) = r := by
    have := Option.some.inj hdiv2
    exact Int.ofNat.inj (F32.mk.inj this)
  have h128 : (F32.ofNat 128).units = ((128 * F32.unit : Nat) : Int) :=
    F32.ofNat_units 128 (by norm_num)
  have hmul : F32.mul ⟨(r : Int)⟩ (F32.ofNat 128) =
      ⟨(roundToF32 (r * (128 * F32.unit)) F32.unit : Nat)⟩ := by
    rw [F32.mul_of_nonneg _ _ (Int.ofNat_nonneg r) (by rw [h128]; norm_num [F32.unit]), h128,
      Int.natAbs_ofNat, Int.natAbs_ofNat]
  have hgdef : g = roundToF32 (r * (128 * F32.unit)) F32.unit / F32.unit := by
    have h := hg
    unfold ToIntGain F32.toInt32 at h
    rw [hmul, F32.trunc_of_nat] at h
    split at h
    · exact (Int.ofNat.inj (Option.some.inj h)).symm
    · cases h
  rw [hr] at hdiv
  rw [hr, ← hgdef]
  exact ⟨hdiv, hg, b1, b2⟩

/-- The Attack ramp does not decrease with the blocks elapsed, neither `cur_gain` nor the
gain returned. -/
theorem rampGain_mono (k1 k2 W : Nat) (hW1 : 1 ≤ W) (hk : k1 ≤ k2) :
    roundToF32 (k1 * F32.unit * F32.unit) (W * F32.unit) ≤
        roundToF32 (k2 * F32.unit * F32.unit) (W * F32.unit) ∧
      roundToF32 (roundToF32 (k1 * F32.unit * F32.unit) (W * F32.unit) *
          (128 * F32.unit)) F32.unit / F32.unit ≤
        roundToF32 (roundToF32 (k2 * F32.unit * F32.unit) (W * F32.unit) *
          (128 * F32.unit)) F32.unit / F32.unit := by
  have hUpos : 0 < F32.unit := by norm_num [F32.unit]
  have hWU : 0 < W * F32.unit := Nat.mul_pos (by omega) hUpos
  have hr := roundToF32_mono (k1 * F32.unit * F32.unit) (k2 * F32.unit * F32.unit) _ hWU
    (Nat.mul_le_mul_right _ (Nat.mul_le_mul_right _ hk))
  exact ⟨hr, Nat.div_le_div_right
    (roundToF32_mono _ _ _ hUpos (Nat.mul_le_mul_right _ hr))⟩

/-- The single-precision quotient `k / W` strictly increases with `k`, for `k <= W` and a
window `W <= 2^24`. -/
theorem rampGain_strict (k1 k2 W : Nat) (hW1 : 1 ≤ W) (hW24 : W ≤ 2 ^ 24) (hk : k1 < k2)
    (hk2 : k2 ≤ W) :
    roundToF32 (k1 * F32.unit * F32.unit) (W * F32.unit) <
      roundToF32 (k2 * F32.unit * F32.unit) (W * F32.unit) := by
  have hU : F32.unit = 2 ^ 149 := rfl
  have hUpos : 0 < F32.unit := by norm_num [F32.unit]
  have hWU : 0 < W * F32.unit := Nat.mul_pos (by omega) hUpos
  have h24 : (2 : Nat) ^ 24 = 16777216 := by norm_num
  by_cases hkW : k2 = W
  · -- the quotient is 1.0 at `k2 = W` and at most `1 - 2^-24` below
    have h2 : roundToF32 (k2 * F32.unit * F32.unit) (W * F32.unit) = 2 ^ 24 * 2 ^ 125 := by
      have ha : k2 * F32.unit * F32.unit = 2 ^ 24 * 2 ^ 125 * (W * F32.unit) := by
        rw [hkW, hU]
        ring
      rw [ha]
      exact roundToF32_exact (W * F32.unit) (2 ^ 24) 125 hWU (le_refl _)
    have h1 : roundToF32 (k1 * F32.unit * F32.unit) (W * F32.unit) ≤
        (2 ^ 24 - 1) * 2 ^ 125 := by
      apply roundToF32_le _ _ _ 125 hWU (by omega)
      have hkey : k1 * 2 ^ 24 ≤ (2 ^ 24 - 1) * W := by
        rw [h24]
        rw [h24] at hW24
        omega
      calc k1 * F32.unit * F32.unit = (k1 * 2 ^ 24) * (2 ^ 125 * F32.unit) := by
            rw [hU]
            ring
        _ ≤ ((2 ^ 24 - 1) * W) * (2 ^ 125 * F32.unit) := Nat.mul_le_mul_right _ hkey
        _ = (2 ^ 24 - 1) * 2 ^ 125 * (W * F32.unit) := by ring
    rw [h2]
    have : (2 ^ 24 - 1) * 2 ^ 125 < 2 ^ 24 * 2 ^ 125 := by norm_num
    omega
  · by_cases hW : W = 2 ^ 24
    · -- every quotient is a binary32 value
      have e : ∀ k, k ≤ 2 ^ 24 →
          roundToF32 (k * F32.unit * F32.unit) (W * F32.unit) = k * 2 ^ 125 := by
        intro k hk24
        have ha : k * F32.unit * F32.unit = k * 2 ^ 125 * (W * F32.unit) := by
          rw [hU, hW]
          ring
        rw [ha]
        exact roundToF32_exact (W * F32.unit) k 125 hWU hk24
      rw [e k1 (by omega), e k2 (by omega)]
      exact Nat.mul_lt_mul_of_pos_right hk (by positivity)
    · -- the quotients are more than one spacing apart
      have hlt : k2 < W := by omega
      have hq : ∀ k, k < W → k * F32.unit * F32.unit / (W * F32.unit) < 2 ^ (24 + 125) := by
        intro k hkW2
        apply (Nat.div_lt_iff_lt_mul hWU).mpr
        calc k * F32.unit * F32.unit < W * F32.unit * F32.unit :=
              Nat.mul_lt_mul_of_pos_right (Nat.mul_lt_mul_of_pos_right hkW2 hUpos) hUpos
          _ = 2 ^ (24 + 125) * (W * F32.unit) := by
              rw [hU]
              ring
      obtain ⟨e1, _⟩ := roundToF32_err (k1 * F32.unit * F32.unit) (W * F32.unit) 125 hWU
        (hq k1 (by omega))
      obtain ⟨_, e2⟩ := roundToF32_err (k2 * F32.unit * F32.unit) (W * F32.unit) 125 hWU
        (hq k2 hlt)
      have hgap : k1 * F32.unit * F32.unit + W * F32.unit * 2 ^ 125 <
          k2 * F32.unit * F32.unit := by
        have hW2 : W * 2 ^ 125 < F32.unit := by
          calc W * 2 ^ 125 < 2 ^ 24 * 2 ^ 125 :=
                Nat.mul_lt_mul_of_pos_right (by omega) (by positivity)
            _ = F32.unit := by
                rw [hU]
                norm_num
        calc k1 * F32.unit * F32.unit + W * F32.unit * 2 ^ 125
            = (k1 * F32.unit + W * 2 ^ 125) * F32.unit := by ring
          _ < (k1 * F32.unit + F32.unit) * F32.unit :=
              Nat.mul_lt_mul_of_pos_right (by omega) hUpos
          _ = (k1 + 1) * F32.unit * F32.unit := by ring
          _ ≤ k2 * F32.unit * F32.unit :=
              Nat.mul_le_mul_right _ (Nat.mul_le_mul_right _ hk)
      have hfin : roundToF32 (k1 * F32.unit * F32.unit) (W * F32.unit) * (W * F32.unit) <
          roundToF32 (k2 * F32.unit * F32.unit) (W * F32.unit) * (W * F32.unit) := by
        omega
      exact Nat.lt_of_mul_lt_mul_right hfin

/-- The outcome of `updateGainStateInCallback` on the Attack ramp, given the ramp value
and its fixed-point gain. -/
theorem updateGain_on_ramp (s : PlayingStreamInternal) (W : Nat) (ramp : F32) (g : Int)
    (hA : s.gain_state = GainState.kAttack) (hstop : s.stop_control_in_callback = none)
    (hW : numBlocksToFade s.wave_file s.fade_control.fade_in_time_sec = some W)
    (hrel : noReleaseTrigger s) (hk : s.total_blocks_streamed ≤ W)
    (hdiv : F32.div (F32.ofNat s.total_blocks_streamed) (F32.ofNat W) = some ramp)
    (hg : ToIntGain ramp = some g) :
    updateGainStateInCallback s = some ({ s with cur_gain := ramp }, g) := by
  have h1 : applyStopControl s = some s := applyStopControl_none s hstop
  have h2 : attackToRelease s = some s := attackToRelease_noTrigger s hrel
  have h3 : attackRamp s kMaxGain = some ({ s with cur_gain := ramp }, g) := by
    unfold attackRamp
    rw [if_pos hA, hW]
    simp only [Option.some_bind]
    rw [if_neg (by omega), hdiv]
    simp only [Option.some_bind]
    rw [hg]
    rfl
  have h4 : sustainToRelease { s with cur_gain := ramp } = some { s with cur_gain := ramp } :=
    sustainToRelease_noTrigger _ hrel
  have h5 : releaseGain { s with cur_gain := ramp } g = some ({ s with cur_gain := ramp }, g) :=
    releaseGain_of_not_release _ _ (by rw [hA]; decide)
  unfold updateGainStateInCallback
  rw [h1]
  simp only [Option.some_bind]
  rw [h2]
  simp only [Option.some_bind]
  rw [h3]
  simp only [Option.some_bind]
  rw [h4]
  simp only [Option.some_bind]
  rw [h5]

/-- C16, as amended. Two records of a stream in Attack (same source and fade-in time, so
the same window of `W` blocks, `1 <= W <= 2^24`; no stop pending, no release due), the
second with more blocks elapsed, both within the window.  `updateGainStateInCallback`
returns on both; the single-precision `cur_gain` it stores is strictly larger on the
second; the fixed-point gain it returns is not smaller on the second, and is strictly
larger when the two block counts are at least `2 W / 128` apart. -/
theorem attack_ramp_monotone (s1 s2 : PlayingStreamInternal) (W : Nat)
    (hA1 : s1.gain_state = GainState.kAttack) (hA2 : s2.gain_state = GainState.kAttack)
    (hstop1 : s1.stop_control_in_callback = none)
    (hstop2 : s2.stop_control_in_callback = none)
    (hW1 : numBlocksToFade s1.wave_file s1.fade_control.fade_in_time_sec = some W)
    (hW2 : numBlocksToFade s2.wave_file s2.fade_control.fade_in_time_sec = some W)
    (hrel1 : noReleaseTrigger s1) (hrel2 : noReleaseTrigger s2)
    (h1 : 1 ≤ W) (h24 : W ≤ 2 ^ 24)
    (hk : s1.total_blocks_streamed < s2.total_blocks_streamed)
    (hk2 : s2.total_blocks_streamed ≤ W) :
    ∃ (r1 r2 : F32) (g1 g2 : Int),
      updateGainStateInCallback s1 = some ({ s1 with cur_gain := r1 }, g1) ∧
      updateGainStateInCallback s2 = some ({ s2 with cur_gain := r2 }, g2) ∧
      r1.units < r2.units ∧ g1 ≤ g2 ∧
      (2 * W ≤ 128 * (s2.total_blocks_streamed - s1.total_blocks_streamed) → g1 < g2) := by
  have hk1 : s1.total_blocks_streamed ≤ W := by omega
  obtain ⟨d1, t1, lo1, hi1⟩ := rampGain_formula s1.total_blocks_streamed W h1 h24 hk1
  obtain ⟨d2, t2, lo2, hi2⟩ := rampGain_formula s2.total_blocks_streamed W h1 h24 hk2
  obtain ⟨_, mg⟩ := rampGain_mono s1.total_blocks_streamed s2.total_blocks_streamed W h1
    (Nat.le_of_lt hk)
  have ms := rampGain_strict s1.total_blocks_streamed s2.total_blocks_streamed W h1 h24 hk hk2
  refine ⟨_, _, _, _, updateGain_on_ramp s1 W _ _ hA1 hstop1 hW1 hrel1 hk1 d1 t1,
    updateGain_on_ramp s2 W _ _ hA2 hstop2 hW2 hrel2 hk2 d2 t2, ?_, ?_, ?_⟩
  · show ((roundToF32 (s1.total_blocks_streamed * F32.unit * F32.unit) (W * F32.unit) : Nat) :
        Int) < ((roundToF32 (s2.total_blocks_streamed * F32.unit * F32.unit)
          (W * F32.unit) : Nat) : Int)
    exact_mod_cast ms
  · exact_mod_cast mg
  · intro hfar
    have hdiv : 128 * s1.total_blocks_streamed / W + 2 ≤ 128 * s2.total_blocks_streamed / W := by
      have e : (128 * s1.total_blocks_streamed + 2 * W) / W =
          128 * s1.total_blocks_streamed / W + 2 := Nat.add_mul_div_right _ _ (by omega)
      rw [← e]
      exact Nat.div_le_div_right (by omega)
    have : roundToF32 (roundToF32 (s1.total_blocks_streamed * F32.unit * F32.unit)
          (W * F32.unit) * (128 * F32.unit)) F32.unit / F32.unit <
        roundToF32 (roundToF32 (s2.total_blocks_streamed * F32.unit * F32.unit)
          (W * F32.unit) * (128 * F32.unit)) F32.unit / F32.unit := by omega
    exact_mod_cast this

set_option maxRecDepth 20000 in
theorem attack_ramp_monotone_witness :
    ∃ (r1 r2 : F32) (g1 g2 : Int),
      updateGainStateInCallback (rampStreamAt 1000) =
        some ({ rampStreamAt 1000 with cur_gain := r1 }, g1) ∧
      updateGainStateInCallback (rampStreamAt 2000) =
        some ({ rampStreamAt 2000 with cur_gain := r2 }, g2) ∧
      r1.units < r2.units ∧ g1 ≤ g2 ∧
      (2 * 22050 ≤ 128 * ((rampStreamAt 2000).total_blocks_streamed -
        (rampStreamAt 1000).total_blocks_streamed) → g1 < g2) :=
  attack_ramp_monotone (rampStreamAt 1000) (rampStreamAt 2000) 22050 rfl rfl rfl rfl rfl rfl
    (Or.inl rfl) (Or.inl rfl) (by decide) (by decide) (by decide) (by decide)

set_option maxRecDepth 20000 in
/-- C16, counterexample. A looping stream with a fade-in of one second at 22050 Hz: at the
first callback (no block elapsed) the gain returned is 0, and after a callback of one
frame (one block elapsed, still in Attack) the gain returned is 0 again, not a larger
value. -/
theorem attack_ramp_plateau_counterexample :
    (fadeInDevice.record 1).bind
        (fun s => (updateGainStateInCallback s).map
          fun r => (s.total_blocks_streamed, s.gain_state, r.2)) =
      some (0, GainState.kAttack, 0) ∧
    ((fadeInDevice.exec [Op.callback 4]).bind fun p => (p.1.record 1).bind
        (fun s => (updateGainStateInCallback s).map
          fun r => (s.total_blocks_streamed, s.gain_state, r.2))) =
      some (1, GainState.kAttack, 0) :=
  ⟨rfl, rfl⟩

/-! ## Stop commands and the life of a stream -/

/-- The `total_blocks_to_play` that a consumed stop command leaves.  With
`stop_at_end = false` it is the blocks streamed plus the fade-out window of the command;
with `stop_at_end = true` and a remaining life `L >= 1` it is the blocks streamed plus
`L`. -/
theorem applyStopControl_to_play (s t : PlayingStreamInternal) (sc : StopControl)
    (hsc : s.stop_control_in_callback = some sc) (h : applyStopControl s = some t) :
    ∃ W, numBlocksToFade s.wave_file
        (sc.fade_out_time_sec.getD s.fade_control.fade_out_time_sec) = some W ∧
      (sc.stop_at_end = false → t.total_blocks_to_play = s.total_blocks_streamed + W) ∧
      (sc.stop_at_end = true → s.total_blocks_to_play ≠ 0 →
        min (sizeSub s.wave_file.GetNumBlocks s.looped_blocks_streamed)
            (sizeSub s.total_blocks_to_play s.total_blocks_streamed) ≠ 0 →
        t.total_blocks_to_play = s.total_blocks_streamed +
          min (sizeSub s.wave_file.GetNumBlocks s.looped_blocks_streamed)
            (sizeSub s.total_blocks_to_play s.total_blocks_streamed)) := by
  unfold applyStopControl at h
  rw [hsc] at h
  dsimp only at h
  rcases Option.bind_eq_some.mp h with ⟨W, hW, h⟩
  rcases Option.bind_eq_some.mp h with ⟨fo, _, h⟩
  cases h
  refine ⟨W, hW, ?_, ?_⟩
  · intro hf
    simp only [hf, Bool.false_eq_true, if_false, if_true]
  · intro ht htp hmin
    simp only [ht, if_true, htp, ne_eq, not_false_eq_true]
    by_cases hlt : sizeSub s.total_blocks_to_play s.total_blocks_streamed <
        sizeSub s.wave_file.GetNumBlocks s.looped_blocks_streamed
    · rw [if_pos hlt]
      have e : min (sizeSub s.wave_file.GetNumBlocks s.looped_blocks_streamed)
          (sizeSub s.total_blocks_to_play s.total_blocks_streamed) =
          sizeSub s.total_blocks_to_play s.total_blocks_streamed := by omega
      rw [e] at hmin ⊢
      rw [if_neg hmin]
    · rw [if_neg hlt]
      have e : min (sizeSub s.wave_file.GetNumBlocks s.looped_blocks_streamed)
          (sizeSub s.total_blocks_to_play s.total_blocks_streamed) =
          sizeSub s.wave_file.GetNumBlocks s.looped_blocks_streamed := by omega
      rw [e] at hmin ⊢
      rw [if_neg hmin]

/-- C25, as amended. A stop command consumed by `updateGainStateInCallback` on a bounded
stream whose counters are in range.  With `stop_at_end = true` and a remaining life
`L = min(GetNumBlocks() - looped_blocks_streamed, total_blocks_to_play -
total_blocks_streamed)` of at least one block, the new `total_blocks_to_play` is
`total_blocks_streamed + L`, not larger than the old one.  With `stop_at_end = false` it
is `total_blocks_streamed` plus the fade-out window of the command, whatever life the
stream had left. -/
theorem stop_at_end_keeps_life (s t : PlayingStreamInternal) (sc : StopControl) (g : Int)
    (hsc : s.stop_control_in_callback = some sc)
    (hbounded : s.total_blocks_to_play ≠ 0)
    (hl : s.looped_blocks_streamed ≤ s.wave_file.GetNumBlocks)
    (hs : s.total_blocks_streamed ≤ s.total_blocks_to_play)
    (h : updateGainStateInCallback s = some (t, g)) :
    (sc.stop_at_end = true →
      min (s.wave_file.GetNumBlocks - s.looped_blocks_streamed)
        (s.total_blocks_to_play - s.total_blocks_streamed) ≠ 0 →
      t.total_blocks_to_play = s.total_blocks_streamed +
          min (s.wave_file.GetNumBlocks - s.looped_blocks_streamed)
            (s.total_blocks_to_play - s.total_blocks_streamed) ∧
        t.total_blocks_to_play ≤ s.total_blocks_to_play) ∧
    (sc.stop_at_end = false →
      ∃ W, numBlocksToFade s.wave_file
          (sc.fade_out_time_sec.getD s.fade_control.fade_out_time_sec) = some W ∧
        t.total_blocks_to_play = s.total_blocks_streamed + W) := by
  obtain ⟨s1, h1, hsame⟩ := updateGain_after_stop s t g h
  obtain ⟨W, hW, hfalse, htrue⟩ := applyStopControl_to_play s s1 sc hsc h1
  have htp : t.total_blocks_to_play = s1.total_blocks_to_play := hsame.2.2.2.2.2.2.1
  rw [sizeSub_of_le _ _ hl, sizeSub_of_le _ _ hs] at htrue
  constructor
  · intro ht hmin
    have e := htrue ht hbounded hmin
    rw [htp, e]
    exact ⟨rfl, by omega⟩
  · intro hf
    exact ⟨W, hW, by rw [htp, hfalse hf]⟩

set_option maxRecDepth 20000 in
theorem stop_at_end_keeps_life_witness :
    ∃ p, updateGainStateInCallback boundedStopAtEndStream = some p ∧
      ((StopAtEndFade (F32.ofNat 1)).stop_at_end = true →
        min (boundedStopAtEndStream.wave_file.GetNumBlocks -
            boundedStopAtEndStream.looped_blocks_streamed)
          (boundedStopAtEndStream.total_blocks_to_play -
            boundedStopAtEndStream.total_blocks_streamed) ≠ 0 →
        p.1.total_blocks_to_play = boundedStopAtEndStream.total_blocks_streamed +
            min (boundedStopAtEndStream.wave_file.GetNumBlocks -
                boundedStopAtEndStream.looped_blocks_streamed)
              (boundedStopAtEndStream.total_blocks_to_play -
                boundedStopAtEndStream.total_blocks_streamed) ∧
          p.1.total_blocks_to_play ≤ boundedStopAtEndStream.total_blocks_to_play) :=
  ⟨_, rfl, (stop_at_end_keeps_life boundedStopAtEndStream _ (StopAtEndFade (F32.ofNat 1)) _
    rfl (by decide) (by decide) (by decide) rfl).1⟩

set_option maxRecDepth 20000 in
/-- C25, counterexample. A stream played once over the three blocks of `threeBlockWave`
(`total_blocks_to_play = 3`) has streamed one block when `StopFade(1.0f)` is issued; the
callback that consumes the stop sets `total_blocks_to_play = 1 + 22050`, more than the 3
blocks the stream had, and the stream is still playing after it. -/
theorem stop_fade_extends_life_counterexample :
    ((Device.Init.Play threeBlockWave kPlayOnce kNoFade).1.exec [Op.callback 4]).map
        (fun p => (p.1.record 1).map
          fun s => (s.total_blocks_streamed, s.total_blocks_to_play)) =
      some (some (1, 3)) ∧
    ((Device.Init.Play threeBlockWave kPlayOnce kNoFade).1.exec
        [Op.callback 4, Op.stop (some 1) (StopFade (F32.ofNat 1)), Op.callback 4]).map
        (fun p => (p.1.IsPlaying (some 1), (p.1.record 1).map
          fun s => (s.total_blocks_streamed, s.total_blocks_to_play))) =
      some (true, some (2, 22051)) :=
  ⟨rfl, rfl⟩

/-- A stream marked by the loop has streamed fewer than one pass of the loop body beyond
its `total_blocks_to_play`. -/
theorem mixStreamLoop_overshoot (add : Int → Int → Int) (gain : Int)
    (req fuel : Nat) (s : PlayingStreamInternal) (sent : Nat) (mix : List StereoBlock32)
    (r : StreamMix) (h : mixStreamLoop add gain req fuel s sent mix = some r)
    (hl : s.looped_blocks_streamed ≤ s.wave_file.GetNumBlocks)
    (hlt : s.total_blocks_streamed < s.total_blocks_to_play)
    (hm : r.marked = true) :
    r.stream.total_blocks_streamed <
      s.total_blocks_to_play + min (req - sent) s.wave_file.GetNumBlocks := by
  refine mixStreamLoop_induct add gain req
    (fun s sent _ r => s.looped_blocks_streamed ≤ s.wave_file.GetNumBlocks →
      s.total_blocks_streamed < s.total_blocks_to_play → r.marked = true →
      r.stream.total_blocks_streamed <
        s.total_blocks_to_play + min (req - sent) s.wave_file.GetNumBlocks)
    ?_ ?_ ?_ fuel s sent mix r h hl hlt hm
  · intro s sent _ _ _ _ hm
    cases hm
  · intro s sent _ hs _ hl hlt _
    dsimp only
    rw [loopAdvance_total]
    have h1 := loopRead_le_source req sent s hs hl
    have h2 := loopRead_le_left req sent s hs hl
    omega
  · intro s1 sent1 _ r1 hs hne ih hl1 hlt1 hm1
    unfold reachedEnd at hne
    rw [loopAdvance_to_play, loopAdvance_total] at hne
    have key := ih (loopAdvance_looped_le req sent1 s1 hs hl1)
      (by
        rw [loopAdvance_to_play, loopAdvance_total]
        by_contra hge
        exact hne ⟨by omega, by omega⟩) hm1
    rw [loopAdvance_to_play, loopAdvance_wave_file] at key
    have hmono : min (req - (sent1 + loopRead req sent1 s1)) s1.wave_file.GetNumBlocks ≤
        min (req - sent1) s1.wave_file.GetNumBlocks :=
      min_le_min (by omega) (le_refl _)
    show r1.stream.total_blocks_streamed <
      s1.total_blocks_to_play + min (req - sent1) s1.wave_file.GetNumBlocks
    omega

/-- C26, as amended. The per-stream loop of a callback, run on a record with
`total_blocks_to_play = T != 0` of which fewer than `T` blocks are streamed.  When the
loop marks the stream for deletion, `total_blocks_streamed` is at least `T` and exceeds
`T` by less than the blocks of one pass of the loop body (less than the request and less
than the length of the source); it is exactly `T` when `T` is a whole number of passes
over the source (the value that `Play` sets) and the counters are consistent. -/
theorem auto_terminate_bounds (gain : Int) (req : Nat) (s : PlayingStreamInternal)
    (mix : List StereoBlock32) (r : StreamMix)
    (h : mixStreamLoop add32 gain req (mixFuel req) s 0 mix = some r)
    (hc : CountersOk s)
    (hlt : s.total_blocks_streamed < s.total_blocks_to_play)
    (hm : r.marked = true) :
    s.total_blocks_to_play ≤ r.stream.total_blocks_streamed ∧
      r.stream.total_blocks_streamed <
        s.total_blocks_to_play + min req s.wave_file.GetNumBlocks ∧
      (∀ q, s.total_blocks_to_play = s.wave_file.GetNumBlocks * q →
        r.stream.total_blocks_streamed = s.total_blocks_to_play) := by
  obtain ⟨_, _, _, t4, _⟩ := mixStreamLoop_total _ _ _ _ _ _ _ _ h hc.1
  have hge := (t4 hm).2
  have hov := mixStreamLoop_overshoot _ _ _ _ _ _ _ _ h hc.1 hlt hm
  rw [Nat.sub_zero] at hov
  refine ⟨hge, hov, fun q hq => ?_⟩
  have := mixStreamLoop_le_to_play _ _ _ _ _ _ _ _ h hc q hq hlt
  omega

set_option maxRecDepth 20000 in
theorem auto_terminate_bounds_witness :
    ∃ r, mixStreamLoop add32 128 8 (mixFuel 8) stoppedAtFiveStream 0
        (List.replicate 8 { left := 0, right := 0 }) = some r ∧
      r.stream.total_blocks_streamed = 6 ∧
      stoppedAtFiveStream.total_blocks_to_play ≤ r.stream.total_blocks_streamed ∧
      r.stream.total_blocks_streamed <
        stoppedAtFiveStream.total_blocks_to_play +
          min 8 stoppedAtFiveStream.wave_file.GetNumBlocks ∧
      (∀ q, stoppedAtFiveStream.total_blocks_to_play =
          stoppedAtFiveStream.wave_file.GetNumBlocks * q →
        r.stream.total_blocks_streamed = stoppedAtFiveStream.total_blocks_to_play) :=
  ⟨_, rfl, rfl, auto_terminate_bounds 128 8 stoppedAtFiveStream _ _ rfl
    ⟨by decide, by decide, by decide⟩ (by decide) rfl⟩

set_option maxRecDepth 20000 in
/-- C26, counterexample. A looping stream over the three blocks of `threeBlockWave` has
streamed one block when `StopFade(0.01f)` (220 blocks at 22050 Hz) is issued.  The
callback that consumes the stop sets `total_blocks_to_play = 221`; it requests 256 frames,
marks the stream at the end of a pass over the source, and the stream has then streamed
222 blocks, one more than `total_blocks_to_play`. -/
theorem auto_terminate_overshoot_counterexample :
    ((Device.Init.Play threeBlockWave kPlayLooped kNoFade).1.exec
        [Op.callback 4, Op.stop (some 1) (StopFade (F32.ofRatio 1 100)),
          Op.callback 1024]).map
        (fun p => (p.1.IsPlaying (some 1), (p.1.record 1).map
          fun s => (s.total_blocks_to_play, s.total_blocks_streamed))) =
      some (false, some (221, 222)) :=
  rfl

set_option maxRecDepth 20000 in
/-- C27, evaluation at the failing input. A looping stream is stopped with
`StopFade(0.0f)` before the first callback.  The callback that consumes the stop sets
`total_blocks_to_play = 0 + 0`, the value that stands for an unbounded stream: after two
callbacks the command is consumed (both command fields are empty), 7 blocks are streamed,
`total_blocks_to_play` is 0 and the stream is still in the active set. -/
theorem stop_before_first_block_unbounded :
    ((Device.Init.Play threeBlockWave kPlayLooped kNoFade).1.exec
        [Op.stop (some 1) (StopFade F32.zero), Op.callback 8, Op.callback 20]).map
        (fun p => (p.1.IsPlaying (some 1), (p.1.record 1).map
          fun s => (s.stop_control, s.stop_control_in_callback, s.total_blocks_streamed,
            s.total_blocks_to_play))) =
      some (true, some (none, none, 7, 0)) :=
  rfl

set_option maxRecDepth 20000 in
/-- C28, evaluation at the failing input. A source of 1000 blocks at 22050 Hz is played
once with a fade-in and a fade-out of one second.  On the first tick no block has
elapsed, so the fade-in ramp value is `0 / 22050 = 0` and its fixed-point gain is 0; the
stream is moved to Release on that tick with `gain_at_release = 1.0f`, the initial value
of `cur_gain`, and the gain returned is 5. -/
theorem release_on_first_tick_from_one :
    shortFadedStream.gain_state = GainState.kAttack ∧
    shortFadedStream.total_blocks_streamed = 0 ∧
    numBlocksToFade shortFadedStream.wave_file
      shortFadedStream.fade_control.fade_in_time_sec = some 22050 ∧
    (F32.div (F32.ofNat 0) (F32.ofNat 22050)).bind ToIntGain = some 0 ∧
    (updateGainStateInCallback shortFadedStream).map
        (fun r => (r.1.gain_state, r.1.gain_at_release, r.2)) =
      some (GainState.kRelease, F32.one, 5) :=
  ⟨rfl, rfl, rfl, rfl, rfl⟩

set_option maxRecDepth 20000 in
/-- C30, evaluation at the failing input. With a fade-in of `0.00001f` seconds at
22050 Hz the stream starts in Attack and its fade-in window is 0 blocks.  On the first
tick the ramp is the quotient `0.0f / 0.0f`, which is not a number (`F32.div` has no
value for it): `updateGainStateInCallback` stores and returns no value in range, and the
callback does not complete in the embedding. -/
theorem tiny_fade_in_ramp_undefined :
    tinyFadeInStream.gain_state = GainState.kAttack ∧
    tinyFadeInStream.total_blocks_streamed = 0 ∧
    F32.isPos tinyFadeInStream.fade_control.fade_in_time_sec = true ∧
    numBlocksToFade tinyFadeInStream.wave_file
      tinyFadeInStream.fade_control.fade_in_time_sec = some 0 ∧
    F32.div (F32.ofNat 0) (F32.ofNat 0) = none ∧
    updateGainStateInCallback tinyFadeInStream = none ∧
    (Device.Init.Play threeBlockWave kPlayOnce
      (FadeInOut (F32.ofRatio 1 100000) F32.zero)).1.dataCallback 4 = none :=
  ⟨rfl, rfl, rfl, rfl, rfl, rfl, rfl⟩

/-! ## The order of the tests of `updateGainStateInCallback` -/

theorem applyStopControl_gain_state (s t : PlayingStreamInternal)
    (h : applyStopControl s = some t) : t.gain_state = s.gain_state := by
  unfold applyStopControl at h
  split at h
  · cases h
    rfl
  · dsimp only at h
    rcases Option.bind_eq_some.mp h with ⟨W, _, h⟩
    rcases Option.bind_eq_some.mp h with ⟨fo, _, h⟩
    cases h
    rfl

/-- A record that the first test leaves in Attack is not moved to Release by the test of
the Sustain state either: the two tests compare the same quantities. -/
theorem sustainToRelease_after_attack (s1 s2 : PlayingStreamInternal) (cg : F32)
    (hA : s1.gain_state = GainState.kAttack) (h : attackToRelease s1 = some s2)
    (h2 : s2.gain_state = GainState.kAttack) :
    sustainToRelease { s2 with cur_gain := cg, gain_state := GainState.kSustain } =
      some { s2 with cur_gain := cg, gain_state := GainState.kSustain } := by
  unfold attackToRelease at h
  rw [if_pos hA] at h
  unfold sustainToRelease
  rw [if_pos rfl]
  by_cases hp : s2.fade_control.fade_out_time_sec.isPos = true
  · rw [if_pos hp]
    by_cases htp : s1.total_blocks_to_play ≠ 0
    · rw [if_pos htp] at h
      rcases Option.bind_eq_some.mp h with ⟨W, hW, h⟩
      by_cases htrig : s1.total_blocks_streamed + W > s1.total_blocks_to_play
      · rw [if_pos htrig] at h
        cases h
        cases h2
      · rw [if_neg htrig] at h
        cases h
        rw [if_pos htp]
        show (numBlocksToFade s1.wave_file s1.fade_control.fade_out_time_sec).bind _ = _
        rw [hW]
        simp only [Option.some_bind]
        rw [if_neg htrig]
    · rw [if_neg htp] at h
      cases h
      rw [if_neg htp]
  · rw [if_neg hp]

/-- A call that takes a record from Attack to Release does so at the first test (lines
337-353); the Attack ramp, the Sustain test are then skipped and the Release branch
computes the gain. -/
theorem attack_to_release_stages (s t : PlayingStreamInternal) (g : Int)
    (hA : s.gain_state = GainState.kAttack)
    (h : updateGainStateInCallback s = some (t, g))
    (hR : t.gain_state = GainState.kRelease) :
    ∃ s1 s2, applyStopControl s = some s1 ∧ attackToRelease s1 = some s2 ∧
      s2.gain_state = GainState.kRelease ∧
      attackRamp s2 kMaxGain = some (s2, kMaxGain) ∧ sustainToRelease s2 = some s2 ∧
      releaseGain s2 kMaxGain = some (t, g) := by
  obtain ⟨s1, s2, s3, g3, s4, h1, h2, h3, h4, h5⟩ := updateGain_stages s t g h
  have hA1 : s1.gain_state = GainState.kAttack := by
    rw [applyStopControl_gain_state s s1 h1, hA]
  by_cases hs2 : s2.gain_state = GainState.kRelease
  · have hnA : s2.gain_state ≠ GainState.kAttack := by
      rw [hs2]
      exact fun e => GainState.noConfusion e
    have hnS : s2.gain_state ≠ GainState.kSustain := by
      rw [hs2]
      exact fun e => GainState.noConfusion e
    rw [attackRamp_of_not_attack _ _ hnA] at h3
    cases h3
    rw [sustainToRelease_of_not_sustain _ hnS] at h4
    cases h4
    exact ⟨s1, s2, h1, h2, hs2, attackRamp_of_not_attack _ _ hnA,
      sustainToRelease_of_not_sustain _ hnS, h5⟩
  · exfalso
    have hs2A : s2.gain_state = GainState.kAttack := by
      unfold attackToRelease at h2
      rw [if_pos hA1] at h2
      split at h2
      · rcases Option.bind_eq_some.mp h2 with ⟨W, _, h2⟩
        split at h2
        · cases h2
          exact absurd rfl hs2
        · cases h2
          exact hA1
      · cases h2
        exact hA1
    unfold attackRamp at h3
    rw [if_pos hs2A] at h3
    rcases Option.bind_eq_some.mp h3 with ⟨W, _, h3⟩
    by_cases hk : s2.total_blocks_streamed > W
    · rw [if_pos hk] at h3
      cases h3
      rw [sustainToRelease_after_attack s1 s2 F32.one hA1 h2 hs2A] at h4
      cases h4
      rw [releaseGain_of_not_release _ _ (fun e => GainState.noConfusion e)] at h5
      cases h5
      cases hR
    · rw [if_neg hk] at h3
      rcases Option.bind_eq_some.mp h3 with ⟨ramp, _, h3⟩
      rcases Option.bind_eq_some.mp h3 with ⟨gi, _, h3⟩
      cases h3
      rw [sustainToRelease_of_not_sustain _
        (by show s2.gain_state ≠ GainState.kSustain; rw [hs2A]
            exact fun e => GainState.noConfusion e)] at h4
      cases h4
      rw [releaseGain_of_not_release _ _
        (by show s2.gain_state ≠ GainState.kRelease; exact hs2)] at h5
      cases h5
      exact hs2 hR

theorem evaluatesAttackRamp_of_release (s s1 s2 : PlayingStreamInternal)
    (h1 : applyStopControl s = some s1) (h2 : attackToRelease s1 = some s2)
    (hR : s2.gain_state = GainState.kRelease) : evaluatesAttackRamp s = false := by
  unfold evaluatesAttackRamp
  rw [h1]
  simp only [Option.some_bind]
  rw [h2]
  simp [hR]

/-- C29, as amended. A single call of `updateGainStateInCallback` that takes a stream
from Attack to Release does not evaluate the Attack ramp: the switch to Release happens
at the first test (lines 337-353), with `gain_at_release` the `cur_gain` of the previous
tick, the branch of the Attack ramp and the test of the Sustain state are skipped, and
the gain returned is the one that the Release branch computes. -/
theorem release_skips_attack_ramp (s t : PlayingStreamInternal) (g : Int)
    (hA : s.gain_state = GainState.kAttack)
    (h : updateGainStateInCallback s = some (t, g))
    (hR : t.gain_state = GainState.kRelease) :
    evaluatesAttackRamp s = false ∧
      ∃ s1 s2, applyStopControl s = some s1 ∧ attackToRelease s1 = some s2 ∧
        s2.gain_state = GainState.kRelease ∧
        attackRamp s2 kMaxGain = some (s2, kMaxGain) ∧
        releaseGain s2 kMaxGain = some (t, g) := by
  obtain ⟨s1, s2, h1, h2, hs2, h3, _, h5⟩ := attack_to_release_stages s t g hA h hR
  exact ⟨evaluatesAttackRamp_of_release s s1 s2 h1 h2 hs2, s1, s2, h1, h2, hs2, h3, h5⟩

set_option maxRecDepth 20000 in
theorem release_skips_attack_ramp_witness :
    ∃ p, updateGainStateInCallback stoppedInAttackStream = some p ∧
      evaluatesAttackRamp stoppedInAttackStream = false ∧
      ∃ s1 s2, applyStopControl stoppedInAttackStream = some s1 ∧
        attackToRelease s1 = some s2 ∧ s2.gain_state = GainState.kRelease ∧
        attackRamp s2 kMaxGain = some (s2, kMaxGain) ∧
        releaseGain s2 kMaxGain = some p :=
  ⟨_, rfl, release_skips_attack_ramp stoppedInAttackStream _ _ rfl rfl rfl⟩

/-- C29, counterexample. There is no stream state from which a single call of
`updateGainStateInCallback` both goes from Attack to Release and evaluates the Attack
ramp. -/
theorem no_fall_through_counterexample :
    ¬ ∃ (s t : PlayingStreamInternal) (g : Int),
      s.gain_state = GainState.kAttack ∧ updateGainStateInCallback s = some (t, g) ∧
        t.gain_state = GainState.kRelease ∧ evaluatesAttackRamp s = true := by
  rintro ⟨s, t, g, hA, h, hR, he⟩
  obtain ⟨s1, s2, h1, h2, hs2, _, _, _⟩ := attack_to_release_stages s t g hA h hR
  rw [evaluatesAttackRamp_of_release s s1 s2 h1 h2 hs2] at he
  cases he

/-! ## The fixed-point gain -/

theorem applyGain_of_small (p : Int) (h1 : -(2 ^ 31) ≤ p) (h2 : p < 2 ^ 31) :
    wrap32 p >>> 7 = p / 128 := by
  rw [wrap32_of_fits p ⟨h1, h2⟩]
  exact shiftRight_seven p

theorem sample_gain_product_bounds (s g : Int) (hs1 : -32768 ≤ s) (hs2 : s ≤ 32767)
    (hg1 : 0 ≤ g) (hg2 : g ≤ 128) : -4194304 ≤ s * g ∧ s * g ≤ 4194304 := by
  constructor <;> nlinarith

theorem tdiv_128 (p : Int) :
    Int.tdiv p 128 = if 0 ≤ p then p / 128 else -((-p) / 128) := by
  by_cases hp : 0 ≤ p
  · rw [if_pos hp, Int.tdiv_eq_ediv hp (by norm_num)]
  · rw [if_neg hp]
    have h : p = -(-p) := by ring
    conv_lhs => rw [h]
    rw [Int.neg_tdiv, Int.tdiv_eq_ediv (by omega) (by norm_num)]

/-- C32, as amended. For every signed 16-bit sample `s` and every gain `g` in `[0, 128]`,
`ApplyGain(s, g)` is `s * g / 128` rounded toward minus infinity (the arithmetic shift).
It is the quotient truncated toward zero when `s >= 0` or when 128 divides `s * g`;
otherwise it is one less than the truncated quotient, and `ApplyGain(-s, g)` is
`-ApplyGain(s, g) - 1`, not `-ApplyGain(s, g)`. -/
theorem apply_gain_rounds_down (s g : Int) (hs1 : -32768 ≤ s) (hs2 : s ≤ 32767)
    (hg1 : 0 ≤ g) (hg2 : g ≤ 128) :
    ApplyGain s g = Int.fdiv (s * g) 128 ∧
    (0 ≤ s ∨ (s * g) % 128 = 0 → ApplyGain s g = Int.tdiv (s * g) 128) ∧
    (s < 0 → (s * g) % 128 ≠ 0 → ApplyGain s g = Int.tdiv (s * g) 128 - 1) ∧
    ((s * g) % 128 = 0 → ApplyGain (-s) g = -ApplyGain s g) ∧
    ((s * g) % 128 ≠ 0 → ApplyGain (-s) g = -ApplyGain s g - 1) := by
  obtain ⟨b1, b2⟩ := sample_gain_product_bounds s g hs1 hs2 hg1 hg2
  have e1 : ApplyGain s g = s * g / 128 := applyGain_of_small _ (by omega) (by omega)
  have e2 : ApplyGain (-s) g = -(s * g) / 128 := by
    unfold ApplyGain
    rw [neg_mul]
    exact applyGain_of_small _ (by omega) (by omega)
  have e3 := tdiv_128 (s * g)
  have hsg : 0 ≤ s → 0 ≤ s * g := fun h => mul_nonneg h hg1
  have hsg2 : s < 0 → s * g ≤ 0 := fun h => mul_nonpos_of_nonpos_of_nonneg (le_of_lt h) hg1
  generalize s * g = p at *
  refine ⟨?_, ?_, ?_, ?_, ?_⟩
  · rw [e1, Int.fdiv_eq_ediv _ (by norm_num)]
  · intro h
    rw [e1, e3]
    rcases h with h | h
    · rw [if_pos (hsg h)]
    · split <;> omega
  · intro h hne
    have := hsg2 h
    rw [e1, e3]
    split <;> omega
  · intro h
    rw [e1, e2]
    omega
  · intro h
    rw [e1, e2]
    omega

theorem apply_gain_rounds_down_witness :
    ApplyGain (-3) 64 = Int.fdiv (-3 * 64) 128 ∧
    (0 ≤ (-3 : Int) ∨ (-3 * 64 : Int) % 128 = 0 → ApplyGain (-3) 64 = Int.tdiv (-3 * 64) 128) ∧
    ((-3 : Int) < 0 → (-3 * 64 : Int) % 128 ≠ 0 →
      ApplyGain (-3) 64 = Int.tdiv (-3 * 64) 128 - 1) ∧
    ((-3 * 64 : Int) % 128 = 0 → ApplyGain (- -3) 64 = -ApplyGain (-3) 64) ∧
    ((-3 * 64 : Int) % 128 ≠ 0 → ApplyGain (- -3) 64 = -ApplyGain (-3) 64 - 1) :=
  apply_gain_rounds_down (-3) 64 (by decide) (by decide) (by decide) (by decide)

/-- C32, counterexample. `ApplyGain(-1, 64)` is `(-64) >> 7 = -1`, while `-1 * 64 / 128`
truncated toward zero is 0; `ApplyGain(1, 64)` is 0, so `ApplyGain(-1, 64)` is not
`-ApplyGain(1, 64)`. -/
theorem apply_gain_truncation_counterexample :
    ApplyGain (-1) 64 = -1 ∧ Int.tdiv (-1 * 64) 128 = 0 ∧ ApplyGain 1 64 = 0 := by
  decide

/-! ## A fade-in shorter than one block -/

theorem numBlocksToFade_smallest (w : WaveFile) (hR : w.sample_rate ≤ 2 ^ 24) :
    numBlocksToFade w ⟨1⟩ = some 0 := by
  unfold numBlocksToFade WaveFile.GetSampleRate
  have hu := F32.ofNat_units w.sample_rate hR
  rw [F32.mul_of_nonneg _ _ (by rw [hu]; exact Int.natCast_nonneg _) (by decide)]
  have e : (F32.ofNat w.sample_rate).units.natAbs * (⟨1⟩ : F32).units.natAbs =
      w.sample_rate * 2 ^ 0 * F32.unit := by
    rw [hu, Int.natAbs_ofNat]
    simp
  rw [e, roundToF32_exact F32.unit w.sample_rate 0 (by unfold F32.unit; positivity) hR]
  unfold F32.toSizeT
  rw [F32.trunc_of_nat]
  have hlt : w.sample_rate * 2 ^ 0 / F32.unit = 0 := by
    apply Nat.div_eq_of_lt
    unfold F32.unit
    calc w.sample_rate * 2 ^ 0 ≤ 2 ^ 24 := by omega
      _ < 2 ^ 149 := by norm_num
  rw [hlt]
  simp

theorem numBlocksToFade_zero (w : WaveFile) : numBlocksToFade w F32.zero = some 0 := by
  unfold numBlocksToFade F32.mul F32.toSizeT F32.trunc F32.zero
  simp

/-- C38, the failing inputs. At every sample rate up to `2^24` Hz a stream played with
the smallest positive fade-in time (the `float` `2^-149`) starts in Attack with a fade-in
window of `(size_t)(rate * time) = 0` blocks; its first gain update evaluates the Attack
ramp, whose divisor is that window, and has no defined result (`0.0f / 0.0f`). -/
theorem fade_in_window_zero (w : WaveFile) (pc : PlayCount) (hR : w.sample_rate ≤ 2 ^ 24) :
    F32.isPos (smallestFadeInStream w pc).fade_control.fade_in_time_sec = true ∧
    (smallestFadeInStream w pc).gain_state = GainState.kAttack ∧
    numBlocksToFade (smallestFadeInStream w pc).wave_file
      (smallestFadeInStream w pc).fade_control.fade_in_time_sec = some 0 ∧
    evaluatesAttackRamp (smallestFadeInStream w pc) = true ∧
    updateGainStateInCallback (smallestFadeInStream w pc) = none := by
  have hw := numBlocksToFade_smallest w hR
  have hz := numBlocksToFade_zero w
  have hdiv : F32.div (F32.ofNat 0) (F32.ofNat 0) = none := by decide
  refine ⟨?_, ?_, ?_, ?_, ?_⟩
  · cases hl : pc.loop_infinite <;>
      simp [smallestFadeInStream, startPlayingStream, FadeInOut, F32.isPos, hl]
  · cases hl : pc.loop_infinite <;>
      simp [smallestFadeInStream, startPlayingStream, FadeInOut, F32.isPos, hl]
  · cases hl : pc.loop_infinite <;>
      simp [smallestFadeInStream, startPlayingStream, FadeInOut, F32.isPos, hl, hw]
  · cases hl : pc.loop_infinite <;>
      simp [smallestFadeInStream, evaluatesAttackRamp, applyStopControl, attackToRelease,
        startPlayingStream, FadeInOut, F32.isPos, hl, hw, hz]
  · cases hl : pc.loop_infinite <;>
      simp [smallestFadeInStream, updateGainStateInCallback, applyStopControl,
        attackToRelease, attackRamp, startPlayingStream, FadeInOut, F32.isPos, hl, hw, hz,
        hdiv]

set_option maxRecDepth 20000 in
theorem fade_in_window_zero_witness :
    threeBlockWave.sample_rate ≤ 2 ^ 24 ∧
    numBlocksToFade (smallestFadeInStream threeBlockWave kPlayOnce).wave_file
      (smallestFadeInStream threeBlockWave kPlayOnce).fade_control.fade_in_time_sec =
        some 0 ∧
    updateGainStateInCallback (smallestFadeInStream threeBlockWave kPlayOnce) = none ∧
    numBlocksToFade threeBlockWave (F32.ofRatio 1 100000) = some 0 :=
  ⟨by decide, (fade_in_window_zero threeBlockWave kPlayOnce (by decide)).2.2.1,
    (fade_in_window_zero threeBlockWave kPlayOnce (by decide)).2.2.2.2, rfl⟩

/-! ## The runs of the per-stream loop stay in range -/

theorem loopAdvance_sent_le (req sent : Nat) (s : PlayingStreamInternal) (hs : sent < req)
    (hl : s.looped_blocks_streamed ≤ s.wave_file.GetNumBlocks) :
    sent + loopRead req sent s ≤ req := by
  have := loopRead_le_left req sent s hs hl
  omega

/-- Every run of the per-stream loop lies within the source and within the frames
requested. -/
theorem mixStreamLoop_runs_in_range (add : Int → Int → Int) (gain : Int)
    (req fuel : Nat) (s : PlayingStreamInternal) (sent : Nat) (mix : List StereoBlock32)
    (r : StreamMix) (h : mixStreamLoop add gain req fuel s sent mix = some r)
    (hl : s.looped_blocks_streamed ≤ s.wave_file.GetNumBlocks) :
    ∀ run ∈ r.runs, run.first_block + run.count ≤ s.wave_file.GetNumBlocks ∧
      sent ≤ run.dest ∧ run.dest + run.count ≤ req := by
  refine mixStreamLoop_induct add gain req
    (fun s sent _ r => s.looped_blocks_streamed ≤ s.wave_file.GetNumBlocks →
      ∀ run ∈ r.runs, run.first_block + run.count ≤ s.wave_file.GetNumBlocks ∧
        sent ≤ run.dest ∧ run.dest + run.count ≤ req)
    ?_ ?_ ?_ fuel s sent mix r h hl
  · intro s sent _ _ _ run hrun
    cases hrun
  · intro s sent _ hs _ hl run hrun
    rcases List.mem_singleton.mp hrun with rfl
    exact ⟨loopRead_le_source req sent s hs hl, le_refl _, loopAdvance_sent_le req sent s hs hl⟩
  · intro s sent _ r hs _ ih hl run hrun
    rcases List.mem_cons.mp hrun with rfl | hrun
    · exact ⟨loopRead_le_source req sent s hs hl, le_refl _,
        loopAdvance_sent_le req sent s hs hl⟩
    · obtain ⟨i1, i2, i3⟩ := ih (loopAdvance_looped_le req sent s hs hl) run hrun
      rw [loopAdvance_wave_file] at i1
      exact ⟨i1, by omega, i3⟩

theorem streamCallback_runs_in_range (req : Nat) (s : PlayingStreamInternal)
    (m : MixedStream) (hc : CountersOk s) (hsc : StreamCallback add32 req s m) :
    ∀ run ∈ m.runs, run.first_block + run.count ≤ m.stream.wave_file.GetNumBlocks ∧
      run.dest + run.count ≤ req := by
  obtain ⟨_, hw, _, _⟩ := streamCallback_blocks req s m hc hsc
  obtain ⟨s1, g, mix0, mix1, hsnap, hloop⟩ := hsc
  obtain ⟨hsame, _, _⟩ := snapshotStream_sameCounters s s1 g hsnap
  have hc1 := sameCounters_countersOk s s1 hsame hc
  intro run hrun
  obtain ⟨i1, _, i3⟩ := mixStreamLoop_runs_in_range _ _ _ _ _ _ _ _ hloop hc1.1 run hrun
  rw [hsame.1, ← hw] at i1
  exact ⟨i1, i3⟩

theorem length_mixAccumulators (add : Int → Int → Int) (d : Device) (amount : Int)
    (p : List MixedStream × List StereoBlock32)
    (h : d.mixAccumulators add amount = some p) :
    p.2.length =
      (allocateMixBuffer d.mix_buffer_ (Device.numRequestedBlocks amount)).length := by
  unfold Device.mixAccumulators at h
  rcases Option.bind_eq_some.mp h with ⟨snaps, _, h⟩
  obtain ⟨adds, hadds⟩ := mixAll_adds add (Device.numRequestedBlocks amount) snaps
  rw [hadds] at h
  rcases Option.map_eq_some'.mp h with ⟨q, _, rfl⟩
  rw [length_applyAdds, length_mapPrefix]

/-- The block ranges of the loop.  In every state reached by a history of calls, every run
of the per-stream loop of a callback (one run per iteration, for every stream of the
snapshot) lies within the source, `first_block + count <= GetNumBlocks()`, and within the
frames requested, `dest + count <= num_requested_blocks`; the accumulators hold at least
`num_requested_blocks` frames when the loop runs and when the callback ends. -/
theorem Device.loop_runs_in_range (ops : List Op) (d : Device)
    (results : List CallbackResult) (amount : Int) (res : CallbackResult)
    (hreach : Device.Init.exec ops = some (d, results))
    (hcb : d.dataCallback amount = some res) :
    (∀ m ∈ res.mixed, ∀ run ∈ m.runs,
      run.first_block + run.count ≤ m.stream.wave_file.GetNumBlocks ∧
      run.dest + run.count ≤ Device.numRequestedBlocks amount) ∧
    Device.numRequestedBlocks amount ≤
      (allocateMixBuffer d.mix_buffer_ (Device.numRequestedBlocks amount)).length ∧
    (amount ≠ 0 → Device.numRequestedBlocks amount ≤ res.device.mix_buffer_.length) := by
  have hall := reachable_countersOk ops d results hreach
  refine ⟨?_, length_allocateMixBuffer _ _, ?_⟩
  · by_cases hne : amount = 0
    · subst hne
      rw [dataCallback_zero] at hcb
      cases hcb
      intro m hm
      cases hm
    · obtain ⟨hf, _, _⟩ := dataCallback_entries d amount res hne hcb
      intro m hm
      obtain ⟨e, he, hr⟩ := forall₂_exists_left _ _ _ hf m hm
      exact streamCallback_runs_in_range _ e.2 m
        (hall e (List.mem_append.mpr (Or.inl he))).2 hr.2
  · intro hne
    unfold Device.dataCallback at hcb
    rw [if_neg hne] at hcb
    rcases Option.map_eq_some'.mp hcb with ⟨p, hp, rfl⟩
    unfold Device.fillMixBufferWith at hp
    rcases Option.map_eq_some'.mp hp with ⟨q, hq, rfl⟩
    have hlen := length_mixAccumulators add32 d amount q hq
    have hal := length_allocateMixBuffer d.mix_buffer_ (Device.numRequestedBlocks amount)
    simp only [Device.sendMixedToMainStream, length_mapPrefix]
    omega

set_option maxRecDepth 20000 in
theorem Device.loop_runs_in_range_witness :
    ∃ p res, Device.Init.exec [Op.play threeBlockWave kPlayLooped kNoFade, Op.callback 16] =
        some p ∧ p.1.dataCallback 32 = some res ∧
      res.mixed.map (fun m => m.runs) =
        [[{ dest := 0, first_block := 1, count := 2 },
          { dest := 2, first_block := 0, count := 3 },
          { dest := 5, first_block := 0, count := 3 }]] ∧
      (∀ m ∈ res.mixed, ∀ run ∈ m.runs,
        run.first_block + run.count ≤ m.stream.wave_file.GetNumBlocks ∧
        run.dest + run.count ≤ Device.numRequestedBlocks 32) :=
  ⟨_, _, rfl, rfl, rfl, (Device.loop_runs_in_range
    [Op.play threeBlockWave kPlayLooped kNoFade, Op.callback 16] _ _ 32 _ rfl rfl).1⟩

/-! ## The writes of the per-stream loop into the read buffer -/

theorem le_allocateReadBuffer (read_buffer_size num_blocks : Nat) :
    num_blocks * 2 ≤ allocateReadBuffer read_buffer_size num_blocks ∧
      read_buffer_size ≤ allocateReadBuffer read_buffer_size num_blocks := by
  unfold allocateReadBuffer
  split <;> omega

theorem loopReadBufferWrites_fit (req read_buffer_size : Nat) :
    ∀ (fuel : Nat) (s : PlayingStreamInternal) (sent : Nat),
      s.looped_blocks_streamed ≤ s.wave_file.GetNumBlocks →
      s.wave_file.GetBlockSize ≤ 4 →
      ∀ n ∈ loopReadBufferWrites req fuel s sent,
        n ≤ 2 * allocateReadBuffer read_buffer_size req := by
  intro fuel
  induction fuel with
  | zero =>
    intro s sent _ _ n hn
    cases hn
  | succ fuel ih =>
    intro s sent hl hb n hn
    simp only [loopReadBufferWrites] at hn
    by_cases hs : sent < req
    · rw [if_pos hs] at hn
      rcases List.mem_append.mp hn with hn | hn
      · split at hn
        · cases hn
        · rcases List.mem_singleton.mp hn with rfl
          have h1 := loopRead_le_left req sent s hs hl
          have h2 := (le_allocateReadBuffer read_buffer_size req).1
          unfold WaveFile.ReadBlocksBytes
          calc loopRead req sent s * s.wave_file.GetBlockSize
              ≤ req * 4 := Nat.mul_le_mul (by omega) hb
            _ ≤ 2 * allocateReadBuffer read_buffer_size req := by omega
      · split at hn
        · cases hn
        · exact ih _ _ (by
            rw [loopAdvance_wave_file]
            exact loopAdvance_looped_le req sent s hs hl)
            (by rw [loopAdvance_wave_file]; exact hb) n hn
    · rw [if_neg hs] at hn
      cases hn

/-- In every state reached by a history of calls, the writes into `read_buffer_` that the
loop of a callback makes for a stream whose blocks are at most 4 bytes wide fit the buffer
that `allocateReadBuffer(num_requested_blocks)` leaves. -/
theorem Device.read_buffer_writes_fit (ops : List Op) (d : Device)
    (results : List CallbackResult) (hreach : Device.Init.exec ops = some (d, results)) :
    ∀ e ∈ d.playing_streams_, e.2.wave_file.GetBlockSize ≤ 4 →
      ∀ (s1 : PlayingStreamInternal) (g : Int), snapshotStream e.2 = some (s1, g) →
      ∀ (req read_buffer_size : Nat), ∀ n ∈ loopReadBufferWrites req (mixFuel req) s1 0,
        n ≤ 2 * allocateReadBuffer read_buffer_size req := by
  have hall := reachable_countersOk ops d results hreach
  intro e he hb s1 g hsnap req read_buffer_size n hn
  obtain ⟨⟨e1, _, e3, _⟩, _, _⟩ := snapshotStream_sameCounters e.2 s1 g hsnap
  have hc := (hall e (List.mem_append.mpr (Or.inl he))).2
  exact loopReadBufferWrites_fit req read_buffer_size _ s1 0
    (by rw [e1, e3]; exact hc.1) (by rw [e1]; exact hb) n hn

/-- C31, the failing inputs. A source that is not in memory and whose blocks are wider
than 4 bytes is played and the first callback requests `req` frames, not more than the
source has blocks.  The source run `[0, req)` of the first pass of the loop lies within
the source and the destination run `[0, req)` within the frames requested, but
`ReadBlocks` writes `req * GetBlockSize()` bytes into `read_buffer_`, which
`allocateReadBuffer(req)` has left with 2 elements of 2 bytes for each frame requested:
the write runs past the end of the buffer, whenever the buffer was not already large
enough before the callback. -/
theorem read_buffer_write_overflows (w : WaveFile) (pc : PlayCount) (fc : FadeControl)
    (read_buffer_size req : Nat) (s1 : PlayingStreamInternal) (g : Int)
    (hmem : w.IsInMemory = false) (hblock : 4 < w.GetBlockSize)
    (hreq : 1 ≤ req) (hN : req ≤ w.GetNumBlocks)
    (hsize : 2 * read_buffer_size < req * w.GetBlockSize)
    (hsnap : snapshotStream
      (startPlayingStream { wave_file := w, play_count := pc, fade_control := fc }) =
        some (s1, g)) :
    loopRun req 0 s1 = { dest := 0, first_block := 0, count := req } ∧
    loopReadBufferWrites req (mixFuel req) s1 0 = [req * w.GetBlockSize] ∧
    2 * allocateReadBuffer read_buffer_size req < req * w.GetBlockSize := by
  obtain ⟨f1, _, f3, _, _, _, _⟩ := startPlayingStream_fields w pc fc
  obtain ⟨⟨e1, _, e3, _⟩, _, _⟩ := snapshotStream_sameCounters _ s1 g hsnap
  rw [f1] at e1
  rw [f3] at e3
  have hread : loopRead req 0 s1 = req := by
    unfold loopRead
    rw [e1, e3, sizeSub_of_le req 0 (Nat.zero_le _), Nat.sub_zero, Nat.add_zero,
      if_neg (by omega)]
  refine ⟨?_, ?_, ?_⟩
  · unfold loopRun
    rw [hread, e3]
  · have hfuel : mixFuel req = (2 * req + 1) + 1 := rfl
    rw [hfuel]
    simp only [loopReadBufferWrites]
    rw [if_pos (by omega), e1, hmem, hread]
    simp only [Bool.false_eq_true, if_false, WaveFile.ReadBlocksBytes, Nat.zero_add]
    split
    · rfl
    · rw [if_neg (Nat.lt_irrefl req), List.append_nil]
  · unfold allocateReadBuffer
    have h4 : req * 4 < req * w.GetBlockSize := Nat.mul_lt_mul_of_pos_left hblock (by omega)
    split <;> omega

set_option maxRecDepth 100000 in
theorem read_buffer_write_overflows_witness :
    threeChannelWave.IsInMemory = false ∧ threeChannelWave.GetBlockSize = 6 ∧
    threeChannelWave.GetNumBlocks = 512 ∧
    (Device.Init.Play threeChannelWave kPlayOnce kNoFade).2 = some 1 ∧
    readBufferSize initReadBufferSize
      [Op.play threeChannelWave kPlayOnce kNoFade, Op.callback 2048] = 1024 ∧
    loopRun 512 0 (startPlayingStream
        { wave_file := threeChannelWave, play_count := kPlayOnce, fade_control := kNoFade }) =
      { dest := 0, first_block := 0, count := 512 } ∧
    loopReadBufferWrites 512 (mixFuel 512) (startPlayingStream
        { wave_file := threeChannelWave, play_count := kPlayOnce, fade_control := kNoFade }) 0 =
      [512 * threeChannelWave.GetBlockSize] ∧
    2 * allocateReadBuffer initReadBufferSize 512 < 512 * threeChannelWave.GetBlockSize :=
  ⟨by decide, by decide, by decide, by decide, by decide,
    read_buffer_write_overflows threeChannelWave kPlayOnce kNoFade initReadBufferSize 512
      _ _ (by decide) (by decide) (by decide) (by decide) (by decide) rfl⟩

/-! ## The counters at every iteration boundary -/

/-- The boundary states of the loop end with the record that the loop returns, and there
is one more of them than there are passes. -/
theorem loopStates_last (add : Int → Int → Int) (gain : Int) (req : Nat) :
    ∀ (fuel : Nat) (s : PlayingStreamInternal) (sent : Nat) (mix : List StereoBlock32)
      (r : StreamMix), mixStreamLoop add gain req fuel s sent mix = some r →
      ((loopStates req fuel s sent).map Prod.fst).getLast? = some r.stream ∧
        (loopStates req fuel s sent).length = r.runs.length + 1 := by
  intro fuel
  induction fuel with
  | zero =>
    intro s sent mix r h
    by_cases hs : sent < req
    · simp [mixStreamLoop, hs] at h
    · rw [mixStreamLoop_done add gain req 0 s sent mix hs] at h
      cases h
      exact ⟨rfl, rfl⟩
  | succ fuel ih =>
    intro s sent mix r h
    by_cases hs : sent < req
    · rw [mixStreamLoop_succ add gain req fuel s sent mix hs] at h
      by_cases hm : reachedEnd (loopAdvance req sent s)
      · rw [if_pos hm] at h
        cases h
        simp [loopStates, hs, hm]
      · rw [if_neg hm] at h
        rcases Option.map_eq_some'.mp h with ⟨r1, hr1, rfl⟩
        obtain ⟨i1, i2⟩ := ih _ _ _ _ hr1
        have hne : loopStates req fuel (loopAdvance req sent s)
            (sent + loopRead req sent s) ≠ [] := by
          intro hnil
          rw [hnil] at i2
          simp at i2
        simp only [loopStates, hs, hm, if_true, if_false, List.map_cons, List.length_cons]
        refine ⟨?_, by rw [i2]⟩
        cases hx : loopStates req fuel (loopAdvance req sent s)
            (sent + loopRead req sent s) with
        | nil => exact absurd hx hne
        | cons x xs =>
          rw [hx] at i1
          rw [List.map_cons] at i1 ⊢
          rw [List.getLast?_cons_cons]
          exact i1
    · rw [mixStreamLoop_done add gain req (fuel + 1) s sent mix hs] at h
      cases h
      simp [loopStates, hs]

/-- The counters stay consistent at every iteration boundary of the loop. -/
theorem loopStates_countersOk (req : Nat) :
    ∀ (fuel : Nat) (s : PlayingStreamInternal) (sent : Nat), CountersOk s →
      ∀ p ∈ loopStates req fuel s sent,
        p.1.wave_file = s.wave_file ∧ CountersOk p.1 := by
  intro fuel
  induction fuel with
  | zero =>
    intro s sent hc p hp
    rcases List.mem_singleton.mp hp with rfl
    exact ⟨rfl, hc⟩
  | succ fuel ih =>
    intro s sent hc p hp
    simp only [loopStates] at hp
    rcases List.mem_cons.mp hp with rfl | hp
    · exact ⟨rfl, hc⟩
    · by_cases hs : sent < req
      · rw [if_pos hs] at hp
        have hc1 := loopAdvance_countersOk req sent s hs hc
        by_cases hm : reachedEnd (loopAdvance req sent s)
        · rw [if_pos hm] at hp
          rcases List.mem_singleton.mp hp with rfl
          exact ⟨rfl, hc1⟩
        · rw [if_neg hm] at hp
          obtain ⟨i1, i2⟩ := ih _ _ hc1 p hp
          exact ⟨by rw [i1, loopAdvance_wave_file], i2⟩
      · rw [if_neg hs] at hp
        cases hp

/-- C35. In every state reached by a history of calls every record has a source of
`N >= 1` blocks with `total_blocks_streamed = num_plays * N + looped_blocks_streamed` and
`looped_blocks_streamed <= N`; and in a callback on such a state the same holds of the
record of every stream of the active set at every iteration boundary of its mixing loop,
whatever the number of frames requested. -/
theorem Device.counters_consistent (ops : List Op) (d : Device)
    (results : List CallbackResult)
    (hreach : Device.Init.exec ops = some (d, results)) :
    (∀ e ∈ d.playing_streams_ ++ d.released,
      1 ≤ e.2.wave_file.GetNumBlocks ∧
      (e.2.total_blocks_streamed : Int) =
        e.2.num_plays * (e.2.wave_file.GetNumBlocks : Int) +
          (e.2.looped_blocks_streamed : Int) ∧
      e.2.looped_blocks_streamed ≤ e.2.wave_file.GetNumBlocks) ∧
    (∀ e ∈ d.playing_streams_, ∀ s1 g, snapshotStream e.2 = some (s1, g) →
      ∀ (req fuel : Nat), ∀ p ∈ loopStates req fuel s1 0,
        1 ≤ p.1.wave_file.GetNumBlocks ∧
        (p.1.total_blocks_streamed : Int) =
          p.1.num_plays * (p.1.wave_file.GetNumBlocks : Int) +
            (p.1.looped_blocks_streamed : Int) ∧
        p.1.looped_blocks_streamed ≤ p.1.wave_file.GetNumBlocks) := by
  have hall := reachable_countersOk ops d results hreach
  constructor
  · intro e he
    obtain ⟨hN, hl, _, ht⟩ := hall e he
    exact ⟨hN, ht, hl⟩
  · intro e he s1 g hsnap req fuel p hp
    obtain ⟨hN, hc⟩ := hall e (List.mem_append.mpr (Or.inl he))
    obtain ⟨hsame, _, _⟩ := snapshotStream_sameCounters e.2 s1 g hsnap
    have hc1 := sameCounters_countersOk e.2 s1 hsame hc
    obtain ⟨hw, hl, _, ht⟩ := loopStates_countersOk req fuel s1 0 hc1 p hp
    refine ⟨?_, ht, hl⟩
    rw [hw, hsame.1]
    exact hN

set_option maxRecDepth 20000 in
theorem Device.counters_consistent_witness :
    ∃ p, Device.Init.exec [Op.play threeBlockWave kPlayLooped kNoFade, Op.callback 16] =
        some p ∧
      (p.1.playing_streams_.map fun e =>
        (snapshotStream e.2).map fun r =>
          (loopStates 8 (mixFuel 8) r.1 0).map fun q =>
            (q.1.total_blocks_streamed, q.1.num_plays, q.1.looped_blocks_streamed, q.2)) =
        [some [(4, 1, 1, 0), (6, 2, 0, 2), (9, 3, 0, 5), (12, 3, 3, 8)]] ∧
      (∀ e ∈ p.1.playing_streams_, ∀ s1 g, snapshotStream e.2 = some (s1, g) →
        ∀ (req fuel : Nat), ∀ q ∈ loopStates req fuel s1 0,
          1 ≤ q.1.wave_file.GetNumBlocks ∧
          (q.1.total_blocks_streamed : Int) =
            q.1.num_plays * (q.1.wave_file.GetNumBlocks : Int) +
              (q.1.looped_blocks_streamed : Int) ∧
          q.1.looped_blocks_streamed ≤ q.1.wave_file.GetNumBlocks) :=
  ⟨_, rfl, rfl, (Device.counters_consistent
    [Op.play threeBlockWave kPlayLooped kNoFade, Op.callback 16] _ _ rfl).2⟩

/-! ## Properties of every record of the active set -/

theorem Device.AllActive.active_all_callback (P : PlayingStreamInternal → Prop)
    (hcb : ∀ s req m, P s → StreamCallback add32 req s m → m.marked = false → P m.stream)
    (d : Device) (amount : Int) (res : CallbackResult) (hall : d.AllActive P)
    (hres : d.dataCallback amount = some res) : res.device.AllActive P := by
  by_cases hne : amount = 0
  · subst hne
    rw [dataCallback_zero] at hres
    cases hres
    exact hall
  · obtain ⟨hf, hp, _⟩ := dataCallback_entries d amount res hne hres
    intro e he
    rw [hp] at he
    obtain ⟨m, hm, rfl⟩ := List.mem_map.mp he
    obtain ⟨hm1, hm2⟩ := List.mem_filter.mp hm
    obtain ⟨e0, he0, hr0⟩ := forall₂_exists_left _ _ _ hf m hm1
    exact hcb e0.2 _ m (hall e0 he0) hr0.2 (by simpa using hm2)

theorem Device.AllActive.active_all_play (P : PlayingStreamInternal → Prop)
    (hplay : ∀ w pc fc, w.GetNumBlocks ≠ 0 →
      P (startPlayingStream { wave_file := w, play_count := pc, fade_control := fc }))
    (d : Device) (w : WaveFile) (pc : PlayCount) (fc : FadeControl) (hall : d.AllActive P) :
    (d.Play w pc fc).1.AllActive P := by
  by_cases hN : w.GetNumBlocks = 0
  · rw [Device.play_of_empty d w pc fc hN]
    exact hall
  · rw [Device.play_of_nonempty d w pc fc hN]
    intro e he
    rcases List.mem_cons.mp he with rfl | he
    · exact hplay w pc fc hN
    · exact hall e he

theorem Device.AllActive.active_all_stop (P : PlayingStreamInternal → Prop)
    (hstop : ∀ s sc, P s → P { s with stop_control := some sc })
    (d : Device) (p : Option Nat) (sc : StopControl) (hall : d.AllActive P) :
    (d.Stop p sc).AllActive P := by
  cases p with
  | none => exact hall
  | some k =>
    intro e he
    simp only [Device.Stop] at he
    obtain ⟨e0, he0, rfl⟩ := List.mem_map.mp he
    unfold Device.setStopControl
    split
    · exact hstop _ sc (hall e0 he0)
    · exact hall e0 he0

theorem Device.AllActive.active_all_stopImmediately (P : PlayingStreamInternal → Prop)
    (d : Device) (p : Option Nat) (hall : d.AllActive P) :
    (d.StopImmediately p).AllActive P := by
  cases p with
  | none => exact hall
  | some k =>
    intro e he
    simp only [Device.StopImmediately] at he
    exact hall e (List.mem_filter.mp he).1

/-- A property of records that `Play` establishes and that `Stop` and the callback keep
on the streams the callback does not delete holds of every record of the active set of
every state reached by a history. -/
theorem exec_allActive (P : PlayingStreamInternal → Prop)
    (hplay : ∀ w pc fc, w.GetNumBlocks ≠ 0 →
      P (startPlayingStream { wave_file := w, play_count := pc, fade_control := fc }))
    (hstop : ∀ s sc, P s → P { s with stop_control := some sc })
    (hcb : ∀ s req m, P s → StreamCallback add32 req s m → m.marked = false → P m.stream) :
    ∀ (ops : List Op) (d d2 : Device) (results : List CallbackResult),
      d.AllActive P → d.exec ops = some (d2, results) → d2.AllActive P := by
  intro ops
  induction ops with
  | nil =>
    intro d d2 results hall hex
    simp only [Device.exec, Option.some.injEq, Prod.mk.injEq] at hex
    rw [← hex.1]
    exact hall
  | cons op rest ih =>
    intro d d2 results hall hex
    simp only [Device.exec] at hex
    rcases Option.bind_eq_some.mp hex with ⟨p, hp, hex⟩
    rcases Option.map_eq_some'.mp hex with ⟨q, hq, hqe⟩
    simp only [Prod.mk.injEq] at hqe
    obtain ⟨rfl, rfl⟩ := hqe
    cases op with
    | play w pc fc =>
      simp only [Device.apply, Option.some.injEq] at hp
      subst hp
      exact ih _ _ _ (hall.active_all_play P hplay d w pc fc) hq
    | stop k sc =>
      simp only [Device.apply, Option.some.injEq] at hp
      subst hp
      exact ih _ _ _ (hall.active_all_stop P hstop d k sc) hq
    | stopImmediately k =>
      simp only [Device.apply, Option.some.injEq] at hp
      subst hp
      exact ih _ _ _ (hall.active_all_stopImmediately P d k) hq
    | callback amount =>
      simp only [Device.apply] at hp
      rcases Option.map_eq_some'.mp hp with ⟨res, hres, rfl⟩
      exact ih _ _ _ (hall.active_all_callback P hcb d amount res hres) hq

/-! ## No unsigned subtraction wraps -/

theorem applyStopControl_withinLife (s t : PlayingStreamInternal)
    (h : applyStopControl s = some t) (hw : withinLife s) : withinLife t := by
  unfold applyStopControl at h
  split at h
  · cases h
    exact hw
  · rcases Option.bind_eq_some.mp h with ⟨w, _, h⟩
    rcases Option.bind_eq_some.mp h with ⟨f, _, h⟩
    cases h
    intro _
    show s.total_blocks_streamed ≤ s.total_blocks_streamed + _
    omega

theorem updateGain_withinLife (s t : PlayingStreamInternal) (g : Int)
    (h : updateGainStateInCallback s = some (t, g)) (hw : withinLife s) : withinLife t := by
  obtain ⟨s1, h1, hsame⟩ := updateGain_after_stop s t g h
  have hw1 := applyStopControl_withinLife s s1 h1 hw
  unfold withinLife at hw1 ⊢
  rw [hsame.2.2.2.2.2.2.1, hsame.2.2.2.2.2.1]
  exact hw1

theorem snapshotStream_withinLife (s t : PlayingStreamInternal) (g : Int)
    (h : snapshotStream s = some (t, g)) (hw : withinLife s) : withinLife t := by
  unfold snapshotStream at h
  split at h
  · exact updateGain_withinLife _ t g h hw
  · exact updateGain_withinLife _ t g h hw

theorem streamCallback_withinLife (s : PlayingStreamInternal) (req : Nat) (m : MixedStream)
    (hs : (1 ≤ s.wave_file.GetNumBlocks ∧ CountersOk s) ∧ withinLife s)
    (hsc : StreamCallback add32 req s m) (hm : m.marked = false) :
    (1 ≤ m.stream.wave_file.GetNumBlocks ∧ CountersOk m.stream) ∧ withinLife m.stream := by
  refine ⟨streamCallback_sourceOk s req m hs.1 hsc, ?_⟩
  obtain ⟨s1, g, mix0, mix1, hsnap, hloop⟩ := hsc
  obtain ⟨hsame, _, _⟩ := snapshotStream_sameCounters s s1 g hsnap
  have hc1 := sameCounters_countersOk s s1 hsame hs.1.2
  have hw1 := snapshotStream_withinLife s s1 g hsnap hs.2
  obtain ⟨_, _, t3, _, t5⟩ := mixStreamLoop_total _ _ _ _ _ _ _ _ hloop hc1.1
  have hsb := mixStreamLoop_sameButCounters _ _ _ _ _ _ _ _ hloop
  dsimp only at t3 t5 hsb
  have htp : m.stream.total_blocks_to_play = s1.total_blocks_to_play := hsb.2.2.2.1
  unfold withinLife at hw1 ⊢
  rw [htp]
  intro hne
  rcases Nat.eq_zero_or_pos req with h0 | hpos
  · have := t3 hm
    have := hw1 hne
    omega
  · have := t5 hm (by omega)
    by_contra hgt
    exact this ⟨hne, by omega⟩

/-- In every state reached by a history from `Init`, every record of the active set has a
source with at least one block, consistent counters, and has not outlived its
`total_blocks_to_play`. -/
theorem reachable_withinLife (ops : List Op) (d : Device) (results : List CallbackResult)
    (hreach : Device.Init.exec ops = some (d, results)) :
    d.AllActive fun s => (1 ≤ s.wave_file.GetNumBlocks ∧ CountersOk s) ∧ withinLife s := by
  refine exec_allActive
    (fun s => (1 ≤ s.wave_file.GetNumBlocks ∧ CountersOk s) ∧ withinLife s) ?_ ?_
    streamCallback_withinLife ops Device.Init d results ?_ hreach
  · intro w pc fc hN
    refine ⟨⟨?_, startPlayingStream_countersOk w pc fc⟩, ?_⟩
    · rw [(startPlayingStream_fields w pc fc).1]
      omega
    · intro _
      rw [(startPlayingStream_fields w pc fc).2.2.2.1]
      omega
  · intro s sc hs
    exact hs
  · intro e he
    exact absurd he (List.not_mem_nil e)

theorem loopSubtractions_in_range (req : Nat) :
    ∀ (fuel : Nat) (s : PlayingStreamInternal) (sent : Nat),
      s.looped_blocks_streamed ≤ s.wave_file.GetNumBlocks →
      ∀ p ∈ loopSubtractions req fuel s sent, p.2 ≤ p.1 := by
  intro fuel
  induction fuel with
  | zero =>
    intro s sent _ p hp
    cases hp
  | succ fuel ih =>
    intro s sent hl p hp
    simp only [loopSubtractions] at hp
    by_cases hs : sent < req
    · rw [if_pos hs] at hp
      rcases List.mem_append.mp hp with hp | hp
      · rcases List.mem_cons.mp hp with rfl | hp
        · exact le_of_lt hs
        · split at hp
          · rcases List.mem_singleton.mp hp with rfl
            exact hl
          · cases hp
      · split at hp
        · cases hp
        · exact ih _ _ (by
            rw [loopAdvance_wave_file]
            exact loopAdvance_looped_le req sent s hs hl) p hp
    · rw [if_neg hs] at hp
      cases hp

theorem stopControlSubtractions_in_range (s : PlayingStreamInternal)
    (hl : s.looped_blocks_streamed ≤ s.wave_file.GetNumBlocks) (hw : withinLife s) :
    ∀ p ∈ stopControlSubtractions s, p.2 ≤ p.1 := by
  intro p hp
  unfold stopControlSubtractions at hp
  split at hp
  · cases hp
  · split at hp
    · rcases List.mem_cons.mp hp with rfl | hp
      · exact hl
      · split at hp
        · rename_i hne
          rcases List.mem_singleton.mp hp with rfl
          exact hw hne
        · cases hp
    · cases hp

theorem releaseSubtractions_in_range (s : PlayingStreamInternal) :
    ∀ p ∈ releaseSubtractions s, p.2 ≤ p.1 := by
  intro p hp
  unfold releaseSubtractions at hp
  split at hp
  · split at hp
    · cases hp
    · rename_i hlt
      split at hp
      · cases hp
      · split at hp
        · rcases List.mem_singleton.mp hp with rfl
          show s.total_blocks_streamed ≤ s.total_blocks_to_play
          omega
        · cases hp
  · cases hp

theorem callbackSubtractions_in_range (req : Nat) (s : PlayingStreamInternal)
    (hl : s.looped_blocks_streamed ≤ s.wave_file.GetNumBlocks) (hw : withinLife s) :
    ∀ p ∈ callbackSubtractions req s, p.2 ≤ p.1 := by
  intro p hp
  unfold callbackSubtractions at hp
  dsimp only at hp
  have key : ∀ s0 : PlayingStreamInternal,
      s0.looped_blocks_streamed ≤ s0.wave_file.GetNumBlocks → withinLife s0 →
      p ∈ gainUpdateSubtractions s0 ++
        (match updateGainStateInCallback s0 with
        | none => []
        | some r => loopSubtractions req (mixFuel req) r.1 0) → p.2 ≤ p.1 := by
    intro s0 hl0 hw0 hp0
    rcases List.mem_append.mp hp0 with hp0 | hp0
    · unfold gainUpdateSubtractions at hp0
      rcases List.mem_append.mp hp0 with hp0 | hp0
      · exact stopControlSubtractions_in_range s0 hl0 hw0 p hp0
      · split at hp0
        · cases hp0
        · exact releaseSubtractions_in_range _ p hp0
    · cases hu : updateGainStateInCallback s0 with
      | none =>
        rw [hu] at hp0
        cases hp0
      | some r =>
        rw [hu] at hp0
        obtain ⟨hsame, _, _⟩ := updateGain_sameCounters s0 r.1 r.2 hu
        exact loopSubtractions_in_range req _ r.1 0 (by rw [hsame.1, hsame.2.2.1]; exact hl0)
          p hp0
  split at hp
  · exact key { s with stop_control_in_callback := s.stop_control, stop_control := none }
      hl hw hp
  · exact key s hl hw hp

/-- C36. In every state reached by a history of calls (`Play`, `Stop`, `StopImmediately`,
callbacks), for every stream of the active set and every number of frames requested, each
unsigned subtraction that the next callback evaluates for the stream, in the gain update
(`GetNumBlocks() - looped_blocks_streamed` and `total_blocks_to_play -
total_blocks_streamed` of a stop command, `total_blocks_to_play - total_blocks_streamed`
of the Release ramp) and in every pass of the mixing loop
(`num_requested_blocks - num_blocks_sent`, `GetNumBlocks() - looped_blocks_streamed`),
has a minuend not smaller than its subtrahend. -/
theorem Device.subtractions_in_range (ops : List Op) (d : Device)
    (results : List CallbackResult)
    (hreach : Device.Init.exec ops = some (d, results)) :
    ∀ e ∈ d.playing_streams_, ∀ (req : Nat), ∀ p ∈ callbackSubtractions req e.2,
      p.2 ≤ p.1 := by
  intro e he req p hp
  obtain ⟨⟨_, hc⟩, hw⟩ := reachable_withinLife ops d results hreach e he
  exact callbackSubtractions_in_range req e.2 hc.1 hw p hp

set_option maxRecDepth 20000 in
theorem Device.subtractions_in_range_witness :
    ∃ p, Device.Init.exec [Op.play threeBlockWave (PlayTimes 4) kNoFade, Op.callback 16,
        Op.stop (some 1) StopAtEnd] = some p ∧
      (p.1.playing_streams_.map fun e => callbackSubtractions 8 e.2) =
        [[(3, 1), (12, 4), (8, 0), (3, 1)]] ∧
      (∀ e ∈ p.1.playing_streams_, ∀ (req : Nat), ∀ q ∈ callbackSubtractions req e.2,
        q.2 ≤ q.1) :=
  ⟨_, rfl, rfl, Device.subtractions_in_range
    [Op.play threeBlockWave (PlayTimes 4) kNoFade, Op.callback 16,
      Op.stop (some 1) StopAtEnd] _ _ rfl⟩

/-! ## The per-stream loop ends -/

/-- A pass of the loop body that reads no block is a pass at the end of the source: it
resets `looped_blocks_streamed` to 0, and the pass after it reads at least one block. -/
theorem loopRead_zero (req sent : Nat) (s : PlayingStreamInternal) (hs : sent < req)
    (hl : s.looped_blocks_streamed ≤ s.wave_file.GetNumBlocks)
    (hN : 1 ≤ s.wave_file.GetNumBlocks) (h0 : loopRead req sent s = 0) :
    s.looped_blocks_streamed = s.wave_file.GetNumBlocks ∧
      (loopAdvance req sent s).looped_blocks_streamed = 0 ∧
      1 ≤ loopRead req (sent + loopRead req sent s) (loopAdvance req sent s) := by
  have hreset : sizeSub req sent + s.looped_blocks_streamed > s.wave_file.GetNumBlocks := by
    by_contra hno
    unfold loopRead at h0
    rw [if_neg hno, sizeSub_of_le req sent (by omega)] at h0
    omega
  have hlooped : s.looped_blocks_streamed = s.wave_file.GetNumBlocks := by
    unfold loopRead at h0
    rw [if_pos hreset, sizeSub_of_le _ _ hl] at h0
    omega
  have hadv : (loopAdvance req sent s).looped_blocks_streamed = 0 := by
    simp only [loopAdvance]
    rw [if_pos hreset]
  refine ⟨hlooped, hadv, ?_⟩
  rw [h0, Nat.add_zero]
  unfold loopRead
  rw [hadv, loopAdvance_wave_file, sizeSub_of_le req sent (by omega),
    sizeSub_of_le _ 0 (Nat.zero_le _)]
  split <;> omega

theorem mixStreamLoop_runs_length (add : Int → Int → Int) (gain : Int) (req : Nat) :
    ∀ (fuel : Nat) (s : PlayingStreamInternal) (sent : Nat) (mix : List StereoBlock32)
      (r : StreamMix), mixStreamLoop add gain req fuel s sent mix = some r →
      r.runs.length ≤ fuel := by
  intro fuel
  induction fuel with
  | zero =>
    intro s sent mix r h
    by_cases hs : sent < req
    · simp [mixStreamLoop, hs] at h
    · rw [mixStreamLoop_done add gain req 0 s sent mix hs] at h
      cases h
      exact le_refl _
  | succ fuel ih =>
    intro s sent mix r h
    by_cases hs : sent < req
    · rw [mixStreamLoop_succ add gain req fuel s sent mix hs] at h
      by_cases hm : reachedEnd (loopAdvance req sent s)
      · rw [if_pos hm] at h
        cases h
        simp
      · rw [if_neg hm] at h
        rcases Option.map_eq_some'.mp h with ⟨r1, hr1, rfl⟩
        have := ih _ _ _ _ hr1
        simp only [List.length_cons]
        omega
    · rw [mixStreamLoop_done add gain req (fuel + 1) s sent mix hs] at h
      cases h
      simp

/-- The passes of the loop, as runs: the first run starts at the position of the record;
a run of no block is followed by a run of at least one block from the start of the
source, and leaves `looped_blocks_streamed = 0` when it is the last; the blocks streamed
are the blocks of the runs. -/
theorem mixStreamLoop_passes (add : Int → Int → Int) (gain : Int)
    (req fuel : Nat) (s : PlayingStreamInternal) (sent : Nat) (mix : List StereoBlock32)
    (r : StreamMix) (h : mixStreamLoop add gain req fuel s sent mix = some r)
    (hl : s.looped_blocks_streamed ≤ s.wave_file.GetNumBlocks)
    (hN : 1 ≤ s.wave_file.GetNumBlocks) :
    (sent < req → ∃ run rest, r.runs = run :: rest ∧
      run.first_block = s.looped_blocks_streamed ∧ run.count = loopRead req sent s) ∧
    List.Chain' (fun a b : MixRun => a.count = 0 → b.first_block = 0 ∧ 1 ≤ b.count) r.runs ∧
    r.stream.total_blocks_streamed =
      s.total_blocks_streamed + (r.runs.map fun run => run.count).sum ∧
    (∀ run, r.runs.getLast? = some run → run.count = 0 →
      r.stream.looped_blocks_streamed = 0 ∧ r.marked = true) := by
  refine mixStreamLoop_induct add gain req
    (fun s sent _ r => s.looped_blocks_streamed ≤ s.wave_file.GetNumBlocks →
      1 ≤ s.wave_file.GetNumBlocks →
      (sent < req → ∃ run rest, r.runs = run :: rest ∧
        run.first_block = s.looped_blocks_streamed ∧ run.count = loopRead req sent s) ∧
      List.Chain' (fun a b : MixRun => a.count = 0 → b.first_block = 0 ∧ 1 ≤ b.count)
        r.runs ∧
      r.stream.total_blocks_streamed =
        s.total_blocks_streamed + (r.runs.map fun run => run.count).sum ∧
      (∀ run, r.runs.getLast? = some run → run.count = 0 →
        r.stream.looped_blocks_streamed = 0 ∧ r.marked = true))
    ?_ ?_ ?_ fuel s sent mix r h hl hN
  · intro s sent _ hs _ _
    refine ⟨fun h => absurd h hs, List.chain'_nil, by simp, ?_⟩
    intro run hrun
    cases hrun
  · intro s sent _ hs _ hl hN
    refine ⟨fun _ => ⟨_, [], rfl, rfl, rfl⟩, List.chain'_singleton _, ?_, ?_⟩
    · simp [loopAdvance_total, loopRun]
    · intro run hrun h0
      simp only [List.getLast?_singleton, Option.some.injEq] at hrun
      subst hrun
      exact ⟨(loopRead_zero req sent s hs hl hN h0).2.1, rfl⟩
  · intro s sent _ r hs _ ih hl hN
    obtain ⟨i1, i2, i3, i4⟩ := ih (loopAdvance_looped_le req sent s hs hl)
      (by rw [loopAdvance_wave_file]; exact hN)
    refine ⟨fun _ => ⟨_, r.runs, rfl, rfl, rfl⟩, ?_, ?_, ?_⟩
    · rw [List.chain'_cons']
      refine ⟨?_, i2⟩
      intro b hb h0
      have h0r : loopRead req sent s = 0 := h0
      obtain ⟨_, z2, z3⟩ := loopRead_zero req sent s hs hl hN h0r
      obtain ⟨run, rest, e1, e2, e3⟩ := i1 (by rw [h0r]; omega)
      rw [e1] at hb
      simp only [List.head?_cons, Option.mem_def, Option.some.injEq] at hb
      subst hb
      rw [e2, e3]
      exact ⟨z2, z3⟩
    · rw [i3, loopAdvance_total]
      simp only [List.map_cons, List.sum_cons, loopRun]
      omega
    · intro run hrun h0
      cases hr : r.runs with
      | nil =>
        rw [hr] at hrun
        simp only [List.getLast?_singleton, Option.some.injEq] at hrun
        subst hrun
        have h0r : loopRead req sent s = 0 := h0
        obtain ⟨run2, rest, e1, _, _⟩ := i1 (by rw [h0r]; omega)
        rw [hr] at e1
        cases e1
      | cons x xs =>
        rw [hr, List.getLast?_cons_cons] at hrun
        rw [hr] at i4
        exact i4 run hrun h0

/-- C37. In every state reached by a history of calls, for every stream of the active
set (its source has at least one block) and every number of frames requested, the
per-stream loop of `fillMixBuffer` returns, after at most `2 * num_requested_blocks + 2`
passes; at its end the stream is marked for deletion or the blocks of its passes add up
to the frames requested.  A pass that reads no block is a pass at the end of the source:
it is followed by a pass that starts at block 0 and reads at least one block, or it is
the last pass and then leaves `looped_blocks_streamed = 0` on a stream it marks. -/
theorem Device.mix_loop_terminates (ops : List Op) (d : Device)
    (results : List CallbackResult)
    (hreach : Device.Init.exec ops = some (d, results)) :
    ∀ e ∈ d.playing_streams_, ∀ s1 g, snapshotStream e.2 = some (s1, g) →
      ∀ (req : Nat) (mix : List StereoBlock32),
        ∃ r, mixStreamLoop add32 g req (mixFuel req) s1 0 mix = some r ∧
          r.runs.length ≤ 2 * req + 2 ∧
          (r.marked = true ∨ (r.runs.map fun run => run.count).sum = req) ∧
          List.Chain' (fun a b : MixRun => a.count = 0 → b.first_block = 0 ∧ 1 ≤ b.count)
            r.runs ∧
          (∀ run, r.runs.getLast? = some run → run.count = 0 →
            r.stream.looped_blocks_streamed = 0 ∧ r.marked = true) := by
  intro e he s1 g hsnap req mix
  obtain ⟨hN, hc⟩ := reachable_countersOk ops d results hreach e
    (List.mem_append.mpr (Or.inl he))
  obtain ⟨hsame, _, _⟩ := snapshotStream_sameCounters e.2 s1 g hsnap
  have hc1 := sameCounters_countersOk e.2 s1 hsame hc
  have hN1 : 1 ≤ s1.wave_file.GetNumBlocks := by rw [hsame.1]; exact hN
  obtain ⟨r, hr⟩ := mixStreamLoop_returns add32 g req s1 mix hN1 hc1.1
  obtain ⟨_, p2, p3, p4⟩ := mixStreamLoop_passes _ _ _ _ _ _ _ _ hr hc1.1 hN1
  obtain ⟨_, _, t3, _, _⟩ := mixStreamLoop_total _ _ _ _ _ _ _ _ hr hc1.1
  have hsum : r.marked = true ∨ (r.runs.map fun run => run.count).sum = req := by
    cases hm : r.marked with
    | true => exact Or.inl rfl
    | false =>
      right
      have := t3 hm
      omega
  exact ⟨r, hr, mixStreamLoop_runs_length _ _ _ _ _ _ _ _ hr, hsum, p2, p4⟩

set_option maxRecDepth 20000 in
theorem Device.mix_loop_terminates_witness :
    ∃ p, Device.Init.exec [Op.play threeBlockWave kPlayLooped kNoFade, Op.callback 12] =
        some p ∧
      (p.1.playing_streams_.map fun e => (snapshotStream e.2).bind fun q =>
        (mixStreamLoop add32 q.2 4 (mixFuel 4) q.1 0 []).map fun r => r.runs) =
        [some [{ dest := 0, first_block := 3, count := 0 },
          { dest := 0, first_block := 0, count := 3 },
          { dest := 3, first_block := 0, count := 1 }]] ∧
      (∀ e ∈ p.1.playing_streams_, ∀ s1 g, snapshotStream e.2 = some (s1, g) →
        ∀ (req : Nat) (mix : List StereoBlock32),
          ∃ r, mixStreamLoop add32 g req (mixFuel req) s1 0 mix = some r ∧
            r.runs.length ≤ 2 * req + 2 ∧
            (r.marked = true ∨ (r.runs.map fun run => run.count).sum = req) ∧
            List.Chain' (fun a b : MixRun => a.count = 0 → b.first_block = 0 ∧ 1 ≤ b.count)
              r.runs ∧
            (∀ run, r.runs.getLast? = some run → run.count = 0 →
              r.stream.looped_blocks_streamed = 0 ∧ r.marked = true)) :=
  ⟨_, rfl, rfl, Device.mix_loop_terminates
    [Op.play threeBlockWave kPlayLooped kNoFade, Op.callback 12] _ _ rfl⟩

/-! ## The `play_count` of a record is not read after `Play` -/

theorem applyStopControl_withPlayCount (pc : PlayCount) (s : PlayingStreamInternal) :
    applyStopControl (withPlayCount pc s) = (applyStopControl s).map (withPlayCount pc) := by
  unfold applyStopControl
  cases h : s.stop_control_in_callback with
  | none => simp [withPlayCount, h]
  | some sc =>
    simp only [withPlayCount, h]
    cases hW : numBlocksToFade s.wave_file
        (sc.fade_out_time_sec.getD s.fade_control.fade_out_time_sec) with
    | none => rfl
    | some W =>
      simp only [Option.some_bind, Option.map_bind]
      rfl

theorem attackToRelease_withPlayCount (pc : PlayCount) (s : PlayingStreamInternal) :
    attackToRelease (withPlayCount pc s) = (attackToRelease s).map (withPlayCount pc) := by
  unfold attackToRelease
  simp only [withPlayCount]
  split
  · split
    · cases numBlocksToFade s.wave_file s.fade_control.fade_out_time_sec with
      | none => rfl
      | some W =>
        simp only [Option.some_bind]
        split <;> rfl
    · rfl
  · rfl

theorem attackRamp_withPlayCount (pc : PlayCount) (s : PlayingStreamInternal) (g : Int) :
    attackRamp (withPlayCount pc s) g =
      (attackRamp s g).map fun r => (withPlayCount pc r.1, r.2) := by
  unfold attackRamp
  simp only [withPlayCount]
  split
  · cases numBlocksToFade s.wave_file s.fade_control.fade_in_time_sec with
    | none => rfl
    | some W =>
      simp only [Option.some_bind]
      split
      · rfl
      · cases F32.div (F32.ofNat s.total_blocks_streamed) (F32.ofNat W) with
        | none => rfl
        | some ramp =>
          simp only [Option.some_bind]
          cases ToIntGain ramp <;> rfl
  · rfl

theorem sustainToRelease_withPlayCount (pc : PlayCount) (s : PlayingStreamInternal) :
    sustainToRelease (withPlayCount pc s) = (sustainToRelease s).map (withPlayCount pc) := by
  unfold sustainToRelease
  simp only [withPlayCount]
  split
  · split
    · split
      · cases numBlocksToFade s.wave_file s.fade_control.fade_out_time_sec with
        | none => rfl
        | some W =>
          simp only [Option.some_bind]
          split <;> rfl
      · rfl
    · rfl
  · rfl

theorem releaseGain_withPlayCount (pc : PlayCount) (s : PlayingStreamInternal) (g : Int) :
    releaseGain (withPlayCount pc s) g =
      (releaseGain s g).map fun r => (withPlayCount pc r.1, r.2) := by
  unfold releaseGain
  simp only [withPlayCount]
  split
  · split
    · rfl
    · cases numBlocksToFade s.wave_file s.fade_control.fade_out_time_sec with
      | none => rfl
      | some W =>
        simp only [Option.some_bind]
        split
        · cases F32.div (F32.ofNat (sizeSub s.total_blocks_to_play s.total_blocks_streamed))
              (F32.ofNat W) with
          | none => rfl
          | some ratio =>
            simp only [Option.map_some', Option.some_bind]
            cases ToIntGain (F32.mul ratio s.gain_at_release) <;> rfl
        · simp only [Option.some_bind]
          cases ToIntGain s.cur_gain <;> rfl
  · rfl

theorem updateGain_withPlayCount (pc : PlayCount) (s : PlayingStreamInternal) :
    updateGainStateInCallback (withPlayCount pc s) =
      (updateGainStateInCallback s).map fun r => (withPlayCount pc r.1, r.2) := by
  unfold updateGainStateInCallback
  rw [applyStopControl_withPlayCount]
  cases applyStopControl s with
  | none => rfl
  | some s1 =>
    simp only [Option.map_some', Option.some_bind]
    rw [attackToRelease_withPlayCount]
    cases attackToRelease s1 with
    | none => rfl
    | some s2 =>
      simp only [Option.map_some', Option.some_bind]
      rw [attackRamp_withPlayCount]
      cases attackRamp s2 kMaxGain with
      | none => rfl
      | some r3 =>
        simp only [Option.map_some', Option.some_bind]
        rw [sustainToRelease_withPlayCount]
        cases sustainToRelease r3.1 with
        | none => rfl
        | some s4 =>
          simp only [Option.map_some', Option.some_bind]
          rw [releaseGain_withPlayCount]

theorem snapshotStream_withPlayCount (pc : PlayCount) (s : PlayingStreamInternal) :
    snapshotStream (withPlayCount pc s) =
      (snapshotStream s).map fun r => (withPlayCount pc r.1, r.2) := by
  unfold snapshotStream
  by_cases h : s.stop_control.isSome = true
  · have h2 : (withPlayCount pc s).stop_control.isSome = true := h
    rw [if_pos h, if_pos h2]
    exact updateGain_withPlayCount pc
      { s with stop_control_in_callback := s.stop_control, stop_control := none }
  · have h2 : ¬ (withPlayCount pc s).stop_control.isSome = true := h
    rw [if_neg h, if_neg h2]
    exact updateGain_withPlayCount pc s

theorem snapshotAll_withPlayCount (pc : PlayCount) :
    ∀ l : List (Nat × PlayingStreamInternal),
      snapshotAll (l.map fun e => (e.1, withPlayCount pc e.2)) =
        (snapshotAll l).map fun rs => rs.map fun e => (e.1, withPlayCount pc e.2.1, e.2.2) := by
  intro l
  induction l with
  | nil => rfl
  | cons e rest ih =>
    obtain ⟨h, s⟩ := e
    simp only [List.map_cons, snapshotAll]
    rw [snapshotStream_withPlayCount, ih]
    cases snapshotStream s with
    | none => rfl
    | some r =>
      simp only [Option.map_some', Option.some_bind]
      cases snapshotAll rest <;> rfl

theorem loop_withPlayCount (pc : PlayCount) (req sent : Nat) (s : PlayingStreamInternal) :
    loopAdvance req sent (withPlayCount pc s) = withPlayCount pc (loopAdvance req sent s) ∧
      loopRead req sent (withPlayCount pc s) = loopRead req sent s ∧
      loopRun req sent (withPlayCount pc s) = loopRun req sent s ∧
      (reachedEnd (loopAdvance req sent (withPlayCount pc s)) ↔
        reachedEnd (loopAdvance req sent s)) :=
  ⟨rfl, rfl, rfl, Iff.rfl⟩

theorem mixStreamLoop_withPlayCount (pc : PlayCount) (add : Int → Int → Int) (gain : Int)
    (req : Nat) :
    ∀ (fuel : Nat) (s : PlayingStreamInternal) (sent : Nat) (mix : List StereoBlock32),
      mixStreamLoop add gain req fuel (withPlayCount pc s) sent mix =
        (mixStreamLoop add gain req fuel s sent mix).map
          fun r => { r with stream := withPlayCount pc r.stream } := by
  intro fuel
  induction fuel with
  | zero =>
    intro s sent mix
    unfold mixStreamLoop
    split <;> rfl
  | succ fuel ih =>
    intro s sent mix
    by_cases hs : sent < req
    · rw [mixStreamLoop_succ _ _ _ _ _ _ _ hs, mixStreamLoop_succ _ _ _ _ _ _ _ hs]
      obtain ⟨e1, e2, e3, e4⟩ := loop_withPlayCount pc req sent s
      by_cases hm : reachedEnd (loopAdvance req sent s)
      · rw [if_pos hm, if_pos (e4.mpr hm)]
        rfl
      · rw [if_neg hm, if_neg (fun h => hm (e4.mp h)), e1, e2]
        have hmix : loopMix add gain req sent (withPlayCount pc s) mix =
            loopMix add gain req sent s mix := rfl
        rw [hmix, ih, Option.map_map, Option.map_map]
        rfl
    · rw [mixStreamLoop_done _ _ _ _ _ _ _ hs, mixStreamLoop_done _ _ _ _ _ _ _ hs]
      rfl

theorem mixAll_withPlayCount (pc : PlayCount) (add : Int → Int → Int) (req : Nat) :
    ∀ (snaps : List (Nat × PlayingStreamInternal × Int)) (mix : List StereoBlock32),
      mixAll add req (snaps.map fun e => (e.1, withPlayCount pc e.2.1, e.2.2)) mix =
        (mixAll add req snaps mix).map fun p =>
          (p.1.map fun m => { m with stream := withPlayCount pc m.stream }, p.2) := by
  intro snaps
  induction snaps with
  | nil => intro mix; rfl
  | cons e rest ih =>
    intro mix
    obtain ⟨h, s, g⟩ := e
    simp only [List.map_cons, mixAll]
    rw [mixStreamLoop_withPlayCount]
    cases mixStreamLoop add g req (mixFuel req) s 0 mix with
    | none => rfl
    | some r =>
      simp only [Option.map_some', Option.some_bind]
      rw [ih]
      cases mixAll add req rest r.mix <;> rfl

theorem withPlayCount_idem (pc pc2 : PlayCount) (s : PlayingStreamInternal) :
    withPlayCount pc (withPlayCount pc2 s) = withPlayCount pc s := rfl

theorem Device.erasePlayCount_idem (d : Device) :
    d.erasePlayCount.erasePlayCount = d.erasePlayCount := by
  simp [Device.erasePlayCount, List.map_map, Function.comp_def, withPlayCount_idem]

theorem Device.erasePlayCount_freshHandle (d : Device) :
    d.erasePlayCount.freshHandle = d.freshHandle := by
  simp [Device.erasePlayCount, Device.freshHandle, List.map_map, Function.comp_def]

theorem Device.erasePlayCount_play (d : Device) (w : WaveFile) (pc : PlayCount)
    (fc : FadeControl) :
    (d.erasePlayCount.Play w pc fc).1.erasePlayCount = (d.Play w pc fc).1.erasePlayCount := by
  by_cases hN : w.GetNumBlocks = 0
  · rw [Device.play_of_empty _ w pc fc hN, Device.play_of_empty _ w pc fc hN]
    exact Device.erasePlayCount_idem d
  · rw [Device.play_of_nonempty _ w pc fc hN, Device.play_of_nonempty _ w pc fc hN,
      Device.erasePlayCount_freshHandle]
    simp [Device.erasePlayCount, List.map_map, Function.comp_def, withPlayCount_idem]

theorem setStopControl_withPlayCount (h : Nat) (sc : StopControl) (pc : PlayCount)
    (e : Nat × PlayingStreamInternal) :
    Device.setStopControl h sc (e.1, withPlayCount pc e.2) =
      ((Device.setStopControl h sc e).1, withPlayCount pc (Device.setStopControl h sc e).2) := by
  unfold Device.setStopControl
  by_cases he : e.1 = h
  · rw [if_pos he, if_pos he]
    rfl
  · rw [if_neg he, if_neg he]

theorem Device.erasePlayCount_stop (d : Device) (k : Option Nat) (sc : StopControl) :
    d.erasePlayCount.Stop k sc = (d.Stop k sc).erasePlayCount := by
  cases k with
  | none => rfl
  | some h =>
    simp only [Device.Stop, Device.erasePlayCount, List.map_map, Function.comp_def,
      setStopControl_withPlayCount]

theorem Device.erasePlayCount_stopImmediately (d : Device) (k : Option Nat) :
    d.erasePlayCount.StopImmediately k = (d.StopImmediately k).erasePlayCount := by
  cases k with
  | none => rfl
  | some h =>
    simp only [Device.StopImmediately, Device.erasePlayCount, List.filter_map,
      List.map_append, Function.comp_def]

theorem Device.erasePlayCount_mixAccumulators (add : Int → Int → Int) (d : Device)
    (amount : Int) :
    d.erasePlayCount.mixAccumulators add amount =
      (d.mixAccumulators add amount).map fun p =>
        (p.1.map fun m => { m with stream := withPlayCount kPlayLooped m.stream }, p.2) := by
  unfold Device.mixAccumulators
  show (snapshotAll (d.playing_streams_.map fun e => (e.1, withPlayCount kPlayLooped e.2))).bind
    _ = _
  rw [snapshotAll_withPlayCount]
  cases snapshotAll d.playing_streams_ with
  | none => rfl
  | some snaps =>
    simp only [Option.map_some', Option.some_bind]
    exact mixAll_withPlayCount kPlayLooped add _ snaps _

/-- A callback result with the `play_count` of every record replaced by `kPlayLooped`. -/
theorem Device.erasePlayCount_dataCallback (d : Device) (amount : Int) :
    (d.erasePlayCount.dataCallback amount).map (fun r => observable (r.device, [r])) =
      (d.dataCallback amount).map (fun r => observable (r.device, [r])) := by
  unfold Device.dataCallback
  by_cases h0 : amount = 0
  · rw [if_pos h0, if_pos h0]
    simp [observable, Device.erasePlayCount_idem]
  · rw [if_neg h0, if_neg h0]
    unfold Device.fillMixBufferWith
    rw [Device.erasePlayCount_mixAccumulators]
    cases d.mixAccumulators add32 amount with
    | none => rfl
    | some p =>
      simp only [Option.map_some', Option.some.injEq, observable, Device.sendMixedToMainStream,
        Device.erasePlayCount, List.map_map, List.filter_map, Function.comp_def,
        List.map_append, List.map_cons, List.map_nil, withPlayCount_idem]

theorem Device.erasePlayCount_apply (d : Device) (op : Op) :
    (d.erasePlayCount.apply op).map observable = (d.apply op).map observable := by
  cases op with
  | play w pc fc =>
    simp only [Device.apply, Option.map_some', observable, Device.erasePlayCount_play]
  | stop k sc =>
    simp only [Device.apply, Option.map_some', observable, Device.erasePlayCount_stop,
      Device.erasePlayCount_idem]
  | stopImmediately k =>
    simp only [Device.apply, Option.map_some', observable,
      Device.erasePlayCount_stopImmediately, Device.erasePlayCount_idem]
  | callback amount =>
    simp only [Device.apply, Option.map_map]
    exact Device.erasePlayCount_dataCallback d amount

/-- Two states that differ in `play_count` fields only show the same under every history
of calls. -/
theorem exec_observable :
    ∀ (ops : List Op) (d d2 : Device), d.erasePlayCount = d2.erasePlayCount →
      (d.exec ops).map observable = (d2.exec ops).map observable := by
  intro ops
  induction ops with
  | nil =>
    intro d d2 h
    simp only [Device.exec, Option.map_some', observable, h]
  | cons op rest ih =>
    intro d d2 h
    have hstep : (d.apply op).map observable = (d2.apply op).map observable := by
      rw [← Device.erasePlayCount_apply d op, ← Device.erasePlayCount_apply d2 op, h]
    simp only [Device.exec]
    cases h1 : d.apply op with
    | none =>
      rw [h1] at hstep
      cases h2 : d2.apply op with
      | none => rfl
      | some p2 =>
        rw [h2] at hstep
        cases hstep
    | some p1 =>
      rw [h1] at hstep
      cases h2 : d2.apply op with
      | none =>
        rw [h2] at hstep
        cases hstep
      | some p2 =>
        rw [h2] at hstep
        simp only [Option.map_some', Option.some.injEq, observable, Prod.mk.injEq] at hstep
        obtain ⟨hd, hr⟩ := hstep
        have hrest := ih p1.1 p2.1 hd
        simp only [Option.some_bind, Option.map_map]
        cases h3 : p1.1.exec rest with
        | none =>
          rw [h3] at hrest
          cases h4 : p2.1.exec rest with
          | none => rfl
          | some q2 =>
            rw [h4] at hrest
            cases hrest
        | some q1 =>
          rw [h3] at hrest
          cases h4 : p2.1.exec rest with
          | none =>
            rw [h4] at hrest
            cases hrest
          | some q2 =>
            rw [h4] at hrest
            simp only [Option.map_some', Option.some.injEq, observable, Prod.mk.injEq]
              at hrest
            simp only [Option.map_some', Option.some.injEq, observable, Prod.mk.injEq,
              Function.comp, List.map_append]
            exact ⟨hrest.1, by rw [hr, hrest.2]⟩

/-! ## A stream played zero times -/

theorem startPlayingStream_zero_repeats (w : WaveFile) (fc : FadeControl) :
    (startPlayingStream
      { wave_file := w, play_count := PlayTimes 0, fade_control := fc }).total_blocks_to_play =
      0 := by
  rw [(startPlayingStream_fields w (PlayTimes 0) fc).2.2.2.2.2.2]
  simp [PlayTimes, sizeMul, sizeOfInt]

theorem startPlayingStream_erased (w : WaveFile) (fc : FadeControl) (num_repeats : Int) :
    withPlayCount kPlayLooped (startPlayingStream
      { wave_file := w, play_count := PlayTimes 0, fade_control := fc }) =
    withPlayCount kPlayLooped (startPlayingStream
      { wave_file := w, play_count := { num_repeats := num_repeats, loop_infinite := true },
        fade_control := fc }) := by
  unfold startPlayingStream withPlayCount
  cases hp : fc.fade_in_time_sec.isPos <;> simp [hp, PlayTimes, sizeMul, sizeOfInt]

theorem play_erased (d : Device) (w : WaveFile) (fc : FadeControl) (num_repeats : Int) :
    (d.Play w (PlayTimes 0) fc).1.erasePlayCount =
      (d.Play w { num_repeats := num_repeats, loop_infinite := true } fc).1.erasePlayCount ∧
    (d.Play w (PlayTimes 0) fc).2 =
      (d.Play w { num_repeats := num_repeats, loop_infinite := true } fc).2 := by
  by_cases hN : w.GetNumBlocks = 0
  · rw [Device.play_of_empty _ w _ fc hN, Device.play_of_empty _ w _ fc hN]
    exact ⟨rfl, rfl⟩
  · rw [Device.play_of_nonempty _ w _ fc hN, Device.play_of_nonempty _ w _ fc hN]
    refine ⟨?_, rfl⟩
    simp only [Device.erasePlayCount, List.map_cons, startPlayingStream_erased w fc num_repeats]

/-- A stream that `Play` leaves with `total_blocks_to_play = 0` is not removed by the
callback while no stop is consumed and `StopImmediately` is not called on it. -/
theorem Device.unbounded_never_removed (d : Device) (w : WaveFile) (pc : PlayCount)
    (fc : FadeControl) (h : Nat) (ops waiting : List Op) (d2 : Device)
    (results : List CallbackResult)
    (hzero : (startPlayingStream
      { wave_file := w, play_count := pc, fade_control := fc }).total_blocks_to_play = 0)
    (hplay : (d.Play w pc fc).2 = some h)
    (hstops : ∀ op ∈ ops, op.stopsStream h = false)
    (hwait : ∀ op ∈ waiting, op.endsWait h = false)
    (hex : (d.Play w pc fc).1.exec (ops ++ waiting) = some (d2, results)) :
    d2.IsPlaying (some h) = true ∧
      ∃ s, d2.record h = some s ∧ s.total_blocks_to_play = 0 ∧
        s.total_blocks_streamed = framesPulled (ops ++ waiting) := by
  obtain ⟨_, hact⟩ := play_handle d w pc fc h hplay
  obtain ⟨f1, f2, f3, f4, f5, f6, _⟩ := startPlayingStream_fields w pc fc
  rw [exec_append] at hex
  rcases Option.bind_eq_some.mp hex with ⟨p1, hex1, hex⟩
  rcases Option.map_eq_some'.mp hex with ⟨p2, hex2, hpe⟩
  simp only [Prod.mk.injEq] at hpe
  obtain ⟨rfl, _⟩ := hpe
  have key := exec_track h
    (fun s P _ => CountersOk s ∧ s.total_blocks_to_play = 0 ∧ s.stop_control = none ∧
      s.stop_control_in_callback = none ∧ s.total_blocks_streamed = P)
    (fun _ _ _ => False)
    (by
      intro s P R amount m hinv _ hsc
      obtain ⟨hc, htp, hs1, hs2, htot⟩ := hinv
      obtain ⟨s1, g, mix0, mix1, hsame, hl⟩ := streamCallback_unstopped _ s m hs1 hs2 hsc
      have hc1 : CountersOk s1 :=
        sameCounters_countersOk s s1 (sameButGain_sameCounters _ _ hsame) hc
      have hsbc := mixStreamLoop_sameButCounters _ _ _ _ _ _ _ _ hl
      have hco := mixStreamLoop_countersOk _ _ _ _ _ _ _ _ hl hc1
      obtain ⟨_, _, t3, t4, _⟩ := mixStreamLoop_total _ _ _ _ _ _ _ _ hl hc1.1
      dsimp only at hsbc hco t3 t4
      have htp1 : s1.total_blocks_to_play = 0 := by rw [hsame.2.2.2.2.2.2.1, htp]
      have hnm : m.marked = false := by
        cases hm : m.marked with
        | false => rfl
        | true => exact absurd htp1 (t4 hm).1
      refine ⟨fun _ => ⟨hco, ?_, ?_, ?_, ?_⟩, fun hm => ?_⟩
      · rw [hsbc.2.2.2.1, htp1]
      · rw [hsbc.2.2.2.2.2.2.2.1, hsame.2.2.2.2.2.2.2.1, hs1]
      · rw [hsbc.2.2.2.2.2.2.2.2, hsame.2.2.2.2.2.2.2.2, hs2]
      · rw [t3 hnm, hsame.2.2.2.2.2.1, htot, Nat.sub_zero]
      · rw [hnm] at hm
        cases hm)
    (fun _ _ _ _ hf => hf)
    ops _ p1.1 p1.2 _ 0 []
    (Or.inl ⟨hact, startPlayingStream_countersOk w pc fc, hzero, f5, f6, f4⟩) hstops hex1
  obtain ⟨s1, ⟨ha, _, k2, _, _, k5⟩ | ⟨_, hf⟩⟩ := key
  · obtain ⟨e1, s2, e2, e3, e4⟩ := exec_waiting h waiting p1.1 p2.1 p2.2 s1 ha hwait hex2
    refine ⟨e2.isPlaying, s2, e2.active_record, ?_, ?_⟩
    · rw [e3, k2]
    · rw [e4, k5, framesPulled_append, e1, Nat.zero_add, Nat.add_zero]
  · exact absurd hf id

/-- C39. A stream played with `PlayCount{num_repeats = 0, loop_infinite = false}` gets
`total_blocks_to_play = 0`.  From then on it cannot be told from the same stream played
with `loop_infinite = true`: `Play` returns the same handle, and after every history of
calls (callbacks, and also `Play`, `Stop`, `StopImmediately`) the two states are equal
up to the `play_count` fields, every callback has sent the same frames and has mixed the
same runs of the same streams with the same deletion marks.  While no stop is consumed
and `StopImmediately` is not called on it, the stream stays in the active set with
`total_blocks_to_play = 0`. -/
theorem Device.zero_repeats_loops_forever (d : Device) (w : WaveFile) (fc : FadeControl)
    (num_repeats : Int) :
    (startPlayingStream
      { wave_file := w, play_count := PlayTimes 0, fade_control := fc }).total_blocks_to_play =
      0 ∧
    (d.Play w (PlayTimes 0) fc).2 =
      (d.Play w { num_repeats := num_repeats, loop_infinite := true } fc).2 ∧
    (∀ ops : List Op,
      ((d.Play w (PlayTimes 0) fc).1.exec ops).map observable =
        ((d.Play w { num_repeats := num_repeats, loop_infinite := true } fc).1.exec ops).map
          observable) ∧
    (∀ (h : Nat) (ops waiting : List Op) (d2 : Device) (results : List CallbackResult),
      (d.Play w (PlayTimes 0) fc).2 = some h →
      (∀ op ∈ ops, op.stopsStream h = false) →
      (∀ op ∈ waiting, op.endsWait h = false) →
      (d.Play w (PlayTimes 0) fc).1.exec (ops ++ waiting) = some (d2, results) →
      d2.IsPlaying (some h) = true ∧
        ∃ s, d2.record h = some s ∧ s.total_blocks_to_play = 0 ∧
          s.total_blocks_streamed = framesPulled (ops ++ waiting)) := by
  obtain ⟨he, hh⟩ := play_erased d w fc num_repeats
  refine ⟨startPlayingStream_zero_repeats w fc, hh, fun ops => exec_observable ops _ _ he, ?_⟩
  intro h ops waiting d2 results hplay hstops hwait hex
  exact Device.unbounded_never_removed d w (PlayTimes 0) fc h ops waiting d2 results
    (startPlayingStream_zero_repeats w fc) hplay hstops hwait hex

set_option maxRecDepth 20000 in
theorem Device.zero_repeats_loops_forever_witness :
    ((Device.Init.Play threeBlockWave (PlayTimes 0) kNoFade).1.exec
        [Op.callback 16, Op.callback 20]).map
      (fun p => (p.1.IsPlaying (some 1),
        p.2.map fun r => r.sent.map fun b => (b.left, b.right))) =
      some (true, [[(100, 100), (200, 200), (300, 300), (100, 100)],
        [(200, 200), (300, 300), (100, 100), (200, 200), (300, 300)]]) ∧
    ((Device.Init.Play threeBlockWave (PlayTimes 0) kNoFade).1.exec
        [Op.callback 16, Op.callback 20]).map observable =
      ((Device.Init.Play threeBlockWave kPlayLooped kNoFade).1.exec
        [Op.callback 16, Op.callback 20]).map observable :=
  ⟨rfl, (Device.zero_repeats_loops_forever Device.Init threeBlockWave kNoFade 0).2.2.1
    [Op.callback 16, Op.callback 20]⟩

/-! ## The samples accumulated from a stream -/

end Audio

namespace Text

/-! ## UTF-8 sequences -/

theorem and_mask5 (x : Nat) : x &&& 0x1F = x % 32 := Nat.and_pow_two_sub_one_eq_mod x 5

theorem and_mask4 (x : Nat) : x &&& 0xF = x % 16 := Nat.and_pow_two_sub_one_eq_mod x 4

theorem and_mask3 (x : Nat) : x &&& 0x7 = x % 8 := Nat.and_pow_two_sub_one_eq_mod x 3

theorem and_mask6 (x : Nat) : x &&& 0x3f = x % 64 := Nat.and_pow_two_sub_one_eq_mod x 6

theorem shl6 (x : Nat) : x <<< 6 = x * 64 := Nat.shiftLeft_eq x 6

theorem shl12 (x : Nat) : x <<< 12 = x * 4096 := Nat.shiftLeft_eq x 12

theorem shl18 (x : Nat) : x <<< 18 = x * 262144 := Nat.shiftLeft_eq x 18

theorem testBit7 (b : Nat) : (b % 256).testBit 7 = decide (128 ≤ b % 256) := by
  rw [Nat.testBit_to_div_mod]
  congr 1
  apply propext
  constructor <;> intro h <;> omega

theorem testBit6 (b : Nat) : (b % 256).testBit 6 = decide (64 ≤ b % 128) := by
  rw [Nat.testBit_to_div_mod]
  congr 1
  apply propext
  constructor <;> intro h <;> omega

theorem testBit5 (b : Nat) : (b % 256).testBit 5 = decide (32 ≤ b % 64) := by
  rw [Nat.testBit_to_div_mod]
  congr 1
  apply propext
  constructor <;> intro h <;> omega

theorem testBit4 (b : Nat) : (b % 256).testBit 4 = decide (16 ≤ b % 32) := by
  rw [Nat.testBit_to_div_mod]
  congr 1
  apply propext
  constructor <;> intro h <;> omega

theorem testBit3 (b : Nat) : (b % 256).testBit 3 = decide (8 ≤ b % 16) := by
  rw [Nat.testBit_to_div_mod]
  congr 1
  apply propext
  constructor <;> intro h <;> omega

theorem byteAt_zero (a : Nat) (l : List Nat) : byteAt (a :: l) 0 = a % 256 := rfl

theorem byteAt_one (a b : Nat) (l : List Nat) : byteAt (a :: b :: l) 1 = b % 256 := rfl

theorem byteAt_two (a b c : Nat) (l : List Nat) : byteAt (a :: b :: c :: l) 2 = c % 256 := rfl

theorem byteAt_three (a b c d : Nat) (l : List Nat) :
    byteAt (a :: b :: c :: d :: l) 3 = d % 256 := rfl

/-- The parser written with comparisons in place of bit tests. -/
theorem parse_eq (chk : Bool) (sequence : List Nat) (n : Nat) :
    ParseUtf8Sequence chk sequence n =
      if n = 0 then {}
      else if byteAt sequence 0 < 128 then
        { code_position := some (byteAt sequence 0), parsed_sequence_length := 1 }
      else if n ≤ 1 then {}
      else if 192 ≤ byteAt sequence 0 ∧ byteAt sequence 0 < 224 then
        if chk = true ∧ ¬ (128 ≤ byteAt sequence 1 ∧ byteAt sequence 1 < 192) then {}
        else
          { code_position := some (byteAt sequence 0 % 32 * 64 + byteAt sequence 1 % 64),
            parsed_sequence_length := 2 }
      else if n ≤ 2 then {}
      else if 224 ≤ byteAt sequence 0 ∧ byteAt sequence 0 < 240 then
        if chk = true ∧ (64 ≤ byteAt sequence 1 ∧ byteAt sequence 1 < 128 ∧
            64 ≤ byteAt sequence 2 ∧ byteAt sequence 2 < 128) then {}
        else
          { code_position := some (byteAt sequence 0 % 16 * 4096 +
              byteAt sequence 1 % 64 * 64 + byteAt sequence 2 % 64),
            parsed_sequence_length := 3 }
      else if n ≤ 3 then {}
      else if 240 ≤ byteAt sequence 0 ∧ byteAt sequence 0 < 248 then
        if chk = true ∧ ¬ (128 ≤ byteAt sequence 1 ∧ byteAt sequence 1 < 192 ∧
            128 ≤ byteAt sequence 2 ∧ byteAt sequence 2 < 192 ∧
            128 ≤ byteAt sequence 3 ∧ byteAt sequence 3 < 192) then {}
        else
          { code_position := some (byteAt sequence 0 % 8 * 262144 +
              byteAt sequence 1 % 64 * 4096 + byteAt sequence 2 % 64 * 64 +
              byteAt sequence 3 % 64),
            parsed_sequence_length := 4 }
      else {} := by
  have hb : ∀ i, byteAt sequence i = byteAt sequence i % 256 := by
    intro i
    unfold byteAt
    rw [Nat.mod_mod]
  have hlt : ∀ i, byteAt sequence i < 256 := by
    intro i
    unfold byteAt
    exact Nat.mod_lt _ (by norm_num)
  have t7 : ∀ i, (byteAt sequence i).testBit 7 = decide (128 ≤ byteAt sequence i) := by
    intro i
    conv_lhs => rw [hb i]
    rw [testBit7, ← hb i]
  have t6 : ∀ i, (byteAt sequence i).testBit 6 = decide (64 ≤ byteAt sequence i % 128) := by
    intro i
    conv_lhs => rw [hb i]
    rw [testBit6]
  have t5 : (byteAt sequence 0).testBit 5 = decide (32 ≤ byteAt sequence 0 % 64) := by
    conv_lhs => rw [hb 0]
    rw [testBit5]
  have t4 : (byteAt sequence 0).testBit 4 = decide (16 ≤ byteAt sequence 0 % 32) := by
    conv_lhs => rw [hb 0]
    rw [testBit4]
  have t3 : (byteAt sequence 0).testBit 3 = decide (8 ≤ byteAt sequence 0 % 16) := by
    conv_lhs => rw [hb 0]
    rw [testBit3]
  have h0 := hlt 0
  have h1 := hlt 1
  have h2 := hlt 2
  have h3 := hlt 3
  unfold ParseUtf8Sequence
  simp only [t7, t6, t5, t4, t3, and_mask5, and_mask4, and_mask3, and_mask6, shl6, shl12, shl18,
    decide_eq_true_eq, decide_eq_false_iff_not, ne_eq]
  by_cases hn : n = 0
  · rw [if_pos hn, if_pos hn]
  rw [if_neg hn, if_neg hn]
  by_cases c1 : byteAt sequence 0 < 128
  · rw [if_pos (by omega), if_pos c1]
  rw [if_neg (by omega), if_neg c1]
  by_cases n1 : n ≤ 1
  · rw [if_pos n1, if_pos n1]
  rw [if_neg n1, if_neg n1]
  by_cases c2 : 192 ≤ byteAt sequence 0 ∧ byteAt sequence 0 < 224
  · rw [if_pos (by omega), if_pos c2]
    by_cases k : chk = true ∧ ¬ (128 ≤ byteAt sequence 1 ∧ byteAt sequence 1 < 192)
    · rw [if_pos k, if_pos ⟨k.1, by omega⟩]
    · rw [if_neg k, if_neg (fun h => k ⟨h.1, by omega⟩)]
  rw [if_neg (by omega), if_neg c2]
  by_cases n2 : n ≤ 2
  · rw [if_pos n2, if_pos n2]
  rw [if_neg n2, if_neg n2]
  by_cases c3 : 224 ≤ byteAt sequence 0 ∧ byteAt sequence 0 < 240
  · rw [if_pos (by omega), if_pos c3]
    by_cases k : chk = true ∧ (64 ≤ byteAt sequence 1 ∧ byteAt sequence 1 < 128 ∧
        64 ≤ byteAt sequence 2 ∧ byteAt sequence 2 < 128)
    · rw [if_pos k, if_pos ⟨k.1, by omega⟩]
    · rw [if_neg k, if_neg (fun h => k ⟨h.1, by omega⟩)]
  rw [if_neg (by omega), if_neg c3]
  by_cases n3 : n ≤ 3
  · rw [if_pos n3, if_pos n3]
  rw [if_neg n3, if_neg n3]
  by_cases c4 : 240 ≤ byteAt sequence 0 ∧ byteAt sequence 0 < 248
  · rw [if_pos (by omega), if_pos c4]
    by_cases k : chk = true ∧ ¬ (128 ≤ byteAt sequence 1 ∧ byteAt sequence 1 < 192 ∧
        128 ≤ byteAt sequence 2 ∧ byteAt sequence 2 < 192 ∧
        128 ≤ byteAt sequence 3 ∧ byteAt sequence 3 < 192)
    · rw [if_pos k, if_pos ⟨k.1, by omega⟩]
    · rw [if_neg k, if_neg (fun h => k ⟨h.1, by omega⟩)]
  rw [if_neg (by omega), if_neg c4]

/-- C18. `ParseUtf8Sequence<true>` applied to the standard UTF-8 encoding of a code point
`c <= 0x10FFFF`, followed by any bytes, with `sequence_length` at least the length of the
encoding, returns `c` and the length of the encoding. -/
theorem parse_of_encoding (c : Nat) (rest : List Nat) (n : Nat) (hc : c ≤ 0x10FFFF)
    (hn : (encodeUtf8 c).length ≤ n) :
    ParseUtf8Sequence true (encodeUtf8 c ++ rest) n =
      { code_position := some c, parsed_sequence_length := (encodeUtf8 c).length } := by
  rw [parse_eq]
  unfold encodeUtf8 at hn ⊢
  by_cases h1 : c < 0x80
  · rw [if_pos h1] at hn ⊢
    simp only [List.cons_append, List.nil_append, byteAt_zero, List.length_cons,
      List.length_nil] at hn ⊢
    have hlen : n ≠ 0 := by omega
    have hb0 : c % 256 = c := by omega
    rw [if_neg hlen, hb0, if_pos h1]
  rw [if_neg h1] at hn ⊢
  by_cases h2 : c < 0x800
  · rw [if_pos h2] at hn ⊢
    simp only [List.cons_append, List.nil_append, byteAt_zero, byteAt_one, List.length_cons,
      List.length_nil, true_and] at hn ⊢
    have hb0 : (192 + c / 64) % 256 = 192 + c / 64 := by omega
    have hb1 : (128 + c % 64) % 256 = 128 + c % 64 := by omega
    have hval : (192 + c / 64) % 32 * 64 + (128 + c % 64) % 64 = c := by omega
    have e0 : ¬ n = 0 := by omega
    have e1 : ¬ 192 + c / 64 < 128 := by omega
    have e2 : ¬ n ≤ 1 := by omega
    have e3 : 192 ≤ 192 + c / 64 ∧ 192 + c / 64 < 224 := by omega
    have e4 : ¬ ¬ (128 ≤ 128 + c % 64 ∧ 128 + c % 64 < 192) := by omega
    rw [hb0, hb1, hval, if_neg e0, if_neg e1, if_neg e2, if_pos e3, if_neg e4]
  rw [if_neg h2] at hn ⊢
  by_cases h3 : c < 0x10000
  · rw [if_pos h3] at hn ⊢
    simp only [List.cons_append, List.nil_append, byteAt_zero, byteAt_one, byteAt_two,
      List.length_cons, List.length_nil, true_and] at hn ⊢
    have hb0 : (224 + c / 4096) % 256 = 224 + c / 4096 := by omega
    have hb1 : (128 + c / 64 % 64) % 256 = 128 + c / 64 % 64 := by omega
    have hb2 : (128 + c % 64) % 256 = 128 + c % 64 := by omega
    have hval : (224 + c / 4096) % 16 * 4096 + (128 + c / 64 % 64) % 64 * 64 +
        (128 + c % 64) % 64 = c := by omega
    have e0 : ¬ n = 0 := by omega
    have e1 : ¬ 224 + c / 4096 < 128 := by omega
    have e2 : ¬ n ≤ 1 := by omega
    have e3 : ¬ (192 ≤ 224 + c / 4096 ∧ 224 + c / 4096 < 224) := by omega
    have e4 : ¬ n ≤ 2 := by omega
    have e5 : 224 ≤ 224 + c / 4096 ∧ 224 + c / 4096 < 240 := by omega
    have e6 : ¬ (64 ≤ 128 + c / 64 % 64 ∧ 128 + c / 64 % 64 < 128 ∧
        64 ≤ 128 + c % 64 ∧ 128 + c % 64 < 128) := by omega
    rw [hb0, hb1, hb2, hval, if_neg e0, if_neg e1, if_neg e2, if_neg e3, if_neg e4,
      if_pos e5, if_neg e6]
  rw [if_neg h3] at hn ⊢
  simp only [List.cons_append, List.nil_append, byteAt_zero, byteAt_one, byteAt_two,
    byteAt_three, List.length_cons, List.length_nil, true_and] at hn ⊢
  have hb0 : (240 + c / 262144) % 256 = 240 + c / 262144 := by omega
  have hb1 : (128 + c / 4096 % 64) % 256 = 128 + c / 4096 % 64 := by omega
  have hb2 : (128 + c / 64 % 64) % 256 = 128 + c / 64 % 64 := by omega
  have hb3 : (128 + c % 64) % 256 = 128 + c % 64 := by omega
  have hval : (240 + c / 262144) % 8 * 262144 + (128 + c / 4096 % 64) % 64 * 4096 +
      (128 + c / 64 % 64) % 64 * 64 + (128 + c % 64) % 64 = c := by omega
  have e0 : ¬ n = 0 := by omega
  have e1 : ¬ 240 + c / 262144 < 128 := by omega
  have e2 : ¬ n ≤ 1 := by omega
  have e3 : ¬ (192 ≤ 240 + c / 262144 ∧ 240 + c / 262144 < 224) := by omega
  have e4 : ¬ n ≤ 2 := by omega
  have e5 : ¬ (224 ≤ 240 + c / 262144 ∧ 240 + c / 262144 < 240) := by omega
  have e6 : ¬ n ≤ 3 := by omega
  have e7 : 240 ≤ 240 + c / 262144 ∧ 240 + c / 262144 < 248 := by omega
  have e8 : ¬ ¬ (128 ≤ 128 + c / 4096 % 64 ∧ 128 + c / 4096 % 64 < 192 ∧
      128 ≤ 128 + c / 64 % 64 ∧ 128 + c / 64 % 64 < 192 ∧
      128 ≤ 128 + c % 64 ∧ 128 + c % 64 < 192) := by omega
  rw [hb0, hb1, hb2, hb3, hval, if_neg e0, if_neg e1, if_neg e2, if_neg e3, if_neg e4,
    if_neg e5, if_neg e6, if_pos e7, if_neg e8]

theorem parse_of_encoding_witness :
    ParseUtf8Sequence true (encodeUtf8 0x10345 ++ [0x61]) 5 =
      { code_position := some 0x10345,
        parsed_sequence_length := (encodeUtf8 0x10345).length } :=
  parse_of_encoding 0x10345 [0x61] 5 (by decide) (by decide)

/-- C19. When the first byte announces a sequence of 2, 3 or 4 bytes and
`sequence_length` is smaller than that (0 included), `ParseUtf8Sequence` returns no code
position and `parsed_sequence_length = 0`, with or without checking and whatever the
bytes of the sequence are. -/
theorem parse_short_sequence (chk : Bool) (sequence : List Nat) (n : Nat)
    (hlead : 2 ≤ announcedLength (byteAt sequence 0))
    (hn : n < announcedLength (byteAt sequence 0)) :
    ParseUtf8Sequence chk sequence n = { code_position := none, parsed_sequence_length := 0 } := by
  rw [parse_eq]
  unfold announcedLength at hlead hn
  by_cases hn0 : n = 0
  · rw [if_pos hn0]
  rw [if_neg hn0]
  by_cases h1 : byteAt sequence 0 < 0x80
  · rw [if_pos h1] at hlead
    omega
  rw [if_neg h1] at hlead hn
  rw [if_neg (by omega)]
  by_cases h2 : 0xC0 ≤ byteAt sequence 0 ∧ byteAt sequence 0 < 0xE0
  · rw [if_pos h2] at hn
    rw [if_pos (by omega)]
  rw [if_neg h2] at hlead hn
  by_cases h3 : 0xE0 ≤ byteAt sequence 0 ∧ byteAt sequence 0 < 0xF0
  · rw [if_pos h3] at hn
    by_cases n1 : n ≤ 1
    · rw [if_pos n1]
    · rw [if_neg n1, if_neg (by omega), if_pos (by omega)]
  rw [if_neg h3] at hlead hn
  by_cases h4 : 0xF0 ≤ byteAt sequence 0 ∧ byteAt sequence 0 < 0xF8
  · rw [if_pos h4] at hn
    by_cases n1 : n ≤ 1
    · rw [if_pos n1]
    · rw [if_neg n1, if_neg (by omega)]
      by_cases n2 : n ≤ 2
      · rw [if_pos n2]
      · rw [if_neg n2, if_neg (by omega), if_pos (by omega)]
  rw [if_neg h4] at hlead
  omega

theorem parse_short_sequence_witness :
    ParseUtf8Sequence true [0xF0, 0x90, 0x8D, 0x85] 3 =
      { code_position := none, parsed_sequence_length := 0 } :=
  parse_short_sequence true [0xF0, 0x90, 0x8D, 0x85] 3 (by decide) (by decide)

/-- C20, evaluation at the failing input. The three-byte sequence `E0 41 84` has the
second byte `0x41 = 01000001`, which is not of the form `10xxxxxx`; with checking enabled
the parser still returns a code position, `0x44`, and the length 3.  The two-byte and the
four-byte branch reject the same malformed second byte. -/
theorem three_byte_malformed_accepted :
    ¬ ((0x41 : Nat).testBit 7 = true ∧ (0x41 : Nat).testBit 6 = false) ∧
    ParseUtf8Sequence true [0xE0, 0x41, 0x84] 3 =
      { code_position := some 0x44, parsed_sequence_length := 3 } ∧
    ParseUtf8Sequence true [0xC0, 0x41] 2 =
      { code_position := none, parsed_sequence_length := 0 } ∧
    ParseUtf8Sequence true [0xF0, 0x41, 0x84, 0x84] 4 =
      { code_position := none, parsed_sequence_length := 0 } := by
  decide

/-! ## Formatted text -/

theorem modifyLast_append_singleton {α : Type} (f : α → α) (xs : List α) (x : α) :
    modifyLast f (xs ++ [x]) = xs ++ [f x] := by
  induction xs with
  | nil => rfl
  | cons a as ih =>
    cases as with
    | nil => rfl
    | cons b bs =>
      show a :: modifyLast f (b :: bs ++ [x]) = _
      rw [ih]; rfl

theorem appendText_open (style : Style) (pp : ParagraphParameters)
    (ps : List Paragraph) (acc text : List Char) (stack : List StyleWithParagraphParameters) :
    FormatState.appendText text
      { paragraphs := ps ++ [openParagraph style pp acc], styles_stack := stack } =
    { paragraphs := ps ++ [openParagraph style pp (acc ++ text)], styles_stack := stack } := by
  simp only [FormatState.appendText, FormatState.modifyLastRun, modifyLast_append_singleton,
    openParagraph]
  rfl

theorem ofStyle_default (style : Style) (pp : ParagraphParameters) :
    Paragraph.ofStyle (StyleWithParagraphParametersFromStyleAndParagraphParameters style pp) =
      openParagraph style pp [] := rfl

theorem modifyHead_modifyHead {α : Type} (f g : α → α) (l : List α) :
    (l.modifyHead g).modifyHead f = l.modifyHead (f ∘ g) := by
  cases l <;> rfl

theorem formatLoop_plain (vars : List (List Char × List Char)) (style : Style)
    (pp : ParagraphParameters) :
    ∀ (cs : List Char) (fuel : Nat) (ps : List Paragraph) (acc : List Char),
      cs.length + 2 ≤ fuel → '<' ∉ cs → Char.ofNat 0 ∉ cs →
      formatLoop vars fuel { rest := cs }
        { paragraphs := ps ++ [openParagraph style pp acc],
          styles_stack := [StyleWithParagraphParametersFromStyleAndParagraphParameters style pp] } =
      some (some
        { paragraphs :=
            ps ++ ((cs.splitOn '\n').modifyHead (fun l => acc ++ l)).map (openParagraph style pp),
          styles_stack :=
            [StyleWithParagraphParametersFromStyleAndParagraphParameters style pp] }) := by
  intro cs
  induction cs with
  | nil =>
    intro fuel ps acc hf _ _
    obtain ⟨k, rfl⟩ : ∃ k, fuel = k + 2 := ⟨fuel - 2, by omega⟩
    simp [formatLoop, InputStream.peek, InputStream.get, InputStream.good, List.splitOn,
      List.splitOnP_nil, List.modifyHead]
  | cons c cs ih =>
    intro fuel ps acc hf hlt hnul
    obtain ⟨k, rfl⟩ : ∃ k, fuel = k + 1 := ⟨fuel - 1, by simp at hf; omega⟩
    have hc1 : c ≠ '<' := fun h => hlt (by simp [h])
    have hc0 : c ≠ Char.ofNat 0 := fun h => hnul (by simp [h])
    have hlt2 : '<' ∉ cs := fun h => hlt (List.mem_cons_of_mem _ h)
    have hnul2 : Char.ofNat 0 ∉ cs := fun h => hnul (List.mem_cons_of_mem _ h)
    have hk : cs.length + 2 ≤ k := by simp at hf; omega
    have hsplit : (c :: cs).splitOn '\n' =
        if c = '\n' then [] :: cs.splitOn '\n'
        else (cs.splitOn '\n').modifyHead (List.cons c) := by
      simp only [List.splitOn, List.splitOnP_cons, beq_iff_eq]
    rw [hsplit]
    by_cases hn : c = '\n'
    · have step : formatLoop vars (k + 1) { rest := c :: cs }
          { paragraphs := ps ++ [openParagraph style pp acc],
            styles_stack :=
              [StyleWithParagraphParametersFromStyleAndParagraphParameters style pp] } =
          formatLoop vars k { rest := cs }
            { paragraphs := (ps ++ [openParagraph style pp acc]) ++ [openParagraph style pp []],
              styles_stack :=
                [StyleWithParagraphParametersFromStyleAndParagraphParameters style pp] } := by
        subst hn
        simp [formatLoop, InputStream.peek, InputStream.get, InputStream.good,
          FormatState.top, ofStyle_default]
      rw [step, ih k _ [] hk hlt2 hnul2, if_pos hn]
      have : (fun l : List Char => ([] : List Char) ++ l) = id := by funext l; rfl
      simp [List.modifyHead, this]
      cases cs.splitOn '\n' <;> simp [List.modifyHead]
    · have step : formatLoop vars (k + 1) { rest := c :: cs }
          { paragraphs := ps ++ [openParagraph style pp acc],
            styles_stack :=
              [StyleWithParagraphParametersFromStyleAndParagraphParameters style pp] } =
          formatLoop vars k { rest := cs }
            { paragraphs := ps ++ [openParagraph style pp (acc ++ [c])],
              styles_stack :=
                [StyleWithParagraphParametersFromStyleAndParagraphParameters style pp] } := by
        simp [formatLoop, InputStream.peek, InputStream.get, InputStream.good, hc1, hc0, hn,
          appendText_open]
      rw [step, ih k _ _ hk hlt2 hnul2, if_neg hn, modifyHead_modifyHead]
      have : ((fun l : List Char => acc ++ l) ∘ List.cons c) =
          (fun l : List Char => (acc ++ [c]) ++ l) := by funext l; simp
      rw [this]

theorem dropEmptyRunsAtEnd_single (r : StyleRun) :
    dropEmptyRunsAtEnd [r] = if r.text.isEmpty then [] else [r] := by
  by_cases h : r.text.isEmpty = true <;> simp [dropEmptyRunsAtEnd, List.dropWhile, h]

theorem length_splitOn_newline (cs : List Char) :
    (cs.splitOn '\n').length = cs.count '\n' + 1 := by
  induction cs with
  | nil => simp [List.splitOn, List.splitOnP_nil]
  | cons c cs ih =>
    simp only [List.splitOn, List.splitOnP_cons, List.count_cons, beq_iff_eq] at ih ⊢
    by_cases hn : c = '\n'
    · simp [hn, ih]
    · simp [hn, ih]

/-- C21: for every input without `<` and without the NUL character `FormatText` returns
a text whose paragraphs are the lines of the input in order (the pieces between the
line breaks, one more than there are line breaks); the paragraph of a line that is not
empty has one style run, with the line as its text and the default style, and the
paragraph of an empty line has no style run. -/
theorem format_plain_text (input : List Char) (default_style : Style)
    (default_paragraph_parameters : ParagraphParameters)
    (vars : List (List Char × List Char))
    (hlt : '<' ∉ input) (hnul : Char.ofNat 0 ∉ input) :
    ∃ ft, FormatText input default_style default_paragraph_parameters vars = some (some ft) ∧
      ft.paragraphs.length = input.count '\n' + 1 ∧
      ft.paragraphs =
        (input.splitOn '\n').map (plainParagraph default_style default_paragraph_parameters) := by
  have h := formatLoop_plain vars default_style default_paragraph_parameters input
    (input.length + 2) [] [] (le_refl _) hlt hnul
  have h0 : (fun l : List Char => ([] : List Char) ++ l) = id := by funext l; rfl
  have hmh : ∀ l : List (List Char), l.modifyHead id = l := by intro l; cases l <;> rfl
  rw [h0, hmh] at h
  have hres : FormatText input default_style default_paragraph_parameters vars =
      some (some ⟨(input.splitOn '\n').map
        (plainParagraph default_style default_paragraph_parameters)⟩) := by
    unfold FormatText
    simp only [ofStyle_default]
    have h2 := h
    simp only [List.nil_append] at h2
    rw [h2]
    simp only [Option.map_some', List.map_map]
    congr 3
    apply List.map_congr_left
    intro line _
    simp only [Function.comp, openParagraph, plainParagraph, dropEmptyRunsAtEnd_single]
  exact ⟨_, hres, by simp [length_splitOn_newline], rfl⟩

theorem format_plain_text_witness :
    '<' ∉ "ab\n\ncd".toList ∧ Char.ofNat 0 ∉ "ab\n\ncd".toList ∧
    ∃ ft, FormatText "ab\n\ncd".toList { font := "f".toList, color := 7 } {} [] =
        some (some ft) ∧
      ft.paragraphs.length = "ab\n\ncd".toList.count '\n' + 1 ∧
      ft.paragraphs = ("ab\n\ncd".toList.splitOn '\n').map
        (plainParagraph { font := "f".toList, color := 7 } {}) :=
  ⟨by decide, by decide, format_plain_text _ _ _ _ (by decide) (by decide)⟩

/-- C22: on the input `<style font="A"></>x` the parser succeeds and the character `x`,
which follows the closing tag and so stands where no `<style>` tag is open, is in a
style run with the font `A` of the closed tag and not with the default font (the empty
name): the closing tag gives the style back only when it starts a new style run, and it
starts none while the last style run has no text.  The same happens after a nested tag
(`a<style font="A"></>b`, `b` gets font `A`) and at the start of a paragraph. -/
theorem closing_tag_keeps_closed_style :
    FormatText "<style font=\"A\"></>x".toList {} {} [] =
      some (some ⟨[{ font := [], paragraph_parameters := {},
                     style_runs := [{ style := { font := ['A'], color := 0 },
                                      text := ['x'] }] }]⟩) ∧
    (FormatText "a<style font=\"A\"></>b".toList {} {} []).map
        (fun r => r.map fun ft => ft.paragraphs.map fun p =>
          p.style_runs.map fun run => (run.style.font, run.text)) =
      some (some [[([], ['a']), (['A'], ['b'])]]) ∧
    (FormatText "<style font=\"A\">Hi\n</>x".toList {} {} []).map
        (fun r => r.map fun ft => ft.paragraphs.map fun p =>
          p.style_runs.map fun run => (run.style.font, run.text)) =
      some (some [[(['A'], ['H', 'i'])], [(['A'], ['x'])]]) := by
  refine ⟨?_, ?_, ?_⟩ <;> rfl

/-- The test `SingleLine` of the repository: the text after the closing tag has the
default font when the closed tag had text. -/
theorem single_line_test :
    (FormatText ("<style font=\"system_24.fnt\">Fps:</> <style " ++
        "font=\"system_50.fnt\"><sub variable=\"$fps_count\"></>").toList {} {}
        [("fps_count".toList, "60".toList)]).map
      (fun r => r.map fun ft => ft.paragraphs.map fun p =>
        p.style_runs.map fun run => (String.mk run.style.font, String.mk run.text)) =
    some (some [[("system_24.fnt", "Fps:"), ("", " "), ("system_50.fnt", "60")]]) := by
  rfl

set_option maxRecDepth 100000 in
/-- C23: the paragraph `seven eight nineteen` (words of 5, 5 and 8 characters between
single spaces, word wrapping), measured with the monospaced font of width 24 in a
container of width 240, where every word fits, gives the two lines `seven` and
`eight nineteen`; the second has 14 glyphs and `line_width` 336, more than the
container.  The line was broken when the last character of `eight` went over the width;
the break leaves `has_prev_not_whitespace` false, so the space that follows `eight` is
not recorded and the line cannot be broken again. -/
theorem word_wrap_line_too_wide :
    FormatText "seven eight nineteen".toList ⟨"mono_24".toList, 0xFFFF0000⟩
        ⟨HorizontalAlignment.kLeft, Wrapping.kWordWrap⟩ [] =
      some (some ⟨[wordWrapParagraph]⟩) ∧
    (MeasureText 240 ⟨[wordWrapParagraph]⟩ [] [("mono_24".toList, MonoFont 46 40 24)]).map
        (fun r => r.map fun m => m.measured_lines.map fun l =>
          (l.glyphs.length, l.line_width,
            String.mk (l.glyphs.map fun g => Char.ofNat g.glyph.code_position))) =
      some (some [(5, 120, "seven"), (14, 336, "eight nineteen")]) := by
  refine ⟨?_, ?_⟩ <;> rfl

set_option maxRecDepth 100000 in
/-- The test `SingleParagraphManyLines` of the repository: lines of 7, 10, 8, 5 and 10
glyphs. -/
theorem single_paragraph_many_lines_test :
    (MeasureText 240
        ⟨[{ wordWrapParagraph with style_runs :=
            [{ style := { font := "mono_24".toList, color := 0xFFFF0000 },
               text := "One two three four five six seven eight nine".toList }] }]⟩ []
        [("mono_24".toList, MonoFont 46 40 24)]).map
      (fun r => r.map fun m => m.measured_lines.map fun l =>
        (l.glyphs.length, l.line_width,
          String.mk (l.glyphs.map fun g => Char.ofNat g.glyph.code_position))) =
    some (some [(7, 168, "One two"), (10, 240, "three four"), (8, 192, "five six"),
      (5, 120, "seven"), (10, 240, "eight nine")]) := by
  rfl

/-! ## Four-byte sequences; the shape of every result -/

/-- C33. With checking enabled, on a sequence whose lead byte has the form `11110xxx` and
whose `sequence_length` is at least 4, `ParseUtf8Sequence<true>` returns a code position
if and only if the second, the third and the fourth byte all have the form `10xxxxxx`;
the result is then
`((b0 & 0x07) << 18) + ((b1 & 0x3F) << 12) + ((b2 & 0x3F) << 6) + (b3 & 0x3F)` with the
length 4, and otherwise it is empty with the length 0. -/
theorem four_byte_checked (sequence : List Nat) (n : Nat)
    (hlead : (byteAt sequence 0).testBit 7 = true ∧ (byteAt sequence 0).testBit 6 = true ∧
      (byteAt sequence 0).testBit 5 = true ∧ (byteAt sequence 0).testBit 4 = true ∧
      (byteAt sequence 0).testBit 3 = false)
    (hn : 4 ≤ n) :
    ((ParseUtf8Sequence true sequence n).code_position.isSome = true ↔
      ((byteAt sequence 1).testBit 7 = true ∧ (byteAt sequence 1).testBit 6 = false) ∧
      ((byteAt sequence 2).testBit 7 = true ∧ (byteAt sequence 2).testBit 6 = false) ∧
      ((byteAt sequence 3).testBit 7 = true ∧ (byteAt sequence 3).testBit 6 = false)) ∧
    ((ParseUtf8Sequence true sequence n).code_position.isSome = true →
      ParseUtf8Sequence true sequence n =
        { code_position := some (((byteAt sequence 0 &&& 0x07) <<< 18) +
            ((byteAt sequence 1 &&& 0x3F) <<< 12) + ((byteAt sequence 2 &&& 0x3F) <<< 6) +
            (byteAt sequence 3 &&& 0x3F)),
          parsed_sequence_length := 4 }) ∧
    ((ParseUtf8Sequence true sequence n).code_position.isSome = false →
      ParseUtf8Sequence true sequence n =
        { code_position := none, parsed_sequence_length := 0 }) := by
  obtain ⟨l7, l6, l5, l4, l3⟩ := hlead
  have n0 : ¬ n = 0 := by omega
  have n1 : ¬ n ≤ 1 := by omega
  have n2 : ¬ n ≤ 2 := by omega
  have n3 : ¬ n ≤ 3 := by omega
  by_cases hc : ((byteAt sequence 1).testBit 7 = true ∧ (byteAt sequence 1).testBit 6 = false) ∧
      ((byteAt sequence 2).testBit 7 = true ∧ (byteAt sequence 2).testBit 6 = false) ∧
      ((byteAt sequence 3).testBit 7 = true ∧ (byteAt sequence 3).testBit 6 = false)
  · have hres : ParseUtf8Sequence true sequence n =
        { code_position := some (((byteAt sequence 0 &&& 0x07) <<< 18) +
            ((byteAt sequence 1 &&& 0x3F) <<< 12) + ((byteAt sequence 2 &&& 0x3F) <<< 6) +
            (byteAt sequence 3 &&& 0x3F)),
          parsed_sequence_length := 4 } := by
      obtain ⟨⟨a7, a6⟩, ⟨b7, b6⟩, ⟨c7, c6⟩⟩ := hc
      simp [ParseUtf8Sequence, n0, n1, n2, n3, l7, l6, l5, l4, l3, a7, a6, b7, b6, c7, c6]
    rw [hres]
    exact ⟨⟨fun _ => hc, fun _ => rfl⟩, fun _ => rfl, fun h => (by cases h)⟩
  · have hres : ParseUtf8Sequence true sequence n =
        { code_position := none, parsed_sequence_length := 0 } := by
      have hc2 : (byteAt sequence 1).testBit 7 ≠ true ∨ (byteAt sequence 1).testBit 6 ≠ false ∨
          (byteAt sequence 2).testBit 7 ≠ true ∨ (byteAt sequence 2).testBit 6 ≠ false ∨
          (byteAt sequence 3).testBit 7 ≠ true ∨ (byteAt sequence 3).testBit 6 ≠ false := by
        by_contra hno
        apply hc
        simp only [not_or, ne_eq, not_not] at hno
        obtain ⟨a7, a6, b7, b6, c7, c6⟩ := hno
        exact ⟨⟨a7, a6⟩, ⟨b7, b6⟩, ⟨c7, c6⟩⟩
      unfold ParseUtf8Sequence
      rw [if_neg n0]
      simp only [l7, l6, l5, l4, l3, n1, n2, n3, if_false, if_true, and_self, and_true,
        true_and, and_false, false_and, Bool.true_eq_false, Bool.false_eq_true]
      rw [if_pos hc2]
    rw [hres]
    exact ⟨⟨fun h => (by cases h), fun h => absurd h hc⟩, fun h => (by cases h), fun _ => rfl⟩

theorem four_byte_checked_witness :
    ((ParseUtf8Sequence true [0xF0, 0x90, 0x8D, 0x85] 4).code_position.isSome = true ↔
      ((byteAt [0xF0, 0x90, 0x8D, 0x85] 1).testBit 7 = true ∧
        (byteAt [0xF0, 0x90, 0x8D, 0x85] 1).testBit 6 = false) ∧
      ((byteAt [0xF0, 0x90, 0x8D, 0x85] 2).testBit 7 = true ∧
        (byteAt [0xF0, 0x90, 0x8D, 0x85] 2).testBit 6 = false) ∧
      ((byteAt [0xF0, 0x90, 0x8D, 0x85] 3).testBit 7 = true ∧
        (byteAt [0xF0, 0x90, 0x8D, 0x85] 3).testBit 6 = false)) ∧
    ParseUtf8Sequence true [0xF0, 0x90, 0x8D, 0x85] 4 =
      { code_position := some 0x10345, parsed_sequence_length := 4 } :=
  ⟨(four_byte_checked [0xF0, 0x90, 0x8D, 0x85] 4 (by decide) (by decide)).1, by decide⟩

theorem byteAt_congr (a b : List Nat) (i : Nat) (h : a.getD i 0 = b.getD i 0) :
    byteAt a i = byteAt b i := by
  unfold byteAt
  rw [h]

theorem parse_some_iff (chk : Bool) (sequence : List Nat) (n : Nat) :
    (ParseUtf8Sequence chk sequence n).code_position.isSome = true ↔
      (ParseUtf8Sequence chk sequence n).parsed_sequence_length ≠ 0 := by
  rw [parse_eq]
  split_ifs <;> simp

theorem parse_length_le (chk : Bool) (sequence : List Nat) (n : Nat) :
    (ParseUtf8Sequence chk sequence n).parsed_sequence_length ≤ min 4 n := by
  rw [parse_eq]
  split_ifs <;> simp <;> omega

theorem parse_prefix_only (chk : Bool) (sequence other : List Nat) (n : Nat)
    (h : ∀ i, i < n → other.getD i 0 = sequence.getD i 0) :
    ParseUtf8Sequence chk other n = ParseUtf8Sequence chk sequence n := by
  rw [parse_eq, parse_eq]
  by_cases n0 : n = 0
  · rw [if_pos n0, if_pos n0]
  rw [if_neg n0, if_neg n0, byteAt_congr other sequence 0 (h 0 (by omega))]
  by_cases c1 : byteAt sequence 0 < 128
  · rw [if_pos c1, if_pos c1]
  rw [if_neg c1, if_neg c1]
  by_cases n1 : n ≤ 1
  · rw [if_pos n1, if_pos n1]
  rw [if_neg n1, if_neg n1, byteAt_congr other sequence 1 (h 1 (by omega))]
  by_cases c2 : 192 ≤ byteAt sequence 0 ∧ byteAt sequence 0 < 224
  · rw [if_pos c2, if_pos c2]
  rw [if_neg c2, if_neg c2]
  by_cases n2 : n ≤ 2
  · rw [if_pos n2, if_pos n2]
  rw [if_neg n2, if_neg n2, byteAt_congr other sequence 2 (h 2 (by omega))]
  by_cases c3 : 224 ≤ byteAt sequence 0 ∧ byteAt sequence 0 < 240
  · rw [if_pos c3, if_pos c3]
  rw [if_neg c3, if_neg c3]
  by_cases n3 : n ≤ 3
  · rw [if_pos n3, if_pos n3]
  rw [if_neg n3, if_neg n3, byteAt_congr other sequence 3 (h 3 (by omega))]

/-- The loop over the text of a style run ends within as many iterations as the text
has bytes: every code position takes at least one of them. -/
theorem measureRunText_returns (container_width : Int) (paragraph : Paragraph) (color : Nat)
    (font_name : List Char) (font : Font) :
    ∀ (fuel : Nat) (text : List Nat) (st : MeasureState), text.length ≤ fuel →
      measureRunText container_width paragraph color font_name font fuel text st ≠ none := by
  intro fuel
  induction fuel with
  | zero =>
    intro text st hf
    have h0 : text.length = 0 := by omega
    simp [measureRunText, h0]
  | succ fuel ih =>
    intro text st hf
    unfold measureRunText
    by_cases h0 : text.length = 0
    · rw [if_pos h0]
      simp
    · rw [if_neg h0]
      have hiff := parse_some_iff false text text.length
      have hle := parse_length_le false text text.length
      cases hcp : (ParseUtf8Sequence false text text.length).code_position with
      | none => simp [hcp]
      | some cp =>
        simp only [hcp]
        apply ih
        rw [hcp] at hiff
        have hpos : (ParseUtf8Sequence false text text.length).parsed_sequence_length ≠ 0 :=
          hiff.mp rfl
        rw [List.length_drop]
        omega

/-- C40. For every byte sequence, every `sequence_length` and both template modes:
`ParseUtf8Sequence` returns a code position if and only if `parsed_sequence_length` is
not zero; `parsed_sequence_length` is at most `min(4, sequence_length)`; the result does
not depend on the bytes at the indexes from `sequence_length` on (no such byte is read);
and the loop of `MeasureText` that advances by `parsed_sequence_length` ends within the
length of its text. -/
theorem parse_result_shape (chk : Bool) (sequence : List Nat) (n : Nat) :
    ((ParseUtf8Sequence chk sequence n).code_position.isSome = true ↔
      (ParseUtf8Sequence chk sequence n).parsed_sequence_length ≠ 0) ∧
    (ParseUtf8Sequence chk sequence n).parsed_sequence_length ≤ min 4 n ∧
    (∀ other : List Nat, (∀ i, i < n → other.getD i 0 = sequence.getD i 0) →
      ParseUtf8Sequence chk other n = ParseUtf8Sequence chk sequence n) ∧
    (∀ (container_width : Int) (paragraph : Paragraph) (color : Nat) (font_name : List Char)
      (font : Font) (st : MeasureState),
      measureRunText container_width paragraph color font_name font sequence.length sequence
        st ≠ none) :=
  ⟨parse_some_iff chk sequence n, parse_length_le chk sequence n,
    fun other h => parse_prefix_only chk sequence other n h,
    fun cw p color name font st =>
      measureRunText_returns cw p color name font sequence.length sequence st (le_refl _)⟩

/-! ## No style run without text -/

theorem eq_nil_or_snoc {α : Type} (l : List α) : l = [] ∨ ∃ xs x, l = xs ++ [x] := by
  rcases List.eq_nil_or_concat l with h | ⟨xs, x, h⟩
  · exact Or.inl h
  · exact Or.inr ⟨xs, x, by rw [h, List.concat_eq_append]⟩

theorem dropLast_modifyLast {α : Type} (f : α → α) (l : List α) :
    (modifyLast f l).dropLast = l.dropLast := by
  rcases eq_nil_or_snoc l with rfl | ⟨xs, x, rfl⟩
  · rfl
  · rw [modifyLast_append_singleton, List.dropLast_concat, List.dropLast_concat]

theorem mem_modifyLast {α : Type} (f : α → α) (l : List α) (x : α) (h : x ∈ modifyLast f l) :
    x ∈ l.dropLast ∨ ∃ y, l.getLast? = some y ∧ x = f y := by
  rcases eq_nil_or_snoc l with rfl | ⟨xs, y, rfl⟩
  · cases h
  · rw [modifyLast_append_singleton] at h
    rcases List.mem_append.mp h with h | h
    · left
      rw [List.dropLast_concat]
      exact h
    · right
      exact ⟨y, by simp, List.mem_singleton.mp h⟩

theorem goodRuns_modifyLast (f : StyleRun → StyleRun) (runs : List StyleRun)
    (h : GoodRuns runs) : GoodRuns (modifyLast f runs) := by
  unfold GoodRuns
  rw [dropLast_modifyLast]
  exact h

theorem inv_modifyLast (f : Paragraph → Paragraph) (ps : List Paragraph)
    (stack stack2 : List StyleWithParagraphParameters)
    (hf : ∀ y, ps.getLast? = some y → GoodRuns y.style_runs → GoodRuns (f y).style_runs)
    (h : FormatState.Inv { paragraphs := ps, styles_stack := stack }) :
    FormatState.Inv { paragraphs := modifyLast f ps, styles_stack := stack2 } := by
  intro p hp
  rcases mem_modifyLast f ps p hp with hp | ⟨y, hy, rfl⟩
  · exact h p (List.mem_of_mem_dropLast hp)
  · exact hf y hy (h y (List.mem_of_getLast?_eq_some hy))

theorem inv_stack (st : FormatState) (stack : List StyleWithParagraphParameters)
    (h : st.Inv) : FormatState.Inv { st with styles_stack := stack } := h

theorem inv_modifyLastRun (f : StyleRun → StyleRun) (st : FormatState) (h : st.Inv) :
    (st.modifyLastRun f).Inv :=
  inv_modifyLast _ st.paragraphs st.styles_stack st.styles_stack
    (fun y _ hy => goodRuns_modifyLast f y.style_runs hy) h

theorem inv_appendText (text : List Char) (st : FormatState) (h : st.Inv) :
    (st.appendText text).Inv := inv_modifyLastRun _ st h

theorem inv_setAlign (align : HorizontalAlignment) (st : FormatState) (h : st.Inv) :
    (st.setAlign align).Inv :=
  inv_modifyLast _ st.paragraphs st.styles_stack st.styles_stack (fun _ _ hy => hy) h

theorem inv_setWrapping (wrapping : Wrapping) (st : FormatState) (h : st.Inv) :
    (st.setWrapping wrapping).Inv :=
  inv_modifyLast _ st.paragraphs st.styles_stack st.styles_stack (fun _ _ hy => hy) h

theorem inv_pushRun (st : FormatState) (h : st.Inv) (hne : st.lastTextEmpty = false) :
    st.pushRun.Inv := by
  refine inv_modifyLast _ st.paragraphs st.styles_stack st.styles_stack ?_ h
  intro y hy hgood r hr
  rw [List.dropLast_concat] at hr
  unfold FormatState.lastTextEmpty at hne
  rw [hy] at hne
  dsimp only at hne
  rcases eq_nil_or_snoc y.style_runs with hnil | ⟨xs, x, hx⟩
  · rw [hnil] at hr
    cases hr
  · rw [hx, List.getLast?_concat] at hne
    dsimp only at hne
    unfold GoodRuns at hgood
    rw [hx, List.dropLast_concat] at hgood
    rw [hx] at hr
    rcases List.mem_append.mp hr with hr | hr
    · exact hgood r hr
    · rcases List.mem_singleton.mp hr with rfl
      intro he
      rw [he] at hne
      simp at hne

theorem inv_newParagraph (st : FormatState) (style : StyleWithParagraphParameters)
    (h : st.Inv) :
    FormatState.Inv { st with paragraphs := st.paragraphs ++ [Paragraph.ofStyle style] } := by
  intro p hp
  rcases List.mem_append.mp hp with hp | hp
  · exact h p hp
  · rcases List.mem_singleton.mp hp with rfl
    intro r hr
    simp [Paragraph.ofStyle] at hr

/-- The main loop keeps the invariant, whatever the bound on its iterations. -/
theorem formatLoop_inv (vars : List (List Char × List Char)) :
    ∀ (fuel : Nat) (s : InputStream) (st res : FormatState),
      formatLoop vars fuel s st = some (some res) → st.Inv → res.Inv := by
  intro fuel
  induction fuel with
  | zero =>
    intro s st res h _
    simp [formatLoop] at h
  | succ fuel ih =>
    intro s st res h hinv
    simp only [formatLoop] at h
    split at h
    · cases h
      exact hinv
    split at h
    · split at h
      · exact ih _ _ _ h (inv_appendText _ st hinv)
      split at h
      · split at h
        · cases h
        split at h
        · cases h
        split at h
        · split at h
          · rename_i hne
            refine ih _ _ _ h (inv_modifyLastRun _ _ (inv_pushRun _ (inv_stack st _ hinv) ?_))
            simpa using hne
          · exact ih _ _ _ h (inv_stack st _ hinv)
        · exact ih _ _ _ h hinv
      split at h
      · split at h
        · cases h
        · cases h
        · rename_i s2 swa vv _
          split at h
          · refine ih _ _ _ h (inv_stack _ _ (inv_modifyLastRun _ _ ?_))
            have h1 : FormatState.Inv (match swa.align_opt with
                | none => st
                | some align => st.setAlign align) := by
              split
              · exact hinv
              · exact inv_setAlign _ st hinv
            have h2 : FormatState.Inv (match swa.wrapping_opt with
                | none => (match swa.align_opt with
                  | none => st
                  | some align => st.setAlign align)
                | some wrapping => (match swa.align_opt with
                  | none => st
                  | some align => st.setAlign align).setWrapping wrapping) := by
              split
              · exact h1
              · exact inv_setWrapping _ _ h1
            split
            · rename_i hne
              exact inv_pushRun _ h2 (by simpa using hne)
            · exact h2
          · exact ih _ _ _ h (inv_appendText _ st hinv)
      · cases h
    · split at h
      · exact ih _ _ _ h hinv
      split at h
      · exact ih _ _ _ h (inv_newParagraph st _ hinv)
      · exact ih _ _ _ h (inv_appendText _ st hinv)

theorem dropEmptyRunsAtEnd_nonempty (runs : List StyleRun) (h : GoodRuns runs) :
    ∀ r ∈ dropEmptyRunsAtEnd runs, r.text ≠ [] := by
  intro r hr
  unfold dropEmptyRunsAtEnd at hr
  rw [List.mem_reverse] at hr
  rcases eq_nil_or_snoc runs with rfl | ⟨xs, x, rfl⟩
  · simp at hr
  · unfold GoodRuns at h
    rw [List.dropLast_concat] at h
    rw [List.reverse_append, List.reverse_singleton, List.singleton_append,
      List.dropWhile_cons] at hr
    split at hr
    · have hmem := (List.dropWhile_sublist _).subset hr
      exact h r (List.mem_reverse.mp hmem)
    · rename_i hx
      rcases List.mem_cons.mp hr with rfl | hr
      · intro he
        rw [he] at hx
        simp at hx
      · exact h r (List.mem_reverse.mp hr)

theorem inv_initial (style : StyleWithParagraphParameters) :
    FormatState.Inv { paragraphs := [Paragraph.ofStyle style], styles_stack := [style] } := by
  intro p hp
  rcases List.mem_singleton.mp hp with rfl
  intro r hr
  simp [Paragraph.ofStyle] at hr

/-- C34. In every result returned by a successful `FormatText`, every style run of every
paragraph has text; a paragraph without text has no style run and is kept: the result
has as many paragraphs as the state of the parser when its loop ends.  The same holds
for every bound on the number of iterations of the main loop. -/
theorem format_no_empty_run (input : List Char) (default_style : Style)
    (default_paragraph_parameters : ParagraphParameters)
    (vars : List (List Char × List Char)) :
    (∀ ft, FormatText input default_style default_paragraph_parameters vars =
        some (some ft) →
      ∀ p ∈ ft.paragraphs, ∀ r ∈ p.style_runs, r.text ≠ []) ∧
    (∀ (fuel : Nat) (st : FormatState),
      formatLoop vars fuel { rest := input }
        { paragraphs := [Paragraph.ofStyle
            (StyleWithParagraphParametersFromStyleAndParagraphParameters default_style
              default_paragraph_parameters)],
          styles_stack := [StyleWithParagraphParametersFromStyleAndParagraphParameters
            default_style default_paragraph_parameters] } = some (some st) →
      ∀ p ∈ st.paragraphs, ∀ r ∈ dropEmptyRunsAtEnd p.style_runs, r.text ≠ []) := by
  have key : ∀ (fuel : Nat) (st : FormatState),
      formatLoop vars fuel { rest := input }
        { paragraphs := [Paragraph.ofStyle
            (StyleWithParagraphParametersFromStyleAndParagraphParameters default_style
              default_paragraph_parameters)],
          styles_stack := [StyleWithParagraphParametersFromStyleAndParagraphParameters
            default_style default_paragraph_parameters] } = some (some st) →
      ∀ p ∈ st.paragraphs, ∀ r ∈ dropEmptyRunsAtEnd p.style_runs, r.text ≠ [] := by
    intro fuel st h p hp
    exact dropEmptyRunsAtEnd_nonempty _
      (formatLoop_inv vars fuel _ _ st h (inv_initial _) p hp)
  refine ⟨?_, key⟩
  intro ft hft p hp r hr
  unfold FormatText at hft
  rcases Option.map_eq_some'.mp hft with ⟨res, hres, hmap⟩
  cases res with
  | none => cases hmap
  | some st =>
    simp only [Option.map_some', Option.some.injEq] at hmap
    subst hmap
    obtain ⟨q, hq, rfl⟩ := List.mem_map.mp hp
    exact key _ st hres q hq r hr

set_option maxRecDepth 100000 in
theorem format_no_empty_run_witness :
    ∃ ft, FormatText "a<style font=\"A\"></>\n\n<style color=\"red\">b</>".toList {} {} [] =
        some (some ft) ∧
      (ft.paragraphs.map fun p => p.style_runs.map fun r => String.mk r.text) =
        [["a"], [], ["b"]] ∧
      (∀ p ∈ ft.paragraphs, ∀ r ∈ p.style_runs, r.text ≠ []) :=
  ⟨_, rfl, rfl, (format_no_empty_run
    "a<style font=\"A\"></>\n\n<style color=\"red\">b</>".toList {} {} []).1 _ rfl⟩
end Text

namespace Math

/-! ## Rectangles -/

/-- C24. Over every linearly ordered field of coordinates (the real numbers among them)
the intersection of rectangles is symmetric: `a.IntersectRectangle(b)` and
`b.IntersectRectangle(a)` are both empty or both the same rectangle, and
`a.Intersect(b) = b.Intersect(a)`. -/
theorem intersect_symmetric {K : Type} [LinearOrderedField K] (a b : AARect2d K) :
    a.IntersectRectangle b = b.IntersectRectangle a ∧ a.Intersect b = b.Intersect a := by
  have h : a.IntersectRectangle b = b.IntersectRectangle a := by
    unfold AARect2d.IntersectRectangle
    simp only [max_comm (a.center.x - a.half_size.x), min_comm (a.center.x + a.half_size.x),
      min_comm (a.center.y + a.half_size.y), max_comm (a.center.y - a.half_size.y)]
  exact ⟨h, by unfold AARect2d.Intersect; rw [h]⟩

/-- The rectangles of the test `IntersectRectangle`: centres (6, 8) and (10, 10), half
sizes (6, 6); the intersection has centre (8, 9) and half size (4, 5). -/
theorem intersect_rectangle_example :
    (AARect2d.mk (K := ℚ) ⟨6, 8⟩ ⟨6, 6⟩).IntersectRectangle (AARect2d.mk ⟨10, 10⟩ ⟨6, 6⟩) =
      some (AARect2d.mk ⟨8, 9⟩ ⟨4, 5⟩) := by
  unfold AARect2d.IntersectRectangle eps
  norm_num

end Math
end Symphony
